import Mathlib

/-!
# ScalityRestBlock (srb): CDMI transport and range operations

A shallow embedding of `src/srb/srb-cdmi.c`.  C functions become Lean functions that
thread two pieces of state explicitly: the connection descriptor (`srb_cdmi_desc`) and
the socket layer (`Kernel`).  The socket layer is a script of replies, one list per kind
of kernel call, together with the trace of the steps made so far.  C `int` values are
`Int`, bytes are `Char`, memory regions are `List Char`.
-/

namespace Srb

/-! ## Constants -/

abbrev EINTR : Int := 4
abbrev EIO : Int := 5
abbrev ENOMEM : Int := 12
abbrev ENODEV : Int := 19
abbrev EINVAL : Int := 22
abbrev EPIPE : Int := 32

/-- Max number of requests sent to a single HTTP connection before restarting a new one. -/
abbrev SRB_REUSE_LIMIT : Int := 100
abbrev CDMI_DISCONNECTED : Int := 0
abbrev CDMI_CONNECTED : Int := 1

/-! ## Memory -/

/-- The C `memcpy(dst, src, n)`: the first `n` bytes of `dst` are replaced by the first
`n` bytes of `src`. -/
def memcpy (dst src : List Char) (n : Nat) : List Char :=
  src.take n ++ dst.drop n

/-- The buffers the transport reads from and writes to. -/
inductive Region where
  | xmit_buff
  | rcvbuf
  | sg (i : Nat)
  deriving DecidableEq, Repr

/-- A pointer: a region and an offset into it. -/
structure Ptr where
  region : Region
  off : Nat
  deriving DecidableEq, Repr

/-! ## The socket layer -/

/-- Socket options set by `srb_cdmi_connect`. -/
inductive SockOpt where
  | TCP_NODELAY
  | SO_RCVTIMEO
  | SO_SNDTIMEO
  deriving DecidableEq, Repr

/-- One observable step of the driver: a call into the kernel with what it returned, or
the mark `epipe_reconnect`, left when an exchange sets `has_epiped = 1` and starts its
reconnection after `-EPIPE`. -/
inductive Event where
  | epipe_reconnect
  | vmalloc (size : Int) (ok : Bool)
  | vfree
  | sock_create (ret : Int)
  | connect (sock : Nat) (ip : List Char) (port : Int) (ret : Int)
  | setsockopt (sock : Nat) (opt : SockOpt) (ret : Int)
  | shutdown (sock : Nat)
  | release (sock : Nat)
  | sendmsg (sock : Nat) (buf : Ptr) (data : List Char) (size : Int) (ret : Int)
  | recvmsg (sock : Nat) (buf : Ptr) (size : Int) (data : List Char) (ret : Int)
  deriving DecidableEq, Repr

/-- What `kernel_sendmsg` does on one call: its return value, and whether a signal is
pending for the task when it returns. -/
structure SendReply where
  result : Int
  signal : Bool
  deriving DecidableEq, Repr

/-- What `kernel_recvmsg` does on one call: either it stores bytes (at most as many as
were asked for; the rest of `bytes` is dropped) and returns their number, or it fails
and returns `-errno`.  `signal` is the value of `signal_pending(current)` afterwards. -/
inductive RecvReply where
  | data (bytes : List Char) (signal : Bool)
  | error (errno : Nat) (signal : Bool)
  deriving DecidableEq, Repr

/-- The socket layer: the replies the kernel will give to the calls to come, one script
per kind of call, and the calls made so far.  A call on an exhausted script gets the
default reply: allocation and connection set-up succeed, and a send or receive
transfers nothing (the peer is gone). -/
structure Kernel where
  vmallocs : List Bool
  creates : List Int
  connects : List Int
  sockopts : List Int
  sends : List SendReply
  recvs : List RecvReply
  next_sock : Nat
  trace : List Event
  deriving DecidableEq, Repr

/-- The C `vmalloc(size)`: `true` when the allocation succeeds. -/
def vmalloc (k : Kernel) (size : Int) : Bool × Kernel :=
  let ok := k.vmallocs.headD true
  (ok, { k with vmallocs := k.vmallocs.tail, trace := k.trace ++ [Event.vmalloc size ok] })

def vfree (k : Kernel) : Kernel :=
  { k with trace := k.trace ++ [Event.vfree] }

/-- The kernel `sock_create_kern`: returns the error code and, on success, a new socket. -/
def sock_create_kern (k : Kernel) : Int × Option Nat × Kernel :=
  let ret := k.creates.headD 0
  if ret < 0 then
    (ret, none, { k with creates := k.creates.tail, trace := k.trace ++ [Event.sock_create ret] })
  else
    (ret, some k.next_sock,
      { k with creates := k.creates.tail, next_sock := k.next_sock + 1,
               trace := k.trace ++ [Event.sock_create ret] })

def kernel_connect (k : Kernel) (sock : Nat) (ip : List Char) (port : Int) : Int × Kernel :=
  let ret := k.connects.headD 0
  (ret, { k with connects := k.connects.tail,
                 trace := k.trace ++ [Event.connect sock ip port ret] })

def kernel_setsockopt (k : Kernel) (sock : Nat) (opt : SockOpt) : Int × Kernel :=
  let ret := k.sockopts.headD 0
  (ret, { k with sockopts := k.sockopts.tail,
                 trace := k.trace ++ [Event.setsockopt sock opt ret] })

def kernel_sock_shutdown (k : Kernel) (sock : Nat) : Kernel :=
  { k with trace := k.trace ++ [Event.shutdown sock] }

def sock_release (k : Kernel) (sock : Nat) : Kernel :=
  { k with trace := k.trace ++ [Event.release sock] }

/-- The kernel `kernel_sendmsg(sock, buf, size)` followed by `signal_pending(current)`:
the return value, the signal flag and the new socket layer. -/
def kernel_sendmsg (k : Kernel) (sock : Nat) (buf : Ptr) (mem : List Char) (size : Int) :
    Int × Bool × Kernel :=
  let r := k.sends.headD ⟨0, false⟩
  (r.result, r.signal,
    { k with sends := k.sends.tail,
             trace := k.trace ++ [Event.sendmsg sock buf (mem.take size.toNat) size r.result] })

/-- The kernel `kernel_recvmsg(sock, buf, size)` followed by `signal_pending(current)`:
the return value, the memory at `buf` afterwards, the signal flag and the new socket
layer. -/
def kernel_recvmsg (k : Kernel) (sock : Nat) (buf : Ptr) (mem : List Char) (size : Int) :
    Int × List Char × Bool × Kernel :=
  match k.recvs.headD (RecvReply.data [] false) with
  | RecvReply.data bytes signal =>
    let d := bytes.take size.toNat
    ((d.length : Int), memcpy mem d d.length, signal,
      { k with recvs := k.recvs.tail,
               trace := k.trace ++ [Event.recvmsg sock buf size d d.length] })
  | RecvReply.error errno signal =>
    (-(errno : Int), mem, signal,
      { k with recvs := k.recvs.tail,
               trace := k.trace ++ [Event.recvmsg sock buf size [] (-(errno : Int))] })

/-! ## The connection descriptor -/

/-- The C `struct srb_cdmi_desc` (declared in `srb.h`), with the fields `srb-cdmi.c`
uses.  `sgl` holds the `sgl_size` valid scatter segments, each with its contents. -/
structure srb_cdmi_desc where
  url : List Char
  filename : List Char
  ip_addr : List Char
  port : Int
  state : Int
  socket : Option Nat
  timeout_sec : Int
  nb_requests : Int
  sgl : List (List Char)
  xmit_buff : List Char
  deriving DecidableEq, Repr

/-! ## Connect and disconnect -/

/-- The `out_error` label of `srb_cdmi_connect`. -/
def srb_cdmi_connect_out_error (k : Kernel) (desc : srb_cdmi_desc) (ret : Int) :
    Int × srb_cdmi_desc × Kernel :=
  let k := match desc.socket with
    | some s => sock_release (kernel_sock_shutdown k s) s
    | none => k
  (ret, { desc with socket := none, state := CDMI_DISCONNECTED }, k)

/-- The timeout part of `srb_cdmi_connect`: both `setsockopt` results are only logged. -/
def srb_cdmi_connect_timeouts (k : Kernel) (desc : srb_cdmi_desc) (s : Nat) : Kernel :=
  if desc.timeout_sec > 0 then
    let (_, k) := kernel_setsockopt k s SockOpt.SO_RCVTIMEO
    let (_, k) := kernel_setsockopt k s SockOpt.SO_SNDTIMEO
    k
  else k

/-- The C `srb_cdmi_connect` on a non-null descriptor. -/
def srb_cdmi_connect (k : Kernel) (desc : srb_cdmi_desc) : Int × srb_cdmi_desc × Kernel :=
  if desc.state = CDMI_CONNECTED then (0, desc, k)
  else
    let (ret, sock, k) := sock_create_kern k
    match sock with
    | none => srb_cdmi_connect_out_error k desc ret
    | some s =>
      let desc := { desc with socket := some s }
      let (ret, k) := kernel_connect k s desc.ip_addr (desc.port % 65536)
      if ret < 0 then srb_cdmi_connect_out_error k desc ret
      else
        let desc := { desc with state := CDMI_CONNECTED }
        let (ret, k) := kernel_setsockopt k s SockOpt.TCP_NODELAY
        if ret < 0 then srb_cdmi_connect_out_error k desc ret
        else
          let k := srb_cdmi_connect_timeouts k desc s
          (0, { desc with nb_requests := 0 }, k)

/-- The C `srb_cdmi_disconnect` on a non-null descriptor. -/
def srb_cdmi_disconnect (k : Kernel) (desc : srb_cdmi_desc) : Int × srb_cdmi_desc × Kernel :=
  match desc.socket with
  | none => (0, desc, k)
  | some s =>
    if desc.state = CDMI_DISCONNECTED then (0, desc, k)
    else
      (0, { desc with socket := none, state := CDMI_DISCONNECTED },
        sock_release (kernel_sock_shutdown k s) s)

/-! ## Transport -/

/-- The `do … while (size > 0)` loop of `sock_xmit`.  `done` is the memory already
passed by `buf`, `mem` the memory from `buf` on; the result carries the memory of the
whole region.  The loop is bounded by `fuel`. -/
def sock_xmit_loop : Nat → Kernel → Nat → Bool → Region → Nat → List Char → List Char →
    Int → Bool → Option (Int × List Char × Kernel)
  | 0, _, _, _, _, _, _, _, _, _ => none
  | fuel + 1, k, sock, send, region, off, done, mem, size, strict_receive =>
    let (result, mem, signal, k) :=
      if send then
        let (result, signal, k) := kernel_sendmsg k sock ⟨region, off⟩ mem size
        (result, mem, signal, k)
      else kernel_recvmsg k sock ⟨region, off⟩ mem size
    if signal then some (-EINTR, done ++ mem, k)
    else if result ≠ 0 ∧ send = false ∧ strict_receive = false then
      some (result, done ++ mem, k)
    else if result = 0 then some (-EPIPE, done ++ mem, k)
    else if result < 0 then some (result, done ++ mem, k)
    else if size - result > 0 then
      sock_xmit_loop fuel k sock send region (off + result.toNat)
        (done ++ mem.take result.toNat) (mem.drop result.toNat) (size - result) strict_receive
    else some (result, done ++ mem, k)

/-- The C `sock_xmit`: send or receive `size` bytes at `buf`, whose memory is `mem`.
Returns the C return value, the memory at `buf` afterwards and the socket layer. -/
def sock_xmit (k : Kernel) (desc : srb_cdmi_desc) (send : Bool) (buf : Ptr)
    (mem : List Char) (size : Int) (strict_receive : Bool) :
    Option (Int × List Char × Kernel) :=
  match desc.socket with
  | none => some (-EINVAL, mem, k)
  | some s =>
    sock_xmit_loop (size.toNat + 1) k s send buf.region buf.off [] mem size strict_receive

/-! ## The HTTP framer and the constants of the headers -/

/-- Modelled from the spec: the HTTP framer (`srb-http.c`, `srb-http.h`) and the buffer
size of `srb.h` are not among the sources; the transport only calls them.  A function
that takes a buffer and a length in C takes the bytes of the buffer up to that length
here.
* `mkrange cmd host page start end_` and `mkmetadata host page` build a request: they
  give the C return value (the request length, or a value `≤ 0`) and the bytes written
  at the start of the buffer;
* `check_response_complete` tells whether the bytes received so far are a whole
  response;
* `get_status` parses the status code (`none` for a non-zero return);
* `get_status_range` gives the class of a status code;
* `skipheader` strips the header: `none` for a non-zero return, otherwise how far the
  buffer pointer advances and the new length;
* `header_get_uint64 buf name` extracts a numeric field (`none` for a non-zero return). -/
structure Framer where
  SRB_CDMI_XMIT_BUFFER_SIZE : Int
  SRB_HTTP_STATUSRANGE_SUCCESS : Int
  SRB_HTTP_STATUS_NOT_FOUND : Int
  mkrange : List Char → List Char → List Char → Nat → Nat → Int × List Char
  mkmetadata : List Char → List Char → Int × List Char
  check_response_complete : List Char → Bool
  get_status : List Char → Option Int
  get_status_range : Int → Int
  skipheader : List Char → Option (Nat × Int)
  header_get_uint64 : List Char → List Char → Option Nat

/-! ## Request-response exchange -/

/-- Where control goes at the end of a block of an exchange: to the `cleanup` label
with the value of `ret`, back to the `retry_once` label, or on to the next statement
with the values of `ret` and `rcvd`. -/
inductive Exit where
  | cleanup (ret : Int)
  | retry_once
  | next (ret : Int) (rcvd : Int)
  deriving DecidableEq, Repr

/-- The block run when `sock_xmit` reported `-EPIPE`: disconnect and, the first time
(`has_epiped == 0`), reconnect and go back to `retry_once`. -/
def epipe_reconnect (k : Kernel) (desc : srb_cdmi_desc) (has_epiped : Int) (ret : Int) :
    Exit × srb_cdmi_desc × Kernel :=
  let (_, desc, k) := srb_cdmi_disconnect k desc
  if has_epiped = 0 then
    let k := { k with trace := k.trace ++ [Event.epipe_reconnect] }
    let (ret, desc, k) := srb_cdmi_connect k desc
    if ret ≠ 0 then (Exit.cleanup ret, desc, k)
    else (Exit.retry_once, desc, k)
  else (Exit.cleanup ret, desc, k)

/-- The header send at the `retry_once` label. -/
def send_header (k : Kernel) (desc : srb_cdmi_desc) (has_epiped : Int) (send_size : Int) :
    Option (Exit × srb_cdmi_desc × Kernel) :=
  match sock_xmit k desc true ⟨Region.xmit_buff, 0⟩ desc.xmit_buff send_size false with
  | none => none
  | some (ret, _, k) =>
    if ret = -EPIPE then some (epipe_reconnect k desc has_epiped ret)
    else if ret ≠ send_size then some (Exit.cleanup (- EIO), desc, k)
    else some (Exit.next ret 0, desc, k)

/-- The loop of `sock_send_sglist_receive` over the scatter list, from segment `i` on. -/
def send_sglist : Kernel → srb_cdmi_desc → Int → Nat → List (List Char) → Int →
    Option (Exit × srb_cdmi_desc × Kernel)
  | k, desc, _, _, [], ret => some (Exit.next ret 0, desc, k)
  | k, desc, has_epiped, i, seg :: rest, _ =>
    match sock_xmit k desc true ⟨Region.sg i, 0⟩ seg seg.length false with
    | none => none
    | some (ret, _, k) =>
      if ret = -EPIPE then some (epipe_reconnect k desc has_epiped ret)
      else if ret ≠ seg.length then some (Exit.cleanup (- EIO), desc, k)
      else send_sglist k desc has_epiped (i + 1) rest ret

/-- The receive loop `while (!srb_http_check_response_complete(rcvbuf, rcvd))`, bounded
by `fuel`.  The result carries the receive buffer. -/
def receive_response (H : Framer) : Nat → Kernel → srb_cdmi_desc → List Char → Int → Bool →
    Int → Int → Int → Option (Exit × srb_cdmi_desc × Kernel × List Char)
  | 0, _, _, _, _, _, _, _, _ => none
  | fuel + 1, k, desc, rcvbuf, rcv_size, strict_rcv, has_epiped, ret, rcvd =>
    if H.check_response_complete (rcvbuf.take rcvd.toNat) then
      some (Exit.next ret rcvd, desc, k, rcvbuf)
    else
      match sock_xmit k desc false ⟨Region.rcvbuf, rcvd.toNat⟩ (rcvbuf.drop rcvd.toNat)
          (rcv_size - rcvd) strict_rcv with
      | none => none
      | some (ret, mem, k) =>
        let rcvbuf := rcvbuf.take rcvd.toNat ++ mem
        if ret < 0 then
          if ret = -EPIPE then
            let (e, desc, k) := epipe_reconnect k desc has_epiped ret
            some (e, desc, k, rcvbuf)
          else some (Exit.cleanup ret, desc, k, rcvbuf)
        else
          receive_response H fuel k desc rcvbuf rcv_size strict_rcv has_epiped
            (rcvd + ret) (rcvd + ret)

/-- The `cleanup` label: `rcvbuf` is not null here, it is freed and `ret` returned. -/
def cleanup (k : Kernel) (desc : srb_cdmi_desc) (ret : Int) : Int × srb_cdmi_desc × Kernel :=
  (ret, desc, vfree k)

/-- The final `memcpy(buff, rcvbuf, rcvd)` followed by the `cleanup` label. -/
def copy_response (k : Kernel) (desc : srb_cdmi_desc) (rcvbuf : List Char) (ret rcvd : Int) :
    Int × srb_cdmi_desc × Kernel :=
  cleanup k { desc with xmit_buff := memcpy desc.xmit_buff rcvbuf rcvd.toNat } ret

/-- The code of `sock_send_receive` from the `retry_once` label on.  `fuel` bounds the
number of times the label is reached. -/
def sock_send_receive_retry_once (H : Framer) : Nat → Kernel → srb_cdmi_desc → List Char →
    Int → Int → Bool → Int → Option (Int × srb_cdmi_desc × Kernel)
  | 0, _, _, _, _, _, _, _ => none
  | fuel + 1, k, desc, rcvbuf, send_size, rcv_size, strict_rcv, has_epiped =>
    match send_header k desc has_epiped send_size with
    | none => none
    | some (Exit.cleanup ret, desc, k) => some (cleanup k desc ret)
    | some (Exit.retry_once, desc, k) =>
      sock_send_receive_retry_once H fuel k desc rcvbuf send_size rcv_size strict_rcv 1
    | some (Exit.next ret _, desc, k) =>
      match receive_response H (rcv_size.toNat + 1) k desc rcvbuf rcv_size strict_rcv
          has_epiped ret 0 with
      | none => none
      | some (Exit.cleanup ret, desc, k, _) => some (cleanup k desc ret)
      | some (Exit.retry_once, desc, k, rcvbuf) =>
        sock_send_receive_retry_once H fuel k desc rcvbuf send_size rcv_size strict_rcv 1
      | some (Exit.next ret rcvd, desc, k, rcvbuf) => some (copy_response k desc rcvbuf ret rcvd)

/-- The code of `sock_send_sglist_receive` from the `retry_once` label on. -/
def sock_send_sglist_receive_retry_once (H : Framer) : Nat → Kernel → srb_cdmi_desc →
    List Char → Int → Int → Bool → Int → Option (Int × srb_cdmi_desc × Kernel)
  | 0, _, _, _, _, _, _, _ => none
  | fuel + 1, k, desc, rcvbuf, send_size, rcv_size, strict_rcv, has_epiped =>
    match send_header k desc has_epiped send_size with
    | none => none
    | some (Exit.cleanup ret, desc, k) => some (cleanup k desc ret)
    | some (Exit.retry_once, desc, k) =>
      sock_send_sglist_receive_retry_once H fuel k desc rcvbuf send_size rcv_size strict_rcv 1
    | some (Exit.next ret _, desc, k) =>
      match send_sglist k desc has_epiped 0 desc.sgl ret with
      | none => none
      | some (Exit.cleanup ret, desc, k) => some (cleanup k desc ret)
      | some (Exit.retry_once, desc, k) =>
        sock_send_sglist_receive_retry_once H fuel k desc rcvbuf send_size rcv_size
          strict_rcv 1
      | some (Exit.next ret _, desc, k) =>
        match receive_response H (rcv_size.toNat + 1) k desc rcvbuf rcv_size strict_rcv
            has_epiped ret 0 with
        | none => none
        | some (Exit.cleanup ret, desc, k, _) => some (cleanup k desc ret)
        | some (Exit.retry_once, desc, k, rcvbuf) =>
          sock_send_sglist_receive_retry_once H fuel k desc rcvbuf send_size rcv_size
            strict_rcv 1
        | some (Exit.next ret rcvd, desc, k, rcvbuf) =>
          some (copy_response k desc rcvbuf ret rcvd)

/-- The reuse-limit check at the start of an exchange. -/
def check_reuse_limit (k : Kernel) (desc : srb_cdmi_desc) : srb_cdmi_desc × Kernel :=
  if desc.nb_requests = SRB_REUSE_LIMIT then
    let (_, desc, k) := srb_cdmi_disconnect k desc
    (desc, k)
  else ({ desc with nb_requests := desc.nb_requests + 1 }, k)

/-- The reconnection at the start of an exchange, when the descriptor is disconnected. -/
def connect_if_disconnected (k : Kernel) (desc : srb_cdmi_desc) :
    Int × srb_cdmi_desc × Kernel :=
  if desc.state = CDMI_DISCONNECTED then srb_cdmi_connect k desc else (0, desc, k)

/-- The C `sock_send_receive`: send the `send_size` first bytes of the transmit buffer,
receive the response into it.  `rcv_size = 0` stands for an unknown response size. -/
def sock_send_receive (H : Framer) (k : Kernel) (desc : srb_cdmi_desc)
    (send_size rcv_size : Int) : Option (Int × srb_cdmi_desc × Kernel) :=
  let strict_rcv := decide (rcv_size ≠ 0)
  let rcv_size := if rcv_size = 0 then H.SRB_CDMI_XMIT_BUFFER_SIZE else rcv_size
  let (ok, k) := vmalloc k rcv_size
  if ok = false then some (-ENOMEM, desc, k)
  else
    let rcvbuf := List.replicate rcv_size.toNat (Char.ofNat 0)
    let (desc, k) := check_reuse_limit k desc
    let (ret, desc, k) := connect_if_disconnected k desc
    if ret ≠ 0 then some (cleanup k desc ret)
    else sock_send_receive_retry_once H 2 k desc rcvbuf send_size rcv_size strict_rcv 0

/-- The C `sock_send_sglist_receive`: as `sock_send_receive`, with the scatter list of
the descriptor sent after the header. -/
def sock_send_sglist_receive (H : Framer) (k : Kernel) (desc : srb_cdmi_desc)
    (send_size rcv_size : Int) : Option (Int × srb_cdmi_desc × Kernel) :=
  let strict_rcv := decide (rcv_size ≠ 0)
  let rcv_size := if rcv_size = 0 then H.SRB_CDMI_XMIT_BUFFER_SIZE else rcv_size
  let (ok, k) := vmalloc k rcv_size
  if ok = false then some (-ENOMEM, desc, k)
  else
    let rcvbuf := List.replicate rcv_size.toNat (Char.ofNat 0)
    let (desc, k) := check_reuse_limit k desc
    let (ret, desc, k) := connect_if_disconnected k desc
    if ret ≠ 0 then some (cleanup k desc ret)
    else sock_send_sglist_receive_retry_once H 2 k desc rcvbuf send_size rcv_size strict_rcv 0

/-! ## Retry orchestrator -/

/-- One iteration body of the loop of `retried_send_receive`: the exchange it invokes. -/
def exchange (H : Framer) (k : Kernel) (desc : srb_cdmi_desc) (send_size rcv_size : Int)
    (do_sglist : Bool) : Option (Int × srb_cdmi_desc × Kernel) :=
  if do_sglist then sock_send_sglist_receive H k desc send_size rcv_size
  else sock_send_receive H k desc send_size rcv_size

/-- The loop `for (i = 0; i < attempts; i++)` of `retried_send_receive`, with
`attempts - i` iterations left. -/
def retried_loop (H : Framer) (send_size rcv_size : Int) (do_sglist : Bool) :
    Nat → Kernel → srb_cdmi_desc → Int → Option (Int × srb_cdmi_desc × Kernel)
  | 0, k, desc, ret => some (ret, desc, k)
  | left + 1, k, desc, _ =>
    match exchange H k desc send_size rcv_size do_sglist with
    | none => none
    | some (ret, desc, k) =>
      if ret ≥ 0 then some (ret, desc, k)
      else retried_loop H send_size rcv_size do_sglist left k desc ret

/-- The C `retried_send_receive`. -/
def retried_send_receive (H : Framer) (k : Kernel) (desc : srb_cdmi_desc)
    (send_size rcv_size : Int) (do_sglist : Bool) (attempts : Int) :
    Option (Int × srb_cdmi_desc × Kernel) :=
  if attempts < 1 then some (-EINVAL, desc, k)
  else retried_loop H send_size rcv_size do_sglist attempts.toNat k desc (-1)

/-! ## Range operations -/

/-- The C `strncmp`: a list stands for the bytes up to a terminating NUL. -/
def strncmp : List Char → List Char → Nat → Int
  | _, _, 0 => 0
  | a, b, n + 1 =>
    let ca := a.headD (Char.ofNat 0)
    let cb := b.headD (Char.ofNat 0)
    if ca ≠ cb then (ca.toNat : Int) - (cb.toNat : Int)
    else if ca = Char.ofNat 0 then 0
    else strncmp a.tail b.tail n

/-- The confirmation line `srb_cdmi_putrange` looks for. -/
def HTTP_204 : List Char := "HTTP/1.1 204 No Content".toList

/-- The transmit buffer after a request builder wrote the request `req` at its start. -/
def put_request (desc : srb_cdmi_desc) (req : List Char) : srb_cdmi_desc :=
  { desc with xmit_buff := memcpy desc.xmit_buff req req.length }

/-- The C `srb_cdmi_getsize`; the second component is the value of `*size` afterwards. -/
def srb_cdmi_getsize (H : Framer) (k : Kernel) (desc : srb_cdmi_desc) (size : Nat) :
    Option (Int × Nat × srb_cdmi_desc × Kernel) :=
  let (len, req) := H.mkmetadata desc.ip_addr desc.filename
  let desc := put_request desc req
  if len ≤ 0 then some (len, size, desc, k)
  else
    match sock_send_receive H k desc len 0 with
    | none => none
    | some (len, desc, k) =>
      if len < 0 then some (len, size, desc, k)
      else
        match H.get_status (desc.xmit_buff.take len.toNat) with
        | none => some (- EIO, size, desc, k)
        | some code =>
          if H.get_status_range code ≠ H.SRB_HTTP_STATUSRANGE_SUCCESS then
            if code = H.SRB_HTTP_STATUS_NOT_FOUND then some (-ENODEV, size, desc, k)
            else some (- EIO, size, desc, k)
          else
            let desc := { desc with xmit_buff := desc.xmit_buff.set len.toNat (Char.ofNat 0) }
            match H.header_get_uint64 (desc.xmit_buff.take len.toNat)
                "\"cdmi_size\"".toList with
            | none => some (- EIO, size, desc, k)
            | some v => some (0, v, desc, k)

/-- The `end` of the range: `offset + size - 1` in 64-bit unsigned arithmetic. -/
def range_end (offset : Nat) (size : Int) : Nat :=
  (((offset : Int) + size - 1) % 18446744073709551616).toNat

/-- The C `srb_cdmi_putrange`; `nb_req_retries` is the module parameter of
`srb-driver.c`. -/
def srb_cdmi_putrange (H : Framer) (nb_req_retries : Nat) (k : Kernel) (desc : srb_cdmi_desc)
    (offset : Nat) (size : Int) : Option (Int × srb_cdmi_desc × Kernel) :=
  let (ret, req) :=
    H.mkrange "PUT".toList desc.ip_addr desc.filename offset (range_end offset size)
  let desc := put_request desc req
  if ret ≤ 0 then some (ret, desc, k)
  else
    match retried_send_receive H k desc ret 0 true nb_req_retries with
    | none => none
    | some (len, desc, k) =>
      if len < 0 then some (len, desc, k)
      else if strncmp desc.xmit_buff HTTP_204 HTTP_204.length ≠ 0 then some (- EIO, desc, k)
      else some (0, desc, k)

/-- The copy loop of `srb_cdmi_getrange`: each segment is filled from the cursor, which
then moves on by the length of the segment. -/
def getrange_copy : List Char → List (List Char) → List (List Char)
  | _, [] => []
  | xmit_buff, seg :: rest =>
    memcpy seg xmit_buff seg.length :: getrange_copy (xmit_buff.drop seg.length) rest

/-- The C `srb_cdmi_getrange`. -/
def srb_cdmi_getrange (H : Framer) (nb_req_retries : Nat) (k : Kernel) (desc : srb_cdmi_desc)
    (offset : Nat) (size : Int) : Option (Int × srb_cdmi_desc × Kernel) :=
  let (len, req) :=
    H.mkrange "GET".toList desc.ip_addr desc.filename offset (range_end offset size)
  let desc := put_request desc req
  if len ≤ 0 then some (- EIO, desc, k)
  else
    match retried_send_receive H k desc len 0 false nb_req_retries with
    | none => none
    | some (len, desc, k) =>
      if len < 0 then some (len, desc, k)
      else
        match H.skipheader (desc.xmit_buff.take len.toNat) with
        | none => some (- EIO, desc, k)
        | some (skipped, len) =>
          if len ≠ size then some (- EIO, desc, k)
          else
            some (0, { desc with sgl := getrange_copy (desc.xmit_buff.drop skipped) desc.sgl }, k)

/-! ## A concrete framer and peer, for the examples -/

/-- Index just after the first occurrence of `pat`. -/
def find_after (pat : List Char) : List Char → Option Nat
  | [] => if pat = [] then some 0 else none
  | c :: s =>
    if pat.isPrefixOf (c :: s) then some pat.length
    else (find_after pat s).map (fun i => i + 1)

/-- Value of the decimal digits at the start of a list. -/
def leading_number : List Char → Nat → Nat
  | [], acc => acc
  | c :: s, acc => if c.isDigit then leading_number s (acc * 10 + (c.toNat - 48)) else acc

def CRLF2 : List Char := "\r\n\r\n".toList

/-- Declared body length: the number after `Content-Length: `, 0 when there is none. -/
def content_length (buf : List Char) : Nat :=
  match find_after "Content-Length: ".toList buf with
  | none => 0
  | some i => leading_number (buf.drop i) 0

/-- A small HTTP/1.1 framer with a 128-byte buffer. -/
def demo_framer : Framer where
  SRB_CDMI_XMIT_BUFFER_SIZE := 128
  SRB_HTTP_STATUSRANGE_SUCCESS := 2
  SRB_HTTP_STATUS_NOT_FOUND := 404
  mkrange := fun cmd host page start end_ =>
    let req := cmd ++ " ".toList ++ page ++ " HTTP/1.1\r\nHost: ".toList ++ host ++
      "\r\nRange: bytes=".toList ++ (Nat.repr start).toList ++ "-".toList ++
      (Nat.repr end_).toList ++ CRLF2
    ((req.length : Int), req)
  mkmetadata := fun host page =>
    let req := "GET ".toList ++ page ++ "?metadata HTTP/1.1\r\nHost: ".toList ++ host ++ CRLF2
    ((req.length : Int), req)
  check_response_complete := fun buf =>
    match find_after CRLF2 buf with
    | none => false
    | some h => decide (h + content_length buf ≤ buf.length)
  get_status := fun buf =>
    if "HTTP/1.1 ".toList.isPrefixOf buf ∧ ((buf.drop 9).headD ' ').isDigit then
      some (leading_number (buf.drop 9) 0 : Int)
    else none
  get_status_range := fun code => code / 100
  skipheader := fun buf =>
    match find_after CRLF2 buf with
    | none => none
    | some h => some (h, (buf.length : Int) - (h : Int))
  header_get_uint64 := fun buf name =>
    match find_after (name ++ ": ".toList) buf with
    | none => none
    | some i =>
      if ((buf.drop i).headD ' ').isDigit then some (leading_number (buf.drop i) 0) else none

/-- A socket layer with the given send and receive scripts and nothing else. -/
def peer (sends : List SendReply) (recvs : List RecvReply) : Kernel :=
  { vmallocs := [], creates := [], connects := [], sockopts := [], sends := sends,
    recvs := recvs, next_sock := 0, trace := [] }

/-- A descriptor as `srb_cdmi_init` leaves it for `http://10.0.0.1:8080/vol`, with the
given scatter list. -/
def demo_desc (sgl : List (List Char)) : srb_cdmi_desc :=
  { url := "http://10.0.0.1:8080/vol".toList, filename := "/vol".toList,
    ip_addr := "10.0.0.1".toList, port := 8080, state := CDMI_DISCONNECTED, socket := none,
    timeout_sec := 0, nb_requests := 0, sgl := sgl, xmit_buff := [] }

/-- A complete response with a 4-byte body. -/
def demo_response : List Char := "HTTP/1.1 200 OK\r\nContent-Length: 4\r\n\r\nabcd".toList

/-- A peer on which the first send fails with `-ECONNRESET`; it then takes the whole
header and answers with `demo_response` in two reads. -/
def flaky_peer : Kernel :=
  peer [⟨-104, false⟩, ⟨61, false⟩]
    [RecvReply.data (demo_response.take 10) false, RecvReply.data (demo_response.drop 10) false]

/-! ## Specification vocabulary -/

/-- The exchange invoked `n` times in a row, whatever the results: the state after the
last invocation, with its result (`ret` when `n = 0`). -/
def exchanges (H : Framer) (send_size rcv_size : Int) (do_sglist : Bool) :
    Nat → Kernel → srb_cdmi_desc → Int → Option (Int × srb_cdmi_desc × Kernel)
  | 0, k, desc, ret => some (ret, desc, k)
  | n + 1, k, desc, _ =>
    match exchange H k desc send_size rcv_size do_sglist with
    | none => none
    | some (ret, desc, k) => exchanges H send_size rcv_size do_sglist n k desc ret

/-- How one step changes the bytes received since the last send. -/
def response_step (acc : List Char) : Event → List Char
  | Event.sendmsg _ _ _ _ _ => []
  | Event.recvmsg _ _ _ data _ => acc ++ data
  | _ => acc

/-- The bytes the socket delivered since the last send, in arrival order: the response
to the last attempt of an exchange. -/
def last_response (trace : List Event) : List Char :=
  trace.foldl response_step []

/-- Connection-management steps: everything but allocation, transfers and the
reconnection mark. -/
def Event.mgmt : Event → Bool
  | Event.sock_create _ => true
  | Event.connect _ _ _ _ => true
  | Event.setsockopt _ _ _ => true
  | Event.shutdown _ => true
  | Event.release _ => true
  | _ => false

/-- A Transport send of the header starts with a socket send at the start of the
transmit buffer. -/
def Event.header_send : Event → Bool
  | Event.sendmsg _ buf _ _ _ => decide (buf = ⟨Region.xmit_buff, 0⟩)
  | _ => false

/-- An exchange starts with the allocation of its receive buffer. -/
def Event.alloc : Event → Bool
  | Event.vmalloc _ _ => true
  | _ => false

/-- Number of Transport sends of the header in a trace. -/
def header_sends (trace : List Event) : Nat := trace.countP Event.header_send

/-- Number of reconnections started in response to `-EPIPE` in a trace. -/
def reconnects (trace : List Event) : Nat := trace.count Event.epipe_reconnect

/-- Number of exchanges started in a trace. -/
def invocations (trace : List Event) : Nat := trace.countP Event.alloc

/-- State `Connected` with a socket. -/
def connected (desc : srb_cdmi_desc) : Prop :=
  desc.state = CDMI_CONNECTED ∧ ∃ s, desc.socket = some s

/-- State `Disconnected` without a socket. -/
def disconnected (desc : srb_cdmi_desc) : Prop :=
  desc.state = CDMI_DISCONNECTED ∧ desc.socket = none

/-- Every connection set-up to come succeeds: socket creation, connect and socket
options all return a non-negative value. -/
def connects_succeed (k : Kernel) : Prop :=
  (∀ r ∈ k.creates, 0 ≤ r) ∧ (∀ r ∈ k.connects, 0 ≤ r) ∧ (∀ r ∈ k.sockopts, 0 ≤ r)

/-- Every allocation to come succeeds. -/
def allocs_succeed (k : Kernel) : Prop := ∀ b ∈ k.vmallocs, b = true

/-- The socket layer `k2` is `k` after connection-management steps only. -/
structure mgmt_step (k k2 : Kernel) : Prop where
  vmallocs : k2.vmallocs = k.vmallocs
  sends : k2.sends = k.sends
  recvs : k2.recvs = k.recvs
  creates : k2.creates <:+ k.creates
  connects : k2.connects <:+ k.connects
  sockopts : k2.sockopts <:+ k.sockopts
  trace : ∃ ev, k2.trace = k.trace ++ ev ∧ ∀ e ∈ ev, e.mgmt = true

/-- The socket layer `k2` is `k` after steps that leave the allocation script alone,
leave `sends` and `recvs` as the scripts still to play, and contain `hdr` Transport sends
of the header, `rec` reconnections after `-EPIPE` and no start of an exchange. -/
structure progress (k k2 : Kernel) (sends : List SendReply) (recvs : List RecvReply)
    (hdr rec : Nat) : Prop where
  sends : k2.sends = sends
  recvs : k2.recvs = recvs
  vmallocs : k2.vmallocs = k.vmallocs
  creates : k2.creates <:+ k.creates
  connects : k2.connects <:+ k.connects
  sockopts : k2.sockopts <:+ k.sockopts
  trace : ∃ ev, k2.trace = k.trace ++ ev ∧ header_sends ev = hdr ∧ reconnects ev = rec ∧
    invocations ev = 0

/-- The descriptor after a successful (re)connection on socket `s`. -/
def reconnected (desc : srb_cdmi_desc) (s : Nat) : srb_cdmi_desc :=
  { desc with socket := some s, state := CDMI_CONNECTED, nb_requests := 0 }

/-- The descriptor after its connection was dropped. -/
def dropped (desc : srb_cdmi_desc) : srb_cdmi_desc :=
  { desc with socket := none, state := CDMI_DISCONNECTED }

/-- The reply of a socket that takes a whole send of `n` bytes. -/
def full (n : Int) : SendReply := ⟨n, false⟩

/-- A send reply that the Transport reports as `-EPIPE`. -/
def SendReply.epipe (r : SendReply) : Prop :=
  (r.result = 0 ∨ r.result = -EPIPE) ∧ r.signal = false

/-- A receive reply that the Transport reports as `-EPIPE`. -/
def RecvReply.epipe (r : RecvReply) : Prop :=
  r = RecvReply.data [] false ∨ r = RecvReply.error 32 false

/-- A peer that always closes the connection: allocations and connection set-ups
succeed, every send is reported as `-EPIPE`. -/
def dead_peer (k : Kernel) : Prop :=
  allocs_succeed k ∧ connects_succeed k ∧ ∀ r ∈ k.sends, SendReply.epipe r

/-- The receive replies that deliver the given chunks. -/
def deliver (chunks : List (List Char)) : List RecvReply :=
  chunks.map (fun c => RecvReply.data c false)

/-- After the bytes `acc`, the chunks `cs` make a response that is complete with the last
chunk and not before. -/
def completes (H : Framer) (acc : List Char) (cs : List (List Char)) : Prop :=
  (∀ n, n < cs.length → H.check_response_complete (acc ++ (cs.take n).flatten) = false) ∧
  H.check_response_complete (acc ++ cs.flatten) = true

/-- After the bytes `acc`, the chunks `cs` leave the response incomplete. -/
def incomplete (H : Framer) (acc : List Char) (cs : List (List Char)) : Prop :=
  ∀ n, n ≤ cs.length → H.check_response_complete (acc ++ (cs.take n).flatten) = false

/-- The send replies of a peer that takes the header and every payload segment whole. -/
def takes_all (send_size : Int) (sgl : List (List Char)) : List SendReply :=
  full send_size :: sgl.map (fun seg => full seg.length)

/-- The chunks `cs` are what the receives deliver of a complete response: none is
empty, together they fit the receive buffer, and the framer finds the response complete
with the last chunk and not before. -/
def good_response (H : Framer) (cs : List (List Char)) : Prop :=
  cs ≠ [] ∧ (∀ c ∈ cs, c ≠ []) ∧ (cs.flatten.length : Int) ≤ H.SRB_CDMI_XMIT_BUFFER_SIZE ∧
  completes H [] cs

/-- The chunks `cs` are the start of a response that is still incomplete. -/
def partial_response (H : Framer) (cs : List (List Char)) : Prop :=
  (∀ c ∈ cs, c ≠ []) ∧ (cs.flatten.length : Int) ≤ H.SRB_CDMI_XMIT_BUFFER_SIZE ∧
  incomplete H [] cs

/-- The outcome `r` of an exchange started on `k` that recovered from one `-EPIPE` and
received the chunks `cs`: it returns their total length, the transmit buffer starts with
them, the descriptor is connected, and the call made one reconnection and two Transport
sends of the header. -/
def recovered (k : Kernel) (cs : List (List Char))
    (r : Option (Int × srb_cdmi_desc × Kernel)) : Prop :=
  ∃ d2 k2 ev, r = some ((cs.flatten.length : Int), d2, k2) ∧
    d2.xmit_buff.take cs.flatten.length = cs.flatten ∧ connected d2 ∧
    k2.trace = k.trace ++ ev ∧ invocations ev = 1 ∧ reconnects ev = 1 ∧ header_sends ev = 2

/-- The body `body` cut into consecutive slices of the given lengths: slice `i` starts at
the sum of the lengths before it. -/
def slices : List Char → List Nat → List (List Char)
  | _, [] => []
  | body, n :: ns => body.take n :: slices (body.drop n) ns

/-- The first `n` bytes of `buf` are the bytes the socket delivered since the last send,
`n` of them. -/
def holds_response (k : Kernel) (buf : List Char) (n : Int) : Prop :=
  0 ≤ n ∧ buf.take n.toNat = last_response k.trace ∧ ((last_response k.trace).length : Int) = n

/-! ## Peers for the examples -/

/-- The confirmation of a ranged PUT, as the socket delivers it in two reads. -/
def put_confirmation : List (List Char) :=
  ["HTTP/1.1 2".toList, "04 No Content\r\n\r\n".toList]

/-- A peer that takes a 55-byte header and a first 2-byte segment, closes the connection
on the second segment, then takes header and both segments and confirms the PUT. -/
def peer_closing_on_segment : Kernel :=
  peer [full 55, full 2, ⟨0, false⟩, full 55, full 2, full 2] (deliver put_confirmation)

/-- A framer whose range-request builder fails with the value 0. -/
def failing_builder_framer : Framer :=
  { demo_framer with mkrange := fun _ _ _ _ _ => (0, []) }

/-- A peer that takes a 55-byte header and two 2-byte segments, and answers with the
given response in one read. -/
def put_peer (response : List Char) : Kernel :=
  peer [full 55, full 2, full 2] [RecvReply.data response false]

/-- The request `demo_framer` builds for a PUT of bytes 0 to 3 of the volume. -/
def put_header : List Char :=
  (demo_framer.mkrange "PUT".toList "10.0.0.1".toList "/vol".toList 0 3).2

/-- The request `demo_framer` builds for a GET of bytes 4096 to 4099 of the volume. -/
def get_header : List Char :=
  (demo_framer.mkrange "GET".toList "10.0.0.1".toList "/vol".toList 4096 4099).2

/-- A descriptor with two 2-byte segments. -/
def two_segments : srb_cdmi_desc := demo_desc ["ab".toList, "cd".toList]

/-- A metadata response that gives the size of the object. -/
def metadata_response : List Char :=
  "HTTP/1.1 200 OK\r\n\r\n\x7b\"cdmi_size\": 4096\x7d".toList

/-- A peer that takes the 46-byte metadata request and answers `metadata_response`. -/
def metadata_peer : Kernel :=
  peer [full 46] [RecvReply.data metadata_response false]

/-- A peer that takes the 61-byte GET request and answers `demo_response` (a 4-byte
body) in two reads. -/
def get_peer : Kernel :=
  peer [full 61]
    [RecvReply.data (demo_response.take 10) false, RecvReply.data (demo_response.drop 10) false]

/-- A connected descriptor whose transmit buffer holds the two bytes to send. -/
def two_byte_sender : srb_cdmi_desc :=
  { reconnected (demo_desc []) 0 with xmit_buff := "ab".toList }

/-- A socket that takes the two bytes of a send one at a time. -/
def byte_at_a_time : Kernel := peer [full 1, full 1] []

/-- A descriptor with a 1-byte and a 3-byte segment, not yet filled. -/
def blank_segments : srb_cdmi_desc := demo_desc ["_".toList, "___".toList]

/-! ## URL parsing (`srb_cdmi_init`) -/

abbrev ENOENT : Int := 2
abbrev ENXIO : Int := 6
abbrev EBUSY : Int := 16

/-- The terminator of a C string.  A `char *` argument is the list of the bytes at the
pointer; the string it denotes ends before the first terminator (or with the list). -/
def NUL : Char := Char.ofNat 0

def PROTO_HTTP : List Char := "http://".toList

/-- The C `strlen`. -/
def strlen (s : List Char) : Nat := (s.takeWhile (fun c => c != NUL)).length

/-- The string stored by the C `strcpy(dst, src)`. -/
def strcpy (src : List Char) : List Char := src.takeWhile (fun c => c != NUL)

/-- The string held by `dst` after the C `strncpy(dst, src, n); dst[n] = 0`. -/
def strncpy (src : List Char) (n : Nat) : List Char := (strcpy src).take n

/-- The C `strcmp`. -/
def strcmp : List Char → List Char → Int
  | [], b => -((b.headD NUL).toNat : Int)
  | ca :: a, b =>
    if ca ≠ b.headD NUL then (ca.toNat : Int) - ((b.headD NUL).toNat : Int)
    else if ca = NUL then 0
    else strcmp a b.tail

/-- A C `int` holds its value modulo `2 ^ 32`. -/
def int32 (x : Int) : Int := (x + 2147483648) % 4294967296 - 2147483648

def is_digit (c : Char) : Int := if '0' ≤ c ∧ c ≤ '9' then 1 else 0

def ip_valid_char (c : Char) : Int :=
  if is_digit c ≠ 0 then 1
  else if c = '.' then 1
  else 0

/-- The loop `for (i = 0; i < 15; i++)` of `get_ip` with `n` iterations left: `s` is the
string at `url + i`, `ip` the bytes stored so far.  `none` is the `return 0` inside the
loop; otherwise the result is `i`, the bytes stored and the string at `url + i`. -/
def get_ip_loop : Nat → List Char → Nat → List Char → Option (Nat × List Char × List Char)
  | 0, s, i, ip => some (i, ip, s)
  | n + 1, s, i, ip =>
    if s.headD NUL = ':' ∨ s.headD NUL = '/' then some (i, ip, s)
    else if ip_valid_char (s.headD NUL) = 0 then none
    else get_ip_loop n s.tail (i + 1) (ip ++ [s.headD NUL])

/-- The C `get_ip`: the number of bytes read from `url` (0 for a failure) and the string
left in `ip`. -/
def get_ip (url : List Char) : Int × List Char :=
  match get_ip_loop 15 url 0 [] with
  | none => (0, [])
  | some (i, ip, s) =>
    if s.headD NUL ≠ ':' ∧ s.headD NUL ≠ '/' then (0, ip) else ((i : Int), ip)

/-- The loop of `get_port`: `s` is the string at `url + i`. -/
def get_port_loop : List Char → Nat → Int → Nat × Int
  | [], i, port => (i, port)
  | c :: s, i, port =>
    if is_digit c ≠ 0 then
      get_port_loop s (i + 1) (int32 (int32 (port * 10) + ((c.toNat : Int) - 48)))
    else (i, port)

/-- The C `get_port`: the number of digits read and the value left in `*port`. -/
def get_port (url : List Char) : Int × Int :=
  let (i, port) := get_port_loop url 0 0
  ((i : Int), port)

/-- The optional port of `srb_cdmi_init`: `none` when `:` is followed by no digit,
otherwise the port and the string at `url` afterwards. -/
def srb_cdmi_init_port (url : List Char) : Option (Int × List Char) :=
  if url.headD NUL = ':' then
    let (ret, port) := get_port url.tail
    if ret = 0 then none else some (port, url.tail.drop ret.toNat)
  else some (80, url)

/-- The C `srb_cdmi_init`.  `SRB_CDMI_URL_SIZE` is a constant of `srb.h`, which is not
among the sources.  The character arrays of the descriptor are the strings they hold. -/
def srb_cdmi_init (SRB_CDMI_URL_SIZE : Nat) (desc : srb_cdmi_desc) (url : List Char) :
    Int × srb_cdmi_desc :=
  let desc := { desc with filename := [] }
  let desc := { desc with url := strncpy url SRB_CDMI_URL_SIZE }
  if strncmp url PROTO_HTTP (strlen PROTO_HTTP) ≠ 0 then (-EINVAL, desc)
  else
    let url := url.drop (strlen PROTO_HTTP)
    let (ret, ip) := get_ip url
    if ret = 0 then (-EINVAL, desc)
    else
      let url := url.drop ret.toNat
      match srb_cdmi_init_port url with
      | none => (-EINVAL, desc)
      | some (port, url) =>
        if url.headD NUL ≠ '/' then (-EINVAL, desc)
        else
          (0, { desc with filename := strcpy url, ip_addr := strcpy ip, port := port,
                          state := CDMI_DISCONNECTED })

/-- A descriptor after `memset(desc, 0, sizeof(*desc))`. -/
def zeroed_desc : srb_cdmi_desc :=
  { url := [], filename := [], ip_addr := [], port := 0, state := 0, socket := none,
    timeout_sec := 0, nb_requests := 0, sgl := [], xmit_buff := [] }

/-- The value of a string of decimal digits. -/
def decimal (s : List Char) : Nat := s.foldl (fun n c => n * 10 + (c.toNat - 48)) 0

/-- A string of decimal digits. -/
def digits (s : List Char) : Prop := ∀ c ∈ s, is_digit c ≠ 0

/-- The host part of what follows `http://`: the bytes before the first `:` or `/`. -/
def host_part (s : List Char) : List Char := s.takeWhile (fun c => c != ':' && c != '/')

/-! ## Descriptor invariants -/

/-- The request counter is within the reuse limit. -/
def counter_bounded (desc : srb_cdmi_desc) : Prop := desc.nb_requests ≤ SRB_REUSE_LIMIT

/-- State `Connected` if and only if the socket handle is non-null. -/
def state_matches_socket (desc : srb_cdmi_desc) : Prop :=
  desc.state = CDMI_CONNECTED ↔ desc.socket ≠ none

/-- A property of descriptors that connection management and the bookkeeping of an
exchange keep. -/
structure desc_invariant (Q : srb_cdmi_desc → Prop) : Prop where
  connect : ∀ k d, Q d → Q (srb_cdmi_connect k d).2.1
  disconnect : ∀ k d, Q d → Q (srb_cdmi_disconnect k d).2.1
  buffer : ∀ d b, Q d → Q { d with xmit_buff := b }
  count : ∀ d, Q d → d.nb_requests ≠ SRB_REUSE_LIMIT →
    Q { d with nb_requests := d.nb_requests + 1 }

/-- The descriptors reachable from `srb_cdmi_init` on a zeroed descriptor through
connect, disconnect and exchange calls; between calls the driver sets the timeout, the
scatter list and the transmit buffer. -/
inductive reachable (H : Framer) (SRB_CDMI_URL_SIZE : Nat) : srb_cdmi_desc → Prop where
  | init (url : List Char) : reachable H SRB_CDMI_URL_SIZE
      (srb_cdmi_init SRB_CDMI_URL_SIZE zeroed_desc url).2
  | connect (k : Kernel) (d : srb_cdmi_desc) : reachable H SRB_CDMI_URL_SIZE d →
      reachable H SRB_CDMI_URL_SIZE (srb_cdmi_connect k d).2.1
  | disconnect (k : Kernel) (d : srb_cdmi_desc) : reachable H SRB_CDMI_URL_SIZE d →
      reachable H SRB_CDMI_URL_SIZE (srb_cdmi_disconnect k d).2.1
  | send_receive (k : Kernel) (d : srb_cdmi_desc) (send_size rcv_size r : Int)
      (d2 : srb_cdmi_desc) (k2 : Kernel) : reachable H SRB_CDMI_URL_SIZE d →
      sock_send_receive H k d send_size rcv_size = some (r, d2, k2) →
      reachable H SRB_CDMI_URL_SIZE d2
  | send_sglist_receive (k : Kernel) (d : srb_cdmi_desc) (send_size rcv_size r : Int)
      (d2 : srb_cdmi_desc) (k2 : Kernel) : reachable H SRB_CDMI_URL_SIZE d →
      sock_send_sglist_receive H k d send_size rcv_size = some (r, d2, k2) →
      reachable H SRB_CDMI_URL_SIZE d2
  | prepare (d : srb_cdmi_desc) (timeout_sec : Int) (sgl : List (List Char))
      (xmit_buff : List Char) : reachable H SRB_CDMI_URL_SIZE d →
      reachable H SRB_CDMI_URL_SIZE
        { d with timeout_sec := timeout_sec, sgl := sgl, xmit_buff := xmit_buff }

/-! ## What a connection carried -/

/-- Steps that open a connection or write to it. -/
def Event.writes : Event → Bool
  | Event.connect _ _ _ _ => true
  | Event.sendmsg _ _ _ _ _ => true
  | _ => false

def served_step (n : Nat) : Event → Nat
  | Event.connect _ _ _ _ => 0
  | Event.sendmsg _ buf _ _ _ => if buf = ⟨Region.xmit_buff, 0⟩ then n + 1 else n
  | _ => n

/-- Number of requests sent on the current connection: the header sends since the last
connect. -/
def served (trace : List Event) : Nat := trace.foldl served_step 0

def written_step (acc : List Char) : Event → List Char
  | Event.connect _ _ _ _ => []
  | Event.sendmsg _ _ data _ ret => acc ++ data.take ret.toNat
  | _ => acc

/-- The bytes written to the current connection: what the sends since the last connect
transferred, in order. -/
def written (trace : List Event) : List Char := trace.foldl written_step []

/-- The trace of `k2` is the trace of `k` followed by steps that all satisfy `p`. -/
def appends (p : Event → Bool) (k k2 : Kernel) : Prop :=
  ∃ ev, k2.trace = k.trace ++ ev ∧ ∀ e ∈ ev, p e = true

/-- A peer that takes `n` requests of `send_size` bytes whole and answers each with the
chunks `cs`. -/
def serves (send_size : Int) (cs : List (List Char)) (n : Nat) (k : Kernel) : Prop :=
  allocs_succeed k ∧ connects_succeed k ∧
  ∃ rest restr, k.sends = List.replicate n (full send_size) ++ rest ∧
    k.recvs = (List.replicate n (deliver cs)).flatten ++ restr

/-- A peer that takes `n` GET requests of 61 bytes and answers each with `demo_response`
in one read; socket 0 is in use. -/
def patient_peer (n : Nat) : Kernel :=
  { peer (List.replicate n (full 61))
      (List.replicate n [RecvReply.data demo_response false]).flatten with next_sock := 1 }

/-- A descriptor just connected on socket 0, holding a GET request. -/
def fresh_connection : srb_cdmi_desc :=
  reconnected (put_request (demo_desc []) get_header) 0

/-! ## The worker thread (`srb-driver.c`) -/

/-- A request of the block layer, with what the driver reads of it: `cmd_type ==
REQ_TYPE_FS`, `rq_data_dir(req) == WRITE`, `blk_rq_pos`, `blk_rq_sectors` and the
buffers that `blk_rq_map_sg` maps into the scatter list. -/
structure request where
  fs : Bool
  write : Bool
  pos : Nat
  sectors : Nat
  segments : List (List Char)
  deriving DecidableEq, Repr

/-- What `srb_thread` and `srb_rq_fn` use of `struct srb_device`: `kthread_should_stop()`,
the waiting queue (its head first), the descriptor of the thread, and the calls of
`blk_end_request_all` made so far, each with its status. -/
structure srb_device where
  stop : Bool
  waiting_queue : List request
  desc : srb_cdmi_desc
  completed : List (request × Int)
  deriving DecidableEq, Repr

/-- The C `srb_xfer_scl`. -/
def srb_xfer_scl (H : Framer) (nb_req_retries : Nat) (k : Kernel) (desc : srb_cdmi_desc)
    (req : request) : Option (Int × srb_cdmi_desc × Kernel) :=
  let offset := (req.pos * 512) % 18446744073709551616
  let size := int32 (((req.sectors * 512) % 18446744073709551616 : Nat) : Int)
  match (if req.write then srb_cdmi_putrange H nb_req_retries k desc offset size
         else srb_cdmi_getrange H nb_req_retries k desc offset size) with
  | none => none
  | some (ret, desc, k) =>
    if ret ≠ 0 then some (- EIO, desc, k) else some (ret, desc, k)

/-- The body of the loop of `srb_thread` once `req` is taken off the queue. -/
def srb_thread_request (H : Framer) (nb_req_retries : Nat) (k : Kernel) (dev : srb_device)
    (req : request) : Option (srb_device × Kernel) :=
  if req.sectors = 0 then
    some ({ dev with completed := dev.completed ++ [(req, 0)] }, k)
  else
    let desc := { dev.desc with sgl := req.segments }
    match srb_xfer_scl H nb_req_retries k desc req with
    | none => none
    | some (_, desc, k) =>
      some ({ dev with desc := desc, completed := dev.completed ++ [(req, 0)] }, k)

/-- How one turn of the loop of `srb_thread` ends. -/
inductive Turn where
  | exit
  | idle
  | handled (dev : srb_device) (k : Kernel)
  deriving DecidableEq, Repr

/-- One turn of the loop `while (!kthread_should_stop() || !list_empty(&waiting_queue))`
of `srb_thread`: `exit` when the condition is false, `idle` when the worker waits (or
finds the queue empty after the wait), otherwise the head of the queue is handled. -/
def srb_thread_turn (H : Framer) (nb_req_retries : Nat) (k : Kernel) (dev : srb_device) :
    Option Turn :=
  if ¬ (dev.stop = false ∨ dev.waiting_queue ≠ []) then some Turn.exit
  else
    match dev.waiting_queue with
    | [] => some Turn.idle
    | req :: rest =>
      match srb_thread_request H nb_req_retries k { dev with waiting_queue := rest } req with
      | none => none
      | some (dev, k) => some (Turn.handled dev k)

/-- The loop of `srb_thread`, at most `fuel` turns of it, with nothing else touching
the device: the state when the loop exits (`true`) or the worker waits (`false`). -/
def srb_thread (H : Framer) (nb_req_retries : Nat) : Nat → Kernel → srb_device →
    Option (Bool × srb_device × Kernel)
  | 0, _, _ => none
  | fuel + 1, k, dev =>
    match srb_thread_turn H nb_req_retries k dev with
    | none => none
    | some Turn.exit => some (true, dev, k)
    | some Turn.idle => some (false, dev, k)
    | some (Turn.handled dev k) => srb_thread H nb_req_retries fuel k dev

/-- The C `srb_rq_fn` on the requests that `blk_fetch_request` hands out. -/
def srb_rq_fn (dev : srb_device) : List request → srb_device
  | [] => dev
  | req :: reqs =>
    if req.fs = false then
      srb_rq_fn { dev with completed := dev.completed ++ [(req, - EIO)] } reqs
    else srb_rq_fn { dev with waiting_queue := dev.waiting_queue ++ [req] } reqs

/-! ## The server list (`srb-driver.c`) -/

/-- The C `struct srb_server_s`; the list `servers` is a `List` of them. -/
structure srb_server_s where
  cdmi_desc : srb_cdmi_desc
  deriving DecidableEq, Repr

/-- The macro `device_free_slot`, on the name of a slot of `devtab`. -/
def device_free_slot (name : List Char) : Bool := name.headD NUL = NUL

/-- The search loop of `srb_server_add` and `_locked_server_remove`: the place of the
first record whose URL compares equal. -/
def server_find (url : List Char) : List srb_server_s → Option Nat
  | [] => none
  | cur :: rest =>
    if strcmp url cur.cdmi_desc.url = 0 then some 0
    else (server_find url rest).map (fun i => i + 1)

/-- The C `_srb_server_new`; `alloc_ok` tells whether `vmalloc` succeeds. -/
def _srb_server_new (SRB_CDMI_URL_SIZE : Nat) (alloc_ok : Bool) (url : List Char) :
    Int × Option srb_server_s :=
  if alloc_ok = false then (-ENOMEM, none)
  else
    let (ret, desc) := srb_cdmi_init SRB_CDMI_URL_SIZE zeroed_desc url
    if ret ≠ 0 then (ret, none) else (0, some ⟨desc⟩)

/-- The C `srb_server_add`. -/
def srb_server_add (SRB_CDMI_URL_SIZE : Nat) (alloc_ok : Bool) (servers : List srb_server_s)
    (url : List Char) : Int × List srb_server_s :=
  if strlen url ≥ SRB_CDMI_URL_SIZE then (-EINVAL, servers)
  else
    match _srb_server_new SRB_CDMI_URL_SIZE alloc_ok url with
    | (_, some new) =>
      match server_find url servers with
      | some _ => (0, servers)
      | none => (0, servers ++ [new])
    | (ret, none) => (ret, servers)

/-- The C `_locked_server_remove`; `devtab` holds the names of the device slots. -/
def _locked_server_remove (devtab : List (List Char)) (servers : List srb_server_s)
    (url : List Char) : Int × List srb_server_s :=
  match server_find url servers with
  | none => (-ENOENT, servers)
  | some i =>
    if servers.length = 1 ∧ devtab.any (fun name => !device_free_slot name) = true then
      (-EBUSY, servers)
    else (0, servers.eraseIdx i)

/-- The C `srb_server_remove`. -/
def srb_server_remove (SRB_CDMI_URL_SIZE : Nat) (devtab : List (List Char))
    (servers : List srb_server_s) (url : List Char) : Int × List srb_server_s :=
  if strlen url ≥ SRB_CDMI_URL_SIZE then (-EINVAL, servers)
  else _locked_server_remove devtab servers url

/-- The server lists reachable from the empty list through `srb_server_add` and
`srb_server_remove`. -/
inductive server_list (SRB_CDMI_URL_SIZE : Nat) : List srb_server_s → Prop where
  | empty : server_list SRB_CDMI_URL_SIZE []
  | add (alloc_ok : Bool) (servers : List srb_server_s) (url : List Char) :
      server_list SRB_CDMI_URL_SIZE servers →
      server_list SRB_CDMI_URL_SIZE (srb_server_add SRB_CDMI_URL_SIZE alloc_ok servers url).2
  | remove (devtab : List (List Char)) (servers : List srb_server_s) (url : List Char) :
      server_list SRB_CDMI_URL_SIZE servers →
      server_list SRB_CDMI_URL_SIZE
        (srb_server_remove SRB_CDMI_URL_SIZE devtab servers url).2

/-- The C `snprintf(buf, size, ...)` of the string `s`: the string stored and the value
returned. -/
def snprintf (size : Nat) (s : List Char) : List Char × Int :=
  (s.take (size - 1), (s.length : Int))

/-- The C `_srb_reconstruct_url`: the return value and the strings left in `url` and
`name`. -/
def _srb_reconstruct_url (SRB_CDMI_URL_SIZE : Nat) (baseurl basepath filename : List Char) :
    Int × List Char × List Char :=
  let urllen := strlen baseurl
  let seplen : Int := if baseurl.getD (urllen - 1) NUL ≠ '/' then 1 else 0
  let sep := if seplen ≠ 0 then "/".toList else []
  let (url, urllen) := snprintf SRB_CDMI_URL_SIZE (strcpy baseurl ++ sep ++ strcpy filename)
  let (name, namelen) :=
    snprintf SRB_CDMI_URL_SIZE (strcpy basepath ++ sep ++ strcpy filename)
  if urllen ≥ SRB_CDMI_URL_SIZE ∨ namelen ≥ SRB_CDMI_URL_SIZE then (-EINVAL, url, name)
  else (0, url, name)

/-! ## Descriptors, peers and requests for the examples -/

/-- A connected descriptor that has reached the reuse limit. -/
def at_reuse_limit : srb_cdmi_desc := { fresh_connection with nb_requests := 100 }

/-- A descriptor with a 5-second timeout configured. -/
def timeout_desc : srb_cdmi_desc := { demo_desc [] with timeout_sec := 5 }

/-- A socket layer on which `TCP_NODELAY` can be set and both timeouts cannot. -/
def failing_timeout_peer : Kernel := { peer [] [] with sockopts := [0, -1, -1] }

/-- A socket layer on which the TCP connect is refused (`-ECONNREFUSED`). -/
def refusing_peer : Kernel := { peer [] [] with connects := [-111] }

/-- A one-sector read at sector 8 into one 512-byte buffer. -/
def read_request : request :=
  { fs := true, write := false, pos := 8, sectors := 1,
    segments := [List.replicate 512 '_'] }

/-- A request of zero sectors. -/
def empty_request : request :=
  { fs := true, write := true, pos := 0, sectors := 0, segments := [] }

/-- A device whose worker has nothing queued and a descriptor that was never connected. -/
def idle_device : srb_device :=
  { stop := false, waiting_queue := [], desc := demo_desc [], completed := [] }

/-- A socket layer on which no connection can be set up (`-ECONNREFUSED`). -/
def unreachable_peer : Kernel := { peer [] [] with connects := [-111, -111, -111] }

/-- The record that `_srb_server_new` makes for `http://10.0.0.1/`. -/
def server_a : srb_server_s :=
  ⟨{ zeroed_desc with url := "http://10.0.0.1/".toList, filename := "/".toList,
                      ip_addr := "10.0.0.1".toList, port := 80 }⟩

/-- The record that `_srb_server_new` makes for `http://10.0.0.2:8080/cdmi`. -/
def server_b : srb_server_s :=
  ⟨{ zeroed_desc with url := "http://10.0.0.2:8080/cdmi".toList, filename := "/cdmi".toList,
                      ip_addr := "10.0.0.2".toList, port := 8080 }⟩

/-- A request that is not of type `REQ_TYPE_FS`. -/
def special_request : request :=
  { fs := false, write := false, pos := 0, sectors := 0, segments := [] }

/-- A device told to stop while two requests wait. -/
def stopping_device : srb_device :=
  { idle_device with stop := true, waiting_queue := [empty_request, read_request] }

/-! ## Steps of a reconnection after `-EPIPE` -/

/-- Steps of a connection set-up, and the mark of a reconnection after `-EPIPE`. -/
def Event.reconnecting : Event → Bool
  | Event.epipe_reconnect => true
  | Event.sock_create _ => true
  | Event.connect _ _ _ _ => true
  | Event.setsockopt _ _ _ => true
  | _ => false

/-- Socket sends and receives. -/
def Event.transfer : Event → Bool
  | Event.sendmsg _ _ _ _ _ => true
  | Event.recvmsg _ _ _ _ _ => true
  | _ => false

/-- Tear-down of the connection and release of the receive buffer. -/
def Event.teardown : Event → Bool
  | Event.shutdown _ => true
  | Event.release _ => true
  | Event.vfree => true
  | _ => false

/-- A socket send or receive that transferred nothing or failed with `-EPIPE`: what
`sock_xmit` reports as `-EPIPE`. -/
def Event.peer_closed : Event → Bool
  | Event.sendmsg _ _ _ _ ret => decide (ret = 0 ∨ ret = -EPIPE)
  | Event.recvmsg _ _ _ _ ret => decide (ret = 0 ∨ ret = -EPIPE)
  | _ => false

/-- From `k` to `k2` the code made sends and receives, the last of them closed by the
peer, and after it nothing but tear-down: no connect, no send, no receive. -/
def closed_by_peer (k k2 : Kernel) : Prop :=
  ∃ ev x tail, k2.trace = k.trace ++ ev ++ [x] ++ tail ∧ (∀ e ∈ ev, e.transfer = true) ∧
    x.peer_closed = true ∧ ∀ e ∈ tail, e.teardown = true

/-- From `k` to `k2` the code started at most `n` reconnections after `-EPIPE`. -/
def reconnects_within (n : Nat) (k k2 : Kernel) : Prop :=
  ∃ ev, k2.trace = k.trace ++ ev ∧ reconnects ev ≤ n

/-- What a block of an exchange (header send, scatter-list send, receive loop) started on
`k` with the flag `has_epiped` has done when it exits by `e` with the descriptor `d` and
the socket layer `k1`: at most one reconnection was started, and none once the flag is
set; it goes on to the next statement after sends and receives only; and with the flag
set, an exit to `cleanup` with `-EPIPE` follows a transfer closed by the peer and the
tear-down of the connection. -/
def block_exit (has_epiped : Int) (k : Kernel) (e : Exit) (d : srb_cdmi_desc) (k1 : Kernel) :
    Prop :=
  reconnects_within 1 k k1 ∧
  (has_epiped ≠ 0 → appends (fun e => !e.reconnecting) k k1) ∧
  (∀ r c, e = Exit.next r c → appends Event.transfer k k1) ∧
  (has_epiped ≠ 0 → ∀ r, e = Exit.cleanup r → r = -EPIPE →
    closed_by_peer k k1 ∧ d.state = CDMI_DISCONNECTED)

/-- The trace of `k2` is the trace of `k` followed by a socket send of the header on
socket `s`, and further steps. -/
def starts_with_header (s : Nat) (send_size : Int) (k k2 : Kernel) : Prop :=
  ∃ data ret rest,
    k2.trace = k.trace ++ Event.sendmsg s ⟨Region.xmit_buff, 0⟩ data send_size ret :: rest

/-- A peer that closes the connection on every send; socket 0 is in use. -/
def closing_peer : Kernel :=
  { peer [⟨0, false⟩, ⟨0, false⟩] [] with next_sock := 1 }

/-- Socket receives. -/
def Event.receive : Event → Bool
  | Event.recvmsg _ _ _ _ _ => true
  | _ => false

/-- A peer that takes the 61-byte GET request, delivers 10 bytes of the response and then
closes the connection; on the new connection it takes the request again and answers
`demo_response` in two reads.  Socket 0 is in use. -/
def dropping_peer : Kernel :=
  { peer [full 61, full 61]
      [RecvReply.data (demo_response.take 10) false, RecvReply.data [] false,
        RecvReply.data (demo_response.take 10) false,
        RecvReply.data (demo_response.drop 10) false] with next_sock := 1 }

/-! # Theorems -/

/-! ## Transport -/

theorem last_response_snoc (tr : List Event) (e : Event) :
    last_response (tr ++ [e]) = response_step (last_response tr) e := by
  simp [last_response, List.foldl_append]

/-- A send that the socket takes whole in one call returns `size`. -/
theorem sock_xmit_send_full (k : Kernel) (desc : srb_cdmi_desc) (s : Nat) (buf : Ptr)
    (mem : List Char) (size : Int) (rest : List SendReply)
    (hs : desc.socket = some s) (hk : k.sends = ⟨size, false⟩ :: rest) (hpos : 0 < size) :
    sock_xmit k desc true buf mem size false
      = some (size, mem, { k with sends := rest, trace := k.trace ++
          [Event.sendmsg s buf (mem.take size.toNat) size size] }) := by
  have h1 : size ≠ 0 := by omega
  have h2 : ¬ (size < 0) := by omega
  simp only [sock_xmit, hs, sock_xmit_loop, kernel_sendmsg, hk, List.headD_cons, List.tail_cons]
  simp [h1, h2]

/-- A send on which the socket transfers nothing, or fails with `-EPIPE`, is reported as
`-EPIPE`. -/
theorem sock_xmit_send_epipe (k : Kernel) (desc : srb_cdmi_desc) (s : Nat) (buf : Ptr)
    (mem : List Char) (size : Int) (r : Int)
    (hs : desc.socket = some s) (hk : k.sends.headD ⟨0, false⟩ = ⟨r, false⟩)
    (hr : r = 0 ∨ r = -EPIPE) :
    sock_xmit k desc true buf mem size false
      = some (-EPIPE, mem, { k with sends := k.sends.tail, trace := k.trace ++
          [Event.sendmsg s buf (mem.take size.toNat) size r] }) := by
  rcases hr with rfl | rfl
  · simp only [sock_xmit, hs, sock_xmit_loop, kernel_sendmsg, hk]
    simp
  · simp only [sock_xmit, hs, sock_xmit_loop, kernel_sendmsg, hk]
    simp

/-- A non-strict receive returns after one socket call with the bytes it stored. -/
theorem sock_xmit_recv_chunk (k : Kernel) (desc : srb_cdmi_desc) (s : Nat) (buf : Ptr)
    (mem : List Char) (size : Int) (c : List Char) (rest : List RecvReply)
    (hs : desc.socket = some s) (hk : k.recvs = RecvReply.data c false :: rest)
    (hne : c.take size.toNat ≠ []) :
    sock_xmit k desc false buf mem size false
      = some (((c.take size.toNat).length : Int),
          memcpy mem (c.take size.toNat) (c.take size.toNat).length,
          { k with recvs := rest, trace := k.trace ++
            [Event.recvmsg s buf size (c.take size.toNat) (c.take size.toNat).length] }) := by
  have h1 : ((c.take size.toNat).length : Int) ≠ 0 := by
    intro h
    apply hne
    exact List.length_eq_zero.mp (by exact_mod_cast h)
  simp only [sock_xmit, hs, sock_xmit_loop, kernel_recvmsg, hk, List.headD_cons, List.tail_cons]
  generalize c.take size.toNat = d at h1
  simp [h1]

/-- A receive on which the socket delivers nothing, or fails with `-EPIPE`, is reported
as `-EPIPE`; the memory is unchanged. -/
theorem sock_xmit_recv_epipe (k : Kernel) (desc : srb_cdmi_desc) (s : Nat) (buf : Ptr)
    (mem : List Char) (size : Int) (strict : Bool) (r : RecvReply)
    (hs : desc.socket = some s) (hk : k.recvs.headD (RecvReply.data [] false) = r)
    (hr : r = RecvReply.data [] false ∨ r = RecvReply.error 32 false) :
    ∃ r, sock_xmit k desc false buf mem size strict
      = some (-EPIPE, mem, { k with recvs := k.recvs.tail, trace := k.trace ++
          [Event.recvmsg s buf size [] r] }) := by
  rcases hr with rfl | rfl
  · refine ⟨0, ?_⟩
    simp only [sock_xmit, hs, sock_xmit_loop, kernel_recvmsg, hk]
    simp [memcpy]
  · refine ⟨-32, ?_⟩
    simp only [sock_xmit, hs, sock_xmit_loop, kernel_recvmsg, hk]
    cases strict <;> simp


/-! ## Connection management -/

theorem mgmt_step.mgmt_refl (k : Kernel) : mgmt_step k k :=
  ⟨rfl, rfl, rfl, List.suffix_refl _, List.suffix_refl _, List.suffix_refl _, [], by simp, by simp⟩

theorem mgmt_step.mgmt_trans {k1 k2 k3 : Kernel} (h1 : mgmt_step k1 k2) (h2 : mgmt_step k2 k3) :
    mgmt_step k1 k3 := by
  obtain ⟨e1, he1, hm1⟩ := h1.trace
  obtain ⟨e2, he2, hm2⟩ := h2.trace
  refine ⟨h2.vmallocs.trans h1.vmallocs, h2.sends.trans h1.sends, h2.recvs.trans h1.recvs,
    h2.creates.trans h1.creates, h2.connects.trans h1.connects, h2.sockopts.trans h1.sockopts,
    e1 ++ e2, ?_, ?_⟩
  · rw [he2, he1, List.append_assoc]
  · intro e he
    rcases List.mem_append.mp he with h | h
    · exact hm1 e h
    · exact hm2 e h

theorem connects_succeed_of_step {k k2 : Kernel} (h : mgmt_step k k2)
    (hc : connects_succeed k) : connects_succeed k2 :=
  ⟨fun r hr => hc.1 r (h.creates.subset hr), fun r hr => hc.2.1 r (h.connects.subset hr),
    fun r hr => hc.2.2 r (h.sockopts.subset hr)⟩

theorem headD_nonneg (l : List Int) (h : ∀ r ∈ l, 0 ≤ r) : 0 ≤ l.headD 0 := by
  cases l with
  | nil => simp
  | cons a t => simpa using h a (by simp)

theorem srb_cdmi_disconnect_step (k : Kernel) (desc : srb_cdmi_desc) :
    mgmt_step k (srb_cdmi_disconnect k desc).2.2 := by
  unfold srb_cdmi_disconnect
  split
  · exact mgmt_step.mgmt_refl k
  · split
    · exact mgmt_step.mgmt_refl k
    · rename_i s _ _
      exact ⟨rfl, rfl, rfl, List.suffix_refl _, List.suffix_refl _, List.suffix_refl _,
        [Event.shutdown s, Event.release s],
        by simp [sock_release, kernel_sock_shutdown], by simp [Event.mgmt]⟩

theorem srb_cdmi_disconnect_connected (k : Kernel) (desc : srb_cdmi_desc)
    (h : connected desc ∨ disconnected desc) :
    (srb_cdmi_disconnect k desc).1 = 0 ∧
    (srb_cdmi_disconnect k desc).2.1
      = { desc with socket := none, state := CDMI_DISCONNECTED } := by
  rcases h with ⟨hst, s, hs⟩ | ⟨hst, hs⟩
  · simp [srb_cdmi_disconnect, hs, hst]
  · cases desc
    simp only at hs hst
    subst hs hst
    simp [srb_cdmi_disconnect]

theorem mgmt_step_of_eq {k k2 : Kernel} (ev : List Event)
    (h1 : k2.vmallocs = k.vmallocs) (h2 : k2.sends = k.sends) (h3 : k2.recvs = k.recvs)
    (h4 : k2.creates <:+ k.creates) (h5 : k2.connects <:+ k.connects)
    (h6 : k2.sockopts <:+ k.sockopts) (h7 : k2.trace = k.trace ++ ev)
    (h8 : ∀ e ∈ ev, e.mgmt = true) : mgmt_step k k2 :=
  ⟨h1, h2, h3, h4, h5, h6, ev, h7, h8⟩

theorem sock_create_kern_step (k : Kernel) : mgmt_step k (sock_create_kern k).2.2 := by
  simp only [sock_create_kern]
  split_ifs <;>
    exact mgmt_step_of_eq [Event.sock_create (k.creates.headD 0)] rfl rfl rfl (List.tail_suffix _)
      (List.suffix_refl _) (List.suffix_refl _) rfl (by simp [Event.mgmt])

theorem kernel_connect_step (k : Kernel) (s : Nat) (ip : List Char) (port : Int) :
    mgmt_step k (kernel_connect k s ip port).2 :=
  mgmt_step_of_eq [Event.connect s ip port (k.connects.headD 0)] rfl rfl rfl (List.suffix_refl _)
    (List.tail_suffix _) (List.suffix_refl _) rfl (by simp [Event.mgmt])

theorem kernel_setsockopt_step (k : Kernel) (s : Nat) (opt : SockOpt) :
    mgmt_step k (kernel_setsockopt k s opt).2 :=
  mgmt_step_of_eq [Event.setsockopt s opt (k.sockopts.headD 0)] rfl rfl rfl (List.suffix_refl _)
    (List.suffix_refl _) (List.tail_suffix _) rfl (by simp [Event.mgmt])

theorem shutdown_release_step (k : Kernel) (s : Nat) :
    mgmt_step k (sock_release (kernel_sock_shutdown k s) s) :=
  mgmt_step_of_eq [Event.shutdown s, Event.release s] rfl rfl rfl (List.suffix_refl _)
    (List.suffix_refl _) (List.suffix_refl _) (by simp [sock_release, kernel_sock_shutdown])
    (by simp [Event.mgmt])

theorem srb_cdmi_connect_out_error_step (k : Kernel) (desc : srb_cdmi_desc) (ret : Int) :
    mgmt_step k (srb_cdmi_connect_out_error k desc ret).2.2 := by
  unfold srb_cdmi_connect_out_error
  cases desc.socket with
  | none => exact mgmt_step.mgmt_refl k
  | some s => exact shutdown_release_step k s

theorem srb_cdmi_connect_timeouts_step (k : Kernel) (desc : srb_cdmi_desc) (s : Nat) :
    mgmt_step k (srb_cdmi_connect_timeouts k desc s) := by
  unfold srb_cdmi_connect_timeouts
  split
  · exact (kernel_setsockopt_step k s SockOpt.SO_RCVTIMEO).mgmt_trans
      (kernel_setsockopt_step _ s SockOpt.SO_SNDTIMEO)
  · exact mgmt_step.mgmt_refl k

theorem srb_cdmi_connect_step (k : Kernel) (desc : srb_cdmi_desc) :
    mgmt_step k (srb_cdmi_connect k desc).2.2 := by
  unfold srb_cdmi_connect
  split
  · exact mgmt_step.mgmt_refl k
  · have h1 := sock_create_kern_step k
    rcases hc : sock_create_kern k with ⟨ret, sock, k1⟩
    rw [hc] at h1
    cases sock with
    | none => exact h1.mgmt_trans (srb_cdmi_connect_out_error_step _ _ _)
    | some s =>
      simp only
      have h2 := kernel_connect_step k1 s desc.ip_addr (desc.port % 65536)
      rcases hk : kernel_connect k1 s desc.ip_addr (desc.port % 65536) with ⟨ret2, k2⟩
      rw [hk] at h2
      simp only
      split
      · exact (h1.mgmt_trans h2).mgmt_trans (srb_cdmi_connect_out_error_step _ _ _)
      · have h3 := kernel_setsockopt_step k2 s SockOpt.TCP_NODELAY
        rcases hk3 : kernel_setsockopt k2 s SockOpt.TCP_NODELAY with ⟨ret3, k3⟩
        rw [hk3] at h3
        simp only
        split
        · exact ((h1.mgmt_trans h2).mgmt_trans h3).mgmt_trans (srb_cdmi_connect_out_error_step _ _ _)
        · exact ((h1.mgmt_trans h2).mgmt_trans h3).mgmt_trans (srb_cdmi_connect_timeouts_step _ _ _)

/-- A set-up on which every step succeeds connects the descriptor. -/
theorem srb_cdmi_connect_ok (k : Kernel) (desc : srb_cdmi_desc)
    (hst : desc.state = CDMI_DISCONNECTED) (hc : connects_succeed k) :
    (srb_cdmi_connect k desc).1 = 0 ∧
    (srb_cdmi_connect k desc).2.1
      = { desc with socket := some k.next_sock, state := CDMI_CONNECTED, nb_requests := 0 } := by
  have h1 : ¬ (k.creates.headD 0 < 0) := not_lt.mpr (headD_nonneg _ hc.1)
  have h2 : ¬ (k.connects.headD 0 < 0) := not_lt.mpr (headD_nonneg _ hc.2.1)
  have h3 : ¬ (k.sockopts.headD 0 < 0) := not_lt.mpr (headD_nonneg _ hc.2.2)
  have h0 : ¬ (CDMI_DISCONNECTED = CDMI_CONNECTED) := by decide
  simp only [srb_cdmi_connect, sock_create_kern, kernel_connect, kernel_setsockopt, hst, h0,
    h1, h2, h3, if_false]
  exact ⟨trivial, trivial⟩

/-! ## Counting steps -/

theorem header_sends_append (a b : List Event) :
    header_sends (a ++ b) = header_sends a + header_sends b := by
  simp [header_sends, List.countP_append]

theorem reconnects_append (a b : List Event) :
    reconnects (a ++ b) = reconnects a + reconnects b := by
  simp [reconnects, List.count_append]

theorem invocations_append (a b : List Event) :
    invocations (a ++ b) = invocations a + invocations b := by
  simp [invocations, List.countP_append]

theorem mgmt_event (e : Event) (h : e.mgmt = true) :
    e.header_send = false ∧ e.alloc = false ∧ e ≠ Event.epipe_reconnect := by
  cases e <;> simp_all [Event.mgmt, Event.header_send, Event.alloc]

theorem mgmt_counts (ev : List Event) (h : ∀ e ∈ ev, e.mgmt = true) :
    header_sends ev = 0 ∧ reconnects ev = 0 ∧ invocations ev = 0 := by
  refine ⟨?_, ?_, ?_⟩
  · exact List.countP_eq_zero.2 (fun e he => by simp [(mgmt_event e (h e he)).1])
  · exact List.count_eq_zero.2 (fun hmem => (mgmt_event _ (h _ hmem)).2.2 rfl)
  · exact List.countP_eq_zero.2 (fun e he => by simp [(mgmt_event e (h e he)).2.1])

theorem progress.progress_refl (k : Kernel) : progress k k k.sends k.recvs 0 0 :=
  ⟨rfl, rfl, rfl, List.suffix_refl _, List.suffix_refl _, List.suffix_refl _, [], by simp,
    by simp [header_sends], by simp [reconnects], by simp [invocations]⟩

theorem progress.progress_trans {k1 k2 k3 : Kernel} {s1 s2 : List SendReply} {r1 r2 : List RecvReply}
    {h1 c1 h2 c2 : Nat} (p1 : progress k1 k2 s1 r1 h1 c1) (p2 : progress k2 k3 s2 r2 h2 c2) :
    progress k1 k3 s2 r2 (h1 + h2) (c1 + c2) := by
  obtain ⟨e1, he1, a1, b1, i1⟩ := p1.trace
  obtain ⟨e2, he2, a2, b2, i2⟩ := p2.trace
  refine ⟨p2.sends, p2.recvs, p2.vmallocs.trans p1.vmallocs, p2.creates.trans p1.creates,
    p2.connects.trans p1.connects, p2.sockopts.trans p1.sockopts, e1 ++ e2, ?_, ?_, ?_, ?_⟩
  · rw [he2, he1, List.append_assoc]
  · rw [header_sends_append, a1, a2]
  · rw [reconnects_append, b1, b2]
  · rw [invocations_append, i1, i2]

theorem progress_of_mgmt {k k2 : Kernel} (h : mgmt_step k k2) :
    progress k k2 k.sends k.recvs 0 0 := by
  obtain ⟨ev, hev, hm⟩ := h.trace
  have hc := mgmt_counts ev hm
  exact ⟨h.sends, h.recvs, h.vmallocs, h.creates, h.connects, h.sockopts, ev, hev, hc.1, hc.2.1,
    hc.2.2⟩

theorem connects_succeed_of_progress {k k2 : Kernel} {s : List SendReply} {r : List RecvReply}
    {h c : Nat} (p : progress k k2 s r h c) (hc : connects_succeed k) : connects_succeed k2 :=
  ⟨fun x hx => hc.1 x (p.creates.subset hx), fun x hx => hc.2.1 x (p.connects.subset hx),
    fun x hx => hc.2.2 x (p.sockopts.subset hx)⟩

/-- The steps of one socket send. -/
theorem progress_send (k : Kernel) (s : Nat) (buf : Ptr) (data : List Char) (size r : Int)
    (rest : List SendReply) :
    progress k { k with sends := rest, trace := k.trace ++ [Event.sendmsg s buf data size r] }
      rest k.recvs (if buf = ⟨Region.xmit_buff, 0⟩ then 1 else 0) 0 :=
  ⟨rfl, rfl, rfl, List.suffix_refl _, List.suffix_refl _, List.suffix_refl _,
    [Event.sendmsg s buf data size r], rfl, by
      by_cases h : buf = ⟨Region.xmit_buff, 0⟩ <;> simp [header_sends, Event.header_send, h],
    by simp [reconnects], by simp [invocations, Event.alloc]⟩

/-- The steps of one socket receive. -/
theorem progress_recv (k : Kernel) (s : Nat) (buf : Ptr) (data : List Char) (size r : Int)
    (rest : List RecvReply) :
    progress k { k with recvs := rest, trace := k.trace ++ [Event.recvmsg s buf size data r] }
      k.sends rest 0 0 :=
  ⟨rfl, rfl, rfl, List.suffix_refl _, List.suffix_refl _, List.suffix_refl _,
    [Event.recvmsg s buf size data r], rfl, by simp [header_sends, Event.header_send],
    by simp [reconnects], by simp [invocations, Event.alloc]⟩

/-- The reconnection mark. -/
theorem progress_mark (k : Kernel) :
    progress k { k with trace := k.trace ++ [Event.epipe_reconnect] } k.sends k.recvs 0 1 :=
  ⟨rfl, rfl, rfl, List.suffix_refl _, List.suffix_refl _, List.suffix_refl _,
    [Event.epipe_reconnect], rfl, by simp [header_sends, Event.header_send],
    by simp [reconnects], by simp [invocations, Event.alloc]⟩

/-! ## The block run on `-EPIPE` -/

theorem srb_cdmi_disconnect_dropped (k : Kernel) (desc : srb_cdmi_desc)
    (h : connected desc ∨ disconnected desc) :
    srb_cdmi_disconnect k desc = (0, dropped desc, (srb_cdmi_disconnect k desc).2.2) :=
  Prod.ext (srb_cdmi_disconnect_connected k desc h).1
    (Prod.ext (srb_cdmi_disconnect_connected k desc h).2 rfl)

theorem srb_cdmi_connect_reconnected (k : Kernel) (desc : srb_cdmi_desc)
    (hst : desc.state = CDMI_DISCONNECTED) (hc : connects_succeed k) :
    srb_cdmi_connect k desc
      = (0, reconnected desc k.next_sock, (srb_cdmi_connect k desc).2.2) :=
  Prod.ext (srb_cdmi_connect_ok k desc hst hc).1
    (Prod.ext (srb_cdmi_connect_ok k desc hst hc).2 rfl)

/-- First `-EPIPE` of an exchange, with a set-up that succeeds: the descriptor is
reconnected on a new socket and control goes back to `retry_once`. -/
theorem epipe_reconnect_first (k : Kernel) (desc : srb_cdmi_desc) (ret : Int)
    (hd : connected desc ∨ disconnected desc) (hc : connects_succeed k) :
    ∃ s k2, epipe_reconnect k desc 0 ret = (Exit.retry_once, reconnected desc s, k2) ∧
      progress k k2 k.sends k.recvs 0 1 := by
  have h1 := srb_cdmi_disconnect_dropped k desc hd
  have p1 := progress_of_mgmt (srb_cdmi_disconnect_step k desc)
  generalize (srb_cdmi_disconnect k desc).2.2 = k1 at h1 p1
  have hc1 := connects_succeed_of_progress p1 hc
  have p2 := progress_mark k1
  generalize hk2 : ({ k1 with trace := k1.trace ++ [Event.epipe_reconnect] } : Kernel) = k2 at p2
  have hc2 := connects_succeed_of_progress p2 hc1
  have h3 := srb_cdmi_connect_reconnected k2 (dropped desc) rfl hc2
  have p3 := progress_of_mgmt (srb_cdmi_connect_step k2 (dropped desc))
  refine ⟨k2.next_sock, (srb_cdmi_connect k2 (dropped desc)).2.2, ?_, ?_⟩
  · simp only [epipe_reconnect, h1, hk2]
    rw [h3]
    simp [reconnected, dropped]
  · have := (p1.progress_trans p2).progress_trans p3
    rw [p2.sends, p2.recvs, p1.sends, p1.recvs] at this
    simpa using this

/-- Second `-EPIPE` of an exchange: the descriptor is left disconnected and control goes
to `cleanup` with `ret`. -/
theorem epipe_reconnect_second (k : Kernel) (desc : srb_cdmi_desc) (has_epiped ret : Int)
    (hd : connected desc ∨ disconnected desc) (hh : has_epiped ≠ 0) :
    ∃ k2, epipe_reconnect k desc has_epiped ret = (Exit.cleanup ret, dropped desc, k2) ∧
      progress k k2 k.sends k.recvs 0 0 := by
  have h1 := srb_cdmi_disconnect_dropped k desc hd
  have p1 := progress_of_mgmt (srb_cdmi_disconnect_step k desc)
  refine ⟨(srb_cdmi_disconnect k desc).2.2, ?_, p1⟩
  generalize (srb_cdmi_disconnect k desc).2.2 = k1 at h1
  simp only [epipe_reconnect, h1, hh, if_false]

/-! ## Start of an exchange -/

theorem check_reuse_limit_spec (k : Kernel) (desc : srb_cdmi_desc)
    (hd : connected desc ∨ disconnected desc) :
    (connected (check_reuse_limit k desc).1 ∨ disconnected (check_reuse_limit k desc).1) ∧
    progress k (check_reuse_limit k desc).2 k.sends k.recvs 0 0 ∧
    (check_reuse_limit k desc).1.xmit_buff = desc.xmit_buff ∧
    (check_reuse_limit k desc).1.sgl = desc.sgl := by
  unfold check_reuse_limit
  split
  · have h1 := srb_cdmi_disconnect_dropped k desc hd
    have p1 := progress_of_mgmt (srb_cdmi_disconnect_step k desc)
    generalize (srb_cdmi_disconnect k desc).2.2 = k1 at h1 p1
    rw [h1]
    exact ⟨Or.inr ⟨rfl, rfl⟩, p1, rfl, rfl⟩
  · refine ⟨?_, progress.progress_refl k, rfl, rfl⟩
    rcases hd with ⟨h1, h2⟩ | ⟨h1, h2⟩
    · exact Or.inl ⟨h1, h2⟩
    · exact Or.inr ⟨h1, h2⟩

theorem connect_if_disconnected_spec (k : Kernel) (desc : srb_cdmi_desc)
    (hd : connected desc ∨ disconnected desc) (hc : connects_succeed k) :
    ∃ d2 k2, connect_if_disconnected k desc = (0, d2, k2) ∧ connected d2 ∧
      progress k k2 k.sends k.recvs 0 0 ∧ d2.xmit_buff = desc.xmit_buff ∧ d2.sgl = desc.sgl := by
  unfold connect_if_disconnected
  rcases hd with ⟨h1, h2⟩ | ⟨h1, h2⟩
  · have : ¬ desc.state = CDMI_DISCONNECTED := by rw [h1]; decide
    exact ⟨desc, k, by simp only [this, if_false], ⟨h1, h2⟩, progress.progress_refl k, rfl, rfl⟩
  · refine ⟨reconnected desc k.next_sock, (srb_cdmi_connect k desc).2.2, ?_, ⟨rfl, _, rfl⟩,
      progress_of_mgmt (srb_cdmi_connect_step k desc), rfl, rfl⟩
    simp only [h1, if_true]
    exact srb_cdmi_connect_reconnected k desc h1 hc

/-! ## The header send -/

theorem send_header_epipe_first (k : Kernel) (desc : srb_cdmi_desc) (send_size : Int)
    (hd : connected desc) (hk : (k.sends.headD ⟨0, false⟩).epipe) (hc : connects_succeed k) :
    ∃ s k2, send_header k desc 0 send_size = some (Exit.retry_once, reconnected desc s, k2) ∧
      progress k k2 k.sends.tail k.recvs 1 1 := by
  obtain ⟨hst, s, hs⟩ := hd
  rcases hr : k.sends.headD ⟨0, false⟩ with ⟨r, sig⟩
  rw [hr] at hk
  obtain ⟨hr1, hr2⟩ := hk
  simp only at hr1 hr2
  subst hr2
  have hx := sock_xmit_send_epipe k desc s ⟨Region.xmit_buff, 0⟩ desc.xmit_buff send_size r hs hr hr1
  have p1 := progress_send k s ⟨Region.xmit_buff, 0⟩ (desc.xmit_buff.take send_size.toNat)
    send_size r k.sends.tail
  generalize ({ k with sends := k.sends.tail, trace := k.trace ++
    [Event.sendmsg s ⟨Region.xmit_buff, 0⟩ (desc.xmit_buff.take send_size.toNat) send_size r] }
      : Kernel) = k1 at hx p1
  obtain ⟨s2, k2, h2, p2⟩ := epipe_reconnect_first k1 desc (-EPIPE) (Or.inl ⟨hst, s, hs⟩)
    (connects_succeed_of_progress p1 hc)
  refine ⟨s2, k2, ?_, ?_⟩
  · simp only [send_header, hx, if_true, h2]
  · have := p1.progress_trans p2
    rw [p1.sends, p1.recvs] at this
    simpa using this

theorem send_header_epipe_second (k : Kernel) (desc : srb_cdmi_desc) (has_epiped send_size : Int)
    (hd : connected desc) (hk : (k.sends.headD ⟨0, false⟩).epipe) (hh : has_epiped ≠ 0) :
    ∃ k2, send_header k desc has_epiped send_size
        = some (Exit.cleanup (-EPIPE), dropped desc, k2) ∧
      progress k k2 k.sends.tail k.recvs 1 0 := by
  obtain ⟨hst, s, hs⟩ := hd
  rcases hr : k.sends.headD ⟨0, false⟩ with ⟨r, sig⟩
  rw [hr] at hk
  obtain ⟨hr1, hr2⟩ := hk
  simp only at hr1 hr2
  subst hr2
  have hx := sock_xmit_send_epipe k desc s ⟨Region.xmit_buff, 0⟩ desc.xmit_buff send_size r hs hr hr1
  have p1 := progress_send k s ⟨Region.xmit_buff, 0⟩ (desc.xmit_buff.take send_size.toNat)
    send_size r k.sends.tail
  generalize ({ k with sends := k.sends.tail, trace := k.trace ++
    [Event.sendmsg s ⟨Region.xmit_buff, 0⟩ (desc.xmit_buff.take send_size.toNat) send_size r] }
      : Kernel) = k1 at hx p1
  obtain ⟨k2, h2, p2⟩ := epipe_reconnect_second k1 desc has_epiped (-EPIPE)
    (Or.inl ⟨hst, s, hs⟩) hh
  refine ⟨k2, ?_, ?_⟩
  · simp only [send_header, hx, if_true, h2]
  · have := p1.progress_trans p2
    rw [p1.sends, p1.recvs] at this
    simpa using this

/-! ## Retry orchestrator -/

theorem exchanges_succ (H : Framer) (send_size rcv_size : Int) (do_sglist : Bool) (n : Nat)
    (k : Kernel) (desc : srb_cdmi_desc) (ret r1 : Int) (d1 : srb_cdmi_desc) (k1 : Kernel)
    (h : exchange H k desc send_size rcv_size do_sglist = some (r1, d1, k1)) :
    exchanges H send_size rcv_size do_sglist (n + 1) k desc ret
      = exchanges H send_size rcv_size do_sglist n k1 d1 r1 := by
  simp [exchanges, h]

theorem exchanges_one (H : Framer) (send_size rcv_size : Int) (do_sglist : Bool)
    (k : Kernel) (desc : srb_cdmi_desc) (ret : Int) :
    exchanges H send_size rcv_size do_sglist 1 k desc ret
      = exchange H k desc send_size rcv_size do_sglist := by
  simp only [exchanges]
  cases exchange H k desc send_size rcv_size do_sglist with
  | none => rfl
  | some r => rfl

/-- The loop stops at the first non-negative result. -/
theorem retried_loop_first_success (H : Framer) (send_size rcv_size : Int) (do_sglist : Bool) :
    ∀ (j n : Nat) (k : Kernel) (desc : srb_cdmi_desc) (ret0 r : Int) (d : srb_cdmi_desc)
      (k2 : Kernel), j < n →
      exchanges H send_size rcv_size do_sglist (j + 1) k desc ret0 = some (r, d, k2) →
      0 ≤ r →
      (∀ i, 1 ≤ i → i ≤ j → ∃ ri di ki,
        exchanges H send_size rcv_size do_sglist i k desc ret0 = some (ri, di, ki) ∧ ri < 0) →
      retried_loop H send_size rcv_size do_sglist n k desc ret0 = some (r, d, k2) := by
  intro j
  induction j with
  | zero =>
    intro n k desc ret0 r d k2 hn hex hr _
    obtain ⟨m, rfl⟩ : ∃ m, n = m + 1 := ⟨n - 1, by omega⟩
    rw [exchanges_one] at hex
    simp [retried_loop, hex, hr]
  | succ j ih =>
    intro n k desc ret0 r d k2 hn hex hr hfail
    obtain ⟨m, rfl⟩ : ∃ m, n = m + 1 := ⟨n - 1, by omega⟩
    obtain ⟨r1, d1, k1, h1, hneg⟩ := hfail 1 (le_refl 1) (by omega)
    rw [exchanges_one] at h1
    rw [exchanges_succ H send_size rcv_size do_sglist (j + 1) k desc ret0 r1 d1 k1 h1] at hex
    have hnot : ¬ (0 ≤ r1) := by omega
    simp only [retried_loop, h1, ge_iff_le, hnot, if_false]
    apply ih m k1 d1 r1 r d k2 (by omega) hex hr
    intro i hi1 hij
    have := hfail (i + 1) (by omega) (by omega)
    rw [exchanges_succ H send_size rcv_size do_sglist i k desc ret0 r1 d1 k1 h1] at this
    exact this

/-- When every invocation fails, the loop makes them all and returns the last result. -/
theorem retried_loop_all_fail (H : Framer) (send_size rcv_size : Int) (do_sglist : Bool) :
    ∀ (n : Nat) (k : Kernel) (desc : srb_cdmi_desc) (ret0 : Int),
      (∀ i, 1 ≤ i → i ≤ n → ∃ ri di ki,
        exchanges H send_size rcv_size do_sglist i k desc ret0 = some (ri, di, ki) ∧ ri < 0) →
      retried_loop H send_size rcv_size do_sglist n k desc ret0
        = exchanges H send_size rcv_size do_sglist n k desc ret0 := by
  intro n
  induction n with
  | zero => intro k desc ret0 _; rfl
  | succ n ih =>
    intro k desc ret0 hfail
    obtain ⟨r1, d1, k1, h1, hneg⟩ := hfail 1 (le_refl 1) (by omega)
    rw [exchanges_one] at h1
    have hnot : ¬ (0 ≤ r1) := by omega
    rw [exchanges_succ H send_size rcv_size do_sglist n k desc ret0 r1 d1 k1 h1]
    simp only [retried_loop, h1, ge_iff_le, hnot, if_false]
    apply ih k1 d1 r1
    intro i hi1 hij
    have := hfail (i + 1) (by omega) (by omega)
    rw [exchanges_succ H send_size rcv_size do_sglist i k desc ret0 r1 d1 k1 h1] at this
    exact this

/-- C8: for `attempts ≥ 1`, with `r_i` the result of the `i`-th invocation of the
exchange: if `j ≤ attempts` is the least index with `r_j ≥ 0`, `retried_send_receive`
stops in the state reached after exactly `j` invocations and returns `r_j`; if every
`r_i` with `i ≤ attempts` is negative, it stops in the state reached after exactly
`attempts` invocations and returns the last result. -/
theorem retried_send_receive_first_success_or_last_error (H : Framer) (k : Kernel)
    (desc : srb_cdmi_desc) (send_size rcv_size : Int) (do_sglist : Bool) (attempts : Int)
    (hatt : 1 ≤ attempts) :
    (∀ (j : Nat) (r : Int) (d : srb_cdmi_desc) (k2 : Kernel),
      1 ≤ j → (j : Int) ≤ attempts →
      exchanges H send_size rcv_size do_sglist j k desc (-1) = some (r, d, k2) → 0 ≤ r →
      (∀ i, 1 ≤ i → i < j → ∃ ri di ki,
        exchanges H send_size rcv_size do_sglist i k desc (-1) = some (ri, di, ki) ∧ ri < 0) →
      retried_send_receive H k desc send_size rcv_size do_sglist attempts = some (r, d, k2)) ∧
    ((∀ i : Nat, 1 ≤ i → (i : Int) ≤ attempts → ∃ ri di ki,
        exchanges H send_size rcv_size do_sglist i k desc (-1) = some (ri, di, ki) ∧ ri < 0) →
      retried_send_receive H k desc send_size rcv_size do_sglist attempts
        = exchanges H send_size rcv_size do_sglist attempts.toNat k desc (-1)) := by
  have hnot : ¬ (attempts < 1) := by omega
  constructor
  · intro j r d k2 hj hja hex hr hfail
    obtain ⟨j0, rfl⟩ : ∃ j0, j = j0 + 1 := ⟨j - 1, by omega⟩
    simp only [retried_send_receive, hnot, if_false]
    apply retried_loop_first_success H send_size rcv_size do_sglist j0 attempts.toNat k desc
      (-1) r d k2 (by omega) hex hr
    intro i hi1 hij
    exact hfail i hi1 (by omega)
  · intro hfail
    simp only [retried_send_receive, hnot, if_false]
    apply retried_loop_all_fail
    intro i hi1 hin
    exact hfail i hi1 (by omega)

theorem retried_send_receive_first_success_or_last_error_witness :
    (1 : Int) ≤ 3 ∧
    (retried_send_receive demo_framer flaky_peer
      (put_request (demo_desc []) (demo_framer.mkrange "GET".toList "10.0.0.1".toList
        "/vol".toList 4096 4099).2) 61 0 false 3).map (fun r => r.1) = some 42 := by
  refine ⟨by decide, ?_⟩
  rcases h : exchanges demo_framer 61 0 false 2 flaky_peer
      (put_request (demo_desc []) (demo_framer.mkrange "GET".toList "10.0.0.1".toList
        "/vol".toList 4096 4099).2) (-1) with _ | ⟨r, d, k2⟩
  · exact absurd h (by decide)
  · have hr : (exchanges demo_framer 61 0 false 2 flaky_peer
        (put_request (demo_desc []) (demo_framer.mkrange "GET".toList "10.0.0.1".toList
          "/vol".toList 4096 4099).2) (-1)).map (fun r => r.1) = some 42 := by decide
    rw [h] at hr
    simp only [Option.map_some', Option.some.injEq] at hr
    subst hr
    rw [(retried_send_receive_first_success_or_last_error demo_framer flaky_peer _ 61 0 false 3
      (by decide)).1 2 42 d k2 (by decide) (by decide) h (by decide)
      (fun i h1 h2 => by
        obtain rfl : i = 1 := by omega
        rcases h1 : exchanges demo_framer 61 0 false 1 flaky_peer
            (put_request (demo_desc []) (demo_framer.mkrange "GET".toList "10.0.0.1".toList
              "/vol".toList 4096 4099).2) (-1) with _ | ⟨ri, di, ki⟩
        · exact absurd h1 (by decide)
        · refine ⟨ri, di, ki, rfl, ?_⟩
          have hri : (exchanges demo_framer 61 0 false 1 flaky_peer
              (put_request (demo_desc []) (demo_framer.mkrange "GET".toList
                "10.0.0.1".toList "/vol".toList 4096 4099).2) (-1)).map (fun r => r.1)
              = some (- EIO) := by decide
          rw [h1] at hri
          simp only [Option.map_some', Option.some.injEq] at hri
          rw [hri]
          decide)]
    rfl

/-- C9: with `attempts < 1`, `retried_send_receive` returns `-EINVAL`; the descriptor
and the socket layer (its scripts and its trace) are unchanged, so no exchange ran. -/
theorem retried_send_receive_usage_error (H : Framer) (k : Kernel) (desc : srb_cdmi_desc)
    (send_size rcv_size : Int) (do_sglist : Bool) (attempts : Int) (h : attempts < 1) :
    retried_send_receive H k desc send_size rcv_size do_sglist attempts
      = some (-EINVAL, desc, k) := by
  simp [retried_send_receive, h]

theorem retried_send_receive_usage_error_witness :
    (0 : Int) < 1 ∧
    retried_send_receive demo_framer (peer [] []) (demo_desc []) 61 0 true 0
      = some (-EINVAL, demo_desc [], peer [] []) :=
  ⟨by decide, retried_send_receive_usage_error demo_framer (peer [] []) (demo_desc []) 61 0
    true 0 (by decide)⟩

/-! ## A peer that always closes the connection -/

theorem epipe_headD (l : List SendReply) (h : ∀ r ∈ l, SendReply.epipe r) :
    SendReply.epipe (l.headD ⟨0, false⟩) := by
  cases l with
  | nil => exact ⟨Or.inl rfl, rfl⟩
  | cons a t => exact h a (by simp)

theorem vmalloc_ok (k : Kernel) (size : Int) (ha : k.vmallocs.headD true = true) :
    vmalloc k size
      = (true, { k with vmallocs := k.vmallocs.tail,
                        trace := k.trace ++ [Event.vmalloc size true] }) := by
  simp only [vmalloc, ha]

theorem allocs_headD (k : Kernel) (ha : allocs_succeed k) : k.vmallocs.headD true = true := by
  cases hl : k.vmallocs with
  | nil => rfl
  | cons a t => exact ha a (by simp [hl])

/-- What is left of an exchange that failed twice on the header send. -/
theorem dead_peer_result (k k2 : Kernel) (rsz : Int) (hp : dead_peer k)
    (p : progress { k with vmallocs := k.vmallocs.tail,
                           trace := k.trace ++ [Event.vmalloc rsz true] } k2
      k.sends.tail.tail k.recvs 2 1) :
    ∃ ev, dead_peer (vfree k2) ∧ (vfree k2).trace = k.trace ++ ev ∧
      invocations ev = 1 ∧ reconnects ev = 1 ∧ header_sends ev = 2 := by
  obtain ⟨ha, hc, hs⟩ := hp
  obtain ⟨ev, hev, c1, c2, c3⟩ := p.trace
  refine ⟨[Event.vmalloc rsz true] ++ ev ++ [Event.vfree],
    ⟨?_, (connects_succeed_of_progress p hc : connects_succeed k2), ?_⟩, ?_, ?_, ?_, ?_⟩
  · intro b hb
    have hb2 : b ∈ k2.vmallocs := hb
    rw [p.vmallocs] at hb2
    exact ha b (List.mem_of_mem_tail hb2)
  · intro r hr
    have hr2 : r ∈ k2.sends := hr
    rw [p.sends] at hr2
    exact hs r (List.mem_of_mem_tail (List.mem_of_mem_tail hr2))
  · simp only [vfree, hev, List.append_assoc]
  · rw [invocations_append, invocations_append, c3]
    simp [invocations, Event.alloc]
  · rw [reconnects_append, reconnects_append, c2]
    simp [reconnects]
  · rw [header_sends_append, header_sends_append, c1]
    simp [header_sends, Event.header_send]

/-- `sock_send_receive` against a peer that always closes the connection. -/
theorem sock_send_receive_dead_peer (H : Framer) (k : Kernel) (desc : srb_cdmi_desc)
    (send_size rcv_size : Int) (hd : connected desc ∨ disconnected desc) (hp : dead_peer k) :
    ∃ d2 k2 ev, sock_send_receive H k desc send_size rcv_size = some (-EPIPE, d2, k2) ∧
      disconnected d2 ∧ dead_peer k2 ∧ k2.trace = k.trace ++ ev ∧
      invocations ev = 1 ∧ reconnects ev = 1 ∧ header_sends ev = 2 := by
  have hp0 := hp
  obtain ⟨ha, hc, hs⟩ := hp
  generalize hrs : (if rcv_size = 0 then H.SRB_CDMI_XMIT_BUFFER_SIZE else rcv_size) = rsz
  have hv := vmalloc_ok k rsz (allocs_headD k ha)
  have key := fun k2 => dead_peer_result k k2 rsz hp0
  generalize hk0 : ({ k with vmallocs := k.vmallocs.tail,
                             trace := k.trace ++ [Event.vmalloc rsz true] } : Kernel) = k0
    at hv key
  have hc0 : connects_succeed k0 := by rw [← hk0]; exact hc
  have hs0 : k0.sends = k.sends := by rw [← hk0]
  have hr0 : k0.recvs = k.recvs := by rw [← hk0]
  obtain ⟨hdA, pA, -, -⟩ := check_reuse_limit_spec k0 desc hd
  rcases hA : check_reuse_limit k0 desc with ⟨dA, kA⟩
  rw [hA] at hdA pA
  simp only at hdA pA
  obtain ⟨dB, kB, hB, hdB, pB, -, -⟩ := connect_if_disconnected_spec kA dA hdA
    (connects_succeed_of_progress pA hc0)
  have hsB : kB.sends = k.sends := by rw [pB.sends, pA.sends, hs0]
  obtain ⟨s1, k1, h1, p1⟩ := send_header_epipe_first kB dB send_size hdB
    (by rw [hsB]; exact epipe_headD _ hs)
    (connects_succeed_of_progress pB (connects_succeed_of_progress pA hc0))
  obtain ⟨k2, h2, p2⟩ := send_header_epipe_second k1 (reconnected dB s1) 1 send_size
    ⟨rfl, s1, rfl⟩
    (by rw [p1.sends, hsB]; exact epipe_headD _ (fun r hr => hs r (List.mem_of_mem_tail hr)))
    (by decide)
  have p : progress k0 k2 k.sends.tail.tail k.recvs 2 1 := by
    have := ((pA.progress_trans pB).progress_trans p1).progress_trans p2
    rw [p1.sends, p1.recvs, hsB, pB.recvs, pA.recvs, hr0] at this
    simpa using this
  obtain ⟨ev, e1, e2, e3⟩ := key k2 p
  refine ⟨dropped (reconnected dB s1), vfree k2, ev, ?_, ⟨rfl, rfl⟩, e1, e2, e3⟩
  simp only [sock_send_receive, hrs, hv, hA, hB, sock_send_receive_retry_once, h1, h2, cleanup]
  simp

/-- `sock_send_sglist_receive` against a peer that always closes the connection. -/
theorem sock_send_sglist_receive_dead_peer (H : Framer) (k : Kernel) (desc : srb_cdmi_desc)
    (send_size rcv_size : Int) (hd : connected desc ∨ disconnected desc) (hp : dead_peer k) :
    ∃ d2 k2 ev, sock_send_sglist_receive H k desc send_size rcv_size = some (-EPIPE, d2, k2) ∧
      disconnected d2 ∧ dead_peer k2 ∧ k2.trace = k.trace ++ ev ∧
      invocations ev = 1 ∧ reconnects ev = 1 ∧ header_sends ev = 2 := by
  have hp0 := hp
  obtain ⟨ha, hc, hs⟩ := hp
  generalize hrs : (if rcv_size = 0 then H.SRB_CDMI_XMIT_BUFFER_SIZE else rcv_size) = rsz
  have hv := vmalloc_ok k rsz (allocs_headD k ha)
  have key := fun k2 => dead_peer_result k k2 rsz hp0
  generalize hk0 : ({ k with vmallocs := k.vmallocs.tail,
                             trace := k.trace ++ [Event.vmalloc rsz true] } : Kernel) = k0
    at hv key
  have hc0 : connects_succeed k0 := by rw [← hk0]; exact hc
  have hs0 : k0.sends = k.sends := by rw [← hk0]
  have hr0 : k0.recvs = k.recvs := by rw [← hk0]
  obtain ⟨hdA, pA, -, -⟩ := check_reuse_limit_spec k0 desc hd
  rcases hA : check_reuse_limit k0 desc with ⟨dA, kA⟩
  rw [hA] at hdA pA
  simp only at hdA pA
  obtain ⟨dB, kB, hB, hdB, pB, -, -⟩ := connect_if_disconnected_spec kA dA hdA
    (connects_succeed_of_progress pA hc0)
  have hsB : kB.sends = k.sends := by rw [pB.sends, pA.sends, hs0]
  obtain ⟨s1, k1, h1, p1⟩ := send_header_epipe_first kB dB send_size hdB
    (by rw [hsB]; exact epipe_headD _ hs)
    (connects_succeed_of_progress pB (connects_succeed_of_progress pA hc0))
  obtain ⟨k2, h2, p2⟩ := send_header_epipe_second k1 (reconnected dB s1) 1 send_size
    ⟨rfl, s1, rfl⟩
    (by rw [p1.sends, hsB]; exact epipe_headD _ (fun r hr => hs r (List.mem_of_mem_tail hr)))
    (by decide)
  have p : progress k0 k2 k.sends.tail.tail k.recvs 2 1 := by
    have := ((pA.progress_trans pB).progress_trans p1).progress_trans p2
    rw [p1.sends, p1.recvs, hsB, pB.recvs, pA.recvs, hr0] at this
    simpa using this
  obtain ⟨ev, e1, e2, e3⟩ := key k2 p
  refine ⟨dropped (reconnected dB s1), vfree k2, ev, ?_, ⟨rfl, rfl⟩, e1, e2, e3⟩
  simp only [sock_send_sglist_receive, hrs, hv, hA, hB, sock_send_sglist_receive_retry_once, h1, h2, cleanup]
  simp

/-- One exchange against a peer that always closes the connection: it fails with
`-EPIPE` after two sends of the header and one reconnection, and leaves the descriptor
disconnected. -/
theorem exchange_dead_peer (H : Framer) (k : Kernel) (desc : srb_cdmi_desc)
    (send_size rcv_size : Int) (do_sglist : Bool)
    (hd : connected desc ∨ disconnected desc) (hp : dead_peer k) :
    ∃ d2 k2 ev, exchange H k desc send_size rcv_size do_sglist = some (-EPIPE, d2, k2) ∧
      disconnected d2 ∧ dead_peer k2 ∧ k2.trace = k.trace ++ ev ∧
      invocations ev = 1 ∧ reconnects ev = 1 ∧ header_sends ev = 2 := by
  cases do_sglist with
  | false =>
    simp only [exchange, Bool.false_eq_true, if_false]
    exact sock_send_receive_dead_peer H k desc send_size rcv_size hd hp
  | true =>
    simp only [exchange, if_true]
    exact sock_send_sglist_receive_dead_peer H k desc send_size rcv_size hd hp

/-- C7: against a peer for which every send is reported as `-EPIPE` and every connection
set-up succeeds, `retried_send_receive` with `attempts = 3` invokes the exchange exactly
three times; each invocation starts one exchange (`invocations = 1`), makes exactly one
reconnection in response to `-EPIPE` (`reconnects = 1`) between its two sends of the
header, and fails with `-EPIPE`; the value returned is that of the third invocation. -/
theorem retried_send_receive_peer_always_closes (H : Framer) (k : Kernel)
    (desc : srb_cdmi_desc) (send_size rcv_size : Int) (do_sglist : Bool)
    (hd : connected desc ∨ disconnected desc) (hp : dead_peer k) :
    ∃ d1 k1 e1 d2 k2 e2 d3 k3 e3,
      exchange H k desc send_size rcv_size do_sglist = some (-EPIPE, d1, k1) ∧
      k1.trace = k.trace ++ e1 ∧ invocations e1 = 1 ∧ reconnects e1 = 1 ∧ header_sends e1 = 2 ∧
      exchange H k1 d1 send_size rcv_size do_sglist = some (-EPIPE, d2, k2) ∧
      k2.trace = k1.trace ++ e2 ∧ invocations e2 = 1 ∧ reconnects e2 = 1 ∧ header_sends e2 = 2 ∧
      exchange H k2 d2 send_size rcv_size do_sglist = some (-EPIPE, d3, k3) ∧
      k3.trace = k2.trace ++ e3 ∧ invocations e3 = 1 ∧ reconnects e3 = 1 ∧ header_sends e3 = 2 ∧
      retried_send_receive H k desc send_size rcv_size do_sglist 3 = some (-EPIPE, d3, k3) := by
  obtain ⟨d1, k1, e1, h1, hd1, hp1, t1, a1, b1, c1⟩ :=
    exchange_dead_peer H k desc send_size rcv_size do_sglist hd hp
  obtain ⟨d2, k2, e2, h2, hd2, hp2, t2, a2, b2, c2⟩ :=
    exchange_dead_peer H k1 d1 send_size rcv_size do_sglist (Or.inr hd1) hp1
  obtain ⟨d3, k3, e3, h3, _, _, t3, a3, b3, c3⟩ :=
    exchange_dead_peer H k2 d2 send_size rcv_size do_sglist (Or.inr hd2) hp2
  refine ⟨d1, k1, e1, d2, k2, e2, d3, k3, e3, h1, t1, a1, b1, c1, h2, t2, a2, b2, c2, h3, t3,
    a3, b3, c3, ?_⟩
  have h3' : (3 : Int).toNat = 3 := rfl
  have hneg : ¬ (-EPIPE ≥ (0 : Int)) := by decide
  simp only [retried_send_receive, show ¬ ((3 : Int) < 1) by decide, if_false, h3', retried_loop,
    h1, h2, h3, hneg]

theorem retried_send_receive_peer_always_closes_witness :
    (connected (demo_desc []) ∨ disconnected (demo_desc [])) ∧ dead_peer (peer [] []) ∧
    (retried_send_receive demo_framer (peer [] []) (demo_desc []) 61 0 false 3).map
      (fun r => r.1) = some (-EPIPE) := by
  have hd : connected (demo_desc []) ∨ disconnected (demo_desc []) := Or.inr ⟨rfl, rfl⟩
  have hp : dead_peer (peer [] []) := by
    simp [dead_peer, allocs_succeed, connects_succeed, peer]
  obtain ⟨d1, k1, e1, d2, k2, e2, d3, k3, e3, -, -, -, -, -, -, -, -, -, -, -, -, -, -, -, h⟩ :=
    retried_send_receive_peer_always_closes demo_framer (peer [] []) (demo_desc []) 61 0 false
      hd hp
  exact ⟨hd, hp, by rw [h]; rfl⟩

/-! ## Sends that the socket takes whole -/

theorem send_header_full (k : Kernel) (desc : srb_cdmi_desc) (has_epiped send_size : Int)
    (rest : List SendReply) (hd : connected desc) (hk : k.sends = full send_size :: rest)
    (hpos : 0 < send_size) :
    ∃ k2, send_header k desc has_epiped send_size = some (Exit.next send_size 0, desc, k2) ∧
      progress k k2 rest k.recvs 1 0 := by
  obtain ⟨_, s, hs⟩ := hd
  have hx := sock_xmit_send_full k desc s ⟨Region.xmit_buff, 0⟩ desc.xmit_buff send_size rest hs
    hk hpos
  have p1 := progress_send k s ⟨Region.xmit_buff, 0⟩ (desc.xmit_buff.take send_size.toNat)
    send_size send_size rest
  refine ⟨_, ?_, by simpa using p1⟩
  have h1 : ¬ (send_size = -EPIPE) := by
    intro h; rw [h] at hpos; exact absurd hpos (by decide)
  simp only [send_header, hx, h1, if_false, ne_eq, not_true_eq_false]

theorem send_sglist_full : ∀ (segs : List (List Char)) (k : Kernel) (desc : srb_cdmi_desc)
    (has_epiped : Int) (i : Nat) (ret : Int) (rest : List SendReply),
    connected desc → (∀ seg ∈ segs, seg ≠ []) →
    k.sends = segs.map (fun seg => full seg.length) ++ rest →
    ∃ ret2 k2, send_sglist k desc has_epiped i segs ret = some (Exit.next ret2 0, desc, k2) ∧
      progress k k2 rest k.recvs 0 0 := by
  intro segs
  induction segs with
  | nil =>
    intro k desc has_epiped i ret rest _ _ hk
    refine ⟨ret, k, by simp only [send_sglist], ?_⟩
    have := progress.progress_refl k
    rw [hk] at this
    simpa using this
  | cons seg segs ih =>
    intro k desc has_epiped i ret rest hd hne hk
    obtain ⟨hst, s, hs⟩ := hd
    have hseg : seg ≠ [] := hne seg (by simp)
    have hpos : (0 : Int) < seg.length := by
      have : 0 < seg.length := List.length_pos.mpr hseg
      exact_mod_cast this
    simp only [List.map_cons, List.cons_append] at hk
    have hx := sock_xmit_send_full k desc s ⟨Region.sg i, 0⟩ seg seg.length _ hs hk hpos
    have p1 := progress_send k s ⟨Region.sg i, 0⟩ (seg.take (seg.length : Int).toNat)
      seg.length seg.length (segs.map (fun seg => full seg.length) ++ rest)
    generalize ({ k with sends := segs.map (fun seg => full seg.length) ++ rest, trace := k.trace ++
      [Event.sendmsg s ⟨Region.sg i, 0⟩ (seg.take (seg.length : Int).toNat) seg.length seg.length] }
        : Kernel) = k1 at hx p1
    obtain ⟨ret2, k2, h2, p2⟩ := ih k1 desc has_epiped (i + 1) seg.length rest ⟨hst, s, hs⟩
      (fun x hx => hne x (by simp [hx])) p1.sends
    refine ⟨ret2, k2, ?_, ?_⟩
    · have h1 : ¬ ((seg.length : Int) = -EPIPE) := by
        intro h; rw [h] at hpos; exact absurd hpos (by decide)
      simp only [send_sglist, hx, h1, if_false, ne_eq, not_true_eq_false, h2]
    · have := p1.progress_trans p2
      rw [p1.recvs] at this
      simpa using this

/-- The first `-EPIPE` of an exchange on the send of a payload segment: the segments
before it were sent whole; the descriptor is reconnected and control goes back to
`retry_once`. -/
theorem send_sglist_epipe_first : ∀ (pre : List (List Char)) (seg : List Char)
    (post : List (List Char)) (k : Kernel) (desc : srb_cdmi_desc) (i : Nat) (ret : Int)
    (e : SendReply) (rest : List SendReply),
    connected desc → connects_succeed k → (∀ x ∈ pre, x ≠ []) → SendReply.epipe e →
    k.sends = pre.map (fun seg => full seg.length) ++ e :: rest →
    ∃ s k2, send_sglist k desc 0 i (pre ++ seg :: post) ret
        = some (Exit.retry_once, reconnected desc s, k2) ∧
      progress k k2 rest k.recvs 0 1 := by
  intro pre
  induction pre with
  | nil =>
    intro seg post k desc i ret e rest hd hc _ he hk
    obtain ⟨hst, s, hs⟩ := hd
    simp only [List.map_nil, List.nil_append] at hk
    obtain ⟨r, sig⟩ := e
    obtain ⟨hr1, hr2⟩ := he
    simp only at hr1 hr2
    subst hr2
    have hx := sock_xmit_send_epipe k desc s ⟨Region.sg i, 0⟩ seg seg.length r hs
      (by rw [hk]; rfl) hr1
    have p1 := progress_send k s ⟨Region.sg i, 0⟩ (seg.take (seg.length : Int).toNat)
      seg.length r k.sends.tail
    generalize ({ k with sends := k.sends.tail, trace := k.trace ++
      [Event.sendmsg s ⟨Region.sg i, 0⟩ (seg.take (seg.length : Int).toNat) seg.length r] }
        : Kernel) = k1 at hx p1
    obtain ⟨s2, k2, h2, p2⟩ := epipe_reconnect_first k1 desc (-EPIPE) (Or.inl ⟨hst, s, hs⟩)
      (connects_succeed_of_progress p1 hc)
    refine ⟨s2, k2, ?_, ?_⟩
    · simp only [List.nil_append, send_sglist, hx, if_true, h2]
    · have := p1.progress_trans p2
      rw [p1.sends, p1.recvs, hk] at this
      simpa using this
  | cons a pre ih =>
    intro seg post k desc i ret e rest hd hc hne he hk
    obtain ⟨hst, s, hs⟩ := hd
    have ha : a ≠ [] := hne a (by simp)
    have hpos : (0 : Int) < a.length := by
      have : 0 < a.length := List.length_pos.mpr ha
      exact_mod_cast this
    simp only [List.map_cons, List.cons_append] at hk
    have hx := sock_xmit_send_full k desc s ⟨Region.sg i, 0⟩ a a.length _ hs hk hpos
    have p1 := progress_send k s ⟨Region.sg i, 0⟩ (a.take (a.length : Int).toNat)
      a.length a.length (pre.map (fun seg => full seg.length) ++ e :: rest)
    generalize ({ k with sends := pre.map (fun seg => full seg.length) ++ e :: rest,
                         trace := k.trace ++ [Event.sendmsg s ⟨Region.sg i, 0⟩
                           (a.take (a.length : Int).toNat) a.length a.length] }
        : Kernel) = k1 at hx p1
    obtain ⟨s2, k2, h2, p2⟩ := ih seg post k1 desc (i + 1) a.length e rest ⟨hst, s, hs⟩
      (connects_succeed_of_progress p1 hc) (fun x hx => hne x (by simp [hx])) he p1.sends
    refine ⟨s2, k2, ?_, ?_⟩
    · have h1 : ¬ ((a.length : Int) = -EPIPE) := by
        intro h; rw [h] at hpos; exact absurd hpos (by decide)
      simp only [List.cons_append, send_sglist, hx, h1, if_false, ne_eq, not_true_eq_false]
      exact h2
    · have := p1.progress_trans p2
      rw [p1.recvs] at this
      simpa using this

/-! ## Receiving a response in chunks -/

theorem take_append_memcpy (rcvbuf acc c : List Char) (h : rcvbuf.take acc.length = acc) :
    (rcvbuf.take acc.length ++ memcpy (rcvbuf.drop acc.length) c c.length).take
      (acc ++ c).length = acc ++ c := by
  rw [h]
  simp [memcpy, List.take_append_eq_append_take]

/-- One non-strict receive of a chunk that fits in the buffer. -/
theorem receive_chunk (k : Kernel) (desc : srb_cdmi_desc) (s : Nat) (rcvbuf acc c : List Char)
    (rsz : Int) (rest : List RecvReply) (hs : desc.socket = some s)
    (hk : k.recvs = RecvReply.data c false :: rest) (hc : c ≠ [])
    (hfit : (acc.length : Int) + c.length ≤ rsz) :
    ∃ k2, sock_xmit k desc false ⟨Region.rcvbuf, acc.length⟩ (rcvbuf.drop acc.length)
        (rsz - acc.length) false
        = some ((c.length : Int), memcpy (rcvbuf.drop acc.length) c c.length, k2) ∧
      progress k k2 k.sends rest 0 0 := by
  have ht : c.take (rsz - (acc.length : Int)).toNat = c := by
    apply List.take_of_length_le
    omega
  have hx := sock_xmit_recv_chunk k desc s ⟨Region.rcvbuf, acc.length⟩ (rcvbuf.drop acc.length)
    (rsz - acc.length) c rest hs hk (by rw [ht]; exact hc)
  rw [ht] at hx
  exact ⟨_, hx, progress_recv k s _ _ _ _ rest⟩

theorem receive_response_complete (H : Framer) : ∀ (cs : List (List Char)) (fuel : Nat)
    (k : Kernel) (desc : srb_cdmi_desc) (rcvbuf : List Char) (rsz has_epiped ret : Int)
    (acc : List Char) (restr : List RecvReply),
    connected desc → rcvbuf.take acc.length = acc → k.recvs = deliver cs ++ restr →
    (∀ c ∈ cs, c ≠ []) → (acc.length : Int) + cs.flatten.length ≤ rsz → completes H acc cs →
    cs.length < fuel →
    ∃ rb k2, receive_response H fuel k desc rcvbuf rsz false has_epiped ret acc.length
        = some (Exit.next (if cs = [] then ret else (acc ++ cs.flatten).length)
            (acc ++ cs.flatten).length, desc, k2, rb) ∧
      rb.take (acc ++ cs.flatten).length = acc ++ cs.flatten ∧
      progress k k2 k.sends restr 0 0 := by
  intro cs
  induction cs with
  | nil =>
    intro fuel k desc rcvbuf rsz has_epiped ret acc restr _ hrb hk _ _ hcomp hfuel
    obtain ⟨f, rfl⟩ : ∃ f, fuel = f + 1 := ⟨fuel - 1, by omega⟩
    have hc : H.check_response_complete acc = true := by simpa using hcomp.2
    refine ⟨rcvbuf, k, ?_, by simpa using hrb, ?_⟩
    · simp only [receive_response, Int.toNat_ofNat, hrb, hc, if_true, List.flatten_nil,
        List.append_nil]
    · have := progress.progress_refl k
      rw [hk] at this
      simpa [deliver] using this
  | cons c cs ih =>
    intro fuel k desc rcvbuf rsz has_epiped ret acc restr hd hrb hk hne hfit hcomp hfuel
    obtain ⟨f, rfl⟩ : ∃ f, fuel = f + 1 := ⟨fuel - 1, by omega⟩
    obtain ⟨hst, s, hs⟩ := hd
    have hc0 : H.check_response_complete acc = false := by
      simpa using hcomp.1 0 (by simp)
    have hcne : c ≠ [] := hne c (by simp)
    simp only [List.flatten_cons, List.length_append, Nat.cast_add] at hfit
    obtain ⟨k1, hx, p1⟩ := receive_chunk k desc s rcvbuf acc c rsz (deliver cs ++ restr) hs
      (by rw [hk]; rfl) hcne (by omega)
    have hrb1 := take_append_memcpy rcvbuf acc c hrb
    rw [hrb] at hrb1
    generalize hrb1def : acc ++ memcpy (rcvbuf.drop acc.length) c c.length = rb1 at hrb1
    obtain ⟨rb, k2, h2, hrb2, p2⟩ := ih f k1 desc rb1 rsz has_epiped
      ((acc ++ c).length) (acc ++ c) restr ⟨hst, s, hs⟩ hrb1 p1.recvs
      (fun x hx => hne x (by simp [hx]))
      (by simp only [List.length_append, Nat.cast_add]; omega)
      ⟨fun n hn => by
          have := hcomp.1 (n + 1) (by simp; omega)
          simpa [List.append_assoc] using this,
        by simpa [List.append_assoc] using hcomp.2⟩
      (by simp at hfuel; omega)
    have hlen : ((acc ++ c).length : Int) = (acc.length : Int) + c.length := by
      simp
    refine ⟨rb, k2, ?_, by simpa [List.append_assoc] using hrb2, ?_⟩
    · have hneg : ¬ ((c.length : Int) < 0) := by omega
      simp only [receive_response, Int.toNat_ofNat, hrb, hc0, hx, hrb1def, hneg, if_false,
        Bool.false_eq_true]
      rw [← hlen, h2]
      by_cases hcs : cs = []
      · subst hcs
        simp
      · simp [hcs, List.append_assoc]
    · have := p1.progress_trans p2
      rw [p1.sends] at this
      simpa using this

/-- The first `-EPIPE` of an exchange on a receive, after chunks that left the response
incomplete: the descriptor is reconnected and control goes back to `retry_once`. -/
theorem receive_response_epipe_first (H : Framer) : ∀ (cs : List (List Char)) (fuel : Nat)
    (k : Kernel) (desc : srb_cdmi_desc) (rcvbuf : List Char) (rsz ret : Int)
    (acc : List Char) (e : RecvReply) (restr : List RecvReply),
    connected desc → connects_succeed k → rcvbuf.take acc.length = acc →
    k.recvs = deliver cs ++ e :: restr → RecvReply.epipe e →
    (∀ c ∈ cs, c ≠ []) → (acc.length : Int) + cs.flatten.length ≤ rsz → incomplete H acc cs →
    cs.length < fuel →
    ∃ s rb k2, receive_response H fuel k desc rcvbuf rsz false 0 ret acc.length
        = some (Exit.retry_once, reconnected desc s, k2, rb) ∧
      progress k k2 k.sends restr 0 1 := by
  intro cs
  induction cs with
  | nil =>
    intro fuel k desc rcvbuf rsz ret acc e restr hd hc hrb hk he _ _ hinc hfuel
    obtain ⟨f, rfl⟩ : ∃ f, fuel = f + 1 := ⟨fuel - 1, by omega⟩
    obtain ⟨hst, s, hs⟩ := hd
    have hc0 : H.check_response_complete acc = false := by simpa using hinc 0 (by simp)
    simp only [deliver, List.map_nil, List.nil_append] at hk
    obtain ⟨r, hx⟩ := sock_xmit_recv_epipe k desc s ⟨Region.rcvbuf, acc.length⟩
      (rcvbuf.drop acc.length) (rsz - acc.length) false e hs (by rw [hk]; rfl) he
    have p1 := progress_recv k s ⟨Region.rcvbuf, acc.length⟩ [] (rsz - acc.length) r
      k.recvs.tail
    generalize ({ k with recvs := k.recvs.tail, trace := k.trace ++
      [Event.recvmsg s ⟨Region.rcvbuf, acc.length⟩ (rsz - acc.length) [] r] } : Kernel) = k1
      at hx p1
    obtain ⟨s2, k2, h2, p2⟩ := epipe_reconnect_first k1 desc (-EPIPE) (Or.inl ⟨hst, s, hs⟩)
      (connects_succeed_of_progress p1 hc)
    refine ⟨s2, acc ++ rcvbuf.drop acc.length, k2, ?_, ?_⟩
    · simp only [receive_response, Int.toNat_ofNat, hrb, hc0, hx, if_true, h2,
        Bool.false_eq_true, if_false, show (-EPIPE : Int) < 0 by decide]
    · have := p1.progress_trans p2
      rw [p1.sends, p1.recvs, hk] at this
      simpa using this
  | cons c cs ih =>
    intro fuel k desc rcvbuf rsz ret acc e restr hd hc hrb hk he hne hfit hinc hfuel
    obtain ⟨f, rfl⟩ : ∃ f, fuel = f + 1 := ⟨fuel - 1, by omega⟩
    obtain ⟨hst, s, hs⟩ := hd
    have hc0 : H.check_response_complete acc = false := by
      simpa using hinc 0 (by simp)
    have hcne : c ≠ [] := hne c (by simp)
    simp only [List.flatten_cons, List.length_append, Nat.cast_add] at hfit
    obtain ⟨k1, hx, p1⟩ := receive_chunk k desc s rcvbuf acc c rsz (deliver cs ++ e :: restr)
      hs (by rw [hk]; rfl) hcne (by omega)
    have hrb1 := take_append_memcpy rcvbuf acc c hrb
    rw [hrb] at hrb1
    generalize hrb1def : acc ++ memcpy (rcvbuf.drop acc.length) c c.length = rb1 at hrb1
    obtain ⟨s2, rb, k2, h2, p2⟩ := ih f k1 desc rb1 rsz ((acc ++ c).length) (acc ++ c) e restr
      ⟨hst, s, hs⟩ (connects_succeed_of_progress p1 hc) hrb1 p1.recvs he
      (fun x hx => hne x (by simp [hx]))
      (by simp only [List.length_append, Nat.cast_add]; omega)
      (fun n hn => by
          have := hinc (n + 1) (by simp; omega)
          simpa [List.append_assoc] using this)
      (by simp at hfuel; omega)
    have hlen : ((acc ++ c).length : Int) = (acc.length : Int) + c.length := by
      simp
    refine ⟨s2, rb, k2, ?_, ?_⟩
    · have hneg : ¬ ((c.length : Int) < 0) := by omega
      simp only [receive_response, Int.toNat_ofNat, hrb, hc0, hx, hrb1def, hneg, if_false,
        Bool.false_eq_true]
      rw [← hlen, h2]
    · have := p1.progress_trans p2
      rw [p1.sends] at this
      simpa using this

/-! ## A pass of an exchange with a peer that behaves -/

theorem length_le_flatten (cs : List (List Char)) (h : ∀ c ∈ cs, c ≠ []) :
    cs.length ≤ cs.flatten.length := by
  induction cs with
  | nil => simp
  | cons c cs ih =>
    have hc : 0 < c.length := List.length_pos.mpr (h c (by simp))
    have := ih (fun x hx => h x (by simp [hx]))
    simp only [List.length_cons, List.flatten_cons, List.length_append]
    omega

theorem take_memcpy (dst src : List Char) (n : Nat) (h : (src.take n).length = n) :
    (memcpy dst src n).take n = src.take n := by
  unfold memcpy
  rw [List.take_append_eq_append_take, h]
  simp

/-- The receive loop, when the receives deliver a complete response: it ends with the
chunks at the start of the receive buffer, from where the final copy takes them. -/
theorem receive_and_copy (H : Framer) (cs : List (List Char)) (k : Kernel)
    (desc : srb_cdmi_desc) (rcvbuf : List Char) (rsz has_epiped ret : Int)
    (restr : List RecvReply) (hd : connected desc) (hk : k.recvs = deliver cs ++ restr)
    (hne0 : cs ≠ []) (hne : ∀ c ∈ cs, c ≠ []) (hfit : (cs.flatten.length : Int) ≤ rsz)
    (hcomp : completes H [] cs) :
    ∃ rb k2, receive_response H (rsz.toNat + 1) k desc rcvbuf rsz false has_epiped ret 0
        = some (Exit.next cs.flatten.length cs.flatten.length, desc, k2, rb) ∧
      (memcpy desc.xmit_buff rb cs.flatten.length).take cs.flatten.length = cs.flatten ∧
      progress k k2 k.sends restr 0 0 := by
  have hfuel : cs.length < rsz.toNat + 1 := by
    have := length_le_flatten cs hne
    omega
  obtain ⟨rb, k2, h2, hrb, p2⟩ := receive_response_complete H cs (rsz.toNat + 1) k desc rcvbuf
    rsz has_epiped ret [] restr hd (by simp) hk hne (by simpa using hfit) hcomp hfuel
  simp only [List.length_nil, Nat.cast_zero, List.nil_append, hne0, if_false] at h2 hrb
  refine ⟨rb, k2, h2, ?_, p2⟩
  rw [take_memcpy _ _ _ (by rw [hrb]), hrb]

/-- A whole pass of `sock_send_receive` with a peer that takes the header and delivers a
complete response. -/
theorem sock_send_receive_pass (H : Framer) (fuel : Nat) (cs : List (List Char)) (k : Kernel)
    (desc : srb_cdmi_desc) (rcvbuf : List Char) (send_size rsz has_epiped : Int)
    (rest : List SendReply) (restr : List RecvReply) (hd : connected desc)
    (hpos : 0 < send_size) (hks : k.sends = full send_size :: rest)
    (hkr : k.recvs = deliver cs ++ restr) (hne0 : cs ≠ []) (hne : ∀ c ∈ cs, c ≠ [])
    (hfit : (cs.flatten.length : Int) ≤ rsz) (hcomp : completes H [] cs) :
    ∃ d2 k2, sock_send_receive_retry_once H (fuel + 1) k desc rcvbuf send_size rsz false
        has_epiped = some ((cs.flatten.length : Int), d2, vfree k2) ∧
      d2.xmit_buff.take cs.flatten.length = cs.flatten ∧ connected d2 ∧
      progress k k2 rest restr 1 0 := by
  obtain ⟨k1, h1, p1⟩ := send_header_full k desc has_epiped send_size rest hd hks hpos
  obtain ⟨rb, k2, h2, e2, p2⟩ := receive_and_copy H cs k1 desc rcvbuf rsz has_epiped
    send_size restr hd (by rw [p1.recvs, hkr]) hne0 hne hfit hcomp
  refine ⟨{ desc with xmit_buff := memcpy desc.xmit_buff rb cs.flatten.length }, k2, ?_, e2, hd,
    ?_⟩
  · simp only [sock_send_receive_retry_once, h1, h2, copy_response, cleanup, Int.toNat_ofNat]
  · have := p1.progress_trans p2
    rw [p1.sends] at this
    simpa using this

/-- A whole pass of `sock_send_sglist_receive` with a peer that takes the header and the
payload segments and delivers a complete response. -/
theorem sock_send_sglist_receive_pass (H : Framer) (fuel : Nat) (cs : List (List Char))
    (k : Kernel) (desc : srb_cdmi_desc) (rcvbuf : List Char) (send_size rsz has_epiped : Int)
    (rest : List SendReply) (restr : List RecvReply) (hd : connected desc)
    (hpos : 0 < send_size) (hseg : ∀ seg ∈ desc.sgl, seg ≠ [])
    (hks : k.sends = takes_all send_size desc.sgl ++ rest)
    (hkr : k.recvs = deliver cs ++ restr) (hne0 : cs ≠ []) (hne : ∀ c ∈ cs, c ≠ [])
    (hfit : (cs.flatten.length : Int) ≤ rsz) (hcomp : completes H [] cs) :
    ∃ d2 k2, sock_send_sglist_receive_retry_once H (fuel + 1) k desc rcvbuf send_size rsz false
        has_epiped = some ((cs.flatten.length : Int), d2, vfree k2) ∧
      d2.xmit_buff.take cs.flatten.length = cs.flatten ∧ connected d2 ∧
      progress k k2 rest restr 1 0 := by
  obtain ⟨k1, h1, p1⟩ := send_header_full k desc has_epiped send_size _ hd hks hpos
  obtain ⟨ret2, k1b, h1b, p1b⟩ := send_sglist_full desc.sgl k1 desc has_epiped 0 send_size rest
    hd hseg p1.sends
  obtain ⟨rb, k2, h2, e2, p2⟩ := receive_and_copy H cs k1b desc rcvbuf rsz
    has_epiped ret2 restr hd (by rw [p1b.recvs, p1.recvs, hkr]) hne0 hne hfit hcomp
  refine ⟨{ desc with xmit_buff := memcpy desc.xmit_buff rb cs.flatten.length }, k2, ?_, e2, hd,
    ?_⟩
  · simp only [sock_send_sglist_receive_retry_once, h1, h1b, h2, copy_response, cleanup,
      Int.toNat_ofNat]
  · have := (p1.progress_trans p1b).progress_trans p2
    rw [p1b.sends] at this
    simpa using this

/-! ## One `-EPIPE`, then a peer that behaves -/

/-- The receive loop when the first `-EPIPE` of the exchange comes on a receive. -/
theorem receive_epipe_first (H : Framer) (part : List (List Char)) (k : Kernel)
    (desc : srb_cdmi_desc) (rcvbuf : List Char) (rsz ret : Int) (e : RecvReply)
    (restr : List RecvReply) (hd : connected desc) (hc : connects_succeed k)
    (hk : k.recvs = deliver part ++ e :: restr) (he : RecvReply.epipe e)
    (hne : ∀ c ∈ part, c ≠ []) (hfit : (part.flatten.length : Int) ≤ rsz)
    (hinc : incomplete H [] part) :
    ∃ s rb k2, receive_response H (rsz.toNat + 1) k desc rcvbuf rsz false 0 ret 0
        = some (Exit.retry_once, reconnected desc s, k2, rb) ∧
      progress k k2 k.sends restr 0 1 := by
  have hfuel : part.length < rsz.toNat + 1 := by
    have := length_le_flatten part hne
    omega
  obtain ⟨s, rb, k2, h2, p2⟩ := receive_response_epipe_first H part (rsz.toNat + 1) k desc rcvbuf
    rsz ret [] e restr hd hc (by simp) hk he hne (by simpa using hfit) hinc hfuel
  simp only [List.length_nil, Nat.cast_zero] at h2
  exact ⟨s, rb, k2, h2, p2⟩

/-- `sock_send_receive` from `retry_once`: `-EPIPE` on the header send, then a peer that
behaves. -/
theorem sock_send_receive_epipe_header (H : Framer) (cs : List (List Char)) (k : Kernel)
    (desc : srb_cdmi_desc) (rcvbuf : List Char) (send_size rsz : Int) (e : SendReply)
    (rest : List SendReply) (restr : List RecvReply) (hd : connected desc)
    (hc : connects_succeed k) (hpos : 0 < send_size) (he : SendReply.epipe e)
    (hks : k.sends = e :: full send_size :: rest)
    (hkr : k.recvs = deliver cs ++ restr) (hne0 : cs ≠ []) (hne : ∀ c ∈ cs, c ≠ [])
    (hfit : (cs.flatten.length : Int) ≤ rsz) (hcomp : completes H [] cs) :
    ∃ d2 k2, sock_send_receive_retry_once H 2 k desc rcvbuf send_size rsz false 0
        = some ((cs.flatten.length : Int), d2, vfree k2) ∧
      d2.xmit_buff.take cs.flatten.length = cs.flatten ∧ connected d2 ∧
      progress k k2 rest restr 2 1 := by
  obtain ⟨s1, k1, h1, p1⟩ := send_header_epipe_first k desc send_size hd
    (by rw [hks]; exact he) hc
  obtain ⟨d2, k2, h2, e2, e3, p2⟩ := sock_send_receive_pass H 0 cs k1 (reconnected desc s1)
    rcvbuf send_size rsz 1 rest restr ⟨rfl, s1, rfl⟩ hpos (by rw [p1.sends, hks]; rfl)
    (by rw [p1.recvs, hkr]) hne0 hne hfit hcomp
  refine ⟨d2, k2, ?_, e2, e3, p1.progress_trans p2⟩
  rw [← h2]
  simp only [sock_send_receive_retry_once, h1]

/-- `sock_send_receive` from `retry_once`: `-EPIPE` on a receive, then a peer that
behaves. -/
theorem sock_send_receive_epipe_receive (H : Framer) (part cs : List (List Char)) (k : Kernel)
    (desc : srb_cdmi_desc) (rcvbuf : List Char) (send_size rsz : Int) (e : RecvReply)
    (rest : List SendReply) (restr : List RecvReply) (hd : connected desc)
    (hc : connects_succeed k) (hpos : 0 < send_size) (he : RecvReply.epipe e)
    (hks : k.sends = full send_size :: full send_size :: rest)
    (hkr : k.recvs = deliver part ++ e :: (deliver cs ++ restr))
    (hpne : ∀ c ∈ part, c ≠ []) (hpfit : (part.flatten.length : Int) ≤ rsz)
    (hinc : incomplete H [] part) (hne0 : cs ≠ []) (hne : ∀ c ∈ cs, c ≠ [])
    (hfit : (cs.flatten.length : Int) ≤ rsz) (hcomp : completes H [] cs) :
    ∃ d2 k2, sock_send_receive_retry_once H 2 k desc rcvbuf send_size rsz false 0
        = some ((cs.flatten.length : Int), d2, vfree k2) ∧
      d2.xmit_buff.take cs.flatten.length = cs.flatten ∧ connected d2 ∧
      progress k k2 rest restr 2 1 := by
  obtain ⟨k0, h0, p0⟩ := send_header_full k desc 0 send_size _ hd hks hpos
  obtain ⟨s1, rb, k1, h1, p1⟩ := receive_epipe_first H part k0 desc rcvbuf rsz send_size e
    (deliver cs ++ restr) hd (connects_succeed_of_progress p0 hc) (by rw [p0.recvs, hkr]) he
    hpne hpfit hinc
  obtain ⟨d2, k2, h2, e2, e3, p2⟩ := sock_send_receive_pass H 0 cs k1 (reconnected desc s1)
    rb send_size rsz 1 rest restr ⟨rfl, s1, rfl⟩ hpos (by rw [p1.sends, p0.sends])
    p1.recvs hne0 hne hfit hcomp
  refine ⟨d2, k2, ?_, e2, e3, ?_⟩
  · rw [← h2]
    simp only [sock_send_receive_retry_once, h0, h1]
  · have := (p0.progress_trans p1).progress_trans p2
    simpa using this

/-- `sock_send_sglist_receive` from `retry_once`: `-EPIPE` on the header send, then a
peer that behaves. -/
theorem sock_send_sglist_receive_epipe_header (H : Framer) (cs : List (List Char))
    (k : Kernel) (desc : srb_cdmi_desc) (rcvbuf : List Char) (send_size rsz : Int)
    (e : SendReply) (rest : List SendReply) (restr : List RecvReply) (hd : connected desc)
    (hc : connects_succeed k) (hpos : 0 < send_size) (hseg : ∀ seg ∈ desc.sgl, seg ≠ [])
    (he : SendReply.epipe e) (hks : k.sends = e :: (takes_all send_size desc.sgl ++ rest))
    (hkr : k.recvs = deliver cs ++ restr) (hne0 : cs ≠ []) (hne : ∀ c ∈ cs, c ≠ [])
    (hfit : (cs.flatten.length : Int) ≤ rsz) (hcomp : completes H [] cs) :
    ∃ d2 k2, sock_send_sglist_receive_retry_once H 2 k desc rcvbuf send_size rsz false 0
        = some ((cs.flatten.length : Int), d2, vfree k2) ∧
      d2.xmit_buff.take cs.flatten.length = cs.flatten ∧ connected d2 ∧
      progress k k2 rest restr 2 1 := by
  obtain ⟨s1, k1, h1, p1⟩ := send_header_epipe_first k desc send_size hd
    (by rw [hks]; exact he) hc
  obtain ⟨d2, k2, h2, e2, e3, p2⟩ := sock_send_sglist_receive_pass H 0 cs k1
    (reconnected desc s1) rcvbuf send_size rsz 1 rest restr ⟨rfl, s1, rfl⟩ hpos hseg
    (by rw [p1.sends, hks]; rfl) (by rw [p1.recvs, hkr]) hne0 hne hfit hcomp
  refine ⟨d2, k2, ?_, e2, e3, p1.progress_trans p2⟩
  rw [← h2]
  simp only [sock_send_sglist_receive_retry_once, h1]

/-- `sock_send_sglist_receive` from `retry_once`: `-EPIPE` on the send of the payload
segment that follows the segments `pre`, then a peer that behaves. -/
theorem sock_send_sglist_receive_epipe_segment (H : Framer) (cs : List (List Char))
    (pre : List (List Char)) (seg : List Char) (post : List (List Char))
    (k : Kernel) (desc : srb_cdmi_desc) (rcvbuf : List Char) (send_size rsz : Int)
    (e : SendReply) (rest : List SendReply) (restr : List RecvReply) (hd : connected desc)
    (hc : connects_succeed k) (hpos : 0 < send_size) (hsgl : desc.sgl = pre ++ seg :: post)
    (hseg : ∀ seg ∈ desc.sgl, seg ≠ []) (he : SendReply.epipe e)
    (hks : k.sends = full send_size :: (pre.map (fun seg => full seg.length) ++
      e :: (takes_all send_size desc.sgl ++ rest)))
    (hkr : k.recvs = deliver cs ++ restr) (hne0 : cs ≠ []) (hne : ∀ c ∈ cs, c ≠ [])
    (hfit : (cs.flatten.length : Int) ≤ rsz) (hcomp : completes H [] cs) :
    ∃ d2 k2, sock_send_sglist_receive_retry_once H 2 k desc rcvbuf send_size rsz false 0
        = some ((cs.flatten.length : Int), d2, vfree k2) ∧
      d2.xmit_buff.take cs.flatten.length = cs.flatten ∧ connected d2 ∧
      progress k k2 rest restr 2 1 := by
  obtain ⟨k0, h0, p0⟩ := send_header_full k desc 0 send_size _ hd hks hpos
  obtain ⟨s1, k1, h1, p1⟩ := send_sglist_epipe_first pre seg post k0 desc 0 send_size e
    (takes_all send_size desc.sgl ++ rest) hd (connects_succeed_of_progress p0 hc)
    (fun x hx => hseg x (by rw [hsgl]; simp [hx])) he p0.sends
  obtain ⟨d2, k2, h2, e2, e3, p2⟩ := sock_send_sglist_receive_pass H 0 cs k1
    (reconnected desc s1) rcvbuf send_size rsz 1 rest restr ⟨rfl, s1, rfl⟩ hpos hseg
    p1.sends (by rw [p1.recvs, p0.recvs, hkr]) hne0 hne hfit hcomp
  refine ⟨d2, k2, ?_, e2, e3, ?_⟩
  · rw [← h2]
    simp only [sock_send_sglist_receive_retry_once, h0, hsgl, h1]
  · have := (p0.progress_trans p1).progress_trans p2
    simpa using this

/-- `sock_send_sglist_receive` from `retry_once`: `-EPIPE` on a receive, then a peer that
behaves. -/
theorem sock_send_sglist_receive_epipe_receive (H : Framer) (part cs : List (List Char))
    (k : Kernel) (desc : srb_cdmi_desc) (rcvbuf : List Char) (send_size rsz : Int)
    (e : RecvReply) (rest : List SendReply) (restr : List RecvReply) (hd : connected desc)
    (hc : connects_succeed k) (hpos : 0 < send_size) (hseg : ∀ seg ∈ desc.sgl, seg ≠ [])
    (he : RecvReply.epipe e)
    (hks : k.sends = takes_all send_size desc.sgl ++ (takes_all send_size desc.sgl ++ rest))
    (hkr : k.recvs = deliver part ++ e :: (deliver cs ++ restr))
    (hpne : ∀ c ∈ part, c ≠ []) (hpfit : (part.flatten.length : Int) ≤ rsz)
    (hinc : incomplete H [] part) (hne0 : cs ≠ []) (hne : ∀ c ∈ cs, c ≠ [])
    (hfit : (cs.flatten.length : Int) ≤ rsz) (hcomp : completes H [] cs) :
    ∃ d2 k2, sock_send_sglist_receive_retry_once H 2 k desc rcvbuf send_size rsz false 0
        = some ((cs.flatten.length : Int), d2, vfree k2) ∧
      d2.xmit_buff.take cs.flatten.length = cs.flatten ∧ connected d2 ∧
      progress k k2 rest restr 2 1 := by
  obtain ⟨k0, h0, p0⟩ := send_header_full k desc 0 send_size _ hd hks hpos
  obtain ⟨ret2, k0b, h0b, p0b⟩ := send_sglist_full desc.sgl k0 desc 0 0 send_size
    (takes_all send_size desc.sgl ++ rest) hd hseg p0.sends
  obtain ⟨s1, rb, k1, h1, p1⟩ := receive_epipe_first H part k0b desc rcvbuf rsz ret2 e
    (deliver cs ++ restr) hd
    (connects_succeed_of_progress p0b (connects_succeed_of_progress p0 hc))
    (by rw [p0b.recvs, p0.recvs, hkr]) he hpne hpfit hinc
  obtain ⟨d2, k2, h2, e2, e3, p2⟩ := sock_send_sglist_receive_pass H 0 cs k1
    (reconnected desc s1) rb send_size rsz 1 rest restr ⟨rfl, s1, rfl⟩ hpos hseg
    (by rw [p1.sends, p0b.sends]; rfl) p1.recvs hne0 hne hfit hcomp
  refine ⟨d2, k2, ?_, e2, e3, ?_⟩
  · rw [← h2]
    simp only [sock_send_sglist_receive_retry_once, h0, h0b, h1]
  · have := ((p0.progress_trans p0b).progress_trans p1).progress_trans p2
    simpa using this

/-- The steps of an exchange before the `retry_once` label, when the allocation and the
connection set-up succeed: the descriptor is connected on reaching the label. -/
theorem exchange_start (k : Kernel) (desc : srb_cdmi_desc) (rsz : Int)
    (hd : connected desc ∨ disconnected desc) (hv : k.vmallocs.headD true = true)
    (hc : connects_succeed k) :
    ∃ k0 dA kA dB kB, vmalloc k rsz = (true, k0) ∧ check_reuse_limit k0 desc = (dA, kA) ∧
      connect_if_disconnected kA dA = (0, dB, kB) ∧
      connected dB ∧ dB.xmit_buff = desc.xmit_buff ∧ dB.sgl = desc.sgl ∧
      connects_succeed kB ∧ kB.sends = k.sends ∧ kB.recvs = k.recvs ∧
      ∃ ev, kB.trace = k.trace ++ ev ∧ invocations ev = 1 ∧ reconnects ev = 0 ∧
        header_sends ev = 0 := by
  have hvm := vmalloc_ok k rsz hv
  generalize hk0 : ({ k with vmallocs := k.vmallocs.tail,
                             trace := k.trace ++ [Event.vmalloc rsz true] } : Kernel) = k0
    at hvm
  have hc0 : connects_succeed k0 := by rw [← hk0]; exact hc
  have hs0 : k0.sends = k.sends := by rw [← hk0]
  have hr0 : k0.recvs = k.recvs := by rw [← hk0]
  have ht0 : k0.trace = k.trace ++ [Event.vmalloc rsz true] := by rw [← hk0]
  obtain ⟨hdA, pA, hxA, hgA⟩ := check_reuse_limit_spec k0 desc hd
  rcases hA : check_reuse_limit k0 desc with ⟨dA, kA⟩
  rw [hA] at hdA pA hxA hgA
  simp only at hdA pA hxA hgA
  obtain ⟨dB, kB, hB, hdB, pB, hxB, hgB⟩ := connect_if_disconnected_spec kA dA hdA
    (connects_succeed_of_progress pA hc0)
  obtain ⟨ev, hev, c1, c2, c3⟩ := (pA.progress_trans pB).trace
  refine ⟨k0, dA, kA, dB, kB, hvm, hA, hB, hdB, by rw [hxB, hxA], by rw [hgB, hgA],
    connects_succeed_of_progress pB (connects_succeed_of_progress pA hc0),
    by rw [pB.sends, pA.sends, hs0], by rw [pB.recvs, pA.recvs, hr0],
    [Event.vmalloc rsz true] ++ ev, by rw [hev, ht0, List.append_assoc], ?_, ?_, ?_⟩
  · rw [invocations_append, c3]; simp [invocations, Event.alloc]
  · rw [reconnects_append, c2]; simp [reconnects]
  · rw [header_sends_append, c1]; simp [header_sends, Event.header_send]

/-- From the steps before `retry_once` and the steps after it to the outcome of the
exchange. -/
theorem recovered_of_steps (k kB k2 : Kernel) (cs : List (List Char)) (d2 : srb_cdmi_desc)
    (sends : List SendReply) (recvs : List RecvReply)
    (hstart : ∃ ev, kB.trace = k.trace ++ ev ∧ invocations ev = 1 ∧ reconnects ev = 0 ∧
      header_sends ev = 0)
    (p : progress kB k2 sends recvs 2 1)
    (hbuf : d2.xmit_buff.take cs.flatten.length = cs.flatten) (hcon : connected d2) :
    recovered k cs (some ((cs.flatten.length : Int), d2, vfree k2)) := by
  obtain ⟨e1, h1, a1, b1, c1⟩ := hstart
  obtain ⟨e2, h2, c2, b2, a2⟩ := p.trace
  refine ⟨d2, vfree k2, e1 ++ e2 ++ [Event.vfree], rfl, hbuf, hcon, ?_, ?_, ?_, ?_⟩
  · simp only [vfree, h2, h1, List.append_assoc]
  · rw [invocations_append, invocations_append, a1, a2]; simp [invocations, Event.alloc]
  · rw [reconnects_append, reconnects_append, b1, b2]; simp [reconnects]
  · rw [header_sends_append, header_sends_append, c1, c2]; simp [header_sends, Event.header_send]

/-- C6: an exchange on which the socket layer reports `-EPIPE` exactly once, followed by a
reconnection that succeeds, sends that the socket takes whole and receives that deliver
a complete response `cs`, returns success to its caller: a single call of
`sock_send_receive` or `sock_send_sglist_receive` (response size unknown,
`rcv_size = 0`) returns the length of the response, after exactly one reconnection and
two Transport sends of the header.  The `-EPIPE` comes on the header send, on the send
of a payload segment, or on a receive that follows the chunks `part` of an incomplete
response. -/
theorem exchange_recovers_from_one_epipe (H : Framer) (k : Kernel) (desc : srb_cdmi_desc)
    (send_size : Int) (cs : List (List Char)) (rest : List SendReply) (restr : List RecvReply)
    (hd : connected desc ∨ disconnected desc) (hv : k.vmallocs.headD true = true)
    (hc : connects_succeed k) (hpos : 0 < send_size) (hcs : good_response H cs) :
    (∀ e, SendReply.epipe e → k.sends = e :: full send_size :: rest →
      k.recvs = deliver cs ++ restr →
      recovered k cs (sock_send_receive H k desc send_size 0)) ∧
    (∀ part e, RecvReply.epipe e → partial_response H part →
      k.sends = full send_size :: full send_size :: rest →
      k.recvs = deliver part ++ e :: (deliver cs ++ restr) →
      recovered k cs (sock_send_receive H k desc send_size 0)) ∧
    (∀ e, SendReply.epipe e → (∀ seg ∈ desc.sgl, seg ≠ []) →
      k.sends = e :: (takes_all send_size desc.sgl ++ rest) →
      k.recvs = deliver cs ++ restr →
      recovered k cs (sock_send_sglist_receive H k desc send_size 0)) ∧
    (∀ pre seg post e, SendReply.epipe e → desc.sgl = pre ++ seg :: post →
      (∀ seg ∈ desc.sgl, seg ≠ []) →
      k.sends = full send_size :: (pre.map (fun seg => full seg.length) ++
        e :: (takes_all send_size desc.sgl ++ rest)) →
      k.recvs = deliver cs ++ restr →
      recovered k cs (sock_send_sglist_receive H k desc send_size 0)) ∧
    (∀ part e, RecvReply.epipe e → partial_response H part →
      (∀ seg ∈ desc.sgl, seg ≠ []) →
      k.sends = takes_all send_size desc.sgl ++ (takes_all send_size desc.sgl ++ rest) →
      k.recvs = deliver part ++ e :: (deliver cs ++ restr) →
      recovered k cs (sock_send_sglist_receive H k desc send_size 0)) := by
  obtain ⟨hne0, hne, hfit, hcomp⟩ := hcs
  obtain ⟨k0, dA, kA, dB, kB, hvm, hA, hB, hdB, hxB, hgB, hcB, hsB, hrB, hstart⟩ :=
    exchange_start k desc H.SRB_CDMI_XMIT_BUFFER_SIZE hd hv hc
  have e1 : ∀ ss, sock_send_receive H k desc ss 0 = sock_send_receive_retry_once H 2 kB dB
      (List.replicate H.SRB_CDMI_XMIT_BUFFER_SIZE.toNat (Char.ofNat 0)) ss
      H.SRB_CDMI_XMIT_BUFFER_SIZE false 0 := by
    intro ss
    simp only [sock_send_receive, if_true, hvm, hA, hB]
    simp
  have e2 : ∀ ss, sock_send_sglist_receive H k desc ss 0
      = sock_send_sglist_receive_retry_once H 2 kB dB
        (List.replicate H.SRB_CDMI_XMIT_BUFFER_SIZE.toNat (Char.ofNat 0)) ss
        H.SRB_CDMI_XMIT_BUFFER_SIZE false 0 := by
    intro ss
    simp only [sock_send_sglist_receive, if_true, hvm, hA, hB]
    simp
  refine ⟨?_, ?_, ?_, ?_, ?_⟩
  · intro e he hks hkr
    obtain ⟨d2, k2, h2, b2, c2, p2⟩ := sock_send_receive_epipe_header H cs kB dB _ send_size _ e
      rest restr hdB hcB hpos he (by rw [hsB, hks]) (by rw [hrB, hkr]) hne0 hne hfit hcomp
    rw [e1, h2]
    exact recovered_of_steps k kB k2 cs d2 _ _ hstart p2 b2 c2
  · intro part e he hpart hks hkr
    obtain ⟨d2, k2, h2, b2, c2, p2⟩ := sock_send_receive_epipe_receive H part cs kB dB _
      send_size _ e rest restr hdB hcB hpos he (by rw [hsB, hks]) (by rw [hrB, hkr])
      hpart.1 hpart.2.1 hpart.2.2 hne0 hne hfit hcomp
    rw [e1, h2]
    exact recovered_of_steps k kB k2 cs d2 _ _ hstart p2 b2 c2
  · intro e he hseg hks hkr
    obtain ⟨d2, k2, h2, b2, c2, p2⟩ := sock_send_sglist_receive_epipe_header H cs kB dB _
      send_size _ e rest restr hdB hcB hpos (by rw [hgB]; exact hseg) he
      (by rw [hsB, hks, hgB]) (by rw [hrB, hkr]) hne0 hne hfit hcomp
    rw [e2, h2]
    exact recovered_of_steps k kB k2 cs d2 _ _ hstart p2 b2 c2
  · intro pre seg post e he hsgl hseg hks hkr
    obtain ⟨d2, k2, h2, b2, c2, p2⟩ := sock_send_sglist_receive_epipe_segment H cs pre seg post
      kB dB _ send_size _ e rest restr hdB hcB hpos (by rw [hgB]; exact hsgl)
      (by rw [hgB]; exact hseg) he (by rw [hsB, hks, hgB]) (by rw [hrB, hkr]) hne0 hne hfit
      hcomp
    rw [e2, h2]
    exact recovered_of_steps k kB k2 cs d2 _ _ hstart p2 b2 c2
  · intro part e he hpart hseg hks hkr
    obtain ⟨d2, k2, h2, b2, c2, p2⟩ := sock_send_sglist_receive_epipe_receive H part cs kB dB _
      send_size _ e rest restr hdB hcB hpos (by rw [hgB]; exact hseg) he
      (by rw [hsB, hks, hgB]) (by rw [hrB, hkr]) hpart.1 hpart.2.1 hpart.2.2 hne0 hne hfit hcomp
    rw [e2, h2]
    exact recovered_of_steps k kB k2 cs d2 _ _ hstart p2 b2 c2

theorem exchange_recovers_from_one_epipe_witness :
    good_response demo_framer put_confirmation ∧
    recovered peer_closing_on_segment put_confirmation
      (sock_send_sglist_receive demo_framer peer_closing_on_segment
        (put_request (demo_desc ["ab".toList, "cd".toList])
          (demo_framer.mkrange "PUT".toList "10.0.0.1".toList "/vol".toList 0 3).2) 55 0) := by
  have hg : good_response demo_framer put_confirmation := by
    refine ⟨by decide, by decide, by decide, ?_, by decide⟩
    intro n hn
    have : n = 0 ∨ n = 1 := by
      simp [put_confirmation] at hn
      omega
    rcases this with rfl | rfl <;> decide
  refine ⟨hg, ?_⟩
  exact (exchange_recovers_from_one_epipe demo_framer peer_closing_on_segment
    (put_request (demo_desc ["ab".toList, "cd".toList])
      (demo_framer.mkrange "PUT".toList "10.0.0.1".toList "/vol".toList 0 3).2) 55
    put_confirmation [] [] (Or.inr ⟨rfl, rfl⟩) rfl
    (by simp [connects_succeed, peer_closing_on_segment, peer]) (by decide) hg).2.2.2.1
    ["ab".toList] "cd".toList [] ⟨0, false⟩ ⟨Or.inl rfl, rfl⟩ rfl (by decide) rfl
    (by simp [peer_closing_on_segment, peer])

/-! ## The scatter list is not touched by an exchange -/

theorem srb_cdmi_disconnect_sgl (k : Kernel) (desc : srb_cdmi_desc) :
    (srb_cdmi_disconnect k desc).2.1.sgl = desc.sgl := by
  unfold srb_cdmi_disconnect
  split
  · rfl
  · split <;> rfl

theorem srb_cdmi_connect_sgl (k : Kernel) (desc : srb_cdmi_desc) :
    (srb_cdmi_connect k desc).2.1.sgl = desc.sgl := by
  simp only [srb_cdmi_connect, srb_cdmi_connect_out_error, sock_create_kern, kernel_connect,
    kernel_setsockopt]
  split_ifs <;> rfl

theorem epipe_reconnect_sgl (k : Kernel) (desc : srb_cdmi_desc) (has_epiped ret : Int) :
    (epipe_reconnect k desc has_epiped ret).2.1.sgl = desc.sgl := by
  unfold epipe_reconnect
  simp only
  split
  · split
    · simp only [srb_cdmi_connect_sgl, srb_cdmi_disconnect_sgl]
    · simp only [srb_cdmi_connect_sgl, srb_cdmi_disconnect_sgl]
  · simp only [srb_cdmi_disconnect_sgl]

theorem send_header_sgl (k : Kernel) (desc : srb_cdmi_desc) (has_epiped send_size : Int)
    (e : Exit) (d : srb_cdmi_desc) (k2 : Kernel)
    (h : send_header k desc has_epiped send_size = some (e, d, k2)) : d.sgl = desc.sgl := by
  unfold send_header at h
  split at h
  · exact absurd h (by simp)
  · split at h
    · simp only [Option.some.injEq] at h
      rw [← epipe_reconnect_sgl _ desc has_epiped, h]
    · split at h <;> simp only [Option.some.injEq, Prod.mk.injEq] at h <;> rw [← h.2.1]

theorem send_sglist_sgl : ∀ (segs : List (List Char)) (k : Kernel) (desc : srb_cdmi_desc)
    (has_epiped : Int) (i : Nat) (ret : Int) (e : Exit) (d : srb_cdmi_desc) (k2 : Kernel),
    send_sglist k desc has_epiped i segs ret = some (e, d, k2) → d.sgl = desc.sgl := by
  intro segs
  induction segs with
  | nil =>
    intro k desc has_epiped i ret e d k2 h
    simp only [send_sglist, Option.some.injEq, Prod.mk.injEq] at h
    rw [← h.2.1]
  | cons seg rest ih =>
    intro k desc has_epiped i ret e d k2 h
    unfold send_sglist at h
    split at h
    · exact absurd h (by simp)
    · split at h
      · simp only [Option.some.injEq] at h
        rw [← epipe_reconnect_sgl _ desc has_epiped, h]
      · split at h
        · simp only [Option.some.injEq, Prod.mk.injEq] at h
          rw [← h.2.1]
        · exact ih _ _ _ _ _ _ _ _ h

theorem receive_response_sgl (H : Framer) : ∀ (fuel : Nat) (k : Kernel) (desc : srb_cdmi_desc)
    (rcvbuf : List Char) (rcv_size : Int) (strict_rcv : Bool) (has_epiped ret rcvd : Int)
    (e : Exit) (d : srb_cdmi_desc) (k2 : Kernel) (rb : List Char),
    receive_response H fuel k desc rcvbuf rcv_size strict_rcv has_epiped ret rcvd
      = some (e, d, k2, rb) → d.sgl = desc.sgl := by
  intro fuel
  induction fuel with
  | zero =>
    intro k desc rcvbuf rcv_size strict_rcv has_epiped ret rcvd e d k2 rb h
    simp [receive_response] at h
  | succ fuel ih =>
    intro k desc rcvbuf rcv_size strict_rcv has_epiped ret rcvd e d k2 rb h
    unfold receive_response at h
    split at h
    · simp only [Option.some.injEq, Prod.mk.injEq] at h
      rw [← h.2.1]
    · split at h
      · exact absurd h (by simp)
      · simp only at h
        split at h
        · split at h
          · simp only [Option.some.injEq, Prod.mk.injEq] at h
            rw [← h.2.1, epipe_reconnect_sgl]
          · simp only [Option.some.injEq, Prod.mk.injEq] at h
            rw [← h.2.1]
        · exact ih _ _ _ _ _ _ _ _ _ _ _ _ h

theorem sock_send_receive_retry_once_sgl (H : Framer) : ∀ (fuel : Nat) (k : Kernel)
    (desc : srb_cdmi_desc) (rcvbuf : List Char) (send_size rcv_size : Int) (strict_rcv : Bool)
    (has_epiped ret : Int) (d : srb_cdmi_desc) (k2 : Kernel),
    sock_send_receive_retry_once H fuel k desc rcvbuf send_size rcv_size strict_rcv has_epiped
      = some (ret, d, k2) → d.sgl = desc.sgl := by
  intro fuel
  induction fuel with
  | zero =>
    intro k desc rcvbuf send_size rcv_size strict_rcv has_epiped ret d k2 h
    simp [sock_send_receive_retry_once] at h
  | succ fuel ih =>
    intro k desc rcvbuf send_size rcv_size strict_rcv has_epiped ret d k2 h
    unfold sock_send_receive_retry_once at h
    split at h
    · exact absurd h (by simp)
    · rename_i hh
      have := send_header_sgl _ _ _ _ _ _ _ hh
      simp only [cleanup, Option.some.injEq, Prod.mk.injEq] at h
      rw [← h.2.1, this]
    · rename_i hh
      have := send_header_sgl _ _ _ _ _ _ _ hh
      rw [ih _ _ _ _ _ _ _ _ _ _ h, this]
    · rename_i hh
      have h1 := send_header_sgl _ _ _ _ _ _ _ hh
      split at h
      · exact absurd h (by simp)
      · rename_i hr
        have := receive_response_sgl H _ _ _ _ _ _ _ _ _ _ _ _ _ hr
        simp only [cleanup, Option.some.injEq, Prod.mk.injEq] at h
        rw [← h.2.1, this, h1]
      · rename_i hr
        have := receive_response_sgl H _ _ _ _ _ _ _ _ _ _ _ _ _ hr
        rw [ih _ _ _ _ _ _ _ _ _ _ h, this, h1]
      · rename_i hr
        have := receive_response_sgl H _ _ _ _ _ _ _ _ _ _ _ _ _ hr
        simp only [copy_response, cleanup, Option.some.injEq, Prod.mk.injEq] at h
        rw [← h.2.1]
        exact this.trans h1

theorem sock_send_sglist_receive_retry_once_sgl (H : Framer) : ∀ (fuel : Nat) (k : Kernel)
    (desc : srb_cdmi_desc) (rcvbuf : List Char) (send_size rcv_size : Int) (strict_rcv : Bool)
    (has_epiped ret : Int) (d : srb_cdmi_desc) (k2 : Kernel),
    sock_send_sglist_receive_retry_once H fuel k desc rcvbuf send_size rcv_size strict_rcv
      has_epiped = some (ret, d, k2) → d.sgl = desc.sgl := by
  intro fuel
  induction fuel with
  | zero =>
    intro k desc rcvbuf send_size rcv_size strict_rcv has_epiped ret d k2 h
    simp [sock_send_sglist_receive_retry_once] at h
  | succ fuel ih =>
    intro k desc rcvbuf send_size rcv_size strict_rcv has_epiped ret d k2 h
    unfold sock_send_sglist_receive_retry_once at h
    split at h
    · exact absurd h (by simp)
    · rename_i hh
      have := send_header_sgl _ _ _ _ _ _ _ hh
      simp only [cleanup, Option.some.injEq, Prod.mk.injEq] at h
      rw [← h.2.1, this]
    · rename_i hh
      have := send_header_sgl _ _ _ _ _ _ _ hh
      rw [ih _ _ _ _ _ _ _ _ _ _ h, this]
    · rename_i hh
      have h1 := send_header_sgl _ _ _ _ _ _ _ hh
      split at h
      · exact absurd h (by simp)
      · rename_i hs
        have := send_sglist_sgl _ _ _ _ _ _ _ _ _ hs
        simp only [cleanup, Option.some.injEq, Prod.mk.injEq] at h
        rw [← h.2.1, this, h1]
      · rename_i hs
        have := send_sglist_sgl _ _ _ _ _ _ _ _ _ hs
        rw [ih _ _ _ _ _ _ _ _ _ _ h, this, h1]
      · rename_i hs
        have h2 := send_sglist_sgl _ _ _ _ _ _ _ _ _ hs
        split at h
        · exact absurd h (by simp)
        · rename_i hr
          have := receive_response_sgl H _ _ _ _ _ _ _ _ _ _ _ _ _ hr
          simp only [cleanup, Option.some.injEq, Prod.mk.injEq] at h
          rw [← h.2.1, this, h2, h1]
        · rename_i hr
          have := receive_response_sgl H _ _ _ _ _ _ _ _ _ _ _ _ _ hr
          rw [ih _ _ _ _ _ _ _ _ _ _ h, this, h2, h1]
        · rename_i hr
          have := receive_response_sgl H _ _ _ _ _ _ _ _ _ _ _ _ _ hr
          simp only [copy_response, cleanup, Option.some.injEq, Prod.mk.injEq] at h
          rw [← h.2.1]
          exact (this.trans h2).trans h1

theorem check_reuse_limit_sgl (k : Kernel) (desc : srb_cdmi_desc) :
    (check_reuse_limit k desc).1.sgl = desc.sgl := by
  unfold check_reuse_limit
  split
  · exact srb_cdmi_disconnect_sgl k desc
  · rfl

theorem connect_if_disconnected_sgl (k : Kernel) (desc : srb_cdmi_desc) :
    (connect_if_disconnected k desc).2.1.sgl = desc.sgl := by
  unfold connect_if_disconnected
  split
  · exact srb_cdmi_connect_sgl k desc
  · rfl

theorem sock_send_receive_sgl (H : Framer) (k : Kernel) (desc : srb_cdmi_desc)
    (send_size rcv_size ret : Int) (d : srb_cdmi_desc) (k2 : Kernel)
    (h : sock_send_receive H k desc send_size rcv_size = some (ret, d, k2)) :
    d.sgl = desc.sgl := by
  generalize hrsz : (if rcv_size = 0 then H.SRB_CDMI_XMIT_BUFFER_SIZE else rcv_size) = rsz
  rcases hv : vmalloc k rsz with ⟨ok, k0⟩
  have hA1 := check_reuse_limit_sgl k0 desc
  rcases hA : check_reuse_limit k0 desc with ⟨dA, kA⟩
  rw [hA] at hA1
  have hB1 := connect_if_disconnected_sgl kA dA
  rcases hB : connect_if_disconnected kA dA with ⟨r, dB, kB⟩
  rw [hB] at hB1
  simp only at hA1 hB1
  simp only [sock_send_receive, hrsz, hv, hA, hB] at h
  split at h
  · simp only [Option.some.injEq, Prod.mk.injEq] at h
    rw [← h.2.1]
  · split at h
    · simp only [cleanup, Option.some.injEq, Prod.mk.injEq] at h
      rw [← h.2.1, hB1, hA1]
    · rw [sock_send_receive_retry_once_sgl H _ _ _ _ _ _ _ _ _ _ _ h, hB1, hA1]

theorem sock_send_sglist_receive_sgl (H : Framer) (k : Kernel) (desc : srb_cdmi_desc)
    (send_size rcv_size ret : Int) (d : srb_cdmi_desc) (k2 : Kernel)
    (h : sock_send_sglist_receive H k desc send_size rcv_size = some (ret, d, k2)) :
    d.sgl = desc.sgl := by
  generalize hrsz : (if rcv_size = 0 then H.SRB_CDMI_XMIT_BUFFER_SIZE else rcv_size) = rsz
  rcases hv : vmalloc k rsz with ⟨ok, k0⟩
  have hA1 := check_reuse_limit_sgl k0 desc
  rcases hA : check_reuse_limit k0 desc with ⟨dA, kA⟩
  rw [hA] at hA1
  have hB1 := connect_if_disconnected_sgl kA dA
  rcases hB : connect_if_disconnected kA dA with ⟨r, dB, kB⟩
  rw [hB] at hB1
  simp only at hA1 hB1
  simp only [sock_send_sglist_receive, hrsz, hv, hA, hB] at h
  split at h
  · simp only [Option.some.injEq, Prod.mk.injEq] at h
    rw [← h.2.1]
  · split at h
    · simp only [cleanup, Option.some.injEq, Prod.mk.injEq] at h
      rw [← h.2.1, hB1, hA1]
    · rw [sock_send_sglist_receive_retry_once_sgl H _ _ _ _ _ _ _ _ _ _ _ h, hB1, hA1]

theorem exchange_sgl (H : Framer) (k : Kernel) (desc : srb_cdmi_desc)
    (send_size rcv_size : Int) (do_sglist : Bool) (ret : Int) (d : srb_cdmi_desc) (k2 : Kernel)
    (h : exchange H k desc send_size rcv_size do_sglist = some (ret, d, k2)) :
    d.sgl = desc.sgl := by
  unfold exchange at h
  split at h
  · exact sock_send_sglist_receive_sgl H _ _ _ _ _ _ _ h
  · exact sock_send_receive_sgl H _ _ _ _ _ _ _ h

theorem retried_loop_sgl (H : Framer) (send_size rcv_size : Int) (do_sglist : Bool) :
    ∀ (n : Nat) (k : Kernel) (desc : srb_cdmi_desc) (ret0 ret : Int) (d : srb_cdmi_desc)
      (k2 : Kernel),
      retried_loop H send_size rcv_size do_sglist n k desc ret0 = some (ret, d, k2) →
      d.sgl = desc.sgl := by
  intro n
  induction n with
  | zero =>
    intro k desc ret0 ret d k2 h
    simp only [retried_loop, Option.some.injEq, Prod.mk.injEq] at h
    rw [← h.2.1]
  | succ n ih =>
    intro k desc ret0 ret d k2 h
    unfold retried_loop at h
    split at h
    · exact absurd h (by simp)
    · rename_i he
      have h1 := exchange_sgl H _ _ _ _ _ _ _ _ he
      split at h
      · simp only [Option.some.injEq, Prod.mk.injEq] at h
        rw [← h.2.1, h1]
      · rw [ih _ _ _ _ _ _ h, h1]

theorem retried_send_receive_sgl (H : Framer) (k : Kernel) (desc : srb_cdmi_desc)
    (send_size rcv_size : Int) (do_sglist : Bool) (attempts ret : Int) (d : srb_cdmi_desc)
    (k2 : Kernel)
    (h : retried_send_receive H k desc send_size rcv_size do_sglist attempts = some (ret, d, k2)) :
    d.sgl = desc.sgl := by
  unfold retried_send_receive at h
  split at h
  · simp only [Option.some.injEq, Prod.mk.injEq] at h
    rw [← h.2.1]
  · exact retried_loop_sgl H _ _ _ _ _ _ _ _ _ _ h

/-! ## Range operations -/

theorem take_set_self (l : List Char) (n : Nat) (a : Char) : (l.set n a).take n = l.take n := by
  induction l generalizing n with
  | nil => simp
  | cons x t ih =>
    cases n with
    | zero => simp
    | succ n => simp [ih]

theorem char_toNat_inj (x c : Char) (h : x.toNat = c.toNat) : x = c := by
  rw [← Char.ofNat_toNat x, ← Char.ofNat_toNat c, h]

/-- `strncmp` against a literal without NUL is 0 exactly when the literal is a prefix. -/
theorem strncmp_eq_zero_iff : ∀ (b a : List Char), (∀ c ∈ b, c ≠ Char.ofNat 0) →
    (strncmp a b b.length = 0 ↔ b <+: a) := by
  intro b
  induction b with
  | nil => intro a _; simp [strncmp]
  | cons c t ih =>
    intro a hb
    have hc : c ≠ Char.ofNat 0 := hb c (by simp)
    have ht := fun a => ih a (fun x hx => hb x (by simp [hx]))
    cases a with
    | nil =>
      have h1 : Char.ofNat 0 ≠ c := fun h => hc h.symm
      have h2 : ((Char.ofNat 0).toNat : Int) - (c.toNat : Int) ≠ 0 := by
        intro h
        have h3 : (Char.ofNat 0).toNat = c.toNat := by omega
        exact h1 (char_toNat_inj _ _ h3)
      simp only [strncmp, List.length_cons, List.headD_nil, List.headD_cons, ne_eq, h1,
        not_false_eq_true, if_true, h2, false_iff]
      simp
    | cons x a =>
      by_cases hx : x = c
      · subst hx
        simp only [strncmp, List.length_cons, List.headD_cons, ne_eq, not_true_eq_false,
          if_false, hc, List.tail_cons, ht a]
        simp
      · have h2 : (x.toNat : Int) - (c.toNat : Int) ≠ 0 := by
          intro h
          have h3 : x.toNat = c.toNat := by omega
          exact hx (char_toNat_inj _ _ h3)
        have hx2 : ¬ c = x := fun h => hx h.symm
        simp only [strncmp, List.length_cons, List.headD_cons, ne_eq, hx, not_false_eq_true,
          if_true, h2, false_iff]
        simp [hx2]

theorem HTTP_204_no_nul : ∀ c ∈ HTTP_204, c ≠ Char.ofNat 0 := by decide

/-- What `srb_cdmi_putrange` returns once its exchange completed. -/
theorem srb_cdmi_putrange_completed (H : Framer) (nb_req_retries : Nat) (k : Kernel)
    (desc : srb_cdmi_desc) (offset : Nat) (size len : Int) (d1 : srb_cdmi_desc) (k1 : Kernel)
    (hreq : 0 < (H.mkrange "PUT".toList desc.ip_addr desc.filename offset
      (range_end offset size)).1)
    (hx : retried_send_receive H k
      (put_request desc (H.mkrange "PUT".toList desc.ip_addr desc.filename offset
        (range_end offset size)).2)
      (H.mkrange "PUT".toList desc.ip_addr desc.filename offset (range_end offset size)).1 0
      true nb_req_retries = some (len, d1, k1))
    (hlen : 0 ≤ len) :
    srb_cdmi_putrange H nb_req_retries k desc offset size
      = some (if HTTP_204 <+: d1.xmit_buff then 0 else - EIO, d1, k1) := by
  have h1 : ¬ ((H.mkrange "PUT".toList desc.ip_addr desc.filename offset
      (range_end offset size)).1 ≤ 0) := by omega
  have h2 : ¬ (len < 0) := by omega
  simp only [srb_cdmi_putrange, h1, if_false, hx, h2, ne_eq,
    strncmp_eq_zero_iff HTTP_204 d1.xmit_buff HTTP_204_no_nul]
  by_cases hp : HTTP_204 <+: d1.xmit_buff <;> simp [hp]

/-- C2 (fails on the code): when the request builder returns 0, `srb_cdmi_putrange`
returns 0, the value of success, without any exchange (the socket layer is untouched);
`srb_cdmi_getrange` turns the same builder result into `-EIO`. -/
theorem srb_cdmi_putrange_builder_zero :
    srb_cdmi_putrange failing_builder_framer 3 (put_peer []) two_segments 0 4
      = some (0, two_segments, put_peer []) ∧
    srb_cdmi_getrange failing_builder_framer 3 (put_peer []) two_segments 0 4
      = some (- EIO, two_segments, put_peer []) := by
  constructor <;> rfl

/-- C3 (as stated, fails): a completed exchange answered by `404 Not Found` makes
`srb_cdmi_putrange` return `-EIO`, not `-ENODEV`. -/
theorem srb_cdmi_putrange_404_is_EIO :
    (srb_cdmi_putrange demo_framer 3 (put_peer "HTTP/1.1 404 Not Found\r\n\r\n".toList)
      two_segments 0 4).map (fun r => r.1) = some (- EIO) ∧
    (srb_cdmi_putrange demo_framer 3 (put_peer "HTTP/1.1 404 Not Found\r\n\r\n".toList)
      two_segments 0 4).map (fun r => r.1) ≠ some (-ENODEV) := by
  constructor <;> decide

/-- C3 (amended): when the exchange of `srb_cdmi_putrange` completes and the transmit
buffer does not begin with the 204 confirmation, the result is `-EIO` whatever the
status of the response (`200 OK` and `404 Not Found` alike). -/
theorem srb_cdmi_putrange_not_confirmed (H : Framer) (nb_req_retries : Nat) (k : Kernel)
    (desc : srb_cdmi_desc) (offset : Nat) (size len : Int) (d1 : srb_cdmi_desc) (k1 : Kernel)
    (hreq : 0 < (H.mkrange "PUT".toList desc.ip_addr desc.filename offset
      (range_end offset size)).1)
    (hx : retried_send_receive H k
      (put_request desc (H.mkrange "PUT".toList desc.ip_addr desc.filename offset
        (range_end offset size)).2)
      (H.mkrange "PUT".toList desc.ip_addr desc.filename offset (range_end offset size)).1 0
      true nb_req_retries = some (len, d1, k1))
    (hlen : 0 ≤ len) (hnot : ¬ HTTP_204 <+: d1.xmit_buff) :
    srb_cdmi_putrange H nb_req_retries k desc offset size = some (- EIO, d1, k1) := by
  rw [srb_cdmi_putrange_completed H nb_req_retries k desc offset size len d1 k1 hreq hx hlen]
  simp [hnot]

theorem srb_cdmi_putrange_not_confirmed_witness :
    (srb_cdmi_putrange demo_framer 3 (put_peer "HTTP/1.1 200 OK\r\n\r\n".toList)
      two_segments 0 4).map (fun r => r.1) = some (- EIO) := by
  rcases h : retried_send_receive demo_framer (put_peer "HTTP/1.1 200 OK\r\n\r\n".toList)
      (put_request two_segments (demo_framer.mkrange "PUT".toList two_segments.ip_addr
        two_segments.filename 0 (range_end 0 4)).2)
      (demo_framer.mkrange "PUT".toList two_segments.ip_addr two_segments.filename 0
        (range_end 0 4)).1 0 true (3 : Nat) with _ | ⟨len, d1, k1⟩
  · exact absurd h (by decide)
  · have hl : (retried_send_receive demo_framer (put_peer "HTTP/1.1 200 OK\r\n\r\n".toList)
        (put_request two_segments (demo_framer.mkrange "PUT".toList two_segments.ip_addr
          two_segments.filename 0 (range_end 0 4)).2)
        (demo_framer.mkrange "PUT".toList two_segments.ip_addr two_segments.filename 0
          (range_end 0 4)).1 0 true (3 : Nat)).map
        (fun r => (r.1, r.2.1.xmit_buff.take 19))
        = some (19, "HTTP/1.1 200 OK\r\n\r\n".toList) := by decide
    rw [h] at hl
    simp only [Option.map_some', Option.some.injEq, Prod.mk.injEq] at hl
    rw [srb_cdmi_putrange_not_confirmed demo_framer 3 _ two_segments 0 4 len d1 k1 (by decide) h
      (by rw [hl.1]; decide)
      (by
        intro hp
        have h19 := List.prefix_of_prefix_length_le (List.take_prefix 19 d1.xmit_buff) hp
          (by rw [hl.2]; decide)
        rw [hl.2] at h19
        exact absurd h19 (by decide))]
    rfl

/-- C4: for every completed metadata exchange (`len ≥ 0` bytes of response in the
transmit buffer), with 404 outside the success class, `srb_cdmi_getsize` returns
`-ENODEV` when the status is 404; `-EIO` when the status cannot be parsed or is another
status outside the success class; `-EIO` when the status is in the success class and
the field `"cdmi_size"` cannot be extracted; and 0 with `*size` set to the extracted
value exactly when the status is in the success class and the field is extracted. -/
theorem srb_cdmi_getsize_completed (H : Framer) (k : Kernel) (desc : srb_cdmi_desc)
    (size : Nat) (len : Int) (d1 : srb_cdmi_desc) (k1 : Kernel)
    (hreq : 0 < (H.mkmetadata desc.ip_addr desc.filename).1)
    (hx : sock_send_receive H k
      (put_request desc (H.mkmetadata desc.ip_addr desc.filename).2)
      (H.mkmetadata desc.ip_addr desc.filename).1 0 = some (len, d1, k1))
    (hlen : 0 ≤ len)
    (hclass : H.get_status_range H.SRB_HTTP_STATUS_NOT_FOUND ≠ H.SRB_HTTP_STATUSRANGE_SUCCESS) :
    (H.get_status (d1.xmit_buff.take len.toNat) = some H.SRB_HTTP_STATUS_NOT_FOUND →
      srb_cdmi_getsize H k desc size = some (-ENODEV, size, d1, k1)) ∧
    (H.get_status (d1.xmit_buff.take len.toNat) = none →
      srb_cdmi_getsize H k desc size = some (- EIO, size, d1, k1)) ∧
    (∀ code, H.get_status (d1.xmit_buff.take len.toNat) = some code →
      H.get_status_range code ≠ H.SRB_HTTP_STATUSRANGE_SUCCESS →
      code ≠ H.SRB_HTTP_STATUS_NOT_FOUND →
      srb_cdmi_getsize H k desc size = some (- EIO, size, d1, k1)) ∧
    (∀ code, H.get_status (d1.xmit_buff.take len.toNat) = some code →
      H.get_status_range code = H.SRB_HTTP_STATUSRANGE_SUCCESS →
      H.header_get_uint64 (d1.xmit_buff.take len.toNat) "\"cdmi_size\"".toList = none →
      srb_cdmi_getsize H k desc size = some (- EIO, size,
        { d1 with xmit_buff := d1.xmit_buff.set len.toNat (Char.ofNat 0) }, k1)) ∧
    (∀ v d2 k2, srb_cdmi_getsize H k desc size = some (0, v, d2, k2) ↔
      (∃ code, H.get_status (d1.xmit_buff.take len.toNat) = some code ∧
        H.get_status_range code = H.SRB_HTTP_STATUSRANGE_SUCCESS ∧
        H.header_get_uint64 (d1.xmit_buff.take len.toNat) "\"cdmi_size\"".toList = some v) ∧
      d2 = { d1 with xmit_buff := d1.xmit_buff.set len.toNat (Char.ofNat 0) } ∧ k2 = k1) := by
  have h1 : ¬ ((H.mkmetadata desc.ip_addr desc.filename).1 ≤ 0) := by omega
  have h2 : ¬ (len < 0) := by omega
  have key : srb_cdmi_getsize H k desc size =
      match H.get_status (d1.xmit_buff.take len.toNat) with
      | none => some (- EIO, size, d1, k1)
      | some code =>
        if H.get_status_range code ≠ H.SRB_HTTP_STATUSRANGE_SUCCESS then
          if code = H.SRB_HTTP_STATUS_NOT_FOUND then some (-ENODEV, size, d1, k1)
          else some (- EIO, size, d1, k1)
        else
          match H.header_get_uint64 (d1.xmit_buff.take len.toNat) "\"cdmi_size\"".toList with
          | none => some (- EIO, size,
              { d1 with xmit_buff := d1.xmit_buff.set len.toNat (Char.ofNat 0) }, k1)
          | some v => some (0, v,
              { d1 with xmit_buff := d1.xmit_buff.set len.toNat (Char.ofNat 0) }, k1) := by
    simp only [srb_cdmi_getsize, h1, if_false, hx, h2, take_set_self]
  rw [key]
  refine ⟨?_, ?_, ?_, ?_, ?_⟩
  · intro hs
    simp only [hs, hclass, ne_eq, not_false_eq_true, if_true]
  · intro hs
    simp only [hs]
  · intro code hs hr hc
    simp only [hs, hr, ne_eq, not_false_eq_true, if_true, hc, if_false]
  · intro code hs hr hg
    simp only [hs, hr, ne_eq, not_true_eq_false, if_false, hg]
  · intro v d2 k2
    cases hs : H.get_status (d1.xmit_buff.take len.toNat) with
    | none => simp
    | some code =>
      by_cases hr : H.get_status_range code = H.SRB_HTTP_STATUSRANGE_SUCCESS
      · cases hg : H.header_get_uint64 (d1.xmit_buff.take len.toNat)
            "\"cdmi_size\"".toList with
        | none => simp [hr]
        | some w =>
          simp only [hr, ne_eq, not_true_eq_false, if_false, Option.some.injEq, Prod.mk.injEq,
            true_and, exists_eq_left']
          constructor
          · rintro ⟨rfl, rfl, rfl⟩
            exact ⟨rfl, rfl, rfl⟩
          · rintro ⟨rfl, rfl, rfl⟩
            exact ⟨rfl, rfl, rfl⟩
      · by_cases hc : code = H.SRB_HTTP_STATUS_NOT_FOUND
        · subst hc
          simp [hr]
        · simp [hr, hc]

theorem srb_cdmi_getsize_completed_witness :
    (srb_cdmi_getsize demo_framer metadata_peer (demo_desc []) 0).map (fun r => (r.1, r.2.1))
      = some (0, 4096) := by
  rcases h : sock_send_receive demo_framer metadata_peer
      (put_request (demo_desc []) (demo_framer.mkmetadata (demo_desc []).ip_addr
        (demo_desc []).filename).2)
      (demo_framer.mkmetadata (demo_desc []).ip_addr (demo_desc []).filename).1 0
      with _ | ⟨len, d1, k1⟩
  · exact absurd h (by decide)
  · have hl : (sock_send_receive demo_framer metadata_peer
        (put_request (demo_desc []) (demo_framer.mkmetadata (demo_desc []).ip_addr
          (demo_desc []).filename).2)
        (demo_framer.mkmetadata (demo_desc []).ip_addr (demo_desc []).filename).1 0).map
        (fun r => (r.1, r.2.1.xmit_buff.take 38)) = some (38, metadata_response) := by decide
    rw [h] at hl
    simp only [Option.map_some', Option.some.injEq, Prod.mk.injEq] at hl
    obtain ⟨hlen, hbuf⟩ := hl
    subst hlen
    have key := (srb_cdmi_getsize_completed demo_framer metadata_peer (demo_desc []) 0 38 d1 k1
      (by decide) h (by decide) (by decide)).2.2.2.2 4096
      { d1 with xmit_buff := d1.xmit_buff.set (38 : Int).toNat (Char.ofNat 0) } k1
    rw [(key.mpr ⟨⟨200, by
      show demo_framer.get_status (d1.xmit_buff.take 38) = some 200
      rw [hbuf]; decide, by decide, by
      show demo_framer.header_get_uint64 (d1.xmit_buff.take 38) _ = some 4096
      rw [hbuf]; decide⟩, rfl, rfl⟩)]
    rfl

/-- C5: when the body left after stripping the header has a length different from
`size`, `srb_cdmi_getrange` returns `-EIO` and the scatter segments are those of the
call: nothing was copied. -/
theorem srb_cdmi_getrange_length_mismatch (H : Framer) (nb_req_retries : Nat) (k : Kernel)
    (desc : srb_cdmi_desc) (offset : Nat) (size len : Int) (d1 : srb_cdmi_desc) (k1 : Kernel)
    (skipped : Nat) (body_len : Int)
    (hreq : 0 < (H.mkrange "GET".toList desc.ip_addr desc.filename offset
      (range_end offset size)).1)
    (hx : retried_send_receive H k
      (put_request desc (H.mkrange "GET".toList desc.ip_addr desc.filename offset
        (range_end offset size)).2)
      (H.mkrange "GET".toList desc.ip_addr desc.filename offset (range_end offset size)).1 0
      false nb_req_retries = some (len, d1, k1))
    (hlen : 0 ≤ len)
    (hskip : H.skipheader (d1.xmit_buff.take len.toNat) = some (skipped, body_len))
    (hne : body_len ≠ size) :
    srb_cdmi_getrange H nb_req_retries k desc offset size = some (- EIO, d1, k1) ∧
    d1.sgl = desc.sgl := by
  have h1 : ¬ ((H.mkrange "GET".toList desc.ip_addr desc.filename offset
      (range_end offset size)).1 ≤ 0) := by omega
  have h2 : ¬ (len < 0) := by omega
  refine ⟨?_, ?_⟩
  · simp only [srb_cdmi_getrange, h1, if_false, hx, h2, hskip, ne_eq, hne, not_false_eq_true,
      if_true]
  · exact retried_send_receive_sgl H k (put_request desc _) _ _ _ _ _ _ _ hx

theorem srb_cdmi_getrange_length_mismatch_witness :
    (srb_cdmi_getrange demo_framer 3 get_peer two_segments 4096 8).map
      (fun r => (r.1, r.2.1.sgl)) = some (- EIO, ["ab".toList, "cd".toList]) := by
  rcases h : retried_send_receive demo_framer get_peer
      (put_request two_segments (demo_framer.mkrange "GET".toList two_segments.ip_addr
        two_segments.filename 4096 (range_end 4096 8)).2)
      (demo_framer.mkrange "GET".toList two_segments.ip_addr two_segments.filename 4096
        (range_end 4096 8)).1 0 false (3 : Nat) with _ | ⟨len, d1, k1⟩
  · exact absurd h (by decide)
  · have hl : (retried_send_receive demo_framer get_peer
        (put_request two_segments (demo_framer.mkrange "GET".toList two_segments.ip_addr
          two_segments.filename 4096 (range_end 4096 8)).2)
        (demo_framer.mkrange "GET".toList two_segments.ip_addr two_segments.filename 4096
          (range_end 4096 8)).1 0 false (3 : Nat)).map
        (fun r => (r.1, r.2.1.xmit_buff.take 42)) = some (42, demo_response) := by decide
    rw [h] at hl
    simp only [Option.map_some', Option.some.injEq, Prod.mk.injEq] at hl
    obtain ⟨hlen, hbuf⟩ := hl
    subst hlen
    obtain ⟨e1, e2⟩ := srb_cdmi_getrange_length_mismatch demo_framer 3 get_peer two_segments
      4096 8 42 d1 k1 38 4 (by decide) h (by decide)
      (by show demo_framer.skipheader (d1.xmit_buff.take 42) = some (38, 4)
          rw [hbuf]; decide) (by decide)
    rw [e1]
    simp only [Option.map_some', e2]
    rfl

/-- A send that the socket takes in several partial writes returns the size of the last
write, not the number of bytes sent. -/
theorem sock_xmit_loop_send_chunks (s : Nat) (region : Region) (c : Int) (hc : 0 < c)
    (rest : List SendReply) :
    ∀ (cs : List Int) (fuel : Nat) (k : Kernel) (off : Nat) (done mem : List Char),
      (∀ x ∈ cs, 0 < x) → k.sends = (cs ++ [c]).map full ++ rest →
      (cs.sum + c).toNat < fuel →
      ∃ k2, sock_xmit_loop fuel k s true region off done mem (cs.sum + c) false
        = some (c, done ++ mem, k2) ∧ k2.sends = rest := by
  intro cs
  induction cs with
  | nil =>
    intro fuel k off done mem _ hk hfuel
    obtain ⟨f, rfl⟩ : ∃ f, fuel = f + 1 := ⟨fuel - 1, by omega⟩
    simp only [List.nil_append, List.map_cons, List.map_nil, List.singleton_append] at hk
    have h1 : c ≠ 0 := by omega
    have h2 : ¬ (c < 0) := by omega
    rw [show ([] : List Int).sum + c = c by simp]
    refine ⟨{ k with sends := rest,
                     trace := k.trace ++ [Event.sendmsg s ⟨region, off⟩ (mem.take c.toNat) c c] },
      ?_, rfl⟩
    simp only [sock_xmit_loop, kernel_sendmsg, hk, List.headD_cons, List.tail_cons, full]
    simp [h1, h2]
  | cons x cs ih =>
    intro fuel k off done mem hpos hk hfuel
    obtain ⟨f, rfl⟩ : ∃ f, fuel = f + 1 := ⟨fuel - 1, by omega⟩
    have hx : 0 < x := hpos x (by simp)
    have hsum : 0 ≤ cs.sum := List.sum_nonneg (fun y hy => le_of_lt (hpos y (by simp [hy])))
    simp only [List.cons_append, List.map_cons] at hk
    simp only [List.sum_cons] at hfuel ⊢
    have h1 : x ≠ 0 := by omega
    have h2 : ¬ (x < 0) := by omega
    have h3 : (x + cs.sum + c) - x > 0 := by omega
    have e4 : x + cs.sum + c - x = cs.sum + c := by omega
    obtain ⟨k2, e, hs2⟩ := ih f
      { k with sends := (cs ++ [c]).map full ++ rest,
               trace := k.trace ++ [Event.sendmsg s ⟨region, off⟩
                 (mem.take (x + cs.sum + c).toNat) (x + cs.sum + c) x] }
      (off + x.toNat) (done ++ mem.take x.toNat) (mem.drop x.toNat)
      (fun y hy => hpos y (by simp [hy])) rfl (by omega)
    refine ⟨k2, ?_, hs2⟩
    simp only [sock_xmit_loop, kernel_sendmsg, hk, List.headD_cons, List.tail_cons, full]
    have h5 : ¬ (cs.sum + c ≤ 0) := by omega
    have h6 : 0 < cs.sum + c := by omega
    simpa [h1, h2, e4, h5, h6] using e

/-- C10 (fails on the code): a 2-byte send that the socket takes as two 1-byte writes,
with no signal pending.  Both bytes are sent, yet `sock_xmit` returns 1, the size of the
last write, and the header send of an exchange reports the transfer as incomplete
(`-EIO`). -/
theorem sock_xmit_two_partial_writes :
    sock_xmit byte_at_a_time two_byte_sender true ⟨Region.xmit_buff, 0⟩ "ab".toList 2 false
      = some (1, "ab".toList,
          { byte_at_a_time with
            sends := [],
            trace := [Event.sendmsg 0 ⟨Region.xmit_buff, 0⟩ "ab".toList 2 1,
                      Event.sendmsg 0 ⟨Region.xmit_buff, 1⟩ "b".toList 1 1] }) ∧
    (send_header byte_at_a_time two_byte_sender 0 2).map (fun r => r.1)
      = some (Exit.cleanup (- EIO)) := by
  constructor <;> decide

/-! ## The response left in the transmit buffer -/

theorem last_response_send (tr : List Event) (s : Nat) (buf : Ptr) (data : List Char)
    (size ret : Int) : last_response (tr ++ [Event.sendmsg s buf data size ret]) = [] := by
  rw [last_response_snoc]; rfl

theorem last_response_recv (tr : List Event) (s : Nat) (buf : Ptr) (data : List Char)
    (size ret : Int) :
    last_response (tr ++ [Event.recvmsg s buf size data ret]) = last_response tr ++ data := by
  rw [last_response_snoc]; rfl

theorem last_response_mgmt {k k2 : Kernel} (h : mgmt_step k k2) :
    last_response k2.trace = last_response k.trace := by
  obtain ⟨ev, hev, hm⟩ := h.trace
  rw [hev]
  clear hev
  induction ev using List.reverseRecOn with
  | nil => simp
  | append_singleton l e ih =>
    rw [← List.append_assoc, last_response_snoc, ih (fun x hx => hm x (by simp [hx]))]
    have := hm e (by simp)
    cases e <;> simp_all [Event.mgmt, response_step]

/-- After a send, no byte of a response has been received yet. -/
theorem sock_xmit_loop_send_response : ∀ (fuel : Nat) (k : Kernel) (s : Nat) (region : Region)
    (off : Nat) (done mem : List Char) (size : Int) (strict : Bool) (ret : Int)
    (m : List Char) (k2 : Kernel),
    sock_xmit_loop fuel k s true region off done mem size strict = some (ret, m, k2) →
    last_response k2.trace = [] := by
  intro fuel
  induction fuel with
  | zero => intro k s region off done mem size strict ret m k2 h; simp [sock_xmit_loop] at h
  | succ fuel ih =>
    intro k s region off done mem size strict ret m k2 h
    simp only [sock_xmit_loop, kernel_sendmsg, if_true] at h
    have hl := last_response_send k.trace s ⟨region, off⟩ (mem.take size.toNat) size
      (k.sends.headD ⟨0, false⟩).result
    split at h
    · simp only [Option.some.injEq, Prod.mk.injEq] at h
      rw [← h.2.2]; exact hl
    · split at h
      · simp only [Option.some.injEq, Prod.mk.injEq] at h
        rw [← h.2.2]; exact hl
      · split at h
        · simp only [Option.some.injEq, Prod.mk.injEq] at h
          rw [← h.2.2]; exact hl
        · split at h
          · simp only [Option.some.injEq, Prod.mk.injEq] at h
            rw [← h.2.2]; exact hl
          · split at h
            · exact ih _ _ _ _ _ _ _ _ _ _ _ h
            · simp only [Option.some.injEq, Prod.mk.injEq] at h
              rw [← h.2.2]; exact hl

theorem sock_create_kern_none (k : Kernel) (ret : Int) (k1 : Kernel)
    (h : sock_create_kern k = (ret, none, k1)) : ret < 0 := by
  simp only [sock_create_kern] at h
  split_ifs at h with h0
  · simp only [Prod.mk.injEq] at h
    rw [← h.1]; exact h0
  · simp at h

theorem srb_cdmi_connect_nonpos (k : Kernel) (desc : srb_cdmi_desc) :
    (srb_cdmi_connect k desc).1 ≤ 0 := by
  unfold srb_cdmi_connect srb_cdmi_connect_out_error
  split
  · exact le_refl 0
  · rcases hc : sock_create_kern k with ⟨ret, sock, k1⟩
    cases sock with
    | none => exact le_of_lt (sock_create_kern_none k ret k1 hc)
    | some s =>
      simp only
      rcases kernel_connect k1 s desc.ip_addr (desc.port % 65536) with ⟨ret2, k2⟩
      simp only
      split
      · rename_i h; exact le_of_lt h
      · rcases kernel_setsockopt k2 s SockOpt.TCP_NODELAY with ⟨ret3, k3⟩
        simp only
        split
        · rename_i h; exact le_of_lt h
        · exact le_refl 0

/-- The block run on `-EPIPE` either goes back to `retry_once` or goes to `cleanup` with a
negative value. -/
theorem epipe_reconnect_exit (k : Kernel) (desc : srb_cdmi_desc) (has_epiped ret : Int)
    (hret : ret < 0) :
    (epipe_reconnect k desc has_epiped ret).1 = Exit.retry_once ∨
    ∃ r, (epipe_reconnect k desc has_epiped ret).1 = Exit.cleanup r ∧ r < 0 := by
  unfold epipe_reconnect
  simp only
  split
  · split
    · rename_i hne
      exact Or.inr ⟨_, rfl, lt_of_le_of_ne (srb_cdmi_connect_nonpos _ _) hne⟩
    · exact Or.inl rfl
  · exact Or.inr ⟨ret, rfl, hret⟩

/-- A header send that goes on to the next statement sent `send_size > 0` bytes: the
descriptor is unchanged and no byte of a response has been received yet. -/
theorem send_header_next (k : Kernel) (desc : srb_cdmi_desc) (has_epiped send_size : Int)
    (ret rcvd : Int) (d : srb_cdmi_desc) (k2 : Kernel) (hpos : 0 < send_size)
    (h : send_header k desc has_epiped send_size = some (Exit.next ret rcvd, d, k2)) :
    d = desc ∧ last_response k2.trace = [] := by
  unfold send_header at h
  split at h
  · exact absurd h (by simp)
  · rename_i r m k1 hx
    split at h
    · rename_i hr
      subst hr
      simp only [Option.some.injEq] at h
      rcases epipe_reconnect_exit k1 desc has_epiped (-EPIPE) (by decide) with h1 | ⟨r, h1, _⟩ <;>
        rw [h] at h1 <;> simp at h1
    · split at h
      · simp at h
      · rename_i hne hr
        simp only [Option.some.injEq, Prod.mk.injEq] at h
        refine ⟨h.2.1.symm, ?_⟩
        rw [← h.2.2]
        unfold sock_xmit at hx
        split at hx
        · simp only [Option.some.injEq, Prod.mk.injEq] at hx
          have : r = send_size := by simpa using hr
          have h22 := hx.1
          simp only [EINVAL] at h22
          omega
        · exact sock_xmit_loop_send_response _ _ _ _ _ _ _ _ _ _ _ _ hx

/-- What one non-strict receive that does not fail does. -/
theorem sock_xmit_recv_ok (k : Kernel) (desc : srb_cdmi_desc) (buf : Ptr) (mem : List Char)
    (size ret : Int) (m : List Char) (k2 : Kernel)
    (h : sock_xmit k desc false buf mem size false = some (ret, m, k2)) (hret : 0 ≤ ret) :
    ∃ s d, k2.trace = k.trace ++ [Event.recvmsg s buf size d ret] ∧ ret = d.length ∧
      m = memcpy mem d d.length := by
  unfold sock_xmit at h
  split at h
  · simp only [Option.some.injEq, Prod.mk.injEq, EINVAL] at h
    omega
  · rename_i s hs
    refine ⟨s, ?_⟩
    simp only [sock_xmit_loop, kernel_recvmsg, Bool.false_eq_true, if_false, EINTR, EPIPE] at h
    cases hr : k.recvs.headD (RecvReply.data [] false) with
    | data bytes sig =>
      rw [hr] at h
      simp only at h
      refine ⟨bytes.take size.toNat, ?_⟩
      generalize bytes.take size.toNat = d at h
      split at h
      · simp only [Option.some.injEq, Prod.mk.injEq] at h
        omega
      · split at h
        · simp only [Option.some.injEq, Prod.mk.injEq] at h
          obtain ⟨h1, h2, h3⟩ := h
          exact ⟨by rw [← h3, h1], h1.symm, by rw [← h2]; simp⟩
        · split at h
          · simp only [Option.some.injEq, Prod.mk.injEq] at h
            omega
          · rename_i h0 h1
            exfalso
            apply h1
            by_contra hc
            exact h0 ⟨hc, by simp⟩
    | error errno sig =>
      rw [hr] at h
      simp only at h
      split at h
      · simp only [Option.some.injEq, Prod.mk.injEq] at h
        omega
      · split at h
        · simp only [Option.some.injEq, Prod.mk.injEq] at h
          rename_i h0
          omega
        · split at h
          · simp only [Option.some.injEq, Prod.mk.injEq] at h
            omega
          · rename_i h0 h1
            exfalso
            apply h1
            by_contra hc
            exact h0 ⟨hc, by simp⟩

theorem holds_response_recv (k k1 : Kernel) (rcvbuf : List Char) (rcvd ret : Int) (s : Nat)
    (buf : Ptr) (size : Int) (d : List Char)
    (hh : holds_response k rcvbuf rcvd)
    (ht : k1.trace = k.trace ++ [Event.recvmsg s buf size d ret]) (hr : ret = d.length) :
    holds_response k1
      (rcvbuf.take rcvd.toNat ++ memcpy (rcvbuf.drop rcvd.toNat) d d.length) (rcvd + ret) := by
  obtain ⟨h0, h1, h2⟩ := hh
  have hl : (last_response k.trace).length = rcvd.toNat := by omega
  refine ⟨by omega, ?_, ?_⟩
  · rw [ht, last_response_recv, h1]
    have e : (rcvd + ret).toNat = (last_response k.trace ++ d).length := by
      simp only [List.length_append]; omega
    rw [e, memcpy, ← List.append_assoc, List.take_left', List.take_length]
    simp
  · rw [ht, last_response_recv]
    simp only [List.length_append, Nat.cast_add]
    omega

/-- The receive loop for a response of unknown size: when it ends normally the receive
buffer holds the bytes delivered since the last send, and the value returned is their
number unless no receive was made; when it ends at `cleanup` the value is negative. -/
theorem receive_response_holds (H : Framer) : ∀ (fuel : Nat) (k : Kernel)
    (desc : srb_cdmi_desc) (rcvbuf : List Char) (rsz has_epiped ret rcvd : Int) (e : Exit)
    (d : srb_cdmi_desc) (k2 : Kernel) (rb : List Char),
    receive_response H fuel k desc rcvbuf rsz false has_epiped ret rcvd = some (e, d, k2, rb) →
    holds_response k rcvbuf rcvd →
    (∀ r c, e = Exit.next r c → holds_response k2 rb c ∧
      (r = c ∨ (r = ret ∧ c = rcvd ∧
        H.check_response_complete (rcvbuf.take rcvd.toNat) = true))) ∧
    (∀ r, e = Exit.cleanup r → r < 0) := by
  intro fuel
  induction fuel with
  | zero =>
    intro k desc rcvbuf rsz has_epiped ret rcvd e d k2 rb h
    simp [receive_response] at h
  | succ fuel ih =>
    intro k desc rcvbuf rsz has_epiped ret rcvd e d k2 rb h hh
    unfold receive_response at h
    split at h
    · rename_i hc
      simp only [Option.some.injEq, Prod.mk.injEq] at h
      obtain ⟨rfl, -, rfl, rfl⟩ := h
      refine ⟨?_, ?_⟩
      · intro r c he
        simp only [Exit.next.injEq] at he
        obtain ⟨rfl, rfl⟩ := he
        exact ⟨hh, Or.inr ⟨rfl, rfl, hc⟩⟩
      · intro r he; simp at he
    · split at h
      · exact absurd h (by simp)
      · rename_i ret1 mem k1 hx
        simp only at h
        split at h
        · rename_i hneg
          split at h
          · simp only [Option.some.injEq, Prod.mk.injEq] at h
            obtain ⟨he, -, -, -⟩ := h
            rcases epipe_reconnect_exit k1 desc has_epiped ret1 hneg with h1 | ⟨r1, h1, hr1⟩
            · rw [he] at h1
              subst h1
              exact ⟨fun r c hc => by simp at hc, fun r hc => by simp at hc⟩
            · rw [he] at h1
              subst h1
              refine ⟨fun r c hc => by simp at hc, fun r hc => ?_⟩
              simp only [Exit.cleanup.injEq] at hc
              omega
          · simp only [Option.some.injEq, Prod.mk.injEq] at h
            obtain ⟨rfl, -, -, -⟩ := h
            refine ⟨fun r c hc => by simp at hc, fun r hc => ?_⟩
            simp only [Exit.cleanup.injEq] at hc
            omega
        · rename_i hpos
          obtain ⟨s, dd, ht, hr, hm⟩ := sock_xmit_recv_ok k desc _ _ _ ret1 mem k1 hx (by omega)
          have hh1 := holds_response_recv k k1 rcvbuf rcvd ret1 s _ _ dd hh ht hr
          rw [← hm] at hh1
          obtain ⟨a1, a2⟩ := ih _ _ _ _ _ _ _ _ _ _ _ h hh1
          refine ⟨fun r c hc => ?_, a2⟩
          obtain ⟨b1, b2⟩ := a1 r c hc
          refine ⟨b1, Or.inl ?_⟩
          rcases b2 with b2 | ⟨b2, b3, -⟩
          · exact b2
          · rw [b2, b3]

theorem send_header_cleanup (k : Kernel) (desc : srb_cdmi_desc) (has_epiped send_size : Int)
    (r : Int) (d : srb_cdmi_desc) (k2 : Kernel)
    (h : send_header k desc has_epiped send_size = some (Exit.cleanup r, d, k2)) : r < 0 := by
  unfold send_header at h
  split at h
  · exact absurd h (by simp)
  · rename_i r1 m k1 hx
    split at h
    · rename_i hr
      simp only [Option.some.injEq] at h
      rcases epipe_reconnect_exit k1 desc has_epiped r1 (by rw [hr]; decide)
        with h1 | ⟨r2, h1, hr2⟩
      · rw [h] at h1; simp at h1
      · rw [h] at h1
        simp only [Exit.cleanup.injEq] at h1
        omega
    · split at h
      · simp only [Option.some.injEq, Prod.mk.injEq, Exit.cleanup.injEq] at h
        have := h.1
        simp only [ EIO] at this
        omega
      · simp at h

theorem holds_response_copy (k : Kernel) (xmit rb : List Char) (c : Int)
    (hh : holds_response k rb c) :
    holds_response (vfree k) (memcpy xmit rb c.toNat) c := by
  obtain ⟨h0, h1, h2⟩ := hh
  have e : last_response (vfree k).trace = last_response k.trace := by
    simp only [vfree]; rw [last_response_snoc]; rfl
  refine ⟨h0, ?_, by rw [e]; exact h2⟩
  rw [e, take_memcpy _ _ _ (by rw [h1]; omega), h1]

/-- `sock_send_receive` from `retry_once`, response size unknown: a non-negative result is
the number of bytes the socket delivered since the last send, and the transmit buffer
starts with them. -/
theorem sock_send_receive_retry_once_holds (H : Framer)
    (hcomplete : H.check_response_complete [] = false) : ∀ (fuel : Nat) (k : Kernel)
    (desc : srb_cdmi_desc) (rcvbuf : List Char) (send_size rsz has_epiped ret : Int)
    (d : srb_cdmi_desc) (k2 : Kernel),
    sock_send_receive_retry_once H fuel k desc rcvbuf send_size rsz false has_epiped
      = some (ret, d, k2) → 0 ≤ ret → 0 < send_size → holds_response k2 d.xmit_buff ret := by
  intro fuel
  induction fuel with
  | zero =>
    intro k desc rcvbuf send_size rsz has_epiped ret d k2 h
    simp [sock_send_receive_retry_once] at h
  | succ fuel ih =>
    intro k desc rcvbuf send_size rsz has_epiped ret d k2 h hret hpos
    unfold sock_send_receive_retry_once at h
    split at h
    · exact absurd h (by simp)
    · rename_i hh
      have := send_header_cleanup _ _ _ _ _ _ _ hh
      simp only [cleanup, Option.some.injEq, Prod.mk.injEq] at h
      omega
    · exact ih _ _ _ _ _ _ _ _ _ h hret hpos
    · rename_i hh
      obtain ⟨-, hl⟩ := send_header_next _ _ _ _ _ _ _ _ hpos hh
      split at h
      · exact absurd h (by simp)
      · rename_i hr
        have := (receive_response_holds H _ _ _ _ _ _ _ _ _ _ _ _ hr
          ⟨le_refl 0, by simp [hl], by simp [hl]⟩).2 _ rfl
        simp only [cleanup, Option.some.injEq, Prod.mk.injEq] at h
        omega
      · exact ih _ _ _ _ _ _ _ _ _ h hret hpos
      · rename_i r c d1 k1 rb hr
        obtain ⟨a1, a2⟩ := (receive_response_holds H _ _ _ _ _ _ _ _ _ _ _ _ hr
          ⟨le_refl 0, by simp [hl], by simp [hl]⟩).1 _ _ rfl
        have hrc : r = c := by
          rcases a2 with a2 | ⟨-, -, a2⟩
          · exact a2
          · simp [hcomplete] at a2
        simp only [copy_response, cleanup, Option.some.injEq, Prod.mk.injEq] at h
        obtain ⟨rfl, rfl, rfl⟩ := h
        subst hrc
        exact holds_response_copy k1 _ rb r a1

theorem connect_if_disconnected_nonpos (k : Kernel) (desc : srb_cdmi_desc) :
    (connect_if_disconnected k desc).1 ≤ 0 := by
  unfold connect_if_disconnected
  split
  · exact srb_cdmi_connect_nonpos k desc
  · exact le_refl 0

/-- `sock_send_receive` with a response of unknown size: a non-negative result is the
number of bytes the socket delivered since the last send, and the transmit buffer
starts with them. -/
theorem sock_send_receive_holds (H : Framer)
    (hcomplete : H.check_response_complete [] = false) (k : Kernel) (desc : srb_cdmi_desc)
    (send_size ret : Int) (d : srb_cdmi_desc) (k2 : Kernel)
    (h : sock_send_receive H k desc send_size 0 = some (ret, d, k2)) (hret : 0 ≤ ret)
    (hpos : 0 < send_size) : holds_response k2 d.xmit_buff ret := by
  rcases hv : vmalloc k H.SRB_CDMI_XMIT_BUFFER_SIZE with ⟨ok, k0⟩
  rcases hA : check_reuse_limit k0 desc with ⟨dA, kA⟩
  have hB1 := connect_if_disconnected_nonpos kA dA
  rcases hB : connect_if_disconnected kA dA with ⟨r, dB, kB⟩
  rw [hB] at hB1
  simp only at hB1
  simp only [sock_send_receive, if_true, hv, hA, hB] at h
  split at h
  · simp only [Option.some.injEq, Prod.mk.injEq, ENOMEM] at h
    omega
  · split at h
    · rename_i hne
      simp only [cleanup, Option.some.injEq, Prod.mk.injEq] at h
      omega
    · simp only [ne_eq, not_true_eq_false, decide_False] at h
      exact sock_send_receive_retry_once_holds H hcomplete _ _ _ _ _ _ _ _ _ _ h hret hpos

theorem retried_loop_holds (H : Framer) (hcomplete : H.check_response_complete [] = false)
    (send_size : Int) (hpos : 0 < send_size) :
    ∀ (n : Nat) (k : Kernel) (desc : srb_cdmi_desc) (ret0 ret : Int) (d : srb_cdmi_desc)
      (k2 : Kernel),
      retried_loop H send_size 0 false n k desc ret0 = some (ret, d, k2) → ret0 < 0 →
      0 ≤ ret → holds_response k2 d.xmit_buff ret := by
  intro n
  induction n with
  | zero =>
    intro k desc ret0 ret d k2 h h0 hret
    simp only [retried_loop, Option.some.injEq, Prod.mk.injEq] at h
    omega
  | succ n ih =>
    intro k desc ret0 ret d k2 h h0 hret
    unfold retried_loop at h
    split at h
    · exact absurd h (by simp)
    · rename_i r1 d1 k1 he
      split at h
      · simp only [Option.some.injEq, Prod.mk.injEq] at h
        obtain ⟨rfl, rfl, rfl⟩ := h
        simp only [exchange, Bool.false_eq_true, if_false] at he
        exact sock_send_receive_holds H hcomplete _ _ _ _ _ _ he hret hpos
      · rename_i hneg
        exact ih _ _ _ _ _ _ h (by omega) hret

/-- A ranged GET through the retry orchestrator: a non-negative result is the number of
bytes the socket delivered since the last send, and the transmit buffer starts with
them. -/
theorem retried_send_receive_holds (H : Framer)
    (hcomplete : H.check_response_complete [] = false) (k : Kernel) (desc : srb_cdmi_desc)
    (send_size attempts ret : Int) (d : srb_cdmi_desc) (k2 : Kernel)
    (h : retried_send_receive H k desc send_size 0 false attempts = some (ret, d, k2))
    (hret : 0 ≤ ret) (hpos : 0 < send_size) : holds_response k2 d.xmit_buff ret := by
  unfold retried_send_receive at h
  split at h
  · simp only [Option.some.injEq, Prod.mk.injEq, EINVAL] at h
    omega
  · exact retried_loop_holds H hcomplete send_size hpos _ _ _ _ _ _ _ h (by decide) hret

/-! ## The body of a ranged GET in the scatter segments -/

theorem getrange_copy_eq_slices : ∀ (segs : List (List Char)) (cursor : List Char),
    getrange_copy cursor segs = slices cursor (segs.map List.length) := by
  intro segs
  induction segs with
  | nil => intro cursor; rfl
  | cons seg segs ih =>
    intro cursor
    simp only [getrange_copy, List.map_cons, slices, ih, memcpy, List.drop_length,
      List.append_nil]

theorem slices_take : ∀ (lens : List Nat) (body : List Char) (n : Nat), lens.sum ≤ n →
    slices (body.take n) lens = slices body lens := by
  intro lens
  induction lens with
  | nil => intro body n _; rfl
  | cons a lens ih =>
    intro body n h
    simp only [List.sum_cons] at h
    simp only [slices, List.take_take, List.drop_take]
    rw [Nat.min_eq_left (by omega), ih _ _ (by omega)]

theorem slices_flatten : ∀ (lens : List Nat) (body : List Char),
    (slices body lens).flatten = body.take lens.sum := by
  intro lens
  induction lens with
  | nil => intro body; simp [slices]
  | cons a lens ih =>
    intro body
    simp only [slices, List.flatten_cons, ih, List.sum_cons, List.take_add]

theorem slices_getElem : ∀ (lens : List Nat) (body : List Char) (i : Nat) (hi : i < lens.length),
    (slices body lens)[i]? = some ((body.drop (lens.take i).sum).take lens[i]) := by
  intro lens
  induction lens with
  | nil => intro body i hi; simp at hi
  | cons a lens ih =>
    intro body i hi
    cases i with
    | zero => simp [slices]
    | succ i =>
      simp only [List.length_cons, Nat.add_lt_add_iff_right] at hi
      simp only [slices, List.getElem?_cons_succ, ih _ i hi, List.take_succ_cons, List.sum_cons,
        List.getElem_cons_succ, List.drop_drop]

/-- A successful `srb_cdmi_getrange` leaves in the segments the slices of what follows
the header in the bytes the socket delivered since the last send, whatever the socket
layer did. -/
theorem srb_cdmi_getrange_ok_body (H : Framer) (nb_req_retries : Nat) (k : Kernel)
    (desc : srb_cdmi_desc) (offset : Nat) (size : Int) (d2 : srb_cdmi_desc) (k2 : Kernel)
    (hcomplete : H.check_response_complete [] = false)
    (hframer : ∀ buf skipped len, H.skipheader buf = some (skipped, len) →
      (skipped : Int) + len = buf.length)
    (hsum : ((desc.sgl.map List.length).sum : Int) = size)
    (hok : srb_cdmi_getrange H nb_req_retries k desc offset size = some (0, d2, k2)) :
    ∃ skipped, H.skipheader (last_response k2.trace) = some (skipped, size) ∧
      d2.sgl.flatten = (last_response k2.trace).drop skipped ∧
      d2.sgl = slices ((last_response k2.trace).drop skipped) (desc.sgl.map List.length) ∧
      ∀ i (hi : i < desc.sgl.length), d2.sgl[i]? = some
        ((((last_response k2.trace).drop skipped).drop
          ((desc.sgl.take i).map List.length).sum).take desc.sgl[i].length) := by
  unfold srb_cdmi_getrange at hok
  rcases hreq : H.mkrange "GET".toList desc.ip_addr desc.filename offset
    (range_end offset size) with ⟨len, req⟩
  simp only [hreq] at hok
  split_ifs at hok with hlen
  · simp only [Option.some.injEq, Prod.mk.injEq, EIO] at hok
    omega
  rcases hr : retried_send_receive H k (put_request desc req) len 0 false nb_req_retries
    with _ | ⟨len1, d1, k1⟩
  · simp [hr] at hok
  simp only [hr] at hok
  split_ifs at hok with hneg
  · simp only [Option.some.injEq, Prod.mk.injEq] at hok
    omega
  rcases hs : H.skipheader (d1.xmit_buff.take len1.toNat) with _ | ⟨skipped, blen⟩
  · simp only [hs, Option.some.injEq, Prod.mk.injEq, EIO] at hok
    omega
  simp only [hs] at hok
  split_ifs at hok with hne
  · simp only [Option.some.injEq, Prod.mk.injEq, EIO] at hok
    omega
  simp only [ne_eq, not_not] at hne
  simp only [Option.some.injEq, Prod.mk.injEq, true_and] at hok
  obtain ⟨hd, hk⟩ := hok
  subst hk
  have hsgl : d1.sgl = desc.sgl :=
    retried_send_receive_sgl H k (put_request desc req) _ _ _ _ _ _ _ hr
  obtain ⟨h0, hbuf, hlenr⟩ := retried_send_receive_holds H hcomplete _ _ _ _ _ _ _ hr
    (by omega) (by omega)
  have hfr := hframer _ _ _ hs
  rw [hbuf] at hs hfr
  subst hne
  have hslices : d2.sgl =
      slices ((last_response k1.trace).drop skipped) (desc.sgl.map List.length) := by
    rw [← hd]
    simp only [getrange_copy_eq_slices, hsgl]
    rw [← hbuf, List.drop_take, slices_take _ _ _ (by omega)]
  have hlen : (desc.sgl.map List.length).sum = ((last_response k1.trace).drop skipped).length := by
    rw [List.length_drop]
    omega
  refine ⟨skipped, hs, ?_, hslices, ?_⟩
  · rw [hslices, slices_flatten, hlen, List.take_length]
  · intro i hi
    rw [hslices, slices_getElem _ _ i (by simpa using hi)]
    simp [List.map_take]


/-- An exchange with a peer that takes the request whole and delivers a complete response
in the chunks `cs` returns the length of the response and leaves it at the start of the
transmit buffer. -/
theorem sock_send_receive_served (H : Framer) (k : Kernel) (desc : srb_cdmi_desc)
    (send_size : Int) (cs : List (List Char)) (rest : List SendReply) (restr : List RecvReply)
    (hd : connected desc ∨ disconnected desc) (hv : k.vmallocs.headD true = true)
    (hc : connects_succeed k) (hpos : 0 < send_size) (hcs : good_response H cs)
    (hks : k.sends = full send_size :: rest) (hkr : k.recvs = deliver cs ++ restr) :
    ∃ d2 k2, sock_send_receive H k desc send_size 0 = some ((cs.flatten.length : Int), d2, k2) ∧
      d2.xmit_buff.take cs.flatten.length = cs.flatten := by
  obtain ⟨hne0, hne, hfit, hcomp⟩ := hcs
  obtain ⟨k0, dA, kA, dB, kB, hvm, hA, hB, hdB, hxB, hgB, hcB, hsB, hrB, hstart⟩ :=
    exchange_start k desc H.SRB_CDMI_XMIT_BUFFER_SIZE hd hv hc
  have e1 : sock_send_receive H k desc send_size 0 = sock_send_receive_retry_once H 2 kB dB
      (List.replicate H.SRB_CDMI_XMIT_BUFFER_SIZE.toNat (Char.ofNat 0)) send_size
      H.SRB_CDMI_XMIT_BUFFER_SIZE false 0 := by
    simp only [sock_send_receive, if_true, hvm, hA, hB]
    simp
  obtain ⟨d2, k2, h2, b2, _, _⟩ := sock_send_receive_pass H 1 cs kB dB
    (List.replicate H.SRB_CDMI_XMIT_BUFFER_SIZE.toNat (Char.ofNat 0)) send_size
    H.SRB_CDMI_XMIT_BUFFER_SIZE 0 rest restr hdB hpos (by rw [hsB, hks]) (by rw [hrB, hkr])
    hne0 hne hfit hcomp
  exact ⟨d2, vfree k2, by rw [e1, h2], b2⟩

/-- The retry orchestrator returns the result of a first exchange that succeeds. -/
theorem retried_send_receive_first (H : Framer) (k : Kernel) (desc : srb_cdmi_desc)
    (send_size rcv_size : Int) (do_sglist : Bool) (attempts : Nat) (r : Int)
    (d2 : srb_cdmi_desc) (k2 : Kernel) (hat : 0 < attempts) (hr : 0 ≤ r)
    (h : exchange H k desc send_size rcv_size do_sglist = some (r, d2, k2)) :
    retried_send_receive H k desc send_size rcv_size do_sglist attempts = some (r, d2, k2) := by
  obtain ⟨m, rfl⟩ : ∃ m, attempts = m + 1 := ⟨attempts - 1, by omega⟩
  have h1 : ¬ (((m + 1 : Nat) : Int) < 1) := by omega
  simp only [retried_send_receive, h1, if_false, Int.toNat_ofNat, retried_loop, h, ge_iff_le, hr,
    if_true]

/-- A ranged GET served by a peer that takes the request whole and delivers, in the
chunks `cs`, a complete response with a body of `size` bytes succeeds. -/
theorem srb_cdmi_getrange_served (H : Framer) (nb_req_retries : Nat) (k : Kernel)
    (desc : srb_cdmi_desc) (offset : Nat) (size : Int) (cs : List (List Char)) (skipped : Nat)
    (rest : List SendReply) (restr : List RecvReply) (hnb : 0 < nb_req_retries)
    (hd : connected desc ∨ disconnected desc) (hv : k.vmallocs.headD true = true)
    (hc : connects_succeed k)
    (hpos : 0 < (H.mkrange "GET".toList desc.ip_addr desc.filename offset
      (range_end offset size)).1)
    (hks : k.sends = full (H.mkrange "GET".toList desc.ip_addr desc.filename offset
      (range_end offset size)).1 :: rest)
    (hkr : k.recvs = deliver cs ++ restr) (hcs : good_response H cs)
    (hskip : H.skipheader cs.flatten = some (skipped, size)) :
    ∃ d2 k2, srb_cdmi_getrange H nb_req_retries k desc offset size = some (0, d2, k2) ∧
      last_response k2.trace = cs.flatten := by
  have hcomplete : H.check_response_complete [] = false := by
    have h := hcs.2.2.2.1 0 (List.length_pos.mpr hcs.1)
    simpa using h
  obtain ⟨d1, k1, h1, hbuf⟩ := sock_send_receive_served H k
    (put_request desc (H.mkrange "GET".toList desc.ip_addr desc.filename offset
      (range_end offset size)).2) _ cs rest restr hd hv hc hpos hcs hks hkr
  have h2 := retried_send_receive_first H k _ _ 0 false nb_req_retries _ d1 k1 hnb
    (Int.natCast_nonneg _) (by simpa only [exchange] using h1)
  have h3 : ¬ ((H.mkrange "GET".toList desc.ip_addr desc.filename offset
      (range_end offset size)).1 ≤ 0) := by omega
  have h4 : ¬ ((cs.flatten.length : Int) < 0) := by omega
  obtain ⟨_, hresp, _⟩ := retried_send_receive_holds H hcomplete _ _ _ _ _ _ _ h2
    (Int.natCast_nonneg _) hpos
  refine ⟨{ d1 with sgl := getrange_copy (d1.xmit_buff.drop skipped) d1.sgl }, k1, ?_, ?_⟩
  · simp only [srb_cdmi_getrange, h3, if_false, h2, h4, Int.toNat_ofNat, hbuf, hskip, ne_eq,
      not_true_eq_false]
  · rw [← hresp, Int.toNat_ofNat, hbuf]

/-- C1: `srb_cdmi_getrange (offset, size)` with scatter segments whose lengths sum to
`size` delivers the response body into the segments in list order.
* Every successful call, whatever the socket layer did (so for every split of the response
  into partial reads), leaves in the segments the bytes the socket delivered since the
  last send, after the header: their concatenation is that body, and segment `i` holds
  the body bytes that start at the sum of the lengths of the segments before it.
* A call served by a peer that takes the request whole and delivers a complete response
  with a body of `size` bytes, split into any non-empty chunks `cs`, is successful, and
  the segments hold the body of that response.
The framer is the absent `srb-http.c`: it finds no complete response before any byte
arrived, and `srb_http_skipheader` reduces the length by what it skips. -/
theorem srb_cdmi_getrange_delivers_body (H : Framer) (nb_req_retries : Nat) (k : Kernel)
    (desc : srb_cdmi_desc) (offset : Nat) (size : Int)
    (hcomplete : H.check_response_complete [] = false)
    (hframer : ∀ buf skipped len, H.skipheader buf = some (skipped, len) →
      (skipped : Int) + len = buf.length)
    (hsum : ((desc.sgl.map List.length).sum : Int) = size) :
    (∀ d2 k2, srb_cdmi_getrange H nb_req_retries k desc offset size = some (0, d2, k2) →
      ∃ skipped, H.skipheader (last_response k2.trace) = some (skipped, size) ∧
        d2.sgl.flatten = (last_response k2.trace).drop skipped ∧
        d2.sgl = slices ((last_response k2.trace).drop skipped) (desc.sgl.map List.length) ∧
        ∀ i (hi : i < desc.sgl.length), d2.sgl[i]? = some
          ((((last_response k2.trace).drop skipped).drop
            ((desc.sgl.take i).map List.length).sum).take desc.sgl[i].length)) ∧
    (∀ cs skipped rest restr, 0 < nb_req_retries → (connected desc ∨ disconnected desc) →
      k.vmallocs.headD true = true → connects_succeed k →
      0 < (H.mkrange "GET".toList desc.ip_addr desc.filename offset
        (range_end offset size)).1 →
      k.sends = full (H.mkrange "GET".toList desc.ip_addr desc.filename offset
        (range_end offset size)).1 :: rest →
      k.recvs = deliver cs ++ restr → good_response H cs →
      H.skipheader cs.flatten = some (skipped, size) →
      ∃ d2 k2, srb_cdmi_getrange H nb_req_retries k desc offset size = some (0, d2, k2) ∧
        d2.sgl.flatten = cs.flatten.drop skipped ∧
        d2.sgl = slices (cs.flatten.drop skipped) (desc.sgl.map List.length)) := by
  refine ⟨fun d2 k2 hok => srb_cdmi_getrange_ok_body H nb_req_retries k desc offset size d2 k2
    hcomplete hframer hsum hok, ?_⟩
  intro cs skipped rest restr hnb hd hv hc hpos hks hkr hcs hskip
  obtain ⟨d2, k2, hok, hresp⟩ := srb_cdmi_getrange_served H nb_req_retries k desc offset size cs
    skipped rest restr hnb hd hv hc hpos hks hkr hcs hskip
  obtain ⟨sk, hs, hflat, hsl, _⟩ := srb_cdmi_getrange_ok_body H nb_req_retries k desc offset
    size d2 k2 hcomplete hframer hsum hok
  rw [hresp, hskip] at hs
  simp only [Option.some.injEq, Prod.mk.injEq, and_true] at hs
  subst hs
  rw [hresp] at hflat hsl
  exact ⟨d2, k2, hok, hflat, hsl⟩

theorem srb_cdmi_getrange_delivers_body_witness :
    good_response demo_framer [demo_response.take 10, demo_response.drop 10] ∧
    ∃ d2 k2, srb_cdmi_getrange demo_framer 3 get_peer blank_segments 4096 4 = some (0, d2, k2) ∧
      d2.sgl = ["a".toList, "bcd".toList] := by
  have hg : good_response demo_framer [demo_response.take 10, demo_response.drop 10] := by
    refine ⟨by decide, by decide, by decide, ?_, by decide⟩
    intro n hn
    have : n = 0 ∨ n = 1 := by
      simp at hn
      omega
    rcases this with rfl | rfl <;> decide
  obtain ⟨d2, k2, hok, _, hsl⟩ :=
    (srb_cdmi_getrange_delivers_body demo_framer 3 get_peer blank_segments 4096 4 (by decide)
      (by
        intro buf skipped len hs
        simp only [demo_framer] at hs
        split at hs
        · simp at hs
        · simp only [Option.some.injEq, Prod.mk.injEq] at hs
          omega)
      (by decide)).2 [demo_response.take 10, demo_response.drop 10] 38 [] [] (by decide)
      (Or.inr ⟨rfl, rfl⟩) rfl (by simp [connects_succeed, get_peer, peer]) (by decide)
      (by decide) (by decide) hg (by decide)
  exact ⟨hg, d2, k2, hok, by rw [hsl]; decide⟩

/-! ## Termination of the transport and of an exchange -/

/-- The loop of `sock_xmit` ends within `size + 1` socket calls: each further call has a
smaller remaining size. -/
theorem sock_xmit_loop_total : ∀ (fuel : Nat) (k : Kernel) (s : Nat) (send : Bool)
    (region : Region) (off : Nat) (done mem : List Char) (size : Int) (strict : Bool),
    size.toNat < fuel →
    ∃ r, sock_xmit_loop fuel k s send region off done mem size strict = some r := by
  intro fuel
  induction fuel with
  | zero => intro k s send region off done mem size strict h; omega
  | succ fuel ih =>
    intro k s send region off done mem size strict h
    unfold sock_xmit_loop
    rcases hstep : (if send = true then
        ((kernel_sendmsg k s ⟨region, off⟩ mem size).1, mem,
          (kernel_sendmsg k s ⟨region, off⟩ mem size).2.1,
          (kernel_sendmsg k s ⟨region, off⟩ mem size).2.2)
      else kernel_recvmsg k s ⟨region, off⟩ mem size) with ⟨result, m, signal, k1⟩
    simp only [hstep]
    split
    · exact ⟨_, rfl⟩
    · split
      · exact ⟨_, rfl⟩
      · split
        · exact ⟨_, rfl⟩
        · split
          · exact ⟨_, rfl⟩
          · split
            · rename_i h1 h2 h3 h4 h5
              exact ih _ _ _ _ _ _ _ _ _ (by omega)
            · exact ⟨_, rfl⟩

theorem sock_xmit_total (k : Kernel) (desc : srb_cdmi_desc) (send : Bool) (buf : Ptr)
    (mem : List Char) (size : Int) (strict : Bool) :
    ∃ r, sock_xmit k desc send buf mem size strict = some r := by
  unfold sock_xmit
  split
  · exact ⟨_, rfl⟩
  · exact sock_xmit_loop_total _ _ _ _ _ _ _ _ _ _ (by omega)

/-- What one `kernel_recvmsg` call returns: nothing above the size asked for, and a
positive value only when a positive size was asked for. -/
theorem kernel_recvmsg_le (k : Kernel) (s : Nat) (buf : Ptr) (mem : List Char) (size : Int) :
    (kernel_recvmsg k s buf mem size).1 ≤ 0 ∨
    (0 < size ∧ (kernel_recvmsg k s buf mem size).1 ≤ size) := by
  unfold kernel_recvmsg
  split
  · rename_i bytes signal _
    simp only
    have h := List.length_take_le size.toNat bytes
    by_cases hs : 0 < size
    · right
      exact ⟨hs, by omega⟩
    · left
      have h0 : size.toNat = 0 := by omega
      rw [h0] at h ⊢
      simp
  · left
    simp only
    omega

/-- A receive that does not fail stored at least one byte and at most `size`. -/
theorem sock_xmit_loop_recv_pos : ∀ (fuel : Nat) (k : Kernel) (s : Nat) (region : Region)
    (off : Nat) (done mem : List Char) (size : Int) (strict : Bool) (ret : Int)
    (m : List Char) (k2 : Kernel),
    sock_xmit_loop fuel k s false region off done mem size strict = some (ret, m, k2) →
    0 ≤ ret → 0 < ret ∧ ret ≤ size := by
  intro fuel
  induction fuel with
  | zero => intro k s region off done mem size strict ret m k2 h; simp [sock_xmit_loop] at h
  | succ fuel ih =>
    intro k s region off done mem size strict ret m k2 h hret
    have hle := kernel_recvmsg_le k s ⟨region, off⟩ mem size
    unfold sock_xmit_loop at h
    rcases hstep : kernel_recvmsg k s ⟨region, off⟩ mem size with ⟨result, m1, signal, k1⟩
    rw [hstep] at hle
    simp only [hstep, Bool.false_eq_true, if_false] at h hle
    split at h
    · simp only [Option.some.injEq, Prod.mk.injEq, EINTR] at h
      omega
    · split at h
      · rename_i hr
        simp only [Option.some.injEq, Prod.mk.injEq] at h
        omega
      · split at h
        · simp only [Option.some.injEq, Prod.mk.injEq, EPIPE] at h
          omega
        · split at h
          · simp only [Option.some.injEq, Prod.mk.injEq] at h
            omega
          · split at h
            · have := ih _ _ _ _ _ _ _ _ _ _ _ h hret
              omega
            · simp only [Option.some.injEq, Prod.mk.injEq] at h
              omega

theorem sock_xmit_recv_pos (k : Kernel) (desc : srb_cdmi_desc) (buf : Ptr) (mem : List Char)
    (size : Int) (strict : Bool) (ret : Int) (m : List Char) (k2 : Kernel)
    (h : sock_xmit k desc false buf mem size strict = some (ret, m, k2)) (hret : 0 ≤ ret) :
    0 < ret ∧ ret ≤ size := by
  unfold sock_xmit at h
  split at h
  · simp only [Option.some.injEq, Prod.mk.injEq, EINVAL] at h
    omega
  · exact sock_xmit_loop_recv_pos _ _ _ _ _ _ _ _ _ _ _ _ h hret

theorem send_header_total (k : Kernel) (desc : srb_cdmi_desc) (has_epiped send_size : Int) :
    ∃ r, send_header k desc has_epiped send_size = some r := by
  unfold send_header
  obtain ⟨⟨ret, m, k1⟩, h⟩ := sock_xmit_total k desc true ⟨Region.xmit_buff, 0⟩ desc.xmit_buff
    send_size false
  rw [h]
  simp only
  split_ifs <;> exact ⟨_, rfl⟩

theorem send_sglist_total : ∀ (segs : List (List Char)) (k : Kernel) (desc : srb_cdmi_desc)
    (has_epiped : Int) (i : Nat) (ret : Int),
    ∃ r, send_sglist k desc has_epiped i segs ret = some r := by
  intro segs
  induction segs with
  | nil => intro k desc has_epiped i ret; exact ⟨_, rfl⟩
  | cons seg rest ih =>
    intro k desc has_epiped i ret
    unfold send_sglist
    obtain ⟨⟨r, m, k1⟩, h⟩ := sock_xmit_total k desc true ⟨Region.sg i, 0⟩ seg seg.length false
    rw [h]
    simp only
    split_ifs
    · exact ⟨_, rfl⟩
    · exact ⟨_, rfl⟩
    · exact ih _ _ _ _ _

/-- The receive loop ends within `rcv_size - rcvd + 1` receives: every receive that does
not fail adds at least one byte, and a receive into a full buffer transfers nothing and is
reported as `-EPIPE`. -/
theorem receive_response_total (H : Framer) : ∀ (fuel : Nat) (k : Kernel) (desc : srb_cdmi_desc)
    (rcvbuf : List Char) (rcv_size : Int) (strict_rcv : Bool) (has_epiped ret rcvd : Int),
    (rcv_size - rcvd).toNat < fuel →
    ∃ r, receive_response H fuel k desc rcvbuf rcv_size strict_rcv has_epiped ret rcvd
      = some r := by
  intro fuel
  induction fuel with
  | zero => intro k desc rcvbuf rcv_size strict_rcv has_epiped ret rcvd h; omega
  | succ fuel ih =>
    intro k desc rcvbuf rcv_size strict_rcv has_epiped ret rcvd h
    unfold receive_response
    split
    · exact ⟨_, rfl⟩
    · obtain ⟨⟨r, m, k1⟩, hx⟩ := sock_xmit_total k desc false ⟨Region.rcvbuf, rcvd.toNat⟩
        (rcvbuf.drop rcvd.toNat) (rcv_size - rcvd) strict_rcv
      rw [hx]
      simp only
      split
      · split <;> exact ⟨_, rfl⟩
      · rename_i hneg
        have := sock_xmit_recv_pos _ _ _ _ _ _ _ _ _ hx (by omega)
        exact ih _ _ _ _ _ _ _ _ (by omega)

/-- The block run on `-EPIPE` goes back to `retry_once` only the first time. -/
theorem epipe_reconnect_retry (k : Kernel) (desc : srb_cdmi_desc) (has_epiped ret : Int)
    (h : (epipe_reconnect k desc has_epiped ret).1 = Exit.retry_once) : has_epiped = 0 := by
  unfold epipe_reconnect at h
  simp only at h
  split at h
  · assumption
  · simp at h

theorem send_header_retry (k : Kernel) (desc : srb_cdmi_desc) (has_epiped send_size : Int)
    (d : srb_cdmi_desc) (k2 : Kernel)
    (h : send_header k desc has_epiped send_size = some (Exit.retry_once, d, k2)) :
    has_epiped = 0 := by
  unfold send_header at h
  split at h
  · simp at h
  · split_ifs at h
    · simp only [Option.some.injEq] at h
      exact epipe_reconnect_retry _ _ _ _ (by rw [h])
    · simp at h
    · simp at h

theorem send_sglist_retry : ∀ (segs : List (List Char)) (k : Kernel) (desc : srb_cdmi_desc)
    (has_epiped : Int) (i : Nat) (ret : Int) (d : srb_cdmi_desc) (k2 : Kernel),
    send_sglist k desc has_epiped i segs ret = some (Exit.retry_once, d, k2) →
    has_epiped = 0 := by
  intro segs
  induction segs with
  | nil => intro k desc has_epiped i ret d k2 h; simp [send_sglist] at h
  | cons seg rest ih =>
    intro k desc has_epiped i ret d k2 h
    unfold send_sglist at h
    split at h
    · simp at h
    · split_ifs at h
      · simp only [Option.some.injEq] at h
        exact epipe_reconnect_retry _ _ _ _ (by rw [h])
      · simp at h
      · exact ih _ _ _ _ _ _ _ h

theorem receive_response_retry (H : Framer) : ∀ (fuel : Nat) (k : Kernel) (desc : srb_cdmi_desc)
    (rcvbuf : List Char) (rcv_size : Int) (strict_rcv : Bool) (has_epiped ret rcvd : Int)
    (d : srb_cdmi_desc) (k2 : Kernel) (rb : List Char),
    receive_response H fuel k desc rcvbuf rcv_size strict_rcv has_epiped ret rcvd
      = some (Exit.retry_once, d, k2, rb) → has_epiped = 0 := by
  intro fuel
  induction fuel with
  | zero => intro k desc rcvbuf rcv_size strict_rcv has_epiped ret rcvd d k2 rb h
            simp [receive_response] at h
  | succ fuel ih =>
    intro k desc rcvbuf rcv_size strict_rcv has_epiped ret rcvd d k2 rb h
    unfold receive_response at h
    split at h
    · simp at h
    · split at h
      · simp at h
      · simp only at h
        split at h
        · split at h
          · simp only [Option.some.injEq, Prod.mk.injEq] at h
            exact epipe_reconnect_retry _ _ _ _ h.1
          · simp at h
        · exact ih _ _ _ _ _ _ _ _ _ _ _ h

/-- The code from `retry_once` on ends: the jump back to the label is taken at most once,
so two passes are enough, and one pass is enough after a reconnection. -/
theorem sock_send_receive_retry_once_total (H : Framer) : ∀ (fuel : Nat) (k : Kernel)
    (desc : srb_cdmi_desc) (rcvbuf : List Char) (send_size rcv_size : Int) (strict_rcv : Bool)
    (has_epiped : Int), (2 ≤ fuel ∨ (1 ≤ fuel ∧ has_epiped ≠ 0)) →
    ∃ r, sock_send_receive_retry_once H fuel k desc rcvbuf send_size rcv_size strict_rcv
      has_epiped = some r := by
  intro fuel
  induction fuel with
  | zero => intro k desc rcvbuf send_size rcv_size strict_rcv has_epiped h; omega
  | succ fuel ih =>
    intro k desc rcvbuf send_size rcv_size strict_rcv has_epiped h
    unfold sock_send_receive_retry_once
    obtain ⟨⟨e, d1, k1⟩, h1⟩ := send_header_total k desc has_epiped send_size
    rw [h1]
    cases e with
    | cleanup r => exact ⟨_, rfl⟩
    | retry_once =>
      have h0 := send_header_retry _ _ _ _ _ _ h1
      exact ih _ _ _ _ _ _ _ (Or.inr ⟨by omega, by decide⟩)
    | next ret0 rcvd0 =>
      simp only
      obtain ⟨⟨e2, d2, k2, rb⟩, h2⟩ := receive_response_total H (rcv_size.toNat + 1) k1 d1
        rcvbuf rcv_size strict_rcv has_epiped ret0 0 (by omega)
      rw [h2]
      cases e2 with
      | cleanup r => exact ⟨_, rfl⟩
      | retry_once =>
        have h0 := receive_response_retry H _ _ _ _ _ _ _ _ _ _ _ _ h2
        exact ih _ _ _ _ _ _ _ (Or.inr ⟨by omega, by decide⟩)
      | next r1 r2 => exact ⟨_, rfl⟩

theorem sock_send_sglist_receive_retry_once_total (H : Framer) : ∀ (fuel : Nat) (k : Kernel)
    (desc : srb_cdmi_desc) (rcvbuf : List Char) (send_size rcv_size : Int) (strict_rcv : Bool)
    (has_epiped : Int), (2 ≤ fuel ∨ (1 ≤ fuel ∧ has_epiped ≠ 0)) →
    ∃ r, sock_send_sglist_receive_retry_once H fuel k desc rcvbuf send_size rcv_size strict_rcv
      has_epiped = some r := by
  intro fuel
  induction fuel with
  | zero => intro k desc rcvbuf send_size rcv_size strict_rcv has_epiped h; omega
  | succ fuel ih =>
    intro k desc rcvbuf send_size rcv_size strict_rcv has_epiped h
    unfold sock_send_sglist_receive_retry_once
    obtain ⟨⟨e, d1, k1⟩, h1⟩ := send_header_total k desc has_epiped send_size
    rw [h1]
    cases e with
    | cleanup r => exact ⟨_, rfl⟩
    | retry_once =>
      have h0 := send_header_retry _ _ _ _ _ _ h1
      exact ih _ _ _ _ _ _ _ (Or.inr ⟨by omega, by decide⟩)
    | next ret0 rcvd0 =>
      simp only
      obtain ⟨⟨e1, d1b, k1b⟩, h1b⟩ := send_sglist_total d1.sgl k1 d1 has_epiped 0 ret0
      rw [h1b]
      cases e1 with
      | cleanup r => exact ⟨_, rfl⟩
      | retry_once =>
        have h0 := send_sglist_retry _ _ _ _ _ _ _ _ h1b
        exact ih _ _ _ _ _ _ _ (Or.inr ⟨by omega, by decide⟩)
      | next ret1 rcvd1 =>
        simp only
        obtain ⟨⟨e2, d2, k2, rb⟩, h2⟩ := receive_response_total H (rcv_size.toNat + 1) k1b d1b
          rcvbuf rcv_size strict_rcv has_epiped ret1 0 (by omega)
        rw [h2]
        cases e2 with
        | cleanup r => exact ⟨_, rfl⟩
        | retry_once =>
          have h0 := receive_response_retry H _ _ _ _ _ _ _ _ _ _ _ _ h2
          exact ih _ _ _ _ _ _ _ (Or.inr ⟨by omega, by decide⟩)
        | next r1 r2 => exact ⟨_, rfl⟩

theorem sock_send_receive_total (H : Framer) (k : Kernel) (desc : srb_cdmi_desc)
    (send_size rcv_size : Int) : ∃ r, sock_send_receive H k desc send_size rcv_size = some r := by
  unfold sock_send_receive
  simp only
  rcases vmalloc k (if rcv_size = 0 then H.SRB_CDMI_XMIT_BUFFER_SIZE else rcv_size)
    with ⟨ok, k0⟩
  simp only
  split
  · exact ⟨_, rfl⟩
  · rcases check_reuse_limit k0 desc with ⟨dA, kA⟩
    simp only
    rcases connect_if_disconnected kA dA with ⟨ret, dB, kB⟩
    simp only
    split
    · exact ⟨_, rfl⟩
    · exact sock_send_receive_retry_once_total H 2 _ _ _ _ _ _ _ (Or.inl (le_refl 2))

theorem sock_send_sglist_receive_total (H : Framer) (k : Kernel) (desc : srb_cdmi_desc)
    (send_size rcv_size : Int) :
    ∃ r, sock_send_sglist_receive H k desc send_size rcv_size = some r := by
  unfold sock_send_sglist_receive
  simp only
  rcases vmalloc k (if rcv_size = 0 then H.SRB_CDMI_XMIT_BUFFER_SIZE else rcv_size)
    with ⟨ok, k0⟩
  simp only
  split
  · exact ⟨_, rfl⟩
  · rcases check_reuse_limit k0 desc with ⟨dA, kA⟩
    simp only
    rcases connect_if_disconnected kA dA with ⟨ret, dB, kB⟩
    simp only
    split
    · exact ⟨_, rfl⟩
    · exact sock_send_sglist_receive_retry_once_total H 2 _ _ _ _ _ _ _ (Or.inl (le_refl 2))

theorem exchange_total (H : Framer) (k : Kernel) (desc : srb_cdmi_desc)
    (send_size rcv_size : Int) (do_sglist : Bool) :
    ∃ r, exchange H k desc send_size rcv_size do_sglist = some r := by
  unfold exchange
  split
  · exact sock_send_sglist_receive_total H k desc send_size rcv_size
  · exact sock_send_receive_total H k desc send_size rcv_size

theorem retried_loop_total (H : Framer) (send_size rcv_size : Int) (do_sglist : Bool) :
    ∀ (n : Nat) (k : Kernel) (desc : srb_cdmi_desc) (ret : Int),
    ∃ r, retried_loop H send_size rcv_size do_sglist n k desc ret = some r := by
  intro n
  induction n with
  | zero => intro k desc ret; exact ⟨_, rfl⟩
  | succ n ih =>
    intro k desc ret
    unfold retried_loop
    obtain ⟨⟨r, d, k1⟩, h⟩ := exchange_total H k desc send_size rcv_size do_sglist
    rw [h]
    simp only
    split
    · exact ⟨_, rfl⟩
    · exact ih _ _ _

theorem retried_send_receive_total (H : Framer) (k : Kernel) (desc : srb_cdmi_desc)
    (send_size rcv_size : Int) (do_sglist : Bool) (attempts : Int) :
    ∃ r, retried_send_receive H k desc send_size rcv_size do_sglist attempts = some r := by
  unfold retried_send_receive
  split
  · exact ⟨_, rfl⟩
  · exact retried_loop_total H _ _ _ _ _ _ _

/-! ## Descriptor invariants over an exchange -/

theorem epipe_reconnect_inv {Q : srb_cdmi_desc → Prop} (hQ : desc_invariant Q) (k : Kernel)
    (desc : srb_cdmi_desc) (has_epiped ret : Int) (h : Q desc) :
    Q (epipe_reconnect k desc has_epiped ret).2.1 := by
  unfold epipe_reconnect
  have h1 := hQ.disconnect k desc h
  rcases hd : srb_cdmi_disconnect k desc with ⟨r0, d0, k0⟩
  rw [hd] at h1
  simp only at h1 ⊢
  split
  · have h2 := hQ.connect { k0 with trace := k0.trace ++ [Event.epipe_reconnect] } d0 h1
    rcases hc : srb_cdmi_connect { k0 with trace := k0.trace ++ [Event.epipe_reconnect] } d0
      with ⟨r1, d1, k1⟩
    rw [hc] at h2
    simp only at h2 ⊢
    split <;> exact h2
  · exact h1

theorem send_header_inv {Q : srb_cdmi_desc → Prop} (hQ : desc_invariant Q) (k : Kernel)
    (desc : srb_cdmi_desc) (has_epiped send_size : Int) (e : Exit) (d : srb_cdmi_desc)
    (k2 : Kernel) (h : send_header k desc has_epiped send_size = some (e, d, k2))
    (hq : Q desc) : Q d := by
  unfold send_header at h
  split at h
  · simp at h
  · split_ifs at h
    · simp only [Option.some.injEq] at h
      have := epipe_reconnect_inv hQ ‹Kernel› desc has_epiped ‹Int› hq
      rw [h] at this
      exact this
    · simp only [Option.some.injEq, Prod.mk.injEq] at h
      rw [← h.2.1]; exact hq
    · simp only [Option.some.injEq, Prod.mk.injEq] at h
      rw [← h.2.1]; exact hq

theorem send_sglist_inv {Q : srb_cdmi_desc → Prop} (hQ : desc_invariant Q) :
    ∀ (segs : List (List Char)) (k : Kernel) (desc : srb_cdmi_desc) (has_epiped : Int)
      (i : Nat) (ret : Int) (e : Exit) (d : srb_cdmi_desc) (k2 : Kernel),
    send_sglist k desc has_epiped i segs ret = some (e, d, k2) → Q desc → Q d := by
  intro segs
  induction segs with
  | nil =>
    intro k desc has_epiped i ret e d k2 h hq
    simp only [send_sglist, Option.some.injEq, Prod.mk.injEq] at h
    rw [← h.2.1]; exact hq
  | cons seg rest ih =>
    intro k desc has_epiped i ret e d k2 h hq
    unfold send_sglist at h
    split at h
    · simp at h
    · rename_i r m k1 hx
      split_ifs at h
      · simp only [Option.some.injEq] at h
        have := epipe_reconnect_inv hQ k1 desc has_epiped r hq
        rw [h] at this
        exact this
      · simp only [Option.some.injEq, Prod.mk.injEq] at h
        rw [← h.2.1]; exact hq
      · exact ih _ _ _ _ _ _ _ _ h hq

theorem receive_response_inv {Q : srb_cdmi_desc → Prop} (hQ : desc_invariant Q) (H : Framer) :
    ∀ (fuel : Nat) (k : Kernel) (desc : srb_cdmi_desc) (rcvbuf : List Char) (rcv_size : Int)
      (strict_rcv : Bool) (has_epiped ret rcvd : Int) (e : Exit) (d : srb_cdmi_desc)
      (k2 : Kernel) (rb : List Char),
    receive_response H fuel k desc rcvbuf rcv_size strict_rcv has_epiped ret rcvd
      = some (e, d, k2, rb) → Q desc → Q d := by
  intro fuel
  induction fuel with
  | zero =>
    intro k desc rcvbuf rcv_size strict_rcv has_epiped ret rcvd e d k2 rb h
    simp [receive_response] at h
  | succ fuel ih =>
    intro k desc rcvbuf rcv_size strict_rcv has_epiped ret rcvd e d k2 rb h hq
    unfold receive_response at h
    split at h
    · simp only [Option.some.injEq, Prod.mk.injEq] at h
      rw [← h.2.1]; exact hq
    · split at h
      · simp at h
      · rename_i r m k1 hx
        simp only at h
        split at h
        · split at h
          · simp only [Option.some.injEq, Prod.mk.injEq] at h
            have := epipe_reconnect_inv hQ k1 desc has_epiped r hq
            rw [h.2.1] at this
            exact this
          · simp only [Option.some.injEq, Prod.mk.injEq] at h
            rw [← h.2.1]; exact hq
        · exact ih _ _ _ _ _ _ _ _ _ _ _ _ h hq

theorem sock_send_receive_retry_once_inv {Q : srb_cdmi_desc → Prop} (hQ : desc_invariant Q)
    (H : Framer) : ∀ (fuel : Nat) (k : Kernel) (desc : srb_cdmi_desc) (rcvbuf : List Char)
      (send_size rcv_size : Int) (strict_rcv : Bool) (has_epiped ret : Int)
      (d : srb_cdmi_desc) (k2 : Kernel),
    sock_send_receive_retry_once H fuel k desc rcvbuf send_size rcv_size strict_rcv has_epiped
      = some (ret, d, k2) → Q desc → Q d := by
  intro fuel
  induction fuel with
  | zero =>
    intro k desc rcvbuf send_size rcv_size strict_rcv has_epiped ret d k2 h
    simp [sock_send_receive_retry_once] at h
  | succ fuel ih =>
    intro k desc rcvbuf send_size rcv_size strict_rcv has_epiped ret d k2 h hq
    unfold sock_send_receive_retry_once at h
    split at h
    · simp at h
    · rename_i hh
      have := send_header_inv hQ _ _ _ _ _ _ _ hh hq
      simp only [cleanup, Option.some.injEq, Prod.mk.injEq] at h
      rw [← h.2.1]; exact this
    · rename_i hh
      exact ih _ _ _ _ _ _ _ _ _ _ h (send_header_inv hQ _ _ _ _ _ _ _ hh hq)
    · rename_i hh
      have h1 := send_header_inv hQ _ _ _ _ _ _ _ hh hq
      split at h
      · simp at h
      · rename_i hr
        have := receive_response_inv hQ H _ _ _ _ _ _ _ _ _ _ _ _ _ hr h1
        simp only [cleanup, Option.some.injEq, Prod.mk.injEq] at h
        rw [← h.2.1]; exact this
      · rename_i hr
        exact ih _ _ _ _ _ _ _ _ _ _ h (receive_response_inv hQ H _ _ _ _ _ _ _ _ _ _ _ _ _ hr h1)
      · rename_i hr
        have := receive_response_inv hQ H _ _ _ _ _ _ _ _ _ _ _ _ _ hr h1
        simp only [copy_response, cleanup, Option.some.injEq, Prod.mk.injEq] at h
        rw [← h.2.1]
        exact hQ.buffer _ _ this

theorem sock_send_sglist_receive_retry_once_inv {Q : srb_cdmi_desc → Prop}
    (hQ : desc_invariant Q) (H : Framer) : ∀ (fuel : Nat) (k : Kernel) (desc : srb_cdmi_desc)
      (rcvbuf : List Char) (send_size rcv_size : Int) (strict_rcv : Bool)
      (has_epiped ret : Int) (d : srb_cdmi_desc) (k2 : Kernel),
    sock_send_sglist_receive_retry_once H fuel k desc rcvbuf send_size rcv_size strict_rcv
      has_epiped = some (ret, d, k2) → Q desc → Q d := by
  intro fuel
  induction fuel with
  | zero =>
    intro k desc rcvbuf send_size rcv_size strict_rcv has_epiped ret d k2 h
    simp [sock_send_sglist_receive_retry_once] at h
  | succ fuel ih =>
    intro k desc rcvbuf send_size rcv_size strict_rcv has_epiped ret d k2 h hq
    unfold sock_send_sglist_receive_retry_once at h
    split at h
    · simp at h
    · rename_i hh
      have := send_header_inv hQ _ _ _ _ _ _ _ hh hq
      simp only [cleanup, Option.some.injEq, Prod.mk.injEq] at h
      rw [← h.2.1]; exact this
    · rename_i hh
      exact ih _ _ _ _ _ _ _ _ _ _ h (send_header_inv hQ _ _ _ _ _ _ _ hh hq)
    · rename_i hh
      have h1 := send_header_inv hQ _ _ _ _ _ _ _ hh hq
      split at h
      · simp at h
      · rename_i hs
        have := send_sglist_inv hQ _ _ _ _ _ _ _ _ _ hs h1
        simp only [cleanup, Option.some.injEq, Prod.mk.injEq] at h
        rw [← h.2.1]; exact this
      · rename_i hs
        exact ih _ _ _ _ _ _ _ _ _ _ h (send_sglist_inv hQ _ _ _ _ _ _ _ _ _ hs h1)
      · rename_i hs
        have h2 := send_sglist_inv hQ _ _ _ _ _ _ _ _ _ hs h1
        split at h
        · simp at h
        · rename_i hr
          have := receive_response_inv hQ H _ _ _ _ _ _ _ _ _ _ _ _ _ hr h2
          simp only [cleanup, Option.some.injEq, Prod.mk.injEq] at h
          rw [← h.2.1]; exact this
        · rename_i hr
          exact ih _ _ _ _ _ _ _ _ _ _ h
            (receive_response_inv hQ H _ _ _ _ _ _ _ _ _ _ _ _ _ hr h2)
        · rename_i hr
          have := receive_response_inv hQ H _ _ _ _ _ _ _ _ _ _ _ _ _ hr h2
          simp only [copy_response, cleanup, Option.some.injEq, Prod.mk.injEq] at h
          rw [← h.2.1]
          exact hQ.buffer _ _ this

theorem check_reuse_limit_inv {Q : srb_cdmi_desc → Prop} (hQ : desc_invariant Q) (k : Kernel)
    (desc : srb_cdmi_desc) (h : Q desc) : Q (check_reuse_limit k desc).1 := by
  unfold check_reuse_limit
  split
  · exact hQ.disconnect k desc h
  · rename_i hne
    exact hQ.count desc h hne

theorem connect_if_disconnected_inv {Q : srb_cdmi_desc → Prop} (hQ : desc_invariant Q)
    (k : Kernel) (desc : srb_cdmi_desc) (h : Q desc) :
    Q (connect_if_disconnected k desc).2.1 := by
  unfold connect_if_disconnected
  split
  · exact hQ.connect k desc h
  · exact h

/-- An invariant of the descriptor holds after an exchange without scatter list. -/
theorem sock_send_receive_inv {Q : srb_cdmi_desc → Prop} (hQ : desc_invariant Q) (H : Framer)
    (k : Kernel) (desc : srb_cdmi_desc) (send_size rcv_size ret : Int) (d : srb_cdmi_desc)
    (k2 : Kernel) (h : sock_send_receive H k desc send_size rcv_size = some (ret, d, k2))
    (hq : Q desc) : Q d := by
  unfold sock_send_receive at h
  rcases hv : vmalloc k (if rcv_size = 0 then H.SRB_CDMI_XMIT_BUFFER_SIZE else rcv_size)
    with ⟨ok, k0⟩
  simp only [hv] at h
  split at h
  · simp only [Option.some.injEq, Prod.mk.injEq] at h
    rw [← h.2.1]; exact hq
  · have hA := check_reuse_limit_inv hQ k0 desc hq
    rcases hcr : check_reuse_limit k0 desc with ⟨dA, kA⟩
    rw [hcr] at h hA
    simp only at h hA
    have hB := connect_if_disconnected_inv hQ kA dA hA
    rcases hci : connect_if_disconnected kA dA with ⟨r, dB, kB⟩
    rw [hci] at h hB
    simp only at h hB
    split at h
    · simp only [cleanup, Option.some.injEq, Prod.mk.injEq] at h
      rw [← h.2.1]; exact hB
    · exact sock_send_receive_retry_once_inv hQ H _ _ _ _ _ _ _ _ _ _ _ h hB

/-- An invariant of the descriptor holds after an exchange with scatter list. -/
theorem sock_send_sglist_receive_inv {Q : srb_cdmi_desc → Prop} (hQ : desc_invariant Q)
    (H : Framer) (k : Kernel) (desc : srb_cdmi_desc) (send_size rcv_size ret : Int)
    (d : srb_cdmi_desc) (k2 : Kernel)
    (h : sock_send_sglist_receive H k desc send_size rcv_size = some (ret, d, k2))
    (hq : Q desc) : Q d := by
  unfold sock_send_sglist_receive at h
  rcases hv : vmalloc k (if rcv_size = 0 then H.SRB_CDMI_XMIT_BUFFER_SIZE else rcv_size)
    with ⟨ok, k0⟩
  simp only [hv] at h
  split at h
  · simp only [Option.some.injEq, Prod.mk.injEq] at h
    rw [← h.2.1]; exact hq
  · have hA := check_reuse_limit_inv hQ k0 desc hq
    rcases hcr : check_reuse_limit k0 desc with ⟨dA, kA⟩
    rw [hcr] at h hA
    simp only at h hA
    have hB := connect_if_disconnected_inv hQ kA dA hA
    rcases hci : connect_if_disconnected kA dA with ⟨r, dB, kB⟩
    rw [hci] at h hB
    simp only at h hB
    split at h
    · simp only [cleanup, Option.some.injEq, Prod.mk.injEq] at h
      rw [← h.2.1]; exact hB
    · exact sock_send_sglist_receive_retry_once_inv hQ H _ _ _ _ _ _ _ _ _ _ _ h hB

/-! ## The descriptor after connect, disconnect and init -/

/-- The three ways `srb_cdmi_connect` leaves the descriptor. -/
theorem srb_cdmi_connect_desc (k : Kernel) (desc : srb_cdmi_desc) :
    (desc.state = CDMI_CONNECTED ∧ (srb_cdmi_connect k desc).1 = 0 ∧
      (srb_cdmi_connect k desc).2.1 = desc) ∨
    (desc.state ≠ CDMI_CONNECTED ∧ (srb_cdmi_connect k desc).1 = 0 ∧
      ∃ s, (srb_cdmi_connect k desc).2.1 =
        { desc with socket := some s, state := CDMI_CONNECTED, nb_requests := 0 }) ∨
    (desc.state ≠ CDMI_CONNECTED ∧ (srb_cdmi_connect k desc).1 < 0 ∧
      (srb_cdmi_connect k desc).2.1 =
        { desc with socket := none, state := CDMI_DISCONNECTED }) := by
  by_cases hs : desc.state = CDMI_CONNECTED
  · left
    simp [srb_cdmi_connect, hs]
  · right
    simp only [srb_cdmi_connect, hs, if_false, srb_cdmi_connect_out_error]
    rcases hc : sock_create_kern k with ⟨ret, sock, k1⟩
    cases sock with
    | none =>
      right
      exact ⟨hs, sock_create_kern_none k ret k1 hc, rfl⟩
    | some s =>
      simp only
      rcases kernel_connect k1 s desc.ip_addr (desc.port % 65536) with ⟨ret2, k2⟩
      simp only
      split
      · right
        rename_i h
        exact ⟨hs, h, rfl⟩
      · rcases kernel_setsockopt k2 s SockOpt.TCP_NODELAY with ⟨ret3, k3⟩
        simp only
        split
        · right
          rename_i h
          exact ⟨hs, h, rfl⟩
        · left
          exact ⟨hs, rfl, s, rfl⟩

/-- The two ways `srb_cdmi_disconnect` leaves the descriptor; it always returns 0. -/
theorem srb_cdmi_disconnect_desc (k : Kernel) (desc : srb_cdmi_desc) :
    (srb_cdmi_disconnect k desc).1 = 0 ∧
    (((desc.socket = none ∨ desc.state = CDMI_DISCONNECTED) ∧
        (srb_cdmi_disconnect k desc).2.1 = desc ∧ (srb_cdmi_disconnect k desc).2.2 = k) ∨
      (desc.socket ≠ none ∧ desc.state ≠ CDMI_DISCONNECTED ∧
        (srb_cdmi_disconnect k desc).2.1 =
          { desc with socket := none, state := CDMI_DISCONNECTED })) := by
  unfold srb_cdmi_disconnect
  split
  · rename_i h
    exact ⟨rfl, Or.inl ⟨Or.inl h, rfl, rfl⟩⟩
  · rename_i s h
    split
    · rename_i h2
      exact ⟨rfl, Or.inl ⟨Or.inr h2, rfl, rfl⟩⟩
    · rename_i h2
      exact ⟨rfl, Or.inr ⟨by simp [h], h2, rfl⟩⟩

/-- What `srb_cdmi_init` never writes, and the state it leaves. -/
theorem srb_cdmi_init_frame (SRB_CDMI_URL_SIZE : Nat) (desc : srb_cdmi_desc) (url : List Char) :
    (srb_cdmi_init SRB_CDMI_URL_SIZE desc url).2.socket = desc.socket ∧
    (srb_cdmi_init SRB_CDMI_URL_SIZE desc url).2.nb_requests = desc.nb_requests ∧
    (srb_cdmi_init SRB_CDMI_URL_SIZE desc url).2.timeout_sec = desc.timeout_sec ∧
    (srb_cdmi_init SRB_CDMI_URL_SIZE desc url).2.sgl = desc.sgl ∧
    (srb_cdmi_init SRB_CDMI_URL_SIZE desc url).2.xmit_buff = desc.xmit_buff ∧
    ((srb_cdmi_init SRB_CDMI_URL_SIZE desc url).2.state = desc.state ∨
      (srb_cdmi_init SRB_CDMI_URL_SIZE desc url).2.state = CDMI_DISCONNECTED) := by
  unfold srb_cdmi_init
  simp only
  split
  · simp
  · rcases get_ip (url.drop (strlen PROTO_HTTP)) with ⟨ret, ip⟩
    simp only
    split
    · simp
    · split
      · simp
      · split <;> simp

theorem counter_bounded_invariant : desc_invariant counter_bounded where
  connect := by
    intro k d h
    unfold counter_bounded at h ⊢
    rcases srb_cdmi_connect_desc k d with ⟨_, _, h1⟩ | ⟨_, _, s, h1⟩ | ⟨_, _, h1⟩ <;> rw [h1]
    · exact h
    · show (0 : Int) ≤ 100
      decide
    · exact h
  disconnect := by
    intro k d h
    unfold counter_bounded at h ⊢
    rcases (srb_cdmi_disconnect_desc k d).2 with ⟨_, h1, _⟩ | ⟨_, _, h1⟩ <;> rw [h1] <;> exact h
  buffer := fun d b h => h
  count := by
    intro d h hne
    unfold counter_bounded at h ⊢
    simp only [SRB_REUSE_LIMIT] at h hne ⊢
    omega

theorem state_matches_socket_invariant : desc_invariant state_matches_socket where
  connect := by
    intro k d h
    unfold state_matches_socket at h ⊢
    rcases srb_cdmi_connect_desc k d with ⟨_, _, h1⟩ | ⟨_, _, s, h1⟩ | ⟨_, _, h1⟩ <;> rw [h1]
    · exact h
    · simp
    · simp
  disconnect := by
    intro k d h
    unfold state_matches_socket at h ⊢
    rcases (srb_cdmi_disconnect_desc k d).2 with ⟨_, h1, _⟩ | ⟨_, _, h1⟩ <;> rw [h1]
    · exact h
    · simp
  buffer := fun d b h => h
  count := fun d h _ => h

/-- C11: the request counter never exceeds the reuse limit 100.  `nb_requests ≤ 100` holds
after `srb_cdmi_init` on a zeroed descriptor, and when it holds for a descriptor it
holds after `srb_cdmi_connect`, after `srb_cdmi_disconnect` and after the exchanges
`sock_send_receive` and `sock_send_sglist_receive`, which return for every behaviour of
the socket layer. -/
theorem nb_requests_within_reuse_limit (H : Framer) (SRB_CDMI_URL_SIZE : Nat) (k : Kernel)
    (desc : srb_cdmi_desc) (url : List Char) (send_size rcv_size : Int) :
    (srb_cdmi_init SRB_CDMI_URL_SIZE zeroed_desc url).2.nb_requests ≤ 100 ∧
    (desc.nb_requests ≤ 100 →
      (srb_cdmi_connect k desc).2.1.nb_requests ≤ 100 ∧
      (srb_cdmi_disconnect k desc).2.1.nb_requests ≤ 100 ∧
      (∃ r d2 k2, sock_send_receive H k desc send_size rcv_size = some (r, d2, k2) ∧
        d2.nb_requests ≤ 100) ∧
      (∃ r d2 k2, sock_send_sglist_receive H k desc send_size rcv_size = some (r, d2, k2) ∧
        d2.nb_requests ≤ 100)) := by
  refine ⟨?_, fun h => ⟨?_, ?_, ?_, ?_⟩⟩
  · rw [(srb_cdmi_init_frame SRB_CDMI_URL_SIZE zeroed_desc url).2.1]
    decide
  · exact counter_bounded_invariant.connect k desc h
  · exact counter_bounded_invariant.disconnect k desc h
  · obtain ⟨⟨r, d2, k2⟩, hr⟩ := sock_send_receive_total H k desc send_size rcv_size
    exact ⟨r, d2, k2, hr, sock_send_receive_inv counter_bounded_invariant H _ _ _ _ _ _ _ hr h⟩
  · obtain ⟨⟨r, d2, k2⟩, hr⟩ := sock_send_sglist_receive_total H k desc send_size rcv_size
    exact ⟨r, d2, k2, hr,
      sock_send_sglist_receive_inv counter_bounded_invariant H _ _ _ _ _ _ _ hr h⟩

theorem nb_requests_within_reuse_limit_witness :
    at_reuse_limit.nb_requests ≤ 100 ∧
    ∃ r d2 k2, sock_send_receive demo_framer get_peer at_reuse_limit 61 0 = some (r, d2, k2) ∧
      d2.nb_requests ≤ 100 :=
  ⟨by decide,
    ((nb_requests_within_reuse_limit demo_framer 64 get_peer at_reuse_limit [] 61 0).2
      (by decide)).2.2.1⟩

/-- C13: the connection invariant, state `Connected` if and only if the socket handle is
non-null.  It holds after `srb_cdmi_init` on a zeroed descriptor, and when it holds for a
descriptor it holds at every return of `srb_cdmi_connect`, `srb_cdmi_disconnect`,
`sock_send_receive` and `sock_send_sglist_receive`, which return for every behaviour of
the socket layer: the scripts of `k` are arbitrary, so any connect step may fail and
`-EPIPE` may come at any point. -/
theorem state_connected_iff_socket (H : Framer) (SRB_CDMI_URL_SIZE : Nat) (k : Kernel)
    (desc : srb_cdmi_desc) (url : List Char) (send_size rcv_size : Int) :
    state_matches_socket (srb_cdmi_init SRB_CDMI_URL_SIZE zeroed_desc url).2 ∧
    (state_matches_socket desc →
      state_matches_socket (srb_cdmi_connect k desc).2.1 ∧
      state_matches_socket (srb_cdmi_disconnect k desc).2.1 ∧
      (∃ r d2 k2, sock_send_receive H k desc send_size rcv_size = some (r, d2, k2) ∧
        state_matches_socket d2) ∧
      (∃ r d2 k2, sock_send_sglist_receive H k desc send_size rcv_size = some (r, d2, k2) ∧
        state_matches_socket d2)) := by
  refine ⟨?_, fun h => ⟨?_, ?_, ?_, ?_⟩⟩
  · obtain ⟨h1, _, _, _, _, h2⟩ := srb_cdmi_init_frame SRB_CDMI_URL_SIZE zeroed_desc url
    unfold state_matches_socket
    rw [h1]
    rcases h2 with h2 | h2 <;> rw [h2] <;> decide
  · exact state_matches_socket_invariant.connect k desc h
  · exact state_matches_socket_invariant.disconnect k desc h
  · obtain ⟨⟨r, d2, k2⟩, hr⟩ := sock_send_receive_total H k desc send_size rcv_size
    exact ⟨r, d2, k2, hr,
      sock_send_receive_inv state_matches_socket_invariant H _ _ _ _ _ _ _ hr h⟩
  · obtain ⟨⟨r, d2, k2⟩, hr⟩ := sock_send_sglist_receive_total H k desc send_size rcv_size
    exact ⟨r, d2, k2, hr,
      sock_send_sglist_receive_inv state_matches_socket_invariant H _ _ _ _ _ _ _ hr h⟩

theorem state_connected_iff_socket_witness :
    state_matches_socket at_reuse_limit ∧
    ∃ r d2 k2, sock_send_sglist_receive demo_framer peer_closing_on_segment at_reuse_limit 55 0
        = some (r, d2, k2) ∧ state_matches_socket d2 :=
  ⟨by unfold state_matches_socket; decide,
    ((state_connected_iff_socket demo_framer 64 peer_closing_on_segment at_reuse_limit [] 55 0).2
      (by unfold state_matches_socket; decide)).2.2.2⟩

/-! ## What a connection carried -/

theorem appends.appends_refl (p : Event → Bool) (k : Kernel) : appends p k k :=
  ⟨[], by simp, by simp⟩

theorem appends.appends_trans {p : Event → Bool} {k1 k2 k3 : Kernel} (h1 : appends p k1 k2)
    (h2 : appends p k2 k3) : appends p k1 k3 := by
  obtain ⟨e1, t1, q1⟩ := h1
  obtain ⟨e2, t2, q2⟩ := h2
  refine ⟨e1 ++ e2, by rw [t2, t1, List.append_assoc], ?_⟩
  intro e he
  rcases List.mem_append.mp he with h | h
  · exact q1 e h
  · exact q2 e h

theorem appends_one (p : Event → Bool) (k k2 : Kernel) (e : Event)
    (h : k2.trace = k.trace ++ [e]) (hp : p e = true) : appends p k k2 :=
  ⟨[e], h, by simpa using hp⟩

theorem served_snoc (tr : List Event) (e : Event) :
    served (tr ++ [e]) = served_step (served tr) e := by
  simp [served, List.foldl_append]

theorem written_snoc (tr : List Event) (e : Event) :
    written (tr ++ [e]) = written_step (written tr) e := by
  simp [written, List.foldl_append]

/-- Steps that neither connect nor send leave the count of served requests and the bytes
written as they are. -/
theorem served_written_quiet (tr ev : List Event) (h : ∀ e ∈ ev, (!e.writes) = true) :
    served (tr ++ ev) = served tr ∧ written (tr ++ ev) = written tr := by
  induction ev using List.reverseRecOn with
  | nil => simp
  | append_singleton l e ih =>
    have h1 := ih (fun x hx => h x (by simp [hx]))
    have h2 := h e (by simp)
    rw [← List.append_assoc, served_snoc, written_snoc, h1.1, h1.2]
    cases e <;> simp_all [Event.writes, served_step, written_step]

theorem served_quiet {k k2 : Kernel} (h : appends (fun e => !e.writes) k k2) :
    served k2.trace = served k.trace ∧ written k2.trace = written k.trace := by
  obtain ⟨ev, t, q⟩ := h
  rw [t]
  exact served_written_quiet _ _ q

/-- A receive appends receive steps only. -/
theorem sock_xmit_loop_recv_quiet : ∀ (fuel : Nat) (k : Kernel) (s : Nat) (region : Region)
    (off : Nat) (done mem : List Char) (size : Int) (strict : Bool) (ret : Int)
    (m : List Char) (k2 : Kernel),
    sock_xmit_loop fuel k s false region off done mem size strict = some (ret, m, k2) →
    appends (fun e => !e.writes) k k2 := by
  intro fuel
  induction fuel with
  | zero => intro k s region off done mem size strict ret m k2 h; simp [sock_xmit_loop] at h
  | succ fuel ih =>
    intro k s region off done mem size strict ret m k2 h
    have hstep : appends (fun e => !e.writes) k
        (kernel_recvmsg k s ⟨region, off⟩ mem size).2.2.2 := by
      unfold kernel_recvmsg
      split <;> exact appends_one _ _ _ _ rfl rfl
    unfold sock_xmit_loop at h
    rcases hk : kernel_recvmsg k s ⟨region, off⟩ mem size with ⟨result, m1, signal, k1⟩
    rw [hk] at hstep
    simp only [hk, Bool.false_eq_true, if_false] at h hstep
    split at h
    · simp only [Option.some.injEq, Prod.mk.injEq] at h
      rw [← h.2.2]; exact hstep
    · split at h
      · simp only [Option.some.injEq, Prod.mk.injEq] at h
        rw [← h.2.2]; exact hstep
      · split at h
        · simp only [Option.some.injEq, Prod.mk.injEq] at h
          rw [← h.2.2]; exact hstep
        · split at h
          · simp only [Option.some.injEq, Prod.mk.injEq] at h
            rw [← h.2.2]; exact hstep
          · split at h
            · exact hstep.appends_trans (ih _ _ _ _ _ _ _ _ _ _ _ h)
            · simp only [Option.some.injEq, Prod.mk.injEq] at h
              rw [← h.2.2]; exact hstep

theorem sock_xmit_recv_quiet (k : Kernel) (desc : srb_cdmi_desc) (buf : Ptr) (mem : List Char)
    (size : Int) (strict : Bool) (ret : Int) (m : List Char) (k2 : Kernel)
    (h : sock_xmit k desc false buf mem size strict = some (ret, m, k2)) :
    appends (fun e => !e.writes) k k2 := by
  unfold sock_xmit at h
  split at h
  · simp only [Option.some.injEq, Prod.mk.injEq] at h
    rw [← h.2.2]; exact appends.appends_refl _ _
  · exact sock_xmit_loop_recv_quiet _ _ _ _ _ _ _ _ _ _ _ _ h

/-- Connection tear-down appends no connect and no send. -/
theorem srb_cdmi_disconnect_quiet (k : Kernel) (desc : srb_cdmi_desc) :
    appends (fun e => !e.writes) k (srb_cdmi_disconnect k desc).2.2 := by
  unfold srb_cdmi_disconnect
  split
  · exact appends.appends_refl _ _
  · split
    · exact appends.appends_refl _ _
    · rename_i s _ _
      exact ⟨[Event.shutdown s, Event.release s],
        by simp [sock_release, kernel_sock_shutdown], by simp [Event.writes]⟩

/-- The block run on a second `-EPIPE`, and the receive loop after a reconnection, append
no connect and no send. -/
theorem epipe_reconnect_quiet (k : Kernel) (desc : srb_cdmi_desc) (has_epiped ret : Int)
    (h : has_epiped ≠ 0) :
    epipe_reconnect k desc has_epiped ret
      = (Exit.cleanup ret, (srb_cdmi_disconnect k desc).2.1, (srb_cdmi_disconnect k desc).2.2) := by
  simp only [epipe_reconnect, h, if_false]

/-- A receive loop that reaches the next statement made receive steps only. -/
theorem receive_response_next_quiet (H : Framer) : ∀ (fuel : Nat) (k : Kernel)
    (desc : srb_cdmi_desc) (rcvbuf : List Char) (rcv_size : Int) (strict_rcv : Bool)
    (has_epiped ret rcvd r c : Int) (d : srb_cdmi_desc) (k2 : Kernel) (rb : List Char),
    receive_response H fuel k desc rcvbuf rcv_size strict_rcv has_epiped ret rcvd
      = some (Exit.next r c, d, k2, rb) → appends (fun e => !e.writes) k k2 := by
  intro fuel
  induction fuel with
  | zero =>
    intro k desc rcvbuf rcv_size strict_rcv has_epiped ret rcvd r c d k2 rb h
    simp [receive_response] at h
  | succ fuel ih =>
    intro k desc rcvbuf rcv_size strict_rcv has_epiped ret rcvd r c d k2 rb h
    unfold receive_response at h
    split at h
    · simp only [Option.some.injEq, Prod.mk.injEq] at h
      rw [← h.2.2.1]; exact appends.appends_refl _ _
    · split at h
      · simp at h
      · rename_i r1 m k1 hx
        have hq := sock_xmit_recv_quiet _ _ _ _ _ _ _ _ _ hx
        simp only at h
        split at h
        · rename_i hneg
          split at h
          · simp only [Option.some.injEq, Prod.mk.injEq] at h
            rcases epipe_reconnect_exit k1 desc has_epiped r1 hneg with h1 | ⟨x, h1, _⟩ <;>
              rw [h.1] at h1 <;> simp at h1
          · simp at h
        · exact hq.appends_trans (ih _ _ _ _ _ _ _ _ _ _ _ _ _ h)

/-- A connection set-up that succeeds starts a connection that has carried nothing. -/
theorem srb_cdmi_connect_fresh (k : Kernel) (desc : srb_cdmi_desc)
    (hst : desc.state = CDMI_DISCONNECTED) (hc : connects_succeed k) :
    served (srb_cdmi_connect k desc).2.2.trace = 0 ∧
    written (srb_cdmi_connect k desc).2.2.trace = [] := by
  have h1 : ¬ (k.creates.headD 0 < 0) := not_lt.mpr (headD_nonneg _ hc.1)
  have h2 : ¬ (k.connects.headD 0 < 0) := not_lt.mpr (headD_nonneg _ hc.2.1)
  have h3 : ¬ (k.sockopts.headD 0 < 0) := not_lt.mpr (headD_nonneg _ hc.2.2)
  have h0 : ¬ (CDMI_DISCONNECTED = CDMI_CONNECTED) := by decide
  simp only [srb_cdmi_connect, sock_create_kern, kernel_connect, kernel_setsockopt, hst, h0,
    h1, h2, h3, if_false, srb_cdmi_connect_timeouts]
  split <;>
    simp [served, written, List.foldl_append, served_step, written_step]

theorem send_header_full_trace (k : Kernel) (desc : srb_cdmi_desc) (s : Nat)
    (has_epiped send_size : Int) (rest : List SendReply) (hs : desc.socket = some s)
    (hk : k.sends = full send_size :: rest) (hpos : 0 < send_size) :
    send_header k desc has_epiped send_size = some (Exit.next send_size 0, desc,
      { k with sends := rest, trace := k.trace ++
        [Event.sendmsg s ⟨Region.xmit_buff, 0⟩ (desc.xmit_buff.take send_size.toNat)
          send_size send_size] }) := by
  have hx := sock_xmit_send_full k desc s ⟨Region.xmit_buff, 0⟩ desc.xmit_buff send_size rest hs
    hk hpos
  have h1 : ¬ (send_size = -EPIPE) := by
    intro h; rw [h] at hpos; exact absurd hpos (by decide)
  simp only [send_header, hx, h1, if_false, ne_eq, not_true_eq_false]

/-- An exchange on a connection below the reuse limit, with a peer that behaves: the
request goes out on the same connection and the counter goes up by one. -/
theorem sock_send_receive_same_connection (H : Framer) (k : Kernel) (desc : srb_cdmi_desc)
    (send_size : Int) (cs : List (List Char)) (rest : List SendReply) (restr : List RecvReply)
    (hd : connected desc) (hnb : desc.nb_requests ≠ SRB_REUSE_LIMIT)
    (hv : k.vmallocs.headD true = true) (hpos : 0 < send_size) (hcs : good_response H cs)
    (hks : k.sends = full send_size :: rest) (hkr : k.recvs = deliver cs ++ restr) :
    ∃ d2 k2, sock_send_receive H k desc send_size 0
        = some ((cs.flatten.length : Int), d2, k2) ∧
      connected d2 ∧ d2.nb_requests = desc.nb_requests + 1 ∧
      k2.sends = rest ∧ k2.recvs = restr ∧ k2.vmallocs = k.vmallocs.tail ∧
      (connects_succeed k → connects_succeed k2) ∧
      served k2.trace = served k.trace + 1 := by
  obtain ⟨hne0, hne, hfit, hcomp⟩ := hcs
  obtain ⟨hst, s, hs⟩ := hd
  have hvm := vmalloc_ok k H.SRB_CDMI_XMIT_BUFFER_SIZE hv
  generalize hk0 : ({ k with
      vmallocs := k.vmallocs.tail,
      trace := k.trace ++ [Event.vmalloc H.SRB_CDMI_XMIT_BUFFER_SIZE true] } : Kernel) = k0
    at hvm
  generalize hdA : ({ desc with nb_requests := desc.nb_requests + 1 } : srb_cdmi_desc) = dA
  have hA : check_reuse_limit k0 desc = (dA, k0) := by
    simp only [check_reuse_limit, hnb, if_false, hdA]
  have hstA : dA.state = CDMI_CONNECTED := by rw [← hdA]; exact hst
  have hsA : dA.socket = some s := by rw [← hdA]; exact hs
  have hB : connect_if_disconnected k0 dA = (0, dA, k0) := by
    have : ¬ (dA.state = CDMI_DISCONNECTED) := by rw [hstA]; decide
    simp only [connect_if_disconnected, this, if_false]
  have e1 : sock_send_receive H k desc send_size 0 = sock_send_receive_retry_once H 2 k0 dA
      (List.replicate H.SRB_CDMI_XMIT_BUFFER_SIZE.toNat (Char.ofNat 0)) send_size
      H.SRB_CDMI_XMIT_BUFFER_SIZE false 0 := by
    simp only [sock_send_receive, if_true, hvm, hA, hB]
    simp
  have hks0 : k0.sends = full send_size :: rest := by rw [← hk0]; exact hks
  have h1 := send_header_full_trace k0 dA s 0 send_size rest hsA hks0 hpos
  generalize hk1 : ({ k0 with
      sends := rest,
      trace := k0.trace ++ [Event.sendmsg s ⟨Region.xmit_buff, 0⟩
        (dA.xmit_buff.take send_size.toNat) send_size send_size] } : Kernel) = k1 at h1
  have hkr1 : k1.recvs = deliver cs ++ restr := by rw [← hk1, ← hk0]; exact hkr
  obtain ⟨rb, k2, h2, _, p2⟩ := receive_and_copy H cs k1 dA
    (List.replicate H.SRB_CDMI_XMIT_BUFFER_SIZE.toNat (Char.ofNat 0))
    H.SRB_CDMI_XMIT_BUFFER_SIZE 0 send_size restr ⟨hstA, s, hsA⟩ hkr1 hne0 hne hfit hcomp
  have hq := served_quiet (receive_response_next_quiet H _ _ _ _ _ _ _ _ _ _ _ _ _ _ h2)
  refine ⟨{ dA with xmit_buff := memcpy dA.xmit_buff rb cs.flatten.length }, vfree k2, ?_,
    ⟨hstA, s, hsA⟩, by rw [← hdA], ?_, p2.recvs, ?_, ?_, ?_⟩
  · rw [e1]
    simp only [sock_send_receive_retry_once, h1, h2, copy_response, cleanup, Int.toNat_ofNat]
  · show k2.sends = rest
    rw [p2.sends, ← hk1]
  · show k2.vmallocs = k.vmallocs.tail
    rw [p2.vmallocs, ← hk1, ← hk0]
  · intro hc
    have hc1 : connects_succeed k1 := by rw [← hk1, ← hk0]; exact hc
    exact (connects_succeed_of_progress p2 hc1 : connects_succeed k2)
  · show served (k2.trace ++ [Event.vfree]) = served k.trace + 1
    rw [served_snoc, hq.1, ← hk1, ← hk0]
    simp [served, List.foldl_append, served_step]

/-- An exchange on a connection that has reached the reuse limit, with a peer that
behaves: the connection is closed, a new one is opened, the request goes out on it, and
the counter is left at 0 although the new connection has carried one request. -/
theorem sock_send_receive_forced_reconnect (H : Framer) (k : Kernel) (desc : srb_cdmi_desc)
    (send_size : Int) (cs : List (List Char)) (rest : List SendReply) (restr : List RecvReply)
    (hd : connected desc) (hnb : desc.nb_requests = SRB_REUSE_LIMIT)
    (hv : k.vmallocs.headD true = true) (hc : connects_succeed k) (hpos : 0 < send_size)
    (hcs : good_response H cs)
    (hks : k.sends = full send_size :: rest) (hkr : k.recvs = deliver cs ++ restr) :
    ∃ d2 k2, sock_send_receive H k desc send_size 0
        = some ((cs.flatten.length : Int), d2, k2) ∧
      connected d2 ∧ d2.nb_requests = 0 ∧
      k2.sends = rest ∧ k2.recvs = restr ∧ k2.vmallocs = k.vmallocs.tail ∧
      connects_succeed k2 ∧ served k2.trace = 1 := by
  obtain ⟨hne0, hne, hfit, hcomp⟩ := hcs
  have hvm := vmalloc_ok k H.SRB_CDMI_XMIT_BUFFER_SIZE hv
  generalize hk0 : ({ k with
      vmallocs := k.vmallocs.tail,
      trace := k.trace ++ [Event.vmalloc H.SRB_CDMI_XMIT_BUFFER_SIZE true] } : Kernel) = k0
    at hvm
  have hc0 : connects_succeed k0 := by rw [← hk0]; exact hc
  have hdis := srb_cdmi_disconnect_dropped k0 desc (Or.inl hd)
  have pdis := srb_cdmi_disconnect_step k0 desc
  generalize (srb_cdmi_disconnect k0 desc).2.2 = kA at hdis pdis
  have hA : check_reuse_limit k0 desc = (dropped desc, kA) := by
    simp only [check_reuse_limit, hnb, if_true, hdis]
  have hcA : connects_succeed kA := connects_succeed_of_step pdis hc0
  have hcon := srb_cdmi_connect_reconnected kA (dropped desc) rfl hcA
  have pcon := srb_cdmi_connect_step kA (dropped desc)
  have hfresh := srb_cdmi_connect_fresh kA (dropped desc) rfl hcA
  generalize (srb_cdmi_connect kA (dropped desc)).2.2 = kB at hcon pcon hfresh
  generalize hdB : reconnected (dropped desc) kA.next_sock = dB at hcon
  have hB : connect_if_disconnected kA (dropped desc) = (0, dB, kB) := by
    have : (dropped desc).state = CDMI_DISCONNECTED := rfl
    simp only [connect_if_disconnected, this, if_true, hcon]
  have hstB : dB.state = CDMI_CONNECTED := by rw [← hdB]; rfl
  have hsB : dB.socket = some kA.next_sock := by rw [← hdB]; rfl
  have e1 : sock_send_receive H k desc send_size 0 = sock_send_receive_retry_once H 2 kB dB
      (List.replicate H.SRB_CDMI_XMIT_BUFFER_SIZE.toNat (Char.ofNat 0)) send_size
      H.SRB_CDMI_XMIT_BUFFER_SIZE false 0 := by
    simp only [sock_send_receive, if_true, hvm, hA, hB]
    simp
  have hksB : kB.sends = full send_size :: rest := by
    rw [pcon.sends, pdis.sends, ← hk0]; exact hks
  have h1 := send_header_full_trace kB dB kA.next_sock 0 send_size rest hsB hksB hpos
  generalize hk1 : ({ kB with
      sends := rest,
      trace := kB.trace ++ [Event.sendmsg kA.next_sock ⟨Region.xmit_buff, 0⟩
        (dB.xmit_buff.take send_size.toNat) send_size send_size] } : Kernel) = k1 at h1
  have hkr1 : k1.recvs = deliver cs ++ restr := by
    rw [← hk1]
    show kB.recvs = _
    rw [pcon.recvs, pdis.recvs, ← hk0]; exact hkr
  obtain ⟨rb, k2, h2, _, p2⟩ := receive_and_copy H cs k1 dB
    (List.replicate H.SRB_CDMI_XMIT_BUFFER_SIZE.toNat (Char.ofNat 0))
    H.SRB_CDMI_XMIT_BUFFER_SIZE 0 send_size restr ⟨hstB, _, hsB⟩ hkr1 hne0 hne hfit hcomp
  have hq := served_quiet (receive_response_next_quiet H _ _ _ _ _ _ _ _ _ _ _ _ _ _ h2)
  have hcB : connects_succeed kB := connects_succeed_of_step pcon hcA
  refine ⟨{ dB with xmit_buff := memcpy dB.xmit_buff rb cs.flatten.length }, vfree k2, ?_,
    ⟨hstB, _, hsB⟩, by rw [← hdB]; rfl, ?_, p2.recvs, ?_, ?_, ?_⟩
  · rw [e1]
    simp only [sock_send_receive_retry_once, h1, h2, copy_response, cleanup, Int.toNat_ofNat]
  · show k2.sends = rest
    rw [p2.sends, ← hk1]
  · show k2.vmallocs = k.vmallocs.tail
    rw [p2.vmallocs, ← hk1]
    show kB.vmallocs = _
    rw [pcon.vmallocs, pdis.vmallocs, ← hk0]
  · have hc1 : connects_succeed k1 := by rw [← hk1]; exact hcB
    exact (connects_succeed_of_progress p2 hc1 : connects_succeed k2)
  · show served (k2.trace ++ [Event.vfree]) = 1
    rw [served_snoc, hq.1, ← hk1]
    simp only [served_snoc, hfresh.1]
    simp [served_step]

theorem exchanges_add (H : Framer) (send_size rcv_size : Int) (do_sglist : Bool) :
    ∀ (a b : Nat) (k : Kernel) (desc : srb_cdmi_desc) (ret r : Int) (d : srb_cdmi_desc)
      (k1 : Kernel),
    exchanges H send_size rcv_size do_sglist a k desc ret = some (r, d, k1) →
    exchanges H send_size rcv_size do_sglist (a + b) k desc ret
      = exchanges H send_size rcv_size do_sglist b k1 d r := by
  intro a
  induction a with
  | zero =>
    intro b k desc ret r d k1 h
    simp only [exchanges, Option.some.injEq, Prod.mk.injEq] at h
    obtain ⟨rfl, rfl, rfl⟩ := h
    simp
  | succ a ih =>
    intro b k desc ret r d k1 h
    have e : a + 1 + b = (a + b) + 1 := by omega
    rw [e]
    rcases hx : exchange H k desc send_size rcv_size do_sglist with _ | ⟨r0, d0, k0⟩
    · simp [exchanges, hx] at h
    · rw [exchanges_succ H send_size rcv_size do_sglist a k desc ret r0 d0 k0 hx] at h
      rw [exchanges_succ H send_size rcv_size do_sglist (a + b) k desc ret r0 d0 k0 hx]
      exact ih b _ _ _ _ _ _ h

theorem allocs_succeed_tail (k k2 : Kernel) (h : k2.vmallocs = k.vmallocs.tail)
    (ha : allocs_succeed k) : allocs_succeed k2 := by
  intro b hb
  rw [h] at hb
  exact ha b (List.mem_of_mem_tail hb)

/-- A run of exchanges that stays below the reuse limit, with a peer that behaves: every
request goes out on the same connection. -/
theorem exchanges_same_connection (H : Framer) (send_size : Int) (cs : List (List Char))
    (hpos : 0 < send_size) (hcs : good_response H cs) :
    ∀ (n : Nat) (k : Kernel) (desc : srb_cdmi_desc) (ret : Int) (rest : List SendReply)
      (restr : List RecvReply),
    connected desc → desc.nb_requests + n ≤ SRB_REUSE_LIMIT → allocs_succeed k →
    connects_succeed k → k.sends = List.replicate n (full send_size) ++ rest →
    k.recvs = (List.replicate n (deliver cs)).flatten ++ restr →
    ∃ r d2 k2, exchanges H send_size 0 false n k desc ret = some (r, d2, k2) ∧
      connected d2 ∧ d2.nb_requests = desc.nb_requests + n ∧ k2.sends = rest ∧
      k2.recvs = restr ∧ allocs_succeed k2 ∧ connects_succeed k2 ∧
      served k2.trace = served k.trace + n := by
  intro n
  induction n with
  | zero =>
    intro k desc ret rest restr hd _ ha hc hks hkr
    exact ⟨ret, desc, k, rfl, hd, by simp, by simpa using hks, by simpa using hkr, ha, hc,
      by simp⟩
  | succ n ih =>
    intro k desc ret rest restr hd hnb ha hc hks hkr
    have hne : desc.nb_requests ≠ SRB_REUSE_LIMIT := by
      simp only [SRB_REUSE_LIMIT, Nat.cast_add, Nat.cast_one] at hnb ⊢
      omega
    obtain ⟨d1, k1, h1, hd1, hn1, hs1, hr1, hv1, hc1, hsv1⟩ :=
      sock_send_receive_same_connection H k desc send_size cs
        (List.replicate n (full send_size) ++ rest)
        ((List.replicate n (deliver cs)).flatten ++ restr) hd hne (allocs_headD k ha) hpos hcs
        (by rw [hks, List.replicate_succ, List.cons_append])
        (by rw [hkr, List.replicate_succ, List.flatten_cons, List.append_assoc])
    obtain ⟨r, d2, k2, h2, hd2, hn2, hs2, hr2, ha2, hc2, hsv2⟩ := ih k1 d1 cs.flatten.length
      rest restr hd1
      (by rw [hn1]; simp only [Nat.cast_add, Nat.cast_one] at hnb; omega)
      (allocs_succeed_tail k k1 hv1 ha) (hc1 hc) hs1 hr1
    refine ⟨r, d2, k2, ?_, hd2, ?_, hs2, hr2, ha2, hc2, ?_⟩
    · simp only [exchanges, exchange, Bool.false_eq_true, if_false, h1, h2]
    · rw [hn2, hn1]; push_cast; ring
    · rw [hsv2, hsv1]; ring

/-- The reuse limit at work, with a peer that behaves.  From a connection just opened by
`srb_cdmi_connect` (counter 0), 100 exchanges go out on it and leave the counter at 100.
The next exchange closes it, opens a new connection and sends its request on it, and
leaves the counter at 0; the 100 exchanges that follow go out on that connection too,
which has then carried 101 requests. -/
theorem exchanges_reuse_limit (H : Framer) (send_size : Int) (cs : List (List Char))
    (k : Kernel) (desc : srb_cdmi_desc) (ret : Int) (rest : List SendReply)
    (restr : List RecvReply) (hpos : 0 < send_size) (hcs : good_response H cs)
    (hd : connected desc) (hnb : desc.nb_requests = 0) (ha : allocs_succeed k)
    (hc : connects_succeed k) (hks : k.sends = List.replicate 201 (full send_size) ++ rest)
    (hkr : k.recvs = (List.replicate 201 (deliver cs)).flatten ++ restr) :
    (∃ r d1 k1, exchanges H send_size 0 false 100 k desc ret = some (r, d1, k1) ∧
      connected d1 ∧ d1.nb_requests = 100 ∧ served k1.trace = served k.trace + 100) ∧
    (∃ r d2 k2, exchanges H send_size 0 false 201 k desc ret = some (r, d2, k2) ∧
      connected d2 ∧ d2.nb_requests = 100 ∧ served k2.trace = 101) := by
  have e1 : List.replicate 201 (full send_size) ++ rest
      = List.replicate 100 (full send_size) ++
        (full send_size :: (List.replicate 100 (full send_size) ++ rest)) := by
    rw [show (201 : Nat) = 100 + (1 + 100) by rfl, List.replicate_add, List.replicate_add,
      List.append_assoc, List.append_assoc]
    rfl
  have e2 : (List.replicate 201 (deliver cs)).flatten ++ restr
      = (List.replicate 100 (deliver cs)).flatten ++
        (deliver cs ++ ((List.replicate 100 (deliver cs)).flatten ++ restr)) := by
    rw [show (201 : Nat) = 100 + (1 + 100) by rfl, List.replicate_add, List.replicate_add,
      List.flatten_append, List.flatten_append, List.append_assoc, List.append_assoc]
    simp only [List.replicate_one, List.flatten_cons, List.flatten_nil, List.append_nil]
  obtain ⟨r1, d1, k1, h1, hd1, hn1, hs1, hr1, ha1, hc1, hsv1⟩ :=
    exchanges_same_connection H send_size cs hpos hcs 100 k desc ret _ _ hd
      (by rw [hnb]; decide) ha hc (hks.trans e1) (hkr.trans e2)
  have hn1b : d1.nb_requests = 100 := by rw [hn1, hnb]; rfl
  obtain ⟨dm, km, hm, hdm, hnm, hsm, hrm, hvm, hcm, hsvm⟩ :=
    sock_send_receive_forced_reconnect H k1 d1 send_size cs _ _ hd1 hn1b (allocs_headD k1 ha1)
      hc1 hpos hcs hs1 hr1
  obtain ⟨r2, d2, k2, h2, hd2, hn2, hs2, hr2, ha2, hc2, hsv2⟩ :=
    exchanges_same_connection H send_size cs hpos hcs 100 km dm cs.flatten.length rest restr hdm
      (by rw [hnm]; decide) (allocs_succeed_tail k1 km hvm ha1) hcm hsm hrm
  refine ⟨⟨r1, d1, k1, h1, hd1, hn1b, hsv1⟩, r2, d2, k2, ?_, hd2,
    by rw [hn2, hnm]; rfl, by rw [hsv2, hsvm]⟩
  rw [show (201 : Nat) = 100 + 101 by rfl, exchanges_add H send_size 0 false 100 101 _ _ _ _ _ _ h1]
  have hx : exchange H k1 d1 send_size 0 false = some ((cs.flatten.length : Int), dm, km) := by
    simp only [exchange, Bool.false_eq_true, if_false, hm]
  rw [show (101 : Nat) = 100 + 1 by rfl, exchanges_succ H send_size 0 false 100 k1 d1 r1 _ _ _ hx]
  exact h2

/-- C12 (failing input): 201 exchanges from a connection just opened by `srb_cdmi_connect`,
with a peer that takes every request and answers it.  After 100 exchanges the first
connection has carried 100 requests and the counter is at the limit; the 101st exchange
opens a new connection, and after the 201st that connection has carried 101 requests and
is still open. -/
theorem forced_reconnection_serves_101_requests :
    (∃ r d1 k1, exchanges demo_framer 61 0 false 100 (patient_peer 201) fresh_connection (-1)
        = some (r, d1, k1) ∧ connected d1 ∧ d1.nb_requests = 100 ∧ served k1.trace = 100) ∧
    (∃ r d2 k2, exchanges demo_framer 61 0 false 201 (patient_peer 201) fresh_connection (-1)
        = some (r, d2, k2) ∧ connected d2 ∧ d2.nb_requests = 100 ∧ served k2.trace = 101) := by
  have hg : good_response demo_framer [demo_response] := by
    refine ⟨by decide, by decide, by decide, ?_, by decide⟩
    intro n hn
    have : n = 0 := by simpa using hn
    subst this
    decide
  have h := exchanges_reuse_limit demo_framer 61 [demo_response] (patient_peer 201)
    fresh_connection (-1) [] [] (by decide) hg ⟨rfl, 0, rfl⟩ rfl
    (fun b hb => absurd hb (List.not_mem_nil b))
    ⟨fun r hr => absurd hr (List.not_mem_nil r), fun r hr => absurd hr (List.not_mem_nil r),
      fun r hr => absurd hr (List.not_mem_nil r)⟩
    (List.append_nil _).symm (List.append_nil _).symm
  exact h

/-! ## Failures of the steps of `srb_cdmi_connect` -/

/-- C14 (counterexample): with a timeout configured, both timeout `setsockopt` calls fail
and `srb_cdmi_connect` still returns 0 with the descriptor connected. -/
theorem srb_cdmi_connect_ignores_timeout_failure :
    timeout_desc.state = CDMI_DISCONNECTED ∧
    srb_cdmi_connect failing_timeout_peer timeout_desc
      = (0, reconnected timeout_desc 0,
          { failing_timeout_peer with
            sockopts := [], next_sock := 1,
            trace := [Event.sock_create 0, Event.connect 0 "10.0.0.1".toList 8080 0,
              Event.setsockopt 0 SockOpt.TCP_NODELAY 0, Event.setsockopt 0 SockOpt.SO_RCVTIMEO (-1),
              Event.setsockopt 0 SockOpt.SO_SNDTIMEO (-1)] }) := by
  decide

/-- C14 (amended): on a descriptor in state `Disconnected`, when creating the socket, the
TCP connect or setting `TCP_NODELAY` fails, `srb_cdmi_connect` returns the negative value
of that step and leaves the socket null and the state `Disconnected` (`dropped`), after
shutting down and releasing the socket it created; when these three steps succeed it returns 0 with the
descriptor connected on the new socket and the counter at 0, whatever the two timeout
`setsockopt` calls return. -/
theorem srb_cdmi_connect_step_failure (k : Kernel) (desc : srb_cdmi_desc)
    (hst : desc.state = CDMI_DISCONNECTED) :
    (k.creates.headD 0 < 0 →
      (srb_cdmi_connect k desc).1 = k.creates.headD 0 ∧
      (srb_cdmi_connect k desc).2.1 = dropped desc) ∧
    (0 ≤ k.creates.headD 0 → k.connects.headD 0 < 0 →
      (srb_cdmi_connect k desc).1 = k.connects.headD 0 ∧
      (srb_cdmi_connect k desc).2.1 = dropped desc ∧
      (srb_cdmi_connect k desc).2.2.trace = k.trace ++
        [Event.sock_create (k.creates.headD 0),
          Event.connect k.next_sock desc.ip_addr (desc.port % 65536) (k.connects.headD 0),
          Event.shutdown k.next_sock, Event.release k.next_sock]) ∧
    (0 ≤ k.creates.headD 0 → 0 ≤ k.connects.headD 0 → k.sockopts.headD 0 < 0 →
      (srb_cdmi_connect k desc).1 = k.sockopts.headD 0 ∧
      (srb_cdmi_connect k desc).2.1 = dropped desc ∧
      (srb_cdmi_connect k desc).2.2.trace = k.trace ++
        [Event.sock_create (k.creates.headD 0),
          Event.connect k.next_sock desc.ip_addr (desc.port % 65536) (k.connects.headD 0),
          Event.setsockopt k.next_sock SockOpt.TCP_NODELAY (k.sockopts.headD 0),
          Event.shutdown k.next_sock, Event.release k.next_sock]) ∧
    (0 ≤ k.creates.headD 0 → 0 ≤ k.connects.headD 0 → 0 ≤ k.sockopts.headD 0 →
      (srb_cdmi_connect k desc).1 = 0 ∧
      (srb_cdmi_connect k desc).2.1 = reconnected desc k.next_sock) ∧
    ((srb_cdmi_connect k desc).1 = 0 ↔
      0 ≤ k.creates.headD 0 ∧ 0 ≤ k.connects.headD 0 ∧ 0 ≤ k.sockopts.headD 0) := by
  have h0 : ¬ (CDMI_DISCONNECTED = CDMI_CONNECTED) := by decide
  by_cases h1 : k.creates.headD 0 < 0
  · have e : (srb_cdmi_connect k desc).1 = k.creates.headD 0 ∧
        (srb_cdmi_connect k desc).2.1 = dropped desc := by
      simp only [srb_cdmi_connect, hst, h0, if_false, sock_create_kern, h1, if_true,
        srb_cdmi_connect_out_error, dropped]
      exact ⟨trivial, trivial⟩
    refine ⟨fun _ => e, fun h => absurd h1 (not_lt.mpr h), fun h => absurd h1 (not_lt.mpr h),
      fun h => absurd h1 (not_lt.mpr h), ?_⟩
    rw [e.1]
    constructor
    · intro h; omega
    · intro h; omega
  · by_cases h2 : k.connects.headD 0 < 0
    · have e : srb_cdmi_connect k desc = (k.connects.headD 0, dropped desc,
          sock_release (kernel_sock_shutdown
            (kernel_connect (sock_create_kern k).2.2 k.next_sock desc.ip_addr
              (desc.port % 65536)).2 k.next_sock) k.next_sock) := by
        simp only [srb_cdmi_connect, hst, h0, if_false, sock_create_kern, h1, kernel_connect,
          h2, if_true, srb_cdmi_connect_out_error, dropped]
      refine ⟨fun h => absurd h h1, fun _ _ => ⟨by rw [e], by rw [e], ?_⟩,
        fun _ h => absurd h2 (not_lt.mpr h), fun _ h => absurd h2 (not_lt.mpr h), ?_⟩
      · rw [e]
        simp only [sock_release, kernel_sock_shutdown, kernel_connect, sock_create_kern, h1,
          if_false, List.append_assoc, List.singleton_append, List.cons_append, List.nil_append]
      · rw [e]
        constructor
        · intro h; simp only at h; omega
        · intro h; omega
    · by_cases h3 : k.sockopts.headD 0 < 0
      · have e : srb_cdmi_connect k desc = (k.sockopts.headD 0, dropped desc,
            sock_release (kernel_sock_shutdown
              (kernel_setsockopt (kernel_connect (sock_create_kern k).2.2 k.next_sock
                desc.ip_addr (desc.port % 65536)).2 k.next_sock SockOpt.TCP_NODELAY).2
              k.next_sock) k.next_sock) := by
          simp only [srb_cdmi_connect, hst, h0, if_false, sock_create_kern, h1, kernel_connect,
            h2, kernel_setsockopt, h3, if_true, srb_cdmi_connect_out_error, dropped]
        refine ⟨fun h => absurd h h1, fun _ h => absurd h h2,
          fun _ _ _ => ⟨by rw [e], by rw [e], ?_⟩, fun _ _ h => absurd h3 (not_lt.mpr h), ?_⟩
        · rw [e]
          simp only [sock_release, kernel_sock_shutdown, kernel_connect, sock_create_kern,
            kernel_setsockopt, h1, if_false, List.append_assoc, List.singleton_append,
            List.cons_append, List.nil_append]
        · rw [e]
          constructor
          · intro h; simp only at h; omega
          · intro h; omega
      · have e : (srb_cdmi_connect k desc).1 = 0 ∧
            (srb_cdmi_connect k desc).2.1 = reconnected desc k.next_sock := by
          simp only [srb_cdmi_connect, hst, h0, if_false, sock_create_kern, h1, kernel_connect,
            h2, kernel_setsockopt, h3, reconnected]
          exact ⟨trivial, trivial⟩
        refine ⟨fun h => absurd h h1, fun _ h => absurd h h2, fun _ _ h => absurd h h3,
          fun _ _ _ => e, ?_⟩
        rw [e.1]
        simp only [true_iff]
        omega

theorem srb_cdmi_connect_step_failure_witness :
    (srb_cdmi_connect refusing_peer (demo_desc [])).1 = -111 ∧
    (srb_cdmi_connect refusing_peer (demo_desc [])).2.1 = dropped (demo_desc []) ∧
    (srb_cdmi_connect refusing_peer (demo_desc [])).2.2.trace =
      [Event.sock_create 0, Event.connect 0 "10.0.0.1".toList 8080 (-111), Event.shutdown 0,
        Event.release 0] :=
  (srb_cdmi_connect_step_failure refusing_peer (demo_desc []) rfl).2.1 (by decide)
    (by decide)

/-! ## Disconnect -/

theorem connected_or_disconnected_invariant :
    desc_invariant (fun d => connected d ∨ disconnected d) where
  connect := by
    intro k d h
    rcases srb_cdmi_connect_desc k d with ⟨_, _, h1⟩ | ⟨_, _, s, h1⟩ | ⟨_, _, h1⟩ <;> rw [h1]
    · exact h
    · exact Or.inl ⟨rfl, s, rfl⟩
    · exact Or.inr ⟨rfl, rfl⟩
  disconnect := by
    intro k d h
    rcases (srb_cdmi_disconnect_desc k d).2 with ⟨_, h1, _⟩ | ⟨_, _, h1⟩ <;> rw [h1]
    · exact h
    · exact Or.inr ⟨rfl, rfl⟩
  buffer := fun d b h => h
  count := fun d h _ => h

/-- Every reachable descriptor is connected with a socket or disconnected without one. -/
theorem reachable_connected_or_disconnected (H : Framer) (SRB_CDMI_URL_SIZE : Nat)
    (desc : srb_cdmi_desc) (h : reachable H SRB_CDMI_URL_SIZE desc) :
    connected desc ∨ disconnected desc := by
  induction h with
  | init url =>
    obtain ⟨h1, _, _, _, _, h2⟩ := srb_cdmi_init_frame SRB_CDMI_URL_SIZE zeroed_desc url
    right
    refine ⟨?_, h1⟩
    rcases h2 with h2 | h2
    · rw [h2]; rfl
    · exact h2
  | connect k d _ ih => exact connected_or_disconnected_invariant.connect k d ih
  | disconnect k d _ ih => exact connected_or_disconnected_invariant.disconnect k d ih
  | send_receive k d ss rs r d2 k2 _ hx ih =>
    exact sock_send_receive_inv connected_or_disconnected_invariant H _ _ _ _ _ _ _ hx ih
  | send_sglist_receive k d ss rs r d2 k2 _ hx ih =>
    exact sock_send_sglist_receive_inv connected_or_disconnected_invariant H _ _ _ _ _ _ _ hx ih
  | prepare d t sgl buf _ ih => exact ih

/-- C15: `srb_cdmi_disconnect` on a non-null descriptor never fails and is idempotent.
It returns 0 for every descriptor; a second call right after the first (whatever the
socket layer is by then) returns 0, leaves the descriptor as the first call left it and
makes no socket operation; on a descriptor reachable from `srb_cdmi_init` through connect,
disconnect and exchange calls it leaves the state `Disconnected` and the socket null; and
on a descriptor that was never connected (as `srb_cdmi_init` leaves a zeroed descriptor,
or any descriptor without a socket) it changes no field and makes no socket operation. -/
theorem srb_cdmi_disconnect_idempotent (H : Framer) (SRB_CDMI_URL_SIZE : Nat) (k k2 : Kernel)
    (desc : srb_cdmi_desc) (url : List Char) :
    (srb_cdmi_disconnect k desc).1 = 0 ∧
    srb_cdmi_disconnect k2 (srb_cdmi_disconnect k desc).2.1
      = (0, (srb_cdmi_disconnect k desc).2.1, k2) ∧
    (reachable H SRB_CDMI_URL_SIZE desc →
      (srb_cdmi_disconnect k desc).2.1.state = CDMI_DISCONNECTED ∧
      (srb_cdmi_disconnect k desc).2.1.socket = none) ∧
    (desc.socket = none → srb_cdmi_disconnect k desc = (0, desc, k)) ∧
    srb_cdmi_disconnect k (srb_cdmi_init SRB_CDMI_URL_SIZE zeroed_desc url).2
      = (0, (srb_cdmi_init SRB_CDMI_URL_SIZE zeroed_desc url).2, k) := by
  have hnone : ∀ (k : Kernel) (d : srb_cdmi_desc), d.socket = none →
      srb_cdmi_disconnect k d = (0, d, k) := by
    intro k d h
    simp only [srb_cdmi_disconnect, h]
  refine ⟨(srb_cdmi_disconnect_desc k desc).1, ?_, ?_, hnone k desc, ?_⟩
  · rcases (srb_cdmi_disconnect_desc k desc).2 with ⟨h0, h1, _⟩ | ⟨_, _, h1⟩
    · rw [h1]
      rcases h0 with h0 | h0
      · exact hnone k2 desc h0
      · unfold srb_cdmi_disconnect
        split
        · rfl
        · simp only [h0, if_true]
    · rw [h1]
      exact hnone k2 _ rfl
  · intro hr
    have hd := srb_cdmi_disconnect_dropped k desc
      (reachable_connected_or_disconnected H SRB_CDMI_URL_SIZE desc hr)
    rw [hd]
    exact ⟨rfl, rfl⟩
  · exact hnone k _ (srb_cdmi_init_frame SRB_CDMI_URL_SIZE zeroed_desc url).1

theorem srb_cdmi_disconnect_idempotent_witness :
    reachable demo_framer 64
      (srb_cdmi_connect get_peer (srb_cdmi_init 64 zeroed_desc "http://10.0.0.1/vol".toList).2).2.1 ∧
    (srb_cdmi_connect get_peer
      (srb_cdmi_init 64 zeroed_desc "http://10.0.0.1/vol".toList).2).2.1.state = CDMI_CONNECTED ∧
    (srb_cdmi_disconnect get_peer (srb_cdmi_connect get_peer
      (srb_cdmi_init 64 zeroed_desc "http://10.0.0.1/vol".toList).2).2.1).2.1.state
        = CDMI_DISCONNECTED ∧
    (srb_cdmi_disconnect get_peer (srb_cdmi_connect get_peer
      (srb_cdmi_init 64 zeroed_desc "http://10.0.0.1/vol".toList).2).2.1).2.1.socket = none :=
  ⟨reachable.connect _ _ (reachable.init _), by decide,
    (srb_cdmi_disconnect_idempotent demo_framer 64 get_peer get_peer _ []).2.2.1
      (reachable.connect _ _ (reachable.init _))⟩

/-! ## URL parsing -/

theorem ip_valid_char_not_sep (c : Char) (h : ip_valid_char c ≠ 0) :
    c ≠ ':' ∧ c ≠ '/' ∧ c ≠ NUL := by
  refine ⟨?_, ?_, ?_⟩ <;> (rintro rfl; revert h; decide)

theorem is_digit_valid (c : Char) (h : is_digit c ≠ 0) : ip_valid_char c ≠ 0 := by
  simp [ip_valid_char, h]

theorem is_digit_toNat (c : Char) (h : is_digit c ≠ 0) : 48 ≤ c.toNat ∧ c.toNat ≤ 57 := by
  unfold is_digit at h
  split at h
  · rename_i h1
    obtain ⟨h2, h3⟩ := h1
    have e2 : ('0' : Char).toNat ≤ c.toNat := h2
    have e3 : c.toNat ≤ ('9' : Char).toNat := h3
    exact ⟨e2, e3⟩
  · exact absurd rfl h

theorem takeWhile_eq_self {α : Type} (p : α → Bool) (l : List α) (h : ∀ x ∈ l, p x = true) :
    l.takeWhile p = l := by
  induction l with
  | nil => rfl
  | cons a l ih =>
    rw [List.takeWhile_cons, h a (by simp), if_pos rfl, ih (fun x hx => h x (by simp [hx]))]

theorem takeWhile_append_stop {α : Type} (p : α → Bool) (l rest : List α)
    (h : ∀ x ∈ l, p x = true) (hr : ∀ x, rest.head? = some x → p x = false) :
    (l ++ rest).takeWhile p = l := by
  induction l with
  | nil =>
    cases rest with
    | nil => rfl
    | cons a r =>
      have := hr a rfl
      simp [List.takeWhile_cons, this]
  | cons a l ih =>
    rw [List.cons_append, List.takeWhile_cons, h a (by simp), if_pos rfl,
      ih (fun x hx => h x (by simp [hx]))]

theorem strcpy_eq_self (s : List Char) (h : ∀ c ∈ s, c ≠ NUL) : strcpy s = s :=
  takeWhile_eq_self _ s (fun c hc => by simpa using h c hc)

theorem strlen_eq_length (s : List Char) (h : ∀ c ∈ s, c ≠ NUL) : strlen s = s.length := by
  unfold strlen
  rw [takeWhile_eq_self _ s (fun c hc => by simpa using h c hc)]

theorem strcpy_no_nul (s : List Char) : ∀ c ∈ strcpy s, c ≠ NUL := by
  intro c hc
  have := List.mem_takeWhile_imp hc
  simpa using this

/-- The loop of `get_ip` over a host of valid characters that is followed by `:` or `/`. -/
theorem get_ip_loop_valid : ∀ (h : List Char) (n i : Nat) (ip rest : List Char),
    (∀ c ∈ h, ip_valid_char c ≠ 0) → h.length ≤ n →
    (rest.headD NUL = ':' ∨ rest.headD NUL = '/') →
    get_ip_loop n (h ++ rest) i ip = some (i + h.length, ip ++ h, rest) := by
  intro h
  induction h with
  | nil =>
    intro n i ip rest _ _ hr
    cases n with
    | zero => simp [get_ip_loop]
    | succ n => simp only [get_ip_loop, List.nil_append, hr, if_true, Nat.add_zero,
        List.length_nil, List.append_nil]
  | cons c h ih =>
    intro n i ip rest hv hn hr
    obtain ⟨m, rfl⟩ : ∃ m, n = m + 1 := ⟨n - 1, by simp at hn; omega⟩
    have hc := hv c (by simp)
    obtain ⟨h1, h2, _⟩ := ip_valid_char_not_sep c hc
    have := ih m (i + 1) (ip ++ [c]) rest (fun x hx => hv x (by simp [hx]))
      (by simp at hn; omega) hr
    simp only [get_ip_loop, List.cons_append, List.headD_cons, h1, h2, or_self, if_false, hc,
      List.tail_cons, this, List.length_cons, List.append_assoc, List.singleton_append,
      Option.some.injEq, Prod.mk.injEq, and_true]
    refine ⟨by omega, by simp⟩

/-- What the loop of `get_ip` has read when it ends without `return 0`. -/
theorem get_ip_loop_some : ∀ (n : Nat) (s : List Char) (i : Nat) (ip : List Char) (j : Nat)
    (ip2 s2 : List Char), get_ip_loop n s i ip = some (j, ip2, s2) →
    ∃ pre, s = pre ++ s2 ∧ j = i + pre.length ∧ ip2 = ip ++ pre ∧ pre.length ≤ n ∧
      ∀ c ∈ pre, ip_valid_char c ≠ 0 := by
  intro n
  induction n with
  | zero =>
    intro s i ip j ip2 s2 h
    simp only [get_ip_loop, Option.some.injEq, Prod.mk.injEq] at h
    obtain ⟨rfl, rfl, rfl⟩ := h
    exact ⟨[], by simp, by simp, by simp, by simp, by simp⟩
  | succ n ih =>
    intro s i ip j ip2 s2 h
    unfold get_ip_loop at h
    split at h
    · simp only [Option.some.injEq, Prod.mk.injEq] at h
      obtain ⟨rfl, rfl, rfl⟩ := h
      exact ⟨[], by simp, by simp, by simp, by simp, by simp⟩
    · split at h
      · simp at h
      · rename_i hv
        cases s with
        | nil => exact absurd (by decide : ip_valid_char (([] : List Char).headD NUL) = 0) hv
        | cons c t =>
          simp only [List.headD_cons, List.tail_cons] at h hv
          obtain ⟨pre, e1, e2, e3, e4, e5⟩ := ih _ _ _ _ _ _ h
          refine ⟨c :: pre, by rw [e1]; rfl, by rw [e2]; simp; omega, by rw [e3]; simp,
            by simp; omega, ?_⟩
          intro x hx
          rcases List.mem_cons.mp hx with rfl | hx
          · exact hv
          · exact e5 x hx

/-- The result of `get_ip` on a host of valid characters followed by `:` or `/`. -/
theorem get_ip_valid (h rest : List Char) (hv : ∀ c ∈ h, ip_valid_char c ≠ 0)
    (hlen : h.length ≤ 15) (hr : rest.headD NUL = ':' ∨ rest.headD NUL = '/') :
    get_ip (h ++ rest) = ((h.length : Int), h) := by
  have := get_ip_loop_valid h 15 0 [] rest hv hlen hr
  have hn : ¬ (rest.headD NUL ≠ ':' ∧ rest.headD NUL ≠ '/') := by
    intro hc
    rcases hr with hr | hr
    · exact hc.1 hr
    · exact hc.2 hr
  simp only [get_ip, this, Nat.zero_add, List.nil_append, hn, if_false]

/-- When `get_ip` succeeds, it has read a host of 1 to 15 valid characters that is
followed by `:` or `/`. -/
theorem get_ip_ok (s : List Char) (h0 : (get_ip s).1 ≠ 0) :
    ∃ h rest, s = h ++ rest ∧ h ≠ [] ∧ h.length ≤ 15 ∧ (∀ c ∈ h, ip_valid_char c ≠ 0) ∧
      (rest.headD NUL = ':' ∨ rest.headD NUL = '/') ∧ get_ip s = ((h.length : Int), h) := by
  unfold get_ip at h0 ⊢
  rcases hl : get_ip_loop 15 s 0 [] with _ | ⟨i, ip, s2⟩
  · simp [hl] at h0
  · simp only [hl] at h0 ⊢
    obtain ⟨pre, e1, e2, e3, e4, e5⟩ := get_ip_loop_some _ _ _ _ _ _ _ hl
    split at h0
    · simp at h0
    · rename_i hc
      have hterm : s2.headD NUL = ':' ∨ s2.headD NUL = '/' := by
        by_contra hn
        push_neg at hn
        exact hc hn
      simp only [e2, Nat.zero_add] at h0
      refine ⟨pre, s2, e1, ?_, e4, e5, hterm, ?_⟩
      · intro hp
        rw [hp] at h0
        simp at h0
      · simp only [hc, if_false, e2, e3, Nat.zero_add, List.nil_append]

theorem get_port_loop_stop (s : List Char) (i : Nat) (port : Int)
    (h : is_digit (s.headD NUL) = 0) : get_port_loop s i port = (i, port) := by
  cases s with
  | nil => rfl
  | cons c t =>
    simp only [List.headD_cons] at h
    simp only [get_port_loop, h, ne_eq, not_true_eq_false, if_false]

/-- The number of digits `get_port` reads. -/
theorem get_port_loop_fst : ∀ (P : List Char) (i : Nat) (port : Int) (rest : List Char),
    digits P → is_digit (rest.headD NUL) = 0 →
    (get_port_loop (P ++ rest) i port).1 = i + P.length := by
  intro P
  induction P with
  | nil =>
    intro i port rest _ hr
    rw [List.nil_append, get_port_loop_stop rest i port hr]
    rfl
  | cons c P ih =>
    intro i port rest hd hr
    have hc : is_digit c ≠ 0 := hd c (by simp)
    simp only [List.cons_append, get_port_loop, hc, ne_eq, not_false_eq_true, if_true]
    have := ih (i + 1) (int32 (int32 (port * 10) + ((c.toNat : Int) - 48))) rest
      (fun x hx => hd x (by simp [hx])) hr
    simp only [List.length_cons]
    rw [show P.append rest = P ++ rest from rfl, this]
    omega

/-- Every string splits into its leading digits and a rest that starts with no digit. -/
theorem leading_digits (s : List Char) :
    ∃ P rest, s = P ++ rest ∧ digits P ∧ is_digit (rest.headD NUL) = 0 := by
  induction s with
  | nil => exact ⟨[], [], rfl, by simp [digits], by decide⟩
  | cons c t ih =>
    by_cases hc : is_digit c = 0
    · exact ⟨[], c :: t, rfl, by simp [digits], by simpa using hc⟩
    · obtain ⟨P, rest, e, hd, hr⟩ := ih
      refine ⟨c :: P, rest, by rw [e]; rfl, ?_, hr⟩
      intro x hx
      rcases List.mem_cons.mp hx with rfl | hx
      · exact hc
      · exact hd x hx

theorem foldl_decimal_le (P : List Char) (p : Nat) :
    p ≤ P.foldl (fun n c => n * 10 + (c.toNat - 48)) p := by
  induction P generalizing p with
  | nil => exact le_refl p
  | cons c P ih =>
    simp only [List.foldl_cons]
    exact le_trans (by omega) (ih _)

theorem int32_small (x : Int) (h0 : 0 ≤ x) (h1 : x < 2147483648) : int32 x = x := by
  unfold int32
  omega

/-- Without overflow of the `int` accumulator, `get_port` computes the decimal value of
the digits. -/
theorem get_port_loop_snd : ∀ (P : List Char) (i p : Nat) (rest : List Char),
    digits P → is_digit (rest.headD NUL) = 0 →
    P.foldl (fun n c => n * 10 + (c.toNat - 48)) p < 2147483648 →
    (get_port_loop (P ++ rest) i (p : Int)).2
      = ((P.foldl (fun n c => n * 10 + (c.toNat - 48)) p : Nat) : Int) := by
  intro P
  induction P with
  | nil =>
    intro i p rest _ hr _
    rw [List.nil_append, get_port_loop_stop rest i _ hr]
    rfl
  | cons c P ih =>
    intro i p rest hd hr hb
    have hc : is_digit c ≠ 0 := hd c (by simp)
    have hn := is_digit_toNat c hc
    simp only [List.foldl_cons] at hb ⊢
    have hle := foldl_decimal_le P (p * 10 + (c.toNat - 48))
    have e : int32 (int32 ((p : Int) * 10) + ((c.toNat : Int) - 48))
        = ((p * 10 + (c.toNat - 48) : Nat) : Int) := by
      rw [int32_small ((p : Int) * 10) (by omega) (by omega), int32_small _ (by omega) (by omega)]
      omega
    simp only [List.cons_append, get_port_loop, hc, ne_eq, not_false_eq_true, if_true, e]
    exact ih (i + 1) _ rest (fun x hx => hd x (by simp [hx])) hr hb

theorem PROTO_HTTP_starts (url : List Char) :
    strncmp url PROTO_HTTP (strlen PROTO_HTTP) = 0 ↔ PROTO_HTTP <+: url :=
  strncmp_eq_zero_iff PROTO_HTTP url (by decide)

theorem is_digit_slash (path : List Char) (h : path.headD NUL = '/') :
    is_digit (path.headD NUL) = 0 := by
  rw [h]; decide

/-- The optional port of `srb_cdmi_init` on `:`, digits and a rest that starts with no
digit. -/
theorem srb_cdmi_init_port_digits (P path : List Char) (hd : digits P) (hP : P ≠ [])
    (hr : is_digit (path.headD NUL) = 0) :
    srb_cdmi_init_port (':' :: (P ++ path)) = some ((get_port_loop (P ++ path) 0 0).2, path) := by
  have hdig := get_port_loop_fst P 0 0 path hd hr
  have hg : get_port (P ++ path)
      = (((get_port_loop (P ++ path) 0 0).1 : Int), (get_port_loop (P ++ path) 0 0).2) := rfl
  have hPl : ¬ (((0 + P.length : Nat) : Int) = 0) := by
    intro e
    exact hP (List.length_eq_zero.mp (by simpa using e))
  have hd3 : (P ++ path).drop (0 + P.length) = path := by
    rw [Nat.zero_add]
    exact List.drop_left' rfl
  simp only [srb_cdmi_init_port, List.headD_cons, if_true, List.tail_cons, hg, hdig, hPl,
    if_false, Int.toNat_ofNat, hd3]

theorem srb_cdmi_init_port_no_digit (path : List Char)
    (hr : is_digit (path.headD NUL) = 0) : srb_cdmi_init_port (':' :: path) = none := by
  have hg : get_port path = (0, 0) := by
    simp only [get_port, get_port_loop_stop path 0 0 hr]
    rfl
  simp only [srb_cdmi_init_port, List.headD_cons, if_true, List.tail_cons, hg]

/-- What `srb_cdmi_init` stores for `http://` followed by a host of 1 to 15 digits and dots
and then either a path, or `:`, port digits and a path. -/
theorem srb_cdmi_init_accepts (SRB_CDMI_URL_SIZE : Nat) (desc : srb_cdmi_desc)
    (h t : List Char) (hv : ∀ c ∈ h, ip_valid_char c ≠ 0) (hne : h ≠ [])
    (hlen : h.length ≤ 15) :
    (t.headD NUL = '/' →
      srb_cdmi_init SRB_CDMI_URL_SIZE desc (PROTO_HTTP ++ h ++ t)
        = (0, { desc with url := strncpy (PROTO_HTTP ++ h ++ t) SRB_CDMI_URL_SIZE,
                          filename := strcpy t, ip_addr := h, port := 80,
                          state := CDMI_DISCONNECTED })) ∧
    (∀ P path, t = ':' :: (P ++ path) → digits P → P ≠ [] → path.headD NUL = '/' →
      srb_cdmi_init SRB_CDMI_URL_SIZE desc (PROTO_HTTP ++ h ++ t)
        = (0, { desc with url := strncpy (PROTO_HTTP ++ h ++ t) SRB_CDMI_URL_SIZE,
                          filename := strcpy path, ip_addr := h,
                          port := (get_port_loop (P ++ path) 0 0).2,
                          state := CDMI_DISCONNECTED })) := by
  have hp : ¬ (strncmp (PROTO_HTTP ++ h ++ t) PROTO_HTTP (strlen PROTO_HTTP) ≠ 0) := by
    rw [not_not]
    exact (PROTO_HTTP_starts _).2 ⟨h ++ t, by simp⟩
  have hdrop : (PROTO_HTTP ++ h ++ t).drop (strlen PROTO_HTTP) = h ++ t := by
    rw [List.append_assoc]
    exact List.drop_left' (by decide)
  have hh : ¬ ((h.length : Int) = 0) := by
    intro e
    exact hne (List.length_eq_zero.mp (by exact_mod_cast e))
  have hdrop2 : (h ++ t).drop (h.length : Int).toNat = t := by
    rw [Int.toNat_ofNat]
    exact List.drop_left' rfl
  have hcpy : strcpy h = h := strcpy_eq_self h (fun c hc => (ip_valid_char_not_sep c (hv c hc)).2.2)
  constructor
  · intro ht
    have hip := get_ip_valid h t hv hlen (Or.inr ht)
    have hport : srb_cdmi_init_port t = some (80, t) := by
      have : ¬ (t.headD NUL = ':') := by rw [ht]; decide
      simp only [srb_cdmi_init_port, this, if_false]
    have ht2 : ¬ (t.headD NUL ≠ '/') := not_not.mpr ht
    simp only [srb_cdmi_init, hp, if_false, hdrop, hip, hh, hdrop2, hport, ht2, hcpy]
  · intro P path ht hd hP hpath
    have hterm : t.headD NUL = ':' := by rw [ht]; rfl
    have hip := get_ip_valid h t hv hlen (Or.inl hterm)
    have hport : srb_cdmi_init_port t = some ((get_port_loop (P ++ path) 0 0).2, path) := by
      rw [ht]
      exact srb_cdmi_init_port_digits P path hd hP (is_digit_slash path hpath)
    have ht2 : ¬ (path.headD NUL ≠ '/') := not_not.mpr hpath
    simp only [srb_cdmi_init, hp, if_false, hdrop, hip, hh, hdrop2, hport, ht2, hcpy]

/-- What a URL that `srb_cdmi_init` accepts looks like. -/
theorem srb_cdmi_init_ok (SRB_CDMI_URL_SIZE : Nat) (desc : srb_cdmi_desc) (url : List Char)
    (h0 : (srb_cdmi_init SRB_CDMI_URL_SIZE desc url).1 = 0) :
    ∃ h t, url = PROTO_HTTP ++ h ++ t ∧ (∀ c ∈ h, ip_valid_char c ≠ 0) ∧ h ≠ [] ∧
      h.length ≤ 15 ∧
      (t.headD NUL = '/' ∨
        ∃ P path, t = ':' :: (P ++ path) ∧ digits P ∧ P ≠ [] ∧ path.headD NUL = '/') := by
  by_cases hp : strncmp url PROTO_HTTP (strlen PROTO_HTTP) = 0
  · obtain ⟨s, rfl⟩ := (PROTO_HTTP_starts url).1 hp
    have hdrop : (PROTO_HTTP ++ s).drop (strlen PROTO_HTTP) = s := List.drop_left' (by decide)
    by_cases hip : (get_ip s).1 = 0
    · exfalso
      rcases hg : get_ip s with ⟨ret, ip⟩
      rw [hg] at hip
      simp only at hip
      simp [srb_cdmi_init, hp, hdrop, hg, hip] at h0
    · obtain ⟨h, t, rfl, hne, hlen, hv, hterm, hg⟩ := get_ip_ok s hip
      have hh : ¬ ((h.length : Int) = 0) := by
        intro e
        exact hne (List.length_eq_zero.mp (by exact_mod_cast e))
      have hdrop2 : (h ++ t).drop (h.length : Int).toNat = t := by
        rw [Int.toNat_ofNat]
        exact List.drop_left' rfl
      refine ⟨h, t, by rw [List.append_assoc], hv, hne, hlen, ?_⟩
      simp only [srb_cdmi_init, hp, ne_eq, not_true_eq_false, if_false, hdrop, hg, hh,
        hdrop2] at h0
      rcases hterm with hterm | hterm
      · right
        obtain ⟨c, t2, rfl⟩ : ∃ c t2, t = c :: t2 := by
          cases t with
          | nil => exact absurd hterm (by decide)
          | cons c t2 => exact ⟨c, t2, rfl⟩
        simp only [List.headD_cons] at hterm
        subst hterm
        obtain ⟨P, path, rfl, hd, hr⟩ := leading_digits t2
        by_cases hP : P = []
        · subst hP
          exfalso
          rw [List.nil_append, srb_cdmi_init_port_no_digit path hr] at h0
          simp only [EINVAL] at h0
          omega
        · rw [srb_cdmi_init_port_digits P path hd hP hr] at h0
          refine ⟨P, path, rfl, hd, hP, ?_⟩
          by_cases hs : path.headD NUL = '/'
          · exact hs
          · exfalso
            simp only [ne_eq, hs, not_false_eq_true, if_true, EINVAL] at h0
            omega
      · left
        exact hterm
  · exfalso
    simp [srb_cdmi_init, hp] at h0

theorem strncpy_eq_self (s : List Char) (n : Nat) (h : ∀ c ∈ s, c ≠ NUL) (hn : s.length ≤ n) :
    strncpy s n = s := by
  unfold strncpy
  rw [strcpy_eq_self s h]
  exact List.take_of_length_le hn

theorem digits_no_nul (P : List Char) (h : digits P) : ∀ c ∈ P, c ≠ NUL := fun c hc =>
  (ip_valid_char_not_sep c (is_digit_valid c (h c hc))).2.2

theorem dotted_valid (A B C D : List Char) (hA : digits A) (hB : digits B) (hC : digits C)
    (hD : digits D) : ∀ c ∈ A ++ '.' :: (B ++ '.' :: (C ++ '.' :: D)), ip_valid_char c ≠ 0 := by
  intro c hc
  simp only [List.mem_append, List.mem_cons] at hc
  rcases hc with h | rfl | h | rfl | h | rfl | h
  · exact is_digit_valid c (hA c h)
  · decide
  · exact is_digit_valid c (hB c h)
  · decide
  · exact is_digit_valid c (hC c h)
  · decide
  · exact is_digit_valid c (hD c h)

/-- C16: for every URL `http://` ++ `A.B.C.D` ++ [`:` ++ `P`] ++ `path`, where `A`, `B`,
`C`, `D` are strings of decimal digits (the four numbers of a dotted-decimal address, of
any value) and the host has at most 15 characters,
`P` when present is a non-empty string of decimal digits of value at most 65535, `path`
begins with `/`, and the whole URL is shorter than `SRB_CDMI_URL_SIZE`, `srb_cdmi_init`
returns 0 and stores the host in `ip_addr`, the value of `P` (80 without `:P`) in `port`,
`path` in `filename`, the URL in `url`, and leaves the state `Disconnected`.  The first
part is the URL with a port, the second the URL without. -/
theorem srb_cdmi_init_parses_url (SRB_CDMI_URL_SIZE : Nat) (desc : srb_cdmi_desc)
    (A B C D P path : List Char) (hA : digits A) (hB : digits B) (hC : digits C)
    (hD : digits D)
    (hlen : (A ++ '.' :: (B ++ '.' :: (C ++ '.' :: D))).length ≤ 15)
    (hpath : path.headD NUL = '/') (hnul : ∀ c ∈ path, c ≠ NUL) :
    (digits P → P ≠ [] → decimal P ≤ 65535 →
      (PROTO_HTTP ++ (A ++ '.' :: (B ++ '.' :: (C ++ '.' :: D))) ++ ':' :: (P ++ path)).length
        < SRB_CDMI_URL_SIZE →
      srb_cdmi_init SRB_CDMI_URL_SIZE desc
          (PROTO_HTTP ++ (A ++ '.' :: (B ++ '.' :: (C ++ '.' :: D))) ++ ':' :: (P ++ path))
        = (0, { desc with
            url := PROTO_HTTP ++ (A ++ '.' :: (B ++ '.' :: (C ++ '.' :: D))) ++ ':' :: (P ++ path),
            filename := path, ip_addr := A ++ '.' :: (B ++ '.' :: (C ++ '.' :: D)),
            port := decimal P, state := CDMI_DISCONNECTED })) ∧
    ((PROTO_HTTP ++ (A ++ '.' :: (B ++ '.' :: (C ++ '.' :: D))) ++ path).length
        < SRB_CDMI_URL_SIZE →
      srb_cdmi_init SRB_CDMI_URL_SIZE desc
          (PROTO_HTTP ++ (A ++ '.' :: (B ++ '.' :: (C ++ '.' :: D))) ++ path)
        = (0, { desc with
            url := PROTO_HTTP ++ (A ++ '.' :: (B ++ '.' :: (C ++ '.' :: D))) ++ path,
            filename := path, ip_addr := A ++ '.' :: (B ++ '.' :: (C ++ '.' :: D)),
            port := 80, state := CDMI_DISCONNECTED })) := by
  have hv := dotted_valid A B C D hA hB hC hD
  have hne : A ++ '.' :: (B ++ '.' :: (C ++ '.' :: D)) ≠ [] := by simp
  have hhost : ∀ c ∈ PROTO_HTTP ++ (A ++ '.' :: (B ++ '.' :: (C ++ '.' :: D))), c ≠ NUL := by
    intro c hc
    have hproto : ∀ c ∈ PROTO_HTTP, c ≠ NUL := by decide
    rcases List.mem_append.mp hc with h | h
    · exact hproto c h
    · exact (ip_valid_char_not_sep c (hv c h)).2.2
  obtain ⟨h1, h2⟩ := srb_cdmi_init_accepts SRB_CDMI_URL_SIZE desc _ path hv hne hlen
  constructor
  · intro hP hP0 hval hsize
    obtain ⟨_, h3⟩ := srb_cdmi_init_accepts SRB_CDMI_URL_SIZE desc _ (':' :: (P ++ path)) hv hne
      hlen
    rw [h3 P path rfl hP hP0 hpath]
    have hport := get_port_loop_snd P 0 0 path hP (is_digit_slash path hpath)
      (lt_of_le_of_lt hval (by decide))
    have hurl : strncpy (PROTO_HTTP ++ (A ++ '.' :: (B ++ '.' :: (C ++ '.' :: D))) ++
        ':' :: (P ++ path)) SRB_CDMI_URL_SIZE
        = PROTO_HTTP ++ (A ++ '.' :: (B ++ '.' :: (C ++ '.' :: D))) ++ ':' :: (P ++ path) := by
      apply strncpy_eq_self _ _ _ (le_of_lt hsize)
      intro c hc
      rcases List.mem_append.mp hc with h | h
      · exact hhost c h
      · rcases List.mem_cons.mp h with rfl | h
        · decide
        · rcases List.mem_append.mp h with h | h
          · exact digits_no_nul P hP c h
          · exact hnul c h
    rw [hurl, strcpy_eq_self path hnul]
    have : (get_port_loop (P ++ path) 0 0).2 = (decimal P : Int) := hport
    rw [this]
  · intro hsize
    rw [h1 hpath]
    have hurl : strncpy (PROTO_HTTP ++ (A ++ '.' :: (B ++ '.' :: (C ++ '.' :: D))) ++ path)
        SRB_CDMI_URL_SIZE = PROTO_HTTP ++ (A ++ '.' :: (B ++ '.' :: (C ++ '.' :: D))) ++ path := by
      apply strncpy_eq_self _ _ _ (le_of_lt hsize)
      intro c hc
      rcases List.mem_append.mp hc with h | h
      · exact hhost c h
      · exact hnul c h
    rw [hurl, strcpy_eq_self path hnul]

theorem srb_cdmi_init_parses_url_witness :
    srb_cdmi_init 64 zeroed_desc "http://10.0.0.1:8080/vol".toList
      = (0, { zeroed_desc with url := "http://10.0.0.1:8080/vol".toList,
                               filename := "/vol".toList, ip_addr := "10.0.0.1".toList,
                               port := 8080, state := CDMI_DISCONNECTED }) :=
  (srb_cdmi_init_parses_url 64 zeroed_desc "10".toList "0".toList "0".toList "1".toList
    "8080".toList "/vol".toList (by unfold digits; decide) (by unfold digits; decide)
    (by unfold digits; decide) (by unfold digits; decide) (by decide)
    (by decide) (by decide)).1
    (by unfold digits; decide) (by decide) (by decide) (by decide)

/-! ## Malformed URLs -/

theorem srb_cdmi_init_zero_or_EINVAL (SRB_CDMI_URL_SIZE : Nat) (desc : srb_cdmi_desc)
    (url : List Char) :
    ((srb_cdmi_init SRB_CDMI_URL_SIZE desc url).1 = 0 ∨
      (srb_cdmi_init SRB_CDMI_URL_SIZE desc url).1 = -EINVAL) ∧
    ((srb_cdmi_init SRB_CDMI_URL_SIZE desc url).1 ≠ 0 →
      (srb_cdmi_init SRB_CDMI_URL_SIZE desc url).2
        = { desc with filename := [], url := strncpy url SRB_CDMI_URL_SIZE }) := by
  unfold srb_cdmi_init
  simp only
  split
  · exact ⟨Or.inr rfl, fun _ => rfl⟩
  · rcases get_ip (url.drop (strlen PROTO_HTTP)) with ⟨ret, ip⟩
    simp only
    split
    · exact ⟨Or.inr rfl, fun _ => rfl⟩
    · split
      · exact ⟨Or.inr rfl, fun _ => rfl⟩
      · split
        · exact ⟨Or.inr rfl, fun _ => rfl⟩
        · exact ⟨Or.inl rfl, fun h => absurd rfl h⟩

theorem host_part_append (h t : List Char) (hv : ∀ c ∈ h, c ≠ ':' ∧ c ≠ '/')
    (ht : t = [] ∨ t.headD NUL = ':' ∨ t.headD NUL = '/') : host_part (h ++ t) = h := by
  unfold host_part
  apply takeWhile_append_stop
  · intro c hc
    have := hv c hc
    simp [this.1, this.2]
  · intro x hx
    cases t with
    | nil => simp at hx
    | cons c t2 =>
      simp only [List.head?_cons, Option.some.injEq] at hx
      subst hx
      rcases ht with ht | ht | ht
      · simp at ht
      · simp only [List.headD_cons] at ht; simp [ht]
      · simp only [List.headD_cons] at ht; simp [ht]

theorem valid_sep_free (h : List Char) (hv : ∀ c ∈ h, ip_valid_char c ≠ 0) :
    ∀ c ∈ h, c ≠ ':' ∧ c ≠ '/' := fun c hc =>
  ⟨(ip_valid_char_not_sep c (hv c hc)).1, (ip_valid_char_not_sep c (hv c hc)).2.1⟩

/-- The leading digits of a string are determined by the string. -/
theorem leading_digits_unique (P P2 r r2 : List Char) (e : P ++ r = P2 ++ r2) (hP : digits P)
    (hP2 : digits P2) (hr : is_digit (r.headD NUL) = 0) (hr2 : is_digit (r2.headD NUL) = 0) :
    P = P2 ∧ r = r2 := by
  have key : ∀ (P r : List Char), digits P → is_digit (r.headD NUL) = 0 →
      (P ++ r).takeWhile (fun c => decide (is_digit c ≠ 0)) = P := by
    intro P r hP hr
    apply takeWhile_append_stop
    · intro c hc
      simpa using hP c hc
    · intro x hx
      cases r with
      | nil => simp at hx
      | cons c t =>
        simp only [List.head?_cons, Option.some.injEq] at hx
        subst hx
        simpa using hr
  have h1 := key P r hP hr
  have h2 := key P2 r2 hP2 hr2
  rw [e, h2] at h1
  subst h1
  exact ⟨rfl, List.append_cancel_left e⟩

/-- The host and the rest of an accepted URL are determined by what follows `http://`. -/
theorem accepted_host_unique (s h t : List Char) (e : s = h ++ t)
    (hv : ∀ c ∈ h, ip_valid_char c ≠ 0)
    (ht : t.headD NUL = '/' ∨
      ∃ P path, t = ':' :: (P ++ path) ∧ digits P ∧ P ≠ [] ∧ path.headD NUL = '/') :
    host_part s = h := by
  rw [e]
  apply host_part_append h t (valid_sep_free h hv)
  rcases ht with ht | ⟨P, path, rfl, _⟩
  · exact Or.inr (Or.inr ht)
  · exact Or.inr (Or.inl rfl)

/-- C17: `srb_cdmi_init` returns `-EINVAL` for every malformed URL:
1. one that does not begin with `http://`;
2. one whose host part (what follows `http://` up to the first `:` or `/`) is empty, longer
   than 15 characters, or contains a character other than a digit or `.`;
3. one whose `:` after the host is not followed by a decimal digit;
4. one that ends with the host;
5. one in which the port digits are not followed by `/`. -/
theorem srb_cdmi_init_rejects_malformed (SRB_CDMI_URL_SIZE : Nat) (desc : srb_cdmi_desc)
    (url : List Char) :
    (¬ PROTO_HTTP <+: url → (srb_cdmi_init SRB_CDMI_URL_SIZE desc url).1 = -EINVAL) ∧
    (∀ s, url = PROTO_HTTP ++ s →
      (host_part s = [] ∨ 15 < (host_part s).length ∨
        ∃ c ∈ host_part s, ip_valid_char c = 0) →
      (srb_cdmi_init SRB_CDMI_URL_SIZE desc url).1 = -EINVAL) ∧
    (∀ h t, url = PROTO_HTTP ++ h ++ ':' :: t → (∀ c ∈ h, c ≠ ':' ∧ c ≠ '/') →
      is_digit (t.headD NUL) = 0 →
      (srb_cdmi_init SRB_CDMI_URL_SIZE desc url).1 = -EINVAL) ∧
    (∀ h, url = PROTO_HTTP ++ h → (∀ c ∈ h, c ≠ ':' ∧ c ≠ '/') →
      (srb_cdmi_init SRB_CDMI_URL_SIZE desc url).1 = -EINVAL) ∧
    (∀ h P t, url = PROTO_HTTP ++ h ++ ':' :: (P ++ t) → (∀ c ∈ h, c ≠ ':' ∧ c ≠ '/') →
      digits P → is_digit (t.headD NUL) = 0 → t.headD NUL ≠ '/' →
      (srb_cdmi_init SRB_CDMI_URL_SIZE desc url).1 = -EINVAL) := by
  have hor := (srb_cdmi_init_zero_or_EINVAL SRB_CDMI_URL_SIZE desc url).1
  have key : ((srb_cdmi_init SRB_CDMI_URL_SIZE desc url).1 = 0 → False) →
      (srb_cdmi_init SRB_CDMI_URL_SIZE desc url).1 = -EINVAL := by
    intro h
    rcases hor with h0 | h0
    · exact absurd h0 h
    · exact h0
  refine ⟨?_, ?_, ?_, ?_, ?_⟩
  · intro hp
    apply key
    intro h0
    obtain ⟨h, t, e, _⟩ := srb_cdmi_init_ok SRB_CDMI_URL_SIZE desc url h0
    exact hp ⟨h ++ t, by rw [e, List.append_assoc]⟩
  · intro s e hbad
    apply key
    intro h0
    obtain ⟨h, t, e2, hv, hne, hlen, ht⟩ := srb_cdmi_init_ok SRB_CDMI_URL_SIZE desc url h0
    have es : s = h ++ t := by
      rw [e, List.append_assoc] at e2
      exact List.append_cancel_left e2
    have hh := accepted_host_unique s h t es hv ht
    rw [hh] at hbad
    rcases hbad with hb | hb | ⟨c, hc, hb⟩
    · exact hne hb
    · omega
    · exact hv c hc hb
  · intro h2 t2 e hsep hnd
    apply key
    intro h0
    obtain ⟨h, t, e2, hv, hne, hlen, ht⟩ := srb_cdmi_init_ok SRB_CDMI_URL_SIZE desc url h0
    have es : h2 ++ ':' :: t2 = h ++ t := by
      rw [e, List.append_assoc, List.append_assoc] at e2
      exact List.append_cancel_left e2
    have hh := accepted_host_unique _ h t es hv ht
    rw [host_part_append h2 (':' :: t2) hsep (Or.inr (Or.inl rfl))] at hh
    subst hh
    have et := List.append_cancel_left es
    subst et
    rcases ht with ht | ⟨P, path, e3, hd, hP, _⟩
    · simp only [List.headD_cons] at ht
      exact absurd ht (by decide)
    · simp only [List.cons.injEq, true_and] at e3
      subst e3
      obtain ⟨c, P2, rfl⟩ : ∃ c P2, P = c :: P2 := by
        cases P with
        | nil => exact absurd rfl hP
        | cons c P2 => exact ⟨c, P2, rfl⟩
      exact hd c (by simp) (by simpa using hnd)
  · intro h2 e hsep
    apply key
    intro h0
    obtain ⟨h, t, e2, hv, hne, hlen, ht⟩ := srb_cdmi_init_ok SRB_CDMI_URL_SIZE desc url h0
    have es : h2 = h ++ t := by
      rw [e, List.append_assoc] at e2
      exact List.append_cancel_left e2
    have hh := accepted_host_unique _ h t es hv ht
    have := host_part_append h2 [] hsep (Or.inl rfl)
    rw [List.append_nil] at this
    rw [this] at hh
    subst hh
    have et : t = [] := by
      have := congrArg List.length es
      simp only [List.length_append] at this
      exact List.length_eq_zero.mp (by omega)
    subst et
    rcases ht with ht | ⟨P, path, e3, _⟩
    · exact absurd ht (by decide)
    · simp at e3
  · intro h2 P2 t2 e hsep hd2 hnd hns
    apply key
    intro h0
    obtain ⟨h, t, e2, hv, hne, hlen, ht⟩ := srb_cdmi_init_ok SRB_CDMI_URL_SIZE desc url h0
    have es : h2 ++ ':' :: (P2 ++ t2) = h ++ t := by
      rw [e, List.append_assoc, List.append_assoc] at e2
      exact List.append_cancel_left e2
    have hh := accepted_host_unique _ h t es hv ht
    rw [host_part_append h2 (':' :: (P2 ++ t2)) hsep (Or.inr (Or.inl rfl))] at hh
    subst hh
    have et := List.append_cancel_left es
    subst et
    rcases ht with ht | ⟨P, path, e3, hd, hP, hpath⟩
    · simp only [List.headD_cons] at ht
      exact absurd ht (by decide)
    · simp only [List.cons.injEq, true_and] at e3
      obtain ⟨_, e4⟩ := leading_digits_unique P2 P t2 path e3 hd2 hd hnd (is_digit_slash path hpath)
      rw [e4] at hns
      exact hns hpath

theorem srb_cdmi_init_rejects_malformed_witness :
    ¬ PROTO_HTTP <+: "ftp://10.0.0.1/vol".toList ∧
    (srb_cdmi_init 64 zeroed_desc "ftp://10.0.0.1/vol".toList).1 = -EINVAL :=
  ⟨by decide,
    (srb_cdmi_init_rejects_malformed 64 zeroed_desc "ftp://10.0.0.1/vol".toList).1 (by decide)⟩

/-! ## What `srb_cdmi_init` leaves in the descriptor -/

/-- C18 (counterexample): `srb_cdmi_init` on a zeroed descriptor with a URL that does not
begin with `http://` returns `-EINVAL` and has changed the `url` field. -/
theorem srb_cdmi_init_failure_writes_url :
    srb_cdmi_init 64 zeroed_desc "ftp://10.0.0.1/vol".toList
      = (-EINVAL, { zeroed_desc with url := "ftp://10.0.0.1/vol".toList }) ∧
    ({ zeroed_desc with url := "ftp://10.0.0.1/vol".toList } : srb_cdmi_desc) ≠ zeroed_desc := by
  decide

/-- C18 (amended): whenever `srb_cdmi_init` fails with `-EINVAL`, the fields `ip_addr`,
`port`, `state` and the request counter (and the socket, the timeout, the scatter list and
the transmit buffer) have the value they had before the call; `filename` is emptied
(`desc->filename[0] = 0`) and `url` holds the URL passed, cut at `SRB_CDMI_URL_SIZE`
characters: both are written before the URL is parsed. -/
theorem srb_cdmi_init_failure_frame (SRB_CDMI_URL_SIZE : Nat) (desc : srb_cdmi_desc)
    (url : List Char) (h : (srb_cdmi_init SRB_CDMI_URL_SIZE desc url).1 = -EINVAL) :
    (srb_cdmi_init SRB_CDMI_URL_SIZE desc url).2
      = { desc with filename := [], url := strncpy url SRB_CDMI_URL_SIZE } :=
  (srb_cdmi_init_zero_or_EINVAL SRB_CDMI_URL_SIZE desc url).2 (by rw [h]; decide)

theorem srb_cdmi_init_failure_frame_witness :
    (srb_cdmi_init 64 two_segments "http://10.0.0.1:x/vol".toList).1 = -EINVAL ∧
    (srb_cdmi_init 64 two_segments "http://10.0.0.1:x/vol".toList).2
      = { two_segments with filename := [], url := "http://10.0.0.1:x/vol".toList } :=
  ⟨by decide,
    (srb_cdmi_init_failure_frame 64 two_segments "http://10.0.0.1:x/vol".toList
      (by decide)).trans (by decide)⟩

/-- C19 (counterexample): `http://999/x` is accepted, with the host `999`. -/
theorem srb_cdmi_init_accepts_999 :
    srb_cdmi_init 64 zeroed_desc "http://999/x".toList
      = (0, { zeroed_desc with url := "http://999/x".toList, filename := "/x".toList,
                               ip_addr := "999".toList, port := 80 }) := by
  decide

/-- The descriptor left by a successful `srb_cdmi_init`, with the parts of the URL. -/
theorem srb_cdmi_init_ok_desc (SRB_CDMI_URL_SIZE : Nat) (desc : srb_cdmi_desc)
    (url : List Char) (h0 : (srb_cdmi_init SRB_CDMI_URL_SIZE desc url).1 = 0) :
    ∃ h t, url = PROTO_HTTP ++ h ++ t ∧ (∀ c ∈ h, ip_valid_char c ≠ 0) ∧ h ≠ [] ∧
      h.length ≤ 15 ∧ host_part (url.drop (strlen PROTO_HTTP)) = h ∧
      ((t.headD NUL = '/' ∧
          (srb_cdmi_init SRB_CDMI_URL_SIZE desc url).2
            = { desc with url := strncpy url SRB_CDMI_URL_SIZE, filename := strcpy t,
                          ip_addr := h, port := 80, state := CDMI_DISCONNECTED }) ∨
        ∃ P path, t = ':' :: (P ++ path) ∧ digits P ∧ P ≠ [] ∧ path.headD NUL = '/' ∧
          (srb_cdmi_init SRB_CDMI_URL_SIZE desc url).2
            = { desc with url := strncpy url SRB_CDMI_URL_SIZE, filename := strcpy path,
                          ip_addr := h, port := (get_port_loop (P ++ path) 0 0).2,
                          state := CDMI_DISCONNECTED }) := by
  obtain ⟨h, t, e, hv, hne, hlen, ht⟩ := srb_cdmi_init_ok SRB_CDMI_URL_SIZE desc url h0
  obtain ⟨a1, a2⟩ := srb_cdmi_init_accepts SRB_CDMI_URL_SIZE desc h t hv hne hlen
  have hdrop : url.drop (strlen PROTO_HTTP) = h ++ t := by
    rw [e, List.append_assoc]
    exact List.drop_left' (by decide)
  refine ⟨h, t, e, hv, hne, hlen, ?_, ?_⟩
  · rw [hdrop]
    exact accepted_host_unique _ h t rfl hv ht
  · rcases ht with ht | ⟨P, path, e3, hd, hP, hpath⟩
    · left
      refine ⟨ht, ?_⟩
      rw [e, a1 ht]
    · right
      refine ⟨P, path, e3, hd, hP, hpath, ?_⟩
      rw [e, a2 P path e3 hd hP hpath]

/-- C19 (amended): whenever `srb_cdmi_init` returns 0, the stored `ip_addr` is the host
part of the URL (what follows `http://` up to the first `:` or `/`), and it consists of 1
to 15 characters, each a decimal digit or a dot. -/
theorem srb_cdmi_init_host_chars (SRB_CDMI_URL_SIZE : Nat) (desc : srb_cdmi_desc)
    (url : List Char) (h0 : (srb_cdmi_init SRB_CDMI_URL_SIZE desc url).1 = 0) :
    (srb_cdmi_init SRB_CDMI_URL_SIZE desc url).2.ip_addr
      = host_part (url.drop (strlen PROTO_HTTP)) ∧
    (srb_cdmi_init SRB_CDMI_URL_SIZE desc url).2.ip_addr ≠ [] ∧
    (srb_cdmi_init SRB_CDMI_URL_SIZE desc url).2.ip_addr.length ≤ 15 ∧
    ∀ c ∈ (srb_cdmi_init SRB_CDMI_URL_SIZE desc url).2.ip_addr, is_digit c ≠ 0 ∨ c = '.' := by
  obtain ⟨h, t, e, hv, hne, hlen, hh, hd⟩ := srb_cdmi_init_ok_desc SRB_CDMI_URL_SIZE desc url h0
  have hip : (srb_cdmi_init SRB_CDMI_URL_SIZE desc url).2.ip_addr = h := by
    rcases hd with ⟨_, hd⟩ | ⟨P, path, _, _, _, _, hd⟩ <;> rw [hd]
  rw [hip]
  refine ⟨hh.symm, hne, hlen, ?_⟩
  intro c hc
  have := hv c hc
  unfold ip_valid_char at this
  by_cases h1 : is_digit c ≠ 0
  · exact Or.inl h1
  · right
    by_contra h2
    simp [h1, h2] at this

theorem srb_cdmi_init_host_chars_witness :
    (srb_cdmi_init 64 zeroed_desc "http://999/x".toList).2.ip_addr = "999".toList ∧
    ∀ c ∈ (srb_cdmi_init 64 zeroed_desc "http://999/x".toList).2.ip_addr,
      is_digit c ≠ 0 ∨ c = '.' :=
  ⟨by decide, (srb_cdmi_init_host_chars 64 zeroed_desc "http://999/x".toList (by decide)).2.2.2⟩

/-- C30 (counterexample): `http://1.2.3.4:99999/x` is accepted with the port 99999, which
`srb_cdmi_connect` converts to the 16-bit port 34463; and the port digits `4294967376`
wrap around in the `int` accumulator of `get_port` to 80. -/
theorem srb_cdmi_init_port_out_of_range :
    (srb_cdmi_init 64 zeroed_desc "http://1.2.3.4:99999/x".toList).1 = 0 ∧
    (srb_cdmi_init 64 zeroed_desc "http://1.2.3.4:99999/x".toList).2.port = 99999 ∧
    (srb_cdmi_connect (peer [] [])
      (srb_cdmi_init 64 zeroed_desc "http://1.2.3.4:99999/x".toList).2).2.2.trace
      = [Event.sock_create 0, Event.connect 0 "1.2.3.4".toList 34463 0,
          Event.setsockopt 0 SockOpt.TCP_NODELAY 0] ∧
    (srb_cdmi_init 64 zeroed_desc "http://1.2.3.4:4294967376/x".toList).1 = 0 ∧
    (srb_cdmi_init 64 zeroed_desc "http://1.2.3.4:4294967376/x".toList).2.port = 80 := by
  decide

/-- C30 (amended): for every URL that `srb_cdmi_init` accepts, the stored port is 80 when
no `:` follows the host; otherwise it is the value of the port digits as long as that
value is below `2 ^ 31` (the `int` accumulator of `get_port` does not wrap), and when the
value is at most 65535 the port is a valid TCP port that `srb_cdmi_connect` converts to 16
bits unchanged.  The range of the port is not checked. -/
theorem srb_cdmi_init_port_value (SRB_CDMI_URL_SIZE : Nat) (desc : srb_cdmi_desc)
    (url : List Char) (h0 : (srb_cdmi_init SRB_CDMI_URL_SIZE desc url).1 = 0) :
    ∃ h t, url = PROTO_HTTP ++ h ++ t ∧ host_part (url.drop (strlen PROTO_HTTP)) = h ∧
      ((t.headD NUL = '/' ∧ (srb_cdmi_init SRB_CDMI_URL_SIZE desc url).2.port = 80) ∨
        ∃ P path, t = ':' :: (P ++ path) ∧ digits P ∧ P ≠ [] ∧ path.headD NUL = '/' ∧
          (decimal P < 2147483648 →
            (srb_cdmi_init SRB_CDMI_URL_SIZE desc url).2.port = decimal P) ∧
          (decimal P ≤ 65535 →
            0 ≤ (srb_cdmi_init SRB_CDMI_URL_SIZE desc url).2.port ∧
            (srb_cdmi_init SRB_CDMI_URL_SIZE desc url).2.port ≤ 65535 ∧
            (srb_cdmi_init SRB_CDMI_URL_SIZE desc url).2.port % 65536
              = (srb_cdmi_init SRB_CDMI_URL_SIZE desc url).2.port)) := by
  obtain ⟨h, t, e, hv, hne, hlen, hh, hd⟩ := srb_cdmi_init_ok_desc SRB_CDMI_URL_SIZE desc url h0
  refine ⟨h, t, e, hh, ?_⟩
  rcases hd with ⟨ht, hd⟩ | ⟨P, path, e3, hP, hP0, hpath, hd⟩
  · left
    exact ⟨ht, by rw [hd]⟩
  · right
    have hval : decimal P < 2147483648 →
        (srb_cdmi_init SRB_CDMI_URL_SIZE desc url).2.port = decimal P := by
      intro hb
      rw [hd]
      exact get_port_loop_snd P 0 0 path hP (is_digit_slash path hpath) hb
    refine ⟨P, path, e3, hP, hP0, hpath, hval, ?_⟩
    intro hb
    rw [hval (by omega)]
    omega

theorem srb_cdmi_init_port_value_witness :
    (srb_cdmi_init 64 zeroed_desc "http://10.0.0.1:8080/vol".toList).1 = 0 ∧
    ∃ h t, "http://10.0.0.1:8080/vol".toList = PROTO_HTTP ++ h ++ t ∧
      host_part ("http://10.0.0.1:8080/vol".toList.drop (strlen PROTO_HTTP)) = h ∧
      ((t.headD NUL = '/' ∧
          (srb_cdmi_init 64 zeroed_desc "http://10.0.0.1:8080/vol".toList).2.port = 80) ∨
        ∃ P path, t = ':' :: (P ++ path) ∧ digits P ∧ P ≠ [] ∧ path.headD NUL = '/' ∧
          (decimal P < 2147483648 →
            (srb_cdmi_init 64 zeroed_desc "http://10.0.0.1:8080/vol".toList).2.port = decimal P) ∧
          (decimal P ≤ 65535 →
            0 ≤ (srb_cdmi_init 64 zeroed_desc "http://10.0.0.1:8080/vol".toList).2.port ∧
            (srb_cdmi_init 64 zeroed_desc "http://10.0.0.1:8080/vol".toList).2.port ≤ 65535 ∧
            (srb_cdmi_init 64 zeroed_desc "http://10.0.0.1:8080/vol".toList).2.port % 65536
              = (srb_cdmi_init 64 zeroed_desc "http://10.0.0.1:8080/vol".toList).2.port)) :=
  ⟨by decide,
    srb_cdmi_init_port_value 64 zeroed_desc "http://10.0.0.1:8080/vol".toList (by decide)⟩

/-! ## The worker thread -/

theorem srb_cdmi_putrange_total (H : Framer) (nb_req_retries : Nat) (k : Kernel)
    (desc : srb_cdmi_desc) (offset : Nat) (size : Int) :
    ∃ r, srb_cdmi_putrange H nb_req_retries k desc offset size = some r := by
  unfold srb_cdmi_putrange
  rcases H.mkrange "PUT".toList desc.ip_addr desc.filename offset (range_end offset size)
    with ⟨ret, req⟩
  simp only
  split
  · exact ⟨_, rfl⟩
  · obtain ⟨⟨len, d, k1⟩, h⟩ := retried_send_receive_total H k (put_request desc req) ret 0 true
      nb_req_retries
    rw [h]
    simp only
    split_ifs <;> exact ⟨_, rfl⟩

theorem srb_cdmi_getrange_total (H : Framer) (nb_req_retries : Nat) (k : Kernel)
    (desc : srb_cdmi_desc) (offset : Nat) (size : Int) :
    ∃ r, srb_cdmi_getrange H nb_req_retries k desc offset size = some r := by
  unfold srb_cdmi_getrange
  rcases H.mkrange "GET".toList desc.ip_addr desc.filename offset (range_end offset size)
    with ⟨ret, req⟩
  simp only
  split
  · exact ⟨_, rfl⟩
  · obtain ⟨⟨len, d, k1⟩, h⟩ := retried_send_receive_total H k (put_request desc req) ret 0 false
      nb_req_retries
    rw [h]
    simp only
    split
    · exact ⟨_, rfl⟩
    · split
      · exact ⟨_, rfl⟩
      · split <;> exact ⟨_, rfl⟩

/-- `srb_xfer_scl` returns, with 0 or `-EIO`. -/
theorem srb_xfer_scl_total (H : Framer) (nb_req_retries : Nat) (k : Kernel)
    (desc : srb_cdmi_desc) (req : request) :
    ∃ ret d k2, srb_xfer_scl H nb_req_retries k desc req = some (ret, d, k2) ∧
      (ret = 0 ∨ ret = - EIO) := by
  unfold srb_xfer_scl
  simp only
  have hx : ∃ r, (if req.write = true then
      srb_cdmi_putrange H nb_req_retries k desc (req.pos * 512 % 18446744073709551616)
        (int32 ((req.sectors * 512 % 18446744073709551616 : Nat) : Int))
    else srb_cdmi_getrange H nb_req_retries k desc (req.pos * 512 % 18446744073709551616)
        (int32 ((req.sectors * 512 % 18446744073709551616 : Nat) : Int))) = some r := by
    split
    · exact srb_cdmi_putrange_total H _ _ _ _ _
    · exact srb_cdmi_getrange_total H _ _ _ _ _
  obtain ⟨⟨ret, d, k2⟩, hx⟩ := hx
  rw [hx]
  simp only
  split
  · exact ⟨_, _, _, rfl, Or.inr rfl⟩
  · rename_i h
    exact ⟨_, _, _, rfl, Or.inl (by simpa using h)⟩

/-- C20: for every request a worker takes off the queue, the worker calls
`blk_end_request_all` exactly once, with status 0, whatever the range operation does: the
body of the loop returns for every behaviour of the socket layer, the completions it
made are the one `(req, 0)`, and `srb_xfer_scl` has returned 0 or `-EIO` by then.  For a
request of zero sectors the descriptor and the socket layer are untouched: no range
operation ran. -/
theorem srb_thread_request_completes_once (H : Framer) (nb_req_retries : Nat) (k : Kernel)
    (dev : srb_device) (req : request) :
    (∃ dev2 k2, srb_thread_request H nb_req_retries k dev req = some (dev2, k2) ∧
      dev2.completed = dev.completed ++ [(req, 0)] ∧
      dev2.stop = dev.stop ∧ dev2.waiting_queue = dev.waiting_queue) ∧
    (req.sectors = 0 → srb_thread_request H nb_req_retries k dev req
      = some ({ dev with completed := dev.completed ++ [(req, 0)] }, k)) ∧
    (req.sectors ≠ 0 → ∃ ret d k2,
      srb_xfer_scl H nb_req_retries k { dev.desc with sgl := req.segments } req
        = some (ret, d, k2) ∧ (ret = 0 ∨ ret = - EIO) ∧
      srb_thread_request H nb_req_retries k dev req
        = some ({ dev with desc := d, completed := dev.completed ++ [(req, 0)] }, k2)) := by
  obtain ⟨ret, d, k2, hx, hret⟩ := srb_xfer_scl_total H nb_req_retries k
    { dev.desc with sgl := req.segments } req
  refine ⟨?_, ?_, ?_⟩
  · by_cases h0 : req.sectors = 0
    · exact ⟨{ dev with completed := dev.completed ++ [(req, 0)] }, k,
        by simp only [srb_thread_request, h0, if_true], rfl, rfl, rfl⟩
    · exact ⟨{ dev with desc := d, completed := dev.completed ++ [(req, 0)] }, k2,
        by simp only [srb_thread_request, h0, if_false, hx], rfl, rfl, rfl⟩
  · intro h0
    simp only [srb_thread_request, h0, if_true]
  · intro h0
    exact ⟨ret, d, k2, hx, hret, by simp only [srb_thread_request, h0, if_false, hx]⟩

theorem srb_thread_request_completes_once_witness :
    (srb_thread_request demo_framer 1 unreachable_peer idle_device empty_request
      = some ({ idle_device with completed := [(empty_request, 0)] }, unreachable_peer)) ∧
    (∃ ret d k2,
      srb_xfer_scl demo_framer 1 unreachable_peer
        { idle_device.desc with sgl := read_request.segments } read_request
        = some (ret, d, k2) ∧ (ret = 0 ∨ ret = - EIO) ∧
      srb_thread_request demo_framer 1 unreachable_peer idle_device read_request
        = some ({ idle_device with desc := d, completed := [(read_request, 0)] }, k2)) ∧
    (srb_xfer_scl demo_framer 1 unreachable_peer
      { idle_device.desc with sgl := read_request.segments } read_request).map (fun r => r.1)
      = some (- EIO) :=
  ⟨(srb_thread_request_completes_once demo_framer 1 unreachable_peer idle_device
      empty_request).2.1 rfl,
    (srb_thread_request_completes_once demo_framer 1 unreachable_peer idle_device
      read_request).2.2 (by decide), by decide⟩

/-! ## The server list -/

theorem char_toNat_sub_ne (x c : Char) (h : x ≠ c) : (x.toNat : Int) - (c.toNat : Int) ≠ 0 := by
  intro h0
  apply h
  apply char_toNat_inj
  omega

/-- The C `strcmp` is 0 exactly when the two pointers hold the same string. -/
theorem strcmp_eq_zero_iff : ∀ (a b : List Char), strcmp a b = 0 ↔ strcpy a = strcpy b := by
  intro a
  induction a with
  | nil =>
    intro b
    cases b with
    | nil => simp [strcmp, strcpy]; decide
    | cons c t =>
      by_cases hc : c = NUL
      · subst hc
        simp [strcmp, strcpy]
        decide
      · have h1 := char_toNat_sub_ne c NUL hc
        have h2 : (NUL.toNat : Int) = 0 := rfl
        simp only [strcmp, List.headD_cons, strcpy, List.takeWhile_nil]
        constructor
        · intro h
          omega
        · intro h
          simp [hc] at h
  | cons x a ih =>
    intro b
    cases b with
    | nil =>
      by_cases hx : x = NUL
      · subst hx
        simp [strcmp, strcpy]
      · have h1 := char_toNat_sub_ne x NUL hx
        have h3 : x ≠ ([] : List Char).headD NUL := hx
        simp only [strcmp, h3, ne_eq, not_false_eq_true, if_true, strcpy, List.takeWhile_nil]
        constructor
        · intro h
          exact absurd h h1
        · intro h
          simp [hx] at h
    | cons c t =>
      simp only [strcmp, List.headD_cons, List.tail_cons]
      by_cases hxc : x = c
      · subst hxc
        by_cases hx : x = NUL
        · subst hx
          simp [strcpy]
        · simp only [ne_eq, not_true_eq_false, if_false, hx]
          rw [ih t]
          simp [strcpy, hx]
      · simp only [ne_eq, hxc, not_false_eq_true, if_true]
        constructor
        · intro h
          exact absurd h (char_toNat_sub_ne x c hxc)
        · intro h
          exfalso
          by_cases hx : x = NUL
          · subst hx
            have hc : c ≠ NUL := fun e => hxc e.symm
            simp [strcpy, hc] at h
          · by_cases hc : c = NUL
            · subst hc
              simp [strcpy, hx] at h
            · simp [strcpy, hx, hc] at h
              exact hxc h.1

/-- What the search loop finds: the first record with that URL, none before it. -/
theorem server_find_some : ∀ (servers : List srb_server_s) (url : List Char) (i : Nat),
    server_find url servers = some i →
    ∃ pre cur post, servers = pre ++ cur :: post ∧ pre.length = i ∧
      strcmp url cur.cdmi_desc.url = 0 ∧ ∀ s ∈ pre, strcmp url s.cdmi_desc.url ≠ 0 := by
  intro servers
  induction servers with
  | nil => intro url i h; simp [server_find] at h
  | cons c rest ih =>
    intro url i h
    unfold server_find at h
    split at h
    · rename_i hc
      simp only [Option.some.injEq] at h
      exact ⟨[], c, rest, rfl, by rw [← h]; rfl, hc, by simp⟩
    · rename_i hc
      rcases hf : server_find url rest with _ | j
      · simp [hf] at h
      · simp only [hf, Option.map_some', Option.some.injEq] at h
        obtain ⟨pre, cur, post, e, hl, h1, h2⟩ := ih url j hf
        refine ⟨c :: pre, cur, post, by rw [e]; rfl, by simp [hl, h], h1, ?_⟩
        intro s hs
        rcases List.mem_cons.mp hs with rfl | hs
        · exact hc
        · exact h2 s hs

theorem server_find_none : ∀ (servers : List srb_server_s) (url : List Char),
    server_find url servers = none ↔ ∀ s ∈ servers, strcmp url s.cdmi_desc.url ≠ 0 := by
  intro servers
  induction servers with
  | nil => intro url; simp [server_find]
  | cons c rest ih =>
    intro url
    unfold server_find
    split
    · rename_i hc
      constructor
      · intro h
        exact absurd h (by simp)
      · intro h
        exact absurd hc (h c (by simp))
    · rename_i hc
      rw [Option.map_eq_none', ih]
      constructor
      · intro h s hs
        rcases List.mem_cons.mp hs with rfl | hs
        · exact hc
        · exact h s hs
      · intro h s hs
        exact h s (by simp [hs])

theorem eraseIdx_append_cons {α : Type} : ∀ (pre : List α) (cur : α) (post : List α),
    (pre ++ cur :: post).eraseIdx pre.length = pre ++ post := by
  intro pre
  induction pre with
  | nil => intro cur post; rfl
  | cons x pre ih => intro cur post; simp [List.eraseIdx, ih]

theorem any_attached (devtab : List (List Char)) :
    devtab.any (fun name => !device_free_slot name) = true
      ↔ ∃ name ∈ devtab, device_free_slot name = false := by
  simp [List.any_eq_true]

/-- C21: `_locked_server_remove` returns `-ENOENT` with the list unchanged when no record
holds the URL; `-EBUSY` with the list unchanged when a record holds it, the list has
exactly one server and some device slot is attached; and otherwise 0, unlinking exactly
the first record that holds the URL, all the other records staying in their order. -/
theorem locked_server_remove_contract (devtab : List (List Char))
    (servers : List srb_server_s) (url : List Char) :
    ((∀ s ∈ servers, strcpy s.cdmi_desc.url ≠ strcpy url) →
      _locked_server_remove devtab servers url = (-ENOENT, servers)) ∧
    ((∃ s ∈ servers, strcpy s.cdmi_desc.url = strcpy url) →
      servers.length = 1 → (∃ name ∈ devtab, device_free_slot name = false) →
      _locked_server_remove devtab servers url = (-EBUSY, servers)) ∧
    ((∃ s ∈ servers, strcpy s.cdmi_desc.url = strcpy url) →
      ¬ (servers.length = 1 ∧ ∃ name ∈ devtab, device_free_slot name = false) →
      ∃ pre cur post, servers = pre ++ cur :: post ∧
        (∀ s ∈ pre, strcpy s.cdmi_desc.url ≠ strcpy url) ∧
        strcpy cur.cdmi_desc.url = strcpy url ∧
        _locked_server_remove devtab servers url = (0, pre ++ post)) := by
  have hfound : (∃ s ∈ servers, strcpy s.cdmi_desc.url = strcpy url) →
      ∃ i, server_find url servers = some i := by
    intro ⟨s, hs, e⟩
    rcases hf : server_find url servers with _ | i
    · exact absurd ((strcmp_eq_zero_iff _ _).mpr e.symm)
        ((server_find_none servers url).mp hf s hs)
    · exact ⟨i, rfl⟩
  refine ⟨?_, ?_, ?_⟩
  · intro h
    have hf : server_find url servers = none := by
      rw [server_find_none]
      intro s hs h0
      exact h s hs ((strcmp_eq_zero_iff _ _).mp h0).symm
    simp only [_locked_server_remove, hf]
  · intro h h1 h2
    obtain ⟨i, hf⟩ := hfound h
    simp only [_locked_server_remove, hf, any_attached]
    rw [if_pos ⟨h1, h2⟩]
  · intro h hn
    obtain ⟨i, hf⟩ := hfound h
    obtain ⟨pre, cur, post, e, hl, hc, hp⟩ := server_find_some servers url i hf
    refine ⟨pre, cur, post, e, ?_, ((strcmp_eq_zero_iff _ _).mp hc).symm, ?_⟩
    · intro s hs e2
      exact hp s hs ((strcmp_eq_zero_iff _ _).mpr e2.symm)
    · simp only [_locked_server_remove, hf, any_attached]
      rw [if_neg hn, e, ← hl, eraseIdx_append_cons]

theorem locked_server_remove_contract_witness :
    ((∀ s ∈ [server_a, server_b], strcpy s.cdmi_desc.url ≠ strcpy "http://10.0.0.3/".toList) ∧
      _locked_server_remove [] [server_a, server_b] "http://10.0.0.3/".toList
        = (-ENOENT, [server_a, server_b])) ∧
    (((∃ s ∈ [server_a], strcpy s.cdmi_desc.url = strcpy "http://10.0.0.1/".toList) ∧
      [server_a].length = 1 ∧
      (∃ name ∈ [[], "vol0".toList], device_free_slot name = false)) ∧
      _locked_server_remove [[], "vol0".toList] [server_a] "http://10.0.0.1/".toList
        = (-EBUSY, [server_a])) ∧
    (((∃ s ∈ [server_a, server_b, server_a],
          strcpy s.cdmi_desc.url = strcpy "http://10.0.0.1/".toList) ∧
      ¬ ([server_a, server_b, server_a].length = 1 ∧
          ∃ name ∈ [[], "vol0".toList], device_free_slot name = false)) ∧
      ∃ pre cur post, [server_a, server_b, server_a] = pre ++ cur :: post ∧
        (∀ s ∈ pre, strcpy s.cdmi_desc.url ≠ strcpy "http://10.0.0.1/".toList) ∧
        strcpy cur.cdmi_desc.url = strcpy "http://10.0.0.1/".toList ∧
        _locked_server_remove [[], "vol0".toList] [server_a, server_b, server_a]
            "http://10.0.0.1/".toList
          = (0, pre ++ post)) :=
  ⟨⟨by decide,
      (locked_server_remove_contract [] [server_a, server_b] "http://10.0.0.3/".toList).1
        (by decide)⟩,
    ⟨⟨⟨server_a, by simp, by decide⟩, rfl, ⟨"vol0".toList, by simp, by decide⟩⟩,
      (locked_server_remove_contract [[], "vol0".toList] [server_a]
        "http://10.0.0.1/".toList).2.1
        ⟨server_a, by simp, by decide⟩ rfl ⟨"vol0".toList, by simp, by decide⟩⟩,
    ⟨⟨⟨server_a, by simp, by decide⟩, by simp⟩,
      (locked_server_remove_contract [[], "vol0".toList] [server_a, server_b, server_a]
        "http://10.0.0.1/".toList).2.2
        ⟨server_a, by simp, by decide⟩ (by simp)⟩⟩

theorem srb_cdmi_init_url (SRB_CDMI_URL_SIZE : Nat) (desc : srb_cdmi_desc) (url : List Char) :
    (srb_cdmi_init SRB_CDMI_URL_SIZE desc url).2.url = strncpy url SRB_CDMI_URL_SIZE := by
  unfold srb_cdmi_init
  simp only
  split
  · simp
  · rcases get_ip (url.drop (strlen PROTO_HTTP)) with ⟨ret, ip⟩
    simp only
    split
    · simp
    · split
      · simp
      · split <;> simp

theorem strncpy_short (url : List Char) (n : Nat) (h : strlen url < n) :
    strncpy url n = strcpy url := by
  unfold strncpy
  apply List.take_of_length_le
  unfold strlen at h
  unfold strcpy
  omega

/-- The C `srb_server_add`, path by path. -/
theorem srb_server_add_cases (SRB_CDMI_URL_SIZE : Nat) (alloc_ok : Bool)
    (servers : List srb_server_s) (url : List Char) :
    srb_server_add SRB_CDMI_URL_SIZE alloc_ok servers url =
      if strlen url ≥ SRB_CDMI_URL_SIZE then (-EINVAL, servers)
      else if alloc_ok = false then (-ENOMEM, servers)
      else if (srb_cdmi_init SRB_CDMI_URL_SIZE zeroed_desc url).1 ≠ 0 then
        ((srb_cdmi_init SRB_CDMI_URL_SIZE zeroed_desc url).1, servers)
      else if server_find url servers = none then
        (0, servers ++ [⟨(srb_cdmi_init SRB_CDMI_URL_SIZE zeroed_desc url).2⟩])
      else (0, servers) := by
  unfold srb_server_add _srb_server_new
  by_cases hlen : strlen url ≥ SRB_CDMI_URL_SIZE
  · simp only [hlen, if_true]
  · simp only [hlen, if_false]
    cases alloc_ok with
    | false => simp
    | true =>
      rcases srb_cdmi_init SRB_CDMI_URL_SIZE zeroed_desc url with ⟨ret, desc⟩
      by_cases hr : ret = 0
      · subst hr
        rcases server_find url servers with _ | i <;> simp
      · simp [hr]

/-- Every record of a reachable server list holds a string without terminator, and no
two records hold the same one. -/
theorem server_list_stored (SRB_CDMI_URL_SIZE : Nat) (servers : List srb_server_s)
    (h : server_list SRB_CDMI_URL_SIZE servers) :
    (servers.map (fun s => s.cdmi_desc.url)).Nodup ∧
    ∀ s ∈ servers, strcpy s.cdmi_desc.url = s.cdmi_desc.url := by
  induction h with
  | empty => simp
  | add alloc_ok servers url _ ih =>
    rw [srb_server_add_cases]
    split
    · exact ih
    · rename_i hlen
      split
      · exact ih
      · split
        · exact ih
        · split
          · rename_i hf
            have hu : (srb_cdmi_init SRB_CDMI_URL_SIZE zeroed_desc url).2.url = strcpy url := by
              rw [srb_cdmi_init_url, strncpy_short url _ (by omega)]
            rw [server_find_none] at hf
            constructor
            · simp only [List.map_append, List.map_cons, List.map_nil, hu]
              rw [List.nodup_append]
              refine ⟨ih.1, by simp, ?_⟩
              intro a ha
              simp only [List.mem_map] at ha
              obtain ⟨s, hs, e⟩ := ha
              intro hb
              simp only [List.mem_singleton] at hb
              apply hf s hs
              rw [strcmp_eq_zero_iff, ih.2 s hs, e, hb]
            · intro s hs
              rcases List.mem_append.mp hs with hs | hs
              · exact ih.2 s hs
              · simp only [List.mem_singleton] at hs
                subst hs
                simp only [hu]
                exact strcpy_eq_self _ (strcpy_no_nul url)
          · exact ih
  | remove devtab servers url _ ih =>
    unfold srb_server_remove _locked_server_remove
    split
    · exact ih
    · split
      · exact ih
      · split
        · exact ih
        · rename_i i _ _
          constructor
          · exact ih.1.sublist ((List.eraseIdx_sublist servers i).map _)
          · intro s hs
            exact ih.2 s ((List.eraseIdx_sublist servers i).subset hs)

/-- C28: a server list reached from the empty list through `srb_server_add` and
`srb_server_remove` never holds two records with the same URL.  On such a list, with the
record allocated, `srb_server_add` of a well-formed URL that a record holds returns 0 and
leaves the list unchanged; of a well-formed URL that no record holds, returns 0 and
appends one record, holding that URL, at the end; of a malformed URL returns `-EINVAL`
and leaves the list unchanged.  An over-long URL gives `-EINVAL` and an unchanged list
before any allocation, and a failed allocation leaves the list unchanged. -/
theorem server_list_no_duplicate_url (SRB_CDMI_URL_SIZE : Nat) (servers : List srb_server_s)
    (h : server_list SRB_CDMI_URL_SIZE servers) :
    (servers.map (fun s => s.cdmi_desc.url)).Nodup ∧
    (∀ url, strlen url < SRB_CDMI_URL_SIZE →
      (srb_cdmi_init SRB_CDMI_URL_SIZE zeroed_desc url).1 = 0 →
      ((∃ s ∈ servers, s.cdmi_desc.url = strcpy url) →
        srb_server_add SRB_CDMI_URL_SIZE true servers url = (0, servers)) ∧
      ((∀ s ∈ servers, s.cdmi_desc.url ≠ strcpy url) →
        srb_server_add SRB_CDMI_URL_SIZE true servers url
          = (0, servers ++ [⟨(srb_cdmi_init SRB_CDMI_URL_SIZE zeroed_desc url).2⟩]) ∧
        (srb_cdmi_init SRB_CDMI_URL_SIZE zeroed_desc url).2.url = strcpy url)) ∧
    (∀ url, (srb_cdmi_init SRB_CDMI_URL_SIZE zeroed_desc url).1 ≠ 0 →
      srb_server_add SRB_CDMI_URL_SIZE true servers url = (-EINVAL, servers)) ∧
    (∀ url alloc_ok, SRB_CDMI_URL_SIZE ≤ strlen url →
      srb_server_add SRB_CDMI_URL_SIZE alloc_ok servers url = (-EINVAL, servers)) ∧
    (∀ url, (srb_server_add SRB_CDMI_URL_SIZE false servers url).2 = servers) := by
  have hinv := server_list_stored SRB_CDMI_URL_SIZE servers h
  refine ⟨hinv.1, ?_, ?_, ?_, ?_⟩
  · intro url hlen h0
    have hl : ¬ strlen url ≥ SRB_CDMI_URL_SIZE := by omega
    constructor
    · intro ⟨s, hs, e⟩
      have hf : server_find url servers ≠ none := by
        intro hf
        rw [server_find_none] at hf
        apply hf s hs
        rw [strcmp_eq_zero_iff, hinv.2 s hs, e]
      rw [srb_server_add_cases]
      simp [hl, h0, hf]
    · intro hn
      have hf : server_find url servers = none := by
        rw [server_find_none]
        intro s hs h1
        rw [strcmp_eq_zero_iff, hinv.2 s hs] at h1
        exact hn s hs h1.symm
      constructor
      · rw [srb_server_add_cases]
        simp [hl, h0, hf]
      · rw [srb_cdmi_init_url, strncpy_short url _ hlen]
  · intro url h0
    rw [srb_server_add_cases]
    by_cases hl : strlen url ≥ SRB_CDMI_URL_SIZE
    · simp [hl]
    · rcases (srb_cdmi_init_zero_or_EINVAL SRB_CDMI_URL_SIZE zeroed_desc url).1 with h1 | h1
      · exact absurd h1 h0
      · simp [hl, h0, h1]
  · intro url alloc_ok hl
    rw [srb_server_add_cases]
    simp [hl]
  · intro url
    rw [srb_server_add_cases]
    split
    · rfl
    · rfl

theorem server_list_no_duplicate_url_witness :
    server_list 64 [server_a, server_b] ∧
    ([server_a, server_b].map (fun s => s.cdmi_desc.url)).Nodup ∧
    srb_server_add 64 true [server_a, server_b] "http://10.0.0.2:8080/cdmi".toList
      = (0, [server_a, server_b]) ∧
    srb_server_add 64 true [server_a, server_b] "http://10.0.0.3/".toList
      = (0, [server_a, server_b,
          ⟨{ zeroed_desc with url := "http://10.0.0.3/".toList, filename := "/".toList,
                              ip_addr := "10.0.0.3".toList, port := 80 }⟩]) ∧
    srb_server_add 64 true [server_a, server_b] "ftp://10.0.0.3/".toList
      = (-EINVAL, [server_a, server_b]) ∧
    srb_server_add 16 true [] "http://10.0.0.3/".toList = (-EINVAL, []) :=
  have hl : server_list 64 [server_a, server_b] :=
    server_list.add true [server_a] "http://10.0.0.2:8080/cdmi".toList
      (server_list.add true [] "http://10.0.0.1/".toList server_list.empty)
  ⟨hl, (server_list_no_duplicate_url 64 [server_a, server_b] hl).1,
    ((server_list_no_duplicate_url 64 [server_a, server_b] hl).2.1
      "http://10.0.0.2:8080/cdmi".toList (by decide) (by decide)).1
        ⟨server_b, by simp, by decide⟩,
    (((server_list_no_duplicate_url 64 [server_a, server_b] hl).2.1
      "http://10.0.0.3/".toList (by decide) (by decide)).2 (by decide)).1.trans (by decide),
    (server_list_no_duplicate_url 64 [server_a, server_b] hl).2.2.1
      "ftp://10.0.0.3/".toList (by decide),
    (server_list_no_duplicate_url 16 [] server_list.empty).2.2.2.1
      "http://10.0.0.3/".toList true (by decide)⟩

/-! ## URL reconstruction -/

theorem strcpy_append (a b : List Char) (ha : ∀ c ∈ a, c ≠ NUL) :
    strcpy (a ++ b) = a ++ strcpy b := by
  induction a with
  | nil => rfl
  | cons x a ih =>
    have hx : x ≠ NUL := ha x (by simp)
    have := ih (fun c hc => ha c (by simp [hc]))
    simp only [strcpy] at this ⊢
    simp [List.takeWhile_cons, hx, this]

theorem strcpy_idem (s : List Char) : strcpy (strcpy s) = strcpy s :=
  strcpy_eq_self _ (strcpy_no_nul s)

theorem strcpy_head (t : List Char) (c : Char) (hc : c ≠ NUL) (h : t.headD NUL = c) :
    ∃ r, t = c :: r ∧ strcpy t = c :: strcpy r := by
  cases t with
  | nil => exact absurd h.symm hc
  | cons x r =>
    simp only [List.headD_cons] at h
    subst h
    exact ⟨r, rfl, by simp [strcpy, List.takeWhile_cons, hc]⟩

/-- The port that `get_port` reads depends on the digits only. -/
theorem get_port_loop_rest : ∀ (P : List Char) (i : Nat) (port : Int) (r r2 : List Char),
    digits P → is_digit (r.headD NUL) = 0 → is_digit (r2.headD NUL) = 0 →
    (get_port_loop (P ++ r) i port).2 = (get_port_loop (P ++ r2) i port).2 := by
  intro P
  induction P with
  | nil =>
    intro i port r r2 _ hr hr2
    rw [List.nil_append, List.nil_append, get_port_loop_stop r i port hr,
      get_port_loop_stop r2 i port hr2]
  | cons c P ih =>
    intro i port r r2 hd hr hr2
    have hc : is_digit c ≠ 0 := hd c (by simp)
    simp only [List.cons_append, get_port_loop, hc, ne_eq, not_false_eq_true, if_true]
    exact ih _ _ r r2 (fun x hx => hd x (by simp [hx])) hr hr2

/-- The C `_srb_reconstruct_url`: what it stores and when it fails. -/
theorem reconstruct_url_eq (SRB_CDMI_URL_SIZE : Nat) (baseurl basepath filename : List Char) :
    _srb_reconstruct_url SRB_CDMI_URL_SIZE baseurl basepath filename
      = (if SRB_CDMI_URL_SIZE
              ≤ (strcpy baseurl
                  ++ (if baseurl.getD (strlen baseurl - 1) NUL ≠ '/' then ['/'] else [])
                  ++ strcpy filename).length
            ∨ SRB_CDMI_URL_SIZE
              ≤ (strcpy basepath
                  ++ (if baseurl.getD (strlen baseurl - 1) NUL ≠ '/' then ['/'] else [])
                  ++ strcpy filename).length
          then -EINVAL else 0,
        (strcpy baseurl
          ++ (if baseurl.getD (strlen baseurl - 1) NUL ≠ '/' then ['/'] else [])
          ++ strcpy filename).take (SRB_CDMI_URL_SIZE - 1),
        (strcpy basepath
          ++ (if baseurl.getD (strlen baseurl - 1) NUL ≠ '/' then ['/'] else [])
          ++ strcpy filename).take (SRB_CDMI_URL_SIZE - 1)) := by
  unfold _srb_reconstruct_url snprintf
  have hsl : "/".toList = ['/'] := rfl
  by_cases hs : baseurl.getD (strlen baseurl - 1) NUL ≠ '/'
  · simp only [hs, if_true, ne_eq, not_false_eq_true, one_ne_zero, ge_iff_le, Nat.cast_le, hsl]
    split <;> rfl
  · simp only [hs, if_false, ne_eq, not_true_eq_false, ge_iff_le, Nat.cast_le]
    split <;> rfl

theorem last_char_slash (l : List Char) (h : ∀ c ∈ l, c ≠ NUL) :
    l.getD (strlen l - 1) NUL ≠ '/' ↔ l.getLast? ≠ some '/' := by
  rw [strlen_eq_length l h, List.getD_eq_getElem?_getD, ← List.getLast?_eq_getElem?]
  rcases l.getLast? with _ | c
  · simp only [Option.getD_none, ne_eq, reduceCtorEq, not_false_eq_true, iff_true]
    decide
  · simp

/-- What a successful `srb_cdmi_init` leaves in the descriptor, in terms of the parts of
the URL. -/
theorem srb_cdmi_init_ok_parts (SRB_CDMI_URL_SIZE : Nat) (d : srb_cdmi_desc)
    (base : List Char) (h0 : (srb_cdmi_init SRB_CDMI_URL_SIZE d base).1 = 0) :
    ∃ h mid path, base = PROTO_HTTP ++ h ++ mid ++ path ∧
      (∀ c ∈ h, ip_valid_char c ≠ 0) ∧ h ≠ [] ∧ h.length ≤ 15 ∧ path.headD NUL = '/' ∧
      (∀ c ∈ mid, c ≠ NUL) ∧
      (∀ d2 path2, path2.headD NUL = '/' →
        srb_cdmi_init SRB_CDMI_URL_SIZE d2 (PROTO_HTTP ++ h ++ mid ++ path2)
          = (0, { d2 with url := strncpy (PROTO_HTTP ++ h ++ mid ++ path2) SRB_CDMI_URL_SIZE,
                          filename := strcpy path2, ip_addr := h,
                          port := (srb_cdmi_init SRB_CDMI_URL_SIZE d base).2.port,
                          state := CDMI_DISCONNECTED })) := by
  obtain ⟨h, t, e, hv, hne, hlen, _, hc⟩ := srb_cdmi_init_ok_desc SRB_CDMI_URL_SIZE d base h0
  rcases hc with ⟨ht, hd⟩ | ⟨P, path, ht, hP, hPne, hpath, hd⟩
  · refine ⟨h, [], t, by rw [e]; simp, hv, hne, hlen, ht, by simp, ?_⟩
    intro d2 path2 hp2
    rw [hd]
    simp only [List.append_nil]
    exact (srb_cdmi_init_accepts SRB_CDMI_URL_SIZE d2 h path2 hv hne hlen).1 hp2
  · refine ⟨h, ':' :: P, path, by rw [e, ht]; simp, hv, hne, hlen, hpath, ?_, ?_⟩
    · intro c hc
      rcases List.mem_cons.mp hc with rfl | hc
      · decide
      · exact digits_no_nul P hP c hc
    · intro d2 path2 hp2
      rw [hd]
      have := (srb_cdmi_init_accepts SRB_CDMI_URL_SIZE d2 h (':' :: (P ++ path2)) hv hne hlen).2
        P path2 rfl hP hPne hp2
      simp only [List.append_assoc, List.cons_append] at this ⊢
      rw [this, get_port_loop_rest P 0 0 path path2 hP (is_digit_slash path hpath)
        (is_digit_slash path2 hp2)]

/-- C29: URL reconstruction agrees with URL parsing.  For every descriptor `desc` that a
successful `srb_cdmi_init` makes of `base`, and every filename `f` for which
`_srb_reconstruct_url` on `desc.url`, `desc.filename` and `f` returns 0 with the strings
`url2` and `name2`: `desc.url` is the whole of `base`, `url2` is `desc.url` followed by
`f`, with one `/` between them exactly when `desc.url` does not end in `/`, and
`srb_cdmi_init` of `url2` succeeds with the `ip_addr` and `port` of `desc` and the filename
`name2`.  When the reconstructed URL or name has `SRB_CDMI_URL_SIZE` characters or more,
`_srb_reconstruct_url` returns `-EINVAL`. -/
theorem reconstruct_url_agrees_with_init (SRB_CDMI_URL_SIZE : Nat) :
    (∀ (d d2 desc : srb_cdmi_desc) (base f url2 name2 : List Char),
      srb_cdmi_init SRB_CDMI_URL_SIZE d base = (0, desc) →
      _srb_reconstruct_url SRB_CDMI_URL_SIZE desc.url desc.filename f = (0, url2, name2) →
      desc.url = strcpy base ∧
      url2 = desc.url ++ (if desc.url.getLast? = some '/' then [] else ['/']) ++ strcpy f ∧
      (srb_cdmi_init SRB_CDMI_URL_SIZE d2 url2).1 = 0 ∧
      (srb_cdmi_init SRB_CDMI_URL_SIZE d2 url2).2.ip_addr = desc.ip_addr ∧
      (srb_cdmi_init SRB_CDMI_URL_SIZE d2 url2).2.port = desc.port ∧
      (srb_cdmi_init SRB_CDMI_URL_SIZE d2 url2).2.filename = name2) ∧
    (∀ baseurl basepath f : List Char,
      (SRB_CDMI_URL_SIZE
          ≤ (strcpy baseurl
              ++ (if baseurl.getD (strlen baseurl - 1) NUL ≠ '/' then ['/'] else [])
              ++ strcpy f).length
        ∨ SRB_CDMI_URL_SIZE
          ≤ (strcpy basepath
              ++ (if baseurl.getD (strlen baseurl - 1) NUL ≠ '/' then ['/'] else [])
              ++ strcpy f).length) →
      (_srb_reconstruct_url SRB_CDMI_URL_SIZE baseurl basepath f).1 = -EINVAL) := by
  constructor
  · intro d d2 desc base f url2 name2 hinit hr
    have h0 : (srb_cdmi_init SRB_CDMI_URL_SIZE d base).1 = 0 := by rw [hinit]
    obtain ⟨h, mid, path, e, hv, hne, hlen, hpath, hmid, hacc⟩ :=
      srb_cdmi_init_ok_parts SRB_CDMI_URL_SIZE d base h0
    have hd := hacc d path hpath
    rw [← e, hinit] at hd
    simp only [Prod.mk.injEq, true_and] at hd
    have hproto : ∀ c ∈ PROTO_HTTP, c ≠ NUL := by decide
    have hh : ∀ c ∈ h, c ≠ NUL := fun c hc => (ip_valid_char_not_sep c (hv c hc)).2.2
    have hpre : ∀ c ∈ PROTO_HTTP ++ h ++ mid, c ≠ NUL := by
      intro c hc
      rcases List.mem_append.mp hc with hc | hc
      · rcases List.mem_append.mp hc with hc | hc
        · exact hproto c hc
        · exact hh c hc
      · exact hmid c hc
    have hB : strcpy base = PROTO_HTTP ++ h ++ mid ++ strcpy path := by
      rw [e, strcpy_append _ _ hpre]
    have hurl : desc.url = (strcpy base).take SRB_CDMI_URL_SIZE := by rw [hd]; rfl
    have hfile : desc.filename = strcpy path := by rw [hd]
    have hip : desc.ip_addr = h := by rw [hd]
    have hport : desc.port = (srb_cdmi_init SRB_CDMI_URL_SIZE d base).2.port := by rw [hinit]
    have hun : ∀ c ∈ desc.url, c ≠ NUL := by
      intro c hc
      rw [hurl] at hc
      exact strcpy_no_nul base c (List.mem_of_mem_take hc)
    rw [reconstruct_url_eq, strcpy_eq_self desc.url hun, hfile, strcpy_idem] at hr
    simp only [Prod.mk.injEq] at hr
    obtain ⟨hc, hu2, hn2⟩ := hr
    have hcond : ¬ (SRB_CDMI_URL_SIZE
          ≤ (desc.url ++ (if desc.url.getD (strlen desc.url - 1) NUL ≠ '/' then ['/'] else [])
              ++ strcpy f).length
        ∨ SRB_CDMI_URL_SIZE
          ≤ (strcpy path
              ++ (if desc.url.getD (strlen desc.url - 1) NUL ≠ '/' then ['/'] else [])
              ++ strcpy f).length) := by
      intro hc2
      rw [if_pos hc2] at hc
      exact absurd hc (by decide)
    have hsep : (if desc.url.getD (strlen desc.url - 1) NUL ≠ '/' then ['/'] else [])
        = (if desc.url.getLast? = some '/' then [] else ['/']) := by
      by_cases hl : desc.url.getLast? = some '/'
      · rw [if_pos hl, if_neg (fun hx => (last_char_slash desc.url hun).mp hx hl)]
      · rw [if_neg hl, if_pos ((last_char_slash desc.url hun).mpr hl)]
    rw [hsep] at hcond hu2 hn2
    simp only [not_or, not_le, List.length_append] at hcond
    have hfull : desc.url = strcpy base := by
      rw [hurl]
      apply List.take_of_length_le
      by_contra hlt
      have : desc.url.length = SRB_CDMI_URL_SIZE := by
        rw [hurl, List.length_take]
        omega
      omega
    have hu3 : url2 = desc.url ++ (if desc.url.getLast? = some '/' then [] else ['/'])
        ++ strcpy f := by
      rw [← hu2]
      apply List.take_of_length_le
      simp only [List.length_append]
      omega
    have hn3 : name2 = strcpy path ++ (if desc.url.getLast? = some '/' then [] else ['/'])
        ++ strcpy f := by
      rw [← hn2]
      apply List.take_of_length_le
      simp only [List.length_append]
      omega
    obtain ⟨r, _, hsp⟩ := strcpy_head path '/' (by decide) hpath
    have hp2 : (strcpy path ++ (if desc.url.getLast? = some '/' then [] else ['/'])
        ++ strcpy f).headD NUL = '/' := by
      rw [hsp]; rfl
    have hnn : ∀ c ∈ strcpy path ++ (if desc.url.getLast? = some '/' then [] else ['/'])
        ++ strcpy f, c ≠ NUL := by
      intro c hc
      rcases List.mem_append.mp hc with hc | hc
      · rcases List.mem_append.mp hc with hc | hc
        · exact strcpy_no_nul path c hc
        · split at hc
          · simp at hc
          · simp only [List.mem_singleton] at hc
            rw [hc]; decide
      · exact strcpy_no_nul f c hc
    have hshape : url2 = PROTO_HTTP ++ h ++ mid
        ++ (strcpy path ++ (if desc.url.getLast? = some '/' then [] else ['/']) ++ strcpy f) := by
      rw [hu3, hfull, hB]
      simp only [List.append_assoc]
    have hres := hacc d2 _ hp2
    rw [← hshape, strcpy_eq_self _ hnn, ← hn3] at hres
    refine ⟨hfull, hu3, ?_, ?_, ?_, ?_⟩
    · rw [hres]
    · rw [hres, hip]
    · rw [hres, hport]
    · rw [hres]
  · intro baseurl basepath f hc
    rw [reconstruct_url_eq]
    simp only [hc, if_true]

theorem reconstruct_url_agrees_with_init_witness :
    (srb_cdmi_init 64 zeroed_desc "http://10.0.0.2:8080/cdmi".toList = (0, server_b.cdmi_desc) ∧
      _srb_reconstruct_url 64 server_b.cdmi_desc.url server_b.cdmi_desc.filename "vol0".toList
        = (0, "http://10.0.0.2:8080/cdmi/vol0".toList, "/cdmi/vol0".toList) ∧
      (srb_cdmi_init 64 zeroed_desc "http://10.0.0.2:8080/cdmi/vol0".toList).1 = 0 ∧
      (srb_cdmi_init 64 zeroed_desc "http://10.0.0.2:8080/cdmi/vol0".toList).2.ip_addr
        = "10.0.0.2".toList ∧
      (srb_cdmi_init 64 zeroed_desc "http://10.0.0.2:8080/cdmi/vol0".toList).2.port = 8080 ∧
      (srb_cdmi_init 64 zeroed_desc "http://10.0.0.2:8080/cdmi/vol0".toList).2.filename
        = "/cdmi/vol0".toList) ∧
    (_srb_reconstruct_url 16 "http://10.0.0.1/".toList "/".toList "vol0".toList).1 = -EINVAL :=
  ⟨⟨by decide, by decide,
      ((reconstruct_url_agrees_with_init 64).1 zeroed_desc zeroed_desc server_b.cdmi_desc
        "http://10.0.0.2:8080/cdmi".toList "vol0".toList
        "http://10.0.0.2:8080/cdmi/vol0".toList "/cdmi/vol0".toList
        (by decide) (by decide)).2.2⟩,
    (reconstruct_url_agrees_with_init 16).2 "http://10.0.0.1/".toList "/".toList
      "vol0".toList (by decide)⟩

/-! ## Termination -/

/-- One turn of the loop of `sock_xmit`: either the loop is left with a result, or the
call transferred `result > 0` bytes, `size - result > 0` bytes remain, and the loop goes
on with that smaller size. -/
theorem sock_xmit_loop_step (k : Kernel) (s : Nat) (send : Bool) (region : Region) (off : Nat)
    (done mem : List Char) (size : Int) (strict : Bool) :
    (∃ r, ∀ fuel, sock_xmit_loop (fuel + 1) k s send region off done mem size strict = some r) ∨
    (∃ (result : Int) (mem2 : List Char) (k2 : Kernel), 0 < result ∧ 0 < size - result ∧ size - result < size ∧
      ∀ fuel, sock_xmit_loop (fuel + 1) k s send region off done mem size strict
        = sock_xmit_loop fuel k2 s send region (off + result.toNat)
            (done ++ mem2.take result.toNat) (mem2.drop result.toNat) (size - result) strict) := by
  rcases hstep : (if send = true then
      ((kernel_sendmsg k s ⟨region, off⟩ mem size).1, mem,
        (kernel_sendmsg k s ⟨region, off⟩ mem size).2.1,
        (kernel_sendmsg k s ⟨region, off⟩ mem size).2.2)
    else kernel_recvmsg k s ⟨region, off⟩ mem size) with ⟨result, m, signal, k1⟩
  have hu : ∀ fuel, sock_xmit_loop (fuel + 1) k s send region off done mem size strict
      = (if signal then some (-EINTR, done ++ m, k1)
        else if result ≠ 0 ∧ send = false ∧ strict = false then some (result, done ++ m, k1)
        else if result = 0 then some (-EPIPE, done ++ m, k1)
        else if result < 0 then some (result, done ++ m, k1)
        else if size - result > 0 then
          sock_xmit_loop fuel k1 s send region (off + result.toNat)
            (done ++ m.take result.toNat) (m.drop result.toNat) (size - result) strict
        else some (result, done ++ m, k1)) := by
    intro fuel
    conv => lhs; unfold sock_xmit_loop
    simp only [hstep]
  by_cases h1 : signal = true
  · left
    refine ⟨(-EINTR, done ++ m, k1), fun fuel => ?_⟩
    rw [hu, if_pos h1]
  · by_cases h2 : result ≠ 0 ∧ send = false ∧ strict = false
    · left
      refine ⟨(result, done ++ m, k1), fun fuel => ?_⟩
      rw [hu, if_neg h1, if_pos h2]
    · by_cases h3 : result = 0
      · left
        refine ⟨(-EPIPE, done ++ m, k1), fun fuel => ?_⟩
        rw [hu, if_neg h1, if_neg h2, if_pos h3]
      · by_cases h4 : result < 0
        · left
          refine ⟨(result, done ++ m, k1), fun fuel => ?_⟩
          rw [hu, if_neg h1, if_neg h2, if_neg h3, if_pos h4]
        · by_cases h5 : size - result > 0
          · right
            refine ⟨result, m, k1, by omega, h5, by omega, fun fuel => ?_⟩
            rw [hu, if_neg h1, if_neg h2, if_neg h3, if_neg h4, if_pos h5]
          · left
            refine ⟨(result, done ++ m, k1), fun fuel => ?_⟩
            rw [hu, if_neg h1, if_neg h2, if_neg h3, if_neg h4, if_neg h5]

/-- C26: `sock_xmit`, `sock_send_receive` and `sock_send_sglist_receive` return for every
behaviour of the socket layer.  A turn of the loop of `sock_xmit` either leaves the loop
or goes on with a strictly smaller positive size, so `size + 1` turns are enough; the
receive loop of an exchange ends within `rcv_size - rcvd + 1` evaluations of its
condition, that is after at most `rcv_size` receives that did not fail; and the code
from `retry_once` on ends within two passes, within one after the jump back
(`has_epiped = 1`). -/
theorem exchange_calls_terminate (H : Framer) (k : Kernel) (desc : srb_cdmi_desc) :
    (∀ send buf mem size strict, ∃ r, sock_xmit k desc send buf mem size strict = some r) ∧
    (∀ send_size rcv_size, ∃ r, sock_send_receive H k desc send_size rcv_size = some r) ∧
    (∀ send_size rcv_size, ∃ r, sock_send_sglist_receive H k desc send_size rcv_size = some r) ∧
    (∀ s send region off done mem size strict,
      (∃ r, ∀ fuel,
        sock_xmit_loop (fuel + 1) k s send region off done mem size strict = some r) ∨
      (∃ (result : Int) (mem2 : List Char) (k2 : Kernel), 0 < result ∧ 0 < size - result ∧ size - result < size ∧
        ∀ fuel, sock_xmit_loop (fuel + 1) k s send region off done mem size strict
          = sock_xmit_loop fuel k2 s send region (off + result.toNat)
              (done ++ mem2.take result.toNat) (mem2.drop result.toNat) (size - result)
              strict)) ∧
    (∀ n s send region off done mem size strict,
      ∃ r, sock_xmit_loop (size.toNat + 1 + n) k s send region off done mem size strict
        = some r) ∧
    (∀ n rcvbuf rcv_size strict_rcv has_epiped ret rcvd,
      ∃ r, receive_response H ((rcv_size - rcvd).toNat + 1 + n) k desc rcvbuf rcv_size
        strict_rcv has_epiped ret rcvd = some r) ∧
    (∀ n rcvbuf send_size rcv_size strict_rcv has_epiped,
      (∃ r, sock_send_receive_retry_once H (2 + n) k desc rcvbuf send_size rcv_size
        strict_rcv has_epiped = some r) ∧
      (∃ r, sock_send_sglist_receive_retry_once H (2 + n) k desc rcvbuf send_size rcv_size
        strict_rcv has_epiped = some r) ∧
      (∃ r, sock_send_receive_retry_once H (1 + n) k desc rcvbuf send_size rcv_size
        strict_rcv 1 = some r) ∧
      (∃ r, sock_send_sglist_receive_retry_once H (1 + n) k desc rcvbuf send_size rcv_size
        strict_rcv 1 = some r)) :=
  ⟨fun send buf mem size strict => sock_xmit_total k desc send buf mem size strict,
    fun send_size rcv_size => sock_send_receive_total H k desc send_size rcv_size,
    fun send_size rcv_size => sock_send_sglist_receive_total H k desc send_size rcv_size,
    fun s send region off done mem size strict =>
      sock_xmit_loop_step k s send region off done mem size strict,
    fun n s send region off done mem size strict =>
      sock_xmit_loop_total _ k s send region off done mem size strict (by omega),
    fun n rcvbuf rcv_size strict_rcv has_epiped ret rcvd =>
      receive_response_total H _ k desc rcvbuf rcv_size strict_rcv has_epiped ret rcvd
        (by omega),
    fun n rcvbuf send_size rcv_size strict_rcv has_epiped =>
      ⟨sock_send_receive_retry_once_total H _ k desc rcvbuf send_size rcv_size strict_rcv
          has_epiped (Or.inl (by omega)),
        sock_send_sglist_receive_retry_once_total H _ k desc rcvbuf send_size rcv_size
          strict_rcv has_epiped (Or.inl (by omega)),
        sock_send_receive_retry_once_total H _ k desc rcvbuf send_size rcv_size strict_rcv 1
          (Or.inr ⟨by omega, by decide⟩),
        sock_send_sglist_receive_retry_once_total H _ k desc rcvbuf send_size rcv_size
          strict_rcv 1 (Or.inr ⟨by omega, by decide⟩)⟩⟩

/-! ## An empty scatter list -/

/-- With an empty scatter list, the code of `sock_send_sglist_receive` from `retry_once`
on does what the code of `sock_send_receive` does. -/
theorem retry_once_empty_sglist (H : Framer) : ∀ (fuel : Nat) (k : Kernel)
    (desc : srb_cdmi_desc) (rcvbuf : List Char) (send_size rcv_size : Int) (strict_rcv : Bool)
    (has_epiped : Int), desc.sgl = [] →
    sock_send_sglist_receive_retry_once H fuel k desc rcvbuf send_size rcv_size strict_rcv
        has_epiped
      = sock_send_receive_retry_once H fuel k desc rcvbuf send_size rcv_size strict_rcv
        has_epiped := by
  intro fuel
  induction fuel with
  | zero => intros; rfl
  | succ fuel ih =>
    intro k desc rcvbuf send_size rcv_size strict_rcv has_epiped hs
    unfold sock_send_sglist_receive_retry_once sock_send_receive_retry_once
    rcases hh : send_header k desc has_epiped send_size with _ | ⟨e, d, k2⟩
    · rfl
    · have hd : d.sgl = [] := (send_header_sgl k desc has_epiped send_size e d k2 hh).trans hs
      cases e with
      | cleanup ret => rfl
      | retry_once => exact ih k2 d rcvbuf send_size rcv_size strict_rcv 1 hd
      | next ret r =>
        simp only [hd, send_sglist]
        rcases hr : receive_response H (rcv_size.toNat + 1) k2 d rcvbuf rcv_size strict_rcv
          has_epiped ret 0 with _ | ⟨e2, d2, k3, rb⟩
        · rfl
        · cases e2 with
          | cleanup ret2 => rfl
          | retry_once =>
            exact ih k3 d2 rb send_size rcv_size strict_rcv 1
              ((receive_response_sgl H _ k2 d rcvbuf rcv_size strict_rcv has_epiped ret 0
                Exit.retry_once d2 k3 rb hr).trans hd)
          | next ret2 rcvd => rfl

/-- C27: with an empty scatter list, `sock_send_sglist_receive` is `sock_send_receive`.
For every framer, socket layer, descriptor with no scatter segment, `send_size` and
`rcv_size`, both return, and they return the same value, with the same descriptor and the
same socket layer afterwards, whose trace is the sequence of the calls made. -/
theorem sock_send_sglist_receive_empty_sglist (H : Framer) (k : Kernel) (desc : srb_cdmi_desc)
    (send_size rcv_size : Int) (h : desc.sgl = []) :
    ∃ ret d k2, sock_send_receive H k desc send_size rcv_size = some (ret, d, k2) ∧
      sock_send_sglist_receive H k desc send_size rcv_size = some (ret, d, k2) := by
  have he : sock_send_sglist_receive H k desc send_size rcv_size
      = sock_send_receive H k desc send_size rcv_size := by
    have h2 : ∀ rs, (connect_if_disconnected (check_reuse_limit (vmalloc k rs).2 desc).2
        (check_reuse_limit (vmalloc k rs).2 desc).1).2.1.sgl = [] := by
      intro rs
      rw [connect_if_disconnected_sgl, check_reuse_limit_sgl, h]
    unfold sock_send_sglist_receive sock_send_receive
    simp only
    by_cases hr : rcv_size = 0
    · simp only [hr, if_true]
      rw [retry_once_empty_sglist H 2 _ _ _ _ _ _ _ (h2 _)]
    · simp only [hr, if_false]
      rw [retry_once_empty_sglist H 2 _ _ _ _ _ _ _ (h2 _)]
  obtain ⟨⟨ret, d, k2⟩, hr⟩ := sock_send_receive_total H k desc send_size rcv_size
  exact ⟨ret, d, k2, hr, he.trans hr⟩

theorem sock_send_sglist_receive_empty_sglist_witness :
    fresh_connection.sgl = [] ∧
    ∃ ret d k2,
      sock_send_receive demo_framer (patient_peer 1) fresh_connection 61 0 = some (ret, d, k2) ∧
      sock_send_sglist_receive demo_framer (patient_peer 1) fresh_connection 61 0
        = some (ret, d, k2) :=
  ⟨rfl, sock_send_sglist_receive_empty_sglist demo_framer (patient_peer 1) fresh_connection
    61 0 rfl⟩

/-! ## The worker loop -/

theorem srb_thread_request_returns (H : Framer) (nb_req_retries : Nat) (k : Kernel)
    (dev : srb_device) (req : request) :
    ∃ dev2 k2, srb_thread_request H nb_req_retries k dev req = some (dev2, k2) ∧
      dev2.completed = dev.completed ++ [(req, 0)] ∧
      dev2.stop = dev.stop ∧ dev2.waiting_queue = dev.waiting_queue := by
  obtain ⟨ret, d, k2, hx, _⟩ := srb_xfer_scl_total H nb_req_retries k
    { dev.desc with sgl := req.segments } req
  by_cases h0 : req.sectors = 0
  · exact ⟨{ dev with completed := dev.completed ++ [(req, 0)] }, k,
      by simp only [srb_thread_request, h0, if_true], rfl, rfl, rfl⟩
  · exact ⟨{ dev with desc := d, completed := dev.completed ++ [(req, 0)] }, k2,
      by simp only [srb_thread_request, h0, if_false, hx], rfl, rfl, rfl⟩

/-- The loop condition of `srb_thread` is false exactly when the stop signal is set and
the waiting queue is empty. -/
theorem srb_thread_turn_exit (H : Framer) (nb_req_retries : Nat) (k : Kernel)
    (dev : srb_device) :
    srb_thread_turn H nb_req_retries k dev = some Turn.exit
      ↔ dev.stop = true ∧ dev.waiting_queue = [] := by
  unfold srb_thread_turn
  constructor
  · intro h
    split at h
    · rename_i hc
      simp only [not_or, Bool.not_eq_false, ne_eq, not_not] at hc
      exact hc
    · rcases hq : dev.waiting_queue with _ | ⟨req, rest⟩
      · simp [hq] at h
      · obtain ⟨dev2, k2, hr, _⟩ := srb_thread_request_returns H nb_req_retries k
          { dev with waiting_queue := rest } req
        simp [hq, hr] at h
  · intro ⟨h1, h2⟩
    simp [h1, h2]

/-- When the loop of `srb_thread` is left, the stop signal is set and the queue empty. -/
theorem srb_thread_exit_state (H : Framer) (nb_req_retries : Nat) : ∀ (fuel : Nat) (k : Kernel)
    (dev dev2 : srb_device) (k2 : Kernel),
    srb_thread H nb_req_retries fuel k dev = some (true, dev2, k2) →
    dev2.stop = true ∧ dev2.waiting_queue = [] := by
  intro fuel
  induction fuel with
  | zero => intro k dev dev2 k2 h; simp [srb_thread] at h
  | succ fuel ih =>
    intro k dev dev2 k2 h
    unfold srb_thread at h
    rcases ht : srb_thread_turn H nb_req_retries k dev with _ | t
    · simp [ht] at h
    · cases t with
      | exit =>
        simp only [ht, Option.some.injEq, Prod.mk.injEq, true_and] at h
        rw [← h.1]
        exact (srb_thread_turn_exit H nb_req_retries k dev).mp ht
      | idle => simp [ht] at h
      | handled d1 k1 =>
        simp only [ht] at h
        exact ih k1 d1 dev2 k2 h

/-- The worker takes the waiting requests off the head of the queue one after the other,
completes each, and goes on until the queue is empty; it then leaves the loop when the
stop signal is set (`true`) and waits otherwise (`false`). -/
theorem srb_thread_drains (H : Framer) (nb_req_retries : Nat) : ∀ (q : List request)
    (k : Kernel) (dev : srb_device), dev.waiting_queue = q →
    ∃ dev2 k2, srb_thread H nb_req_retries (q.length + 1) k dev = some (dev.stop, dev2, k2) ∧
      dev2.stop = dev.stop ∧ dev2.waiting_queue = [] ∧
      dev2.completed = dev.completed ++ q.map (fun r => (r, 0)) := by
  intro q
  induction q with
  | nil =>
    intro k dev hq
    refine ⟨dev, k, ?_, rfl, hq, by simp⟩
    unfold srb_thread srb_thread_turn
    cases hs : dev.stop <;> simp [hq]
  | cons r q ih =>
    intro k dev hq
    obtain ⟨d1, k1, hr, hc, hs, hw⟩ := srb_thread_request_returns H nb_req_retries k
      { dev with waiting_queue := q } r
    obtain ⟨dev2, k2, h2, hs2, hq2, hc2⟩ := ih k1 d1 hw
    refine ⟨dev2, k2, ?_, hs2.trans hs, hq2, ?_⟩
    · have ht : srb_thread_turn H nb_req_retries k dev = some (Turn.handled d1 k1) := by
        unfold srb_thread_turn
        simp [hq, hr]
      rw [List.length_cons]
      conv => lhs; unfold srb_thread
      simp only [ht]
      rw [h2, hs]
    · rw [hc2, hc]
      simp

/-- The C `srb_rq_fn` adds the requests of type `REQ_TYPE_FS` at the tail of the waiting
queue, in the order it fetched them. -/
theorem srb_rq_fn_queue : ∀ (reqs : List request) (dev : srb_device),
    (srb_rq_fn dev reqs).waiting_queue = dev.waiting_queue ++ reqs.filter (fun r => r.fs) ∧
    (srb_rq_fn dev reqs).stop = dev.stop := by
  intro reqs
  induction reqs with
  | nil => intro dev; simp [srb_rq_fn]
  | cons r reqs ih =>
    intro dev
    unfold srb_rq_fn
    cases hf : r.fs with
    | false =>
      rw [if_pos rfl, (ih _).1, (ih _).2]
      simp [hf]
    | true =>
      rw [if_neg (by decide), (ih _).1, (ih _).2]
      simp [hf]

/-- C25: a worker leaves the loop of `srb_thread` only with the stop signal set and the
waiting queue empty.  The loop condition is false exactly in that state, and a run of
the loop that ends by leaving it ends there.  With requests waiting, the worker takes
them off the head of the queue one after the other and completes each, until the queue
is empty; only then does it leave the loop, when the stop signal is set, or wait, when it
is not.  The head is the oldest request: `srb_rq_fn` adds at the tail. -/
theorem srb_thread_stops_only_when_drained (H : Framer) (nb_req_retries : Nat) (k : Kernel)
    (dev : srb_device) :
    (srb_thread_turn H nb_req_retries k dev = some Turn.exit
      ↔ dev.stop = true ∧ dev.waiting_queue = []) ∧
    (∀ fuel dev2 k2, srb_thread H nb_req_retries fuel k dev = some (true, dev2, k2) →
      dev2.stop = true ∧ dev2.waiting_queue = []) ∧
    (∃ dev2 k2,
      srb_thread H nb_req_retries (dev.waiting_queue.length + 1) k dev
        = some (dev.stop, dev2, k2) ∧
      dev2.stop = dev.stop ∧ dev2.waiting_queue = [] ∧
      dev2.completed = dev.completed ++ dev.waiting_queue.map (fun r => (r, 0))) ∧
    (∀ reqs, (srb_rq_fn dev reqs).waiting_queue
      = dev.waiting_queue ++ reqs.filter (fun r => r.fs)) :=
  ⟨srb_thread_turn_exit H nb_req_retries k dev,
    fun fuel dev2 k2 h => srb_thread_exit_state H nb_req_retries fuel k dev dev2 k2 h,
    srb_thread_drains H nb_req_retries dev.waiting_queue k dev rfl,
    fun reqs => (srb_rq_fn_queue reqs dev).1⟩

theorem srb_thread_stops_only_when_drained_witness :
    (∃ dev2 k2,
      srb_thread demo_framer 1 3 unreachable_peer stopping_device = some (true, dev2, k2) ∧
      dev2.stop = true ∧ dev2.waiting_queue = [] ∧
      dev2.completed = [(empty_request, 0), (read_request, 0)]) ∧
    (srb_rq_fn idle_device [empty_request, special_request, read_request]).waiting_queue
      = [empty_request, read_request] ∧
    srb_thread_turn demo_framer 1 unreachable_peer idle_device = some Turn.idle :=
  ⟨match (srb_thread_stops_only_when_drained demo_framer 1 unreachable_peer
        stopping_device).2.2.1 with
    | ⟨dev2, k2, h, _, _, hc⟩ =>
      ⟨dev2, k2, h,
        ((srb_thread_stops_only_when_drained demo_framer 1 unreachable_peer
          stopping_device).2.1 3 dev2 k2 h).1,
        ((srb_thread_stops_only_when_drained demo_framer 1 unreachable_peer
          stopping_device).2.1 3 dev2 k2 h).2, hc⟩,
    (srb_thread_stops_only_when_drained demo_framer 1 unreachable_peer idle_device).2.2.2
      [empty_request, special_request, read_request],
    by decide⟩

/-! ## Reconnections after `-EPIPE` -/

theorem appends_mono {p q : Event → Bool} {k k2 : Kernel} (h : appends p k k2)
    (hpq : ∀ e, p e = true → q e = true) : appends q k k2 := by
  obtain ⟨ev, e, hp⟩ := h
  exact ⟨ev, e, fun x hx => hpq x (hp x hx)⟩

theorem transfer_not_reconnecting (e : Event) (h : e.transfer = true) :
    (!e.reconnecting) = true := by
  cases e <;> simp_all [Event.transfer, Event.reconnecting]

theorem teardown_not_reconnecting (e : Event) (h : e.teardown = true) :
    (!e.reconnecting) = true := by
  cases e <;> simp_all [Event.teardown, Event.reconnecting]

theorem reconnects_within_of_appends {k k2 : Kernel}
    (h : appends (fun e => !e.reconnecting) k k2) : reconnects_within 0 k k2 := by
  obtain ⟨ev, e, hp⟩ := h
  refine ⟨ev, e, ?_⟩
  have : reconnects ev = 0 := by
    unfold reconnects
    rw [List.count_eq_zero]
    intro hm
    have := hp _ hm
    simp [Event.reconnecting] at this
  omega

theorem reconnects_within_of_mgmt {k k2 : Kernel} (h : mgmt_step k k2) :
    reconnects_within 0 k k2 := by
  obtain ⟨ev, e, hp⟩ := h.trace
  refine ⟨ev, e, ?_⟩
  have : reconnects ev = 0 := by
    unfold reconnects
    rw [List.count_eq_zero]
    intro hm
    have := hp _ hm
    simp [Event.mgmt] at this
  omega

theorem reconnects_within.within_trans {a b : Nat} {k1 k2 k3 : Kernel}
    (h1 : reconnects_within a k1 k2) (h2 : reconnects_within b k2 k3) :
    reconnects_within (a + b) k1 k3 := by
  obtain ⟨e1, t1, c1⟩ := h1
  obtain ⟨e2, t2, c2⟩ := h2
  refine ⟨e1 ++ e2, by rw [t2, t1, List.append_assoc], ?_⟩
  rw [reconnects_append]
  omega

theorem reconnects_within.within_mono {a b : Nat} {k1 k2 : Kernel}
    (h : reconnects_within a k1 k2) (hab : a ≤ b) : reconnects_within b k1 k2 := by
  obtain ⟨e1, t1, c1⟩ := h
  exact ⟨e1, t1, by omega⟩

theorem reconnects_within_one (n : Nat) (k k2 : Kernel) (e : Event)
    (h : k2.trace = k.trace ++ [e]) (hn : reconnects [e] ≤ n) : reconnects_within n k k2 :=
  ⟨[e], h, hn⟩

theorem closed_by_peer.after {k k1 k2 : Kernel} (h1 : appends Event.transfer k k1)
    (h2 : closed_by_peer k1 k2) : closed_by_peer k k2 := by
  obtain ⟨e1, t1, p1⟩ := h1
  obtain ⟨ev, x, tail, t2, p2, px, pt⟩ := h2
  refine ⟨e1 ++ ev, x, tail, by rw [t2, t1]; simp only [List.append_assoc], ?_, px, pt⟩
  intro e he
  rcases List.mem_append.mp he with he | he
  · exact p1 e he
  · exact p2 e he

theorem closed_by_peer.before {k k1 k2 : Kernel} (h1 : closed_by_peer k k1)
    (h2 : appends Event.teardown k1 k2) : closed_by_peer k k2 := by
  obtain ⟨ev, x, tail, t1, p1, px, pt⟩ := h1
  obtain ⟨e2, t2, p2⟩ := h2
  refine ⟨ev, x, tail ++ e2, by rw [t2, t1]; simp only [List.append_assoc], p1, px, ?_⟩
  intro e he
  rcases List.mem_append.mp he with he | he
  · exact pt e he
  · exact p2 e he

/-- The steps of one `sock_xmit`: sends or receives only, and the last one closed by the
peer when `-EPIPE` is returned. -/
theorem sock_xmit_loop_transfer : ∀ (fuel : Nat) (k : Kernel) (s : Nat) (send : Bool)
    (region : Region) (off : Nat) (done mem : List Char) (size : Int) (strict : Bool)
    (ret : Int) (m : List Char) (k2 : Kernel),
    sock_xmit_loop fuel k s send region off done mem size strict = some (ret, m, k2) →
    appends Event.transfer k k2 ∧ (ret = -EPIPE → closed_by_peer k k2) := by
  intro fuel
  induction fuel with
  | zero =>
    intro k s send region off done mem size strict ret m k2 h
    simp [sock_xmit_loop] at h
  | succ fuel ih =>
    intro k s send region off done mem size strict ret m k2 h
    unfold sock_xmit_loop at h
    rcases hstep : (if send = true then
        ((kernel_sendmsg k s ⟨region, off⟩ mem size).1, mem,
          (kernel_sendmsg k s ⟨region, off⟩ mem size).2.1,
          (kernel_sendmsg k s ⟨region, off⟩ mem size).2.2)
      else kernel_recvmsg k s ⟨region, off⟩ mem size) with ⟨result, m1, signal, k1⟩
    simp only [hstep] at h
    have hk1 : ∃ x, k1.trace = k.trace ++ [x] ∧ x.transfer = true ∧
        ((result = 0 ∨ result = -EPIPE) → x.peer_closed = true) := by
      cases send with
      | true =>
        simp only [if_true, Prod.mk.injEq] at hstep
        obtain ⟨h1, _, _, h4⟩ := hstep
        refine ⟨Event.sendmsg s ⟨region, off⟩ (mem.take size.toNat) size result, ?_, rfl, ?_⟩
        · rw [← h4, ← h1]; rfl
        · intro hr
          simp only [Event.peer_closed, decide_eq_true_eq]
          exact hr
      | false =>
        simp only [Bool.false_eq_true, if_false] at hstep
        unfold kernel_recvmsg at hstep
        split at hstep
        · rename_i bytes sg _
          simp only [Prod.mk.injEq] at hstep
          obtain ⟨h1, _, _, h4⟩ := hstep
          refine ⟨Event.recvmsg s ⟨region, off⟩ size (bytes.take size.toNat) result, ?_, rfl, ?_⟩
          · rw [← h4, ← h1]
          · intro hr
            simp only [Event.peer_closed, decide_eq_true_eq]
            exact hr
        · simp only [Prod.mk.injEq] at hstep
          obtain ⟨h1, _, _, h4⟩ := hstep
          refine ⟨Event.recvmsg s ⟨region, off⟩ size [] result, ?_, rfl, ?_⟩
          · rw [← h4, ← h1]
          · intro hr
            simp only [Event.peer_closed, decide_eq_true_eq]
            exact hr
    obtain ⟨x, hx, hxt, hxc⟩ := hk1
    have hone : appends Event.transfer k k1 := appends_one _ k k1 x hx hxt
    have hclosed : (result = 0 ∨ result = -EPIPE) → closed_by_peer k k1 := fun hr =>
      ⟨[], x, [], by rw [hx]; simp, by simp, hxc hr, by simp⟩
    split at h
    · simp only [Option.some.injEq, Prod.mk.injEq] at h
      rw [← h.2.2]
      exact ⟨hone, fun e => absurd (h.1.trans e) (by decide)⟩
    · split at h
      · simp only [Option.some.injEq, Prod.mk.injEq] at h
        rw [← h.2.2, ← h.1]
        exact ⟨hone, fun e => hclosed (Or.inr e)⟩
      · split at h
        · rename_i h0
          simp only [Option.some.injEq, Prod.mk.injEq] at h
          rw [← h.2.2]
          exact ⟨hone, fun _ => hclosed (Or.inl h0)⟩
        · split at h
          · simp only [Option.some.injEq, Prod.mk.injEq] at h
            rw [← h.2.2, ← h.1]
            exact ⟨hone, fun e => hclosed (Or.inr e)⟩
          · split at h
            · have := ih _ _ _ _ _ _ _ _ _ _ _ _ h
              exact ⟨hone.appends_trans this.1, fun e => (this.2 e).after hone⟩
            · rename_i h3 h4 _
              simp only [Option.some.injEq, Prod.mk.injEq] at h
              rw [← h.2.2, ← h.1]
              refine ⟨hone, fun e => ?_⟩
              rw [e] at h4
              exact absurd (show (-EPIPE : Int) < 0 by decide) h4

theorem sock_xmit_transfer (k : Kernel) (desc : srb_cdmi_desc) (send : Bool) (buf : Ptr)
    (mem : List Char) (size : Int) (strict : Bool) (ret : Int) (m : List Char) (k2 : Kernel)
    (h : sock_xmit k desc send buf mem size strict = some (ret, m, k2)) :
    appends Event.transfer k k2 ∧
    (ret = -EPIPE → closed_by_peer k k2 ∧ desc.socket ≠ none) := by
  unfold sock_xmit at h
  split at h
  · simp only [Option.some.injEq, Prod.mk.injEq] at h
    rw [← h.2.2]
    exact ⟨appends.appends_refl _ _, fun e => absurd (h.1.trans e) (by decide)⟩
  · rename_i s hs
    have := sock_xmit_loop_transfer _ _ _ _ _ _ _ _ _ _ _ _ _ h
    exact ⟨this.1, fun e => ⟨this.2 e, by rw [hs]; simp⟩⟩

/-- Tear-down of the connection; a descriptor with a socket is left in the state
`Disconnected`. -/
theorem srb_cdmi_disconnect_teardown (k : Kernel) (desc : srb_cdmi_desc) :
    appends Event.teardown k (srb_cdmi_disconnect k desc).2.2 ∧
    (desc.socket ≠ none → (srb_cdmi_disconnect k desc).2.1.state = CDMI_DISCONNECTED) := by
  unfold srb_cdmi_disconnect
  split
  · rename_i hs
    exact ⟨appends.appends_refl _ _, fun h => absurd hs h⟩
  · split
    · rename_i hst
      exact ⟨appends.appends_refl _ _, fun _ => hst⟩
    · rename_i s _ _
      exact ⟨⟨[Event.shutdown s, Event.release s],
        by simp [sock_release, kernel_sock_shutdown], by simp [Event.teardown]⟩, fun _ => rfl⟩

theorem appends_transfer_within {k k1 : Kernel} (h : appends Event.transfer k k1) :
    reconnects_within 0 k k1 :=
  reconnects_within_of_appends (appends_mono h transfer_not_reconnecting)

theorem appends_teardown_within {k k1 : Kernel} (h : appends Event.teardown k k1) :
    reconnects_within 0 k k1 :=
  reconnects_within_of_appends (appends_mono h teardown_not_reconnecting)

theorem block_exit.after_transfer {has_epiped : Int} {k k0 : Kernel} {e : Exit} {d : srb_cdmi_desc}
    {k1 : Kernel} (h0 : appends Event.transfer k k0) (h : block_exit has_epiped k0 e d k1) :
    block_exit has_epiped k e d k1 := by
  obtain ⟨h1, h2, h3, h4⟩ := h
  refine ⟨((appends_transfer_within h0).within_trans h1).within_mono (by omega), ?_, ?_, ?_⟩
  · intro he
    exact (appends_mono h0 transfer_not_reconnecting).appends_trans (h2 he)
  · intro r c hr
    exact h0.appends_trans (h3 r c hr)
  · intro he r hr hp
    exact ⟨((h4 he r hr hp).1).after h0, (h4 he r hr hp).2⟩

/-- The steps of the block run on `-EPIPE`: at most one reconnection is started. -/
theorem epipe_reconnect_within (k : Kernel) (desc : srb_cdmi_desc) (has_epiped ret : Int) :
    reconnects_within 1 k (epipe_reconnect k desc has_epiped ret).2.2 := by
  have hd := appends_teardown_within (srb_cdmi_disconnect_teardown k desc).1
  by_cases he : has_epiped = 0
  · have hm : reconnects_within 1 (srb_cdmi_disconnect k desc).2.2
        { (srb_cdmi_disconnect k desc).2.2 with
          trace := (srb_cdmi_disconnect k desc).2.2.trace ++ [Event.epipe_reconnect] } :=
      ⟨[Event.epipe_reconnect], rfl, by decide⟩
    have hc := reconnects_within_of_mgmt (srb_cdmi_connect_step
      { (srb_cdmi_disconnect k desc).2.2 with
        trace := (srb_cdmi_disconnect k desc).2.2.trace ++ [Event.epipe_reconnect] }
      (srb_cdmi_disconnect k desc).2.1)
    have hk : (epipe_reconnect k desc has_epiped ret).2.2
        = (srb_cdmi_connect
            { (srb_cdmi_disconnect k desc).2.2 with
              trace := (srb_cdmi_disconnect k desc).2.2.trace ++ [Event.epipe_reconnect] }
            (srb_cdmi_disconnect k desc).2.1).2.2 := by
      simp only [epipe_reconnect, he, if_true]
      split <;> rfl
    rw [hk]
    exact ((hd.within_trans hm).within_trans hc).within_mono (by omega)
  · rw [epipe_reconnect_quiet k desc has_epiped ret he]
    exact hd.within_mono (by omega)

/-- A place where `sock_xmit` reported `-EPIPE` and the block for it ran. -/
theorem epipe_site (k kx : Kernel) (desc : srb_cdmi_desc) (has_epiped : Int) (e : Exit)
    (d : srb_cdmi_desc) (k1 : Kernel) (ht : appends Event.transfer k kx)
    (hc : closed_by_peer k kx) (hs : desc.socket ≠ none)
    (h : epipe_reconnect kx desc has_epiped (-EPIPE) = (e, d, k1)) :
    block_exit has_epiped k e d k1 := by
  have hw := epipe_reconnect_within kx desc has_epiped (-EPIPE)
  rw [h] at hw
  have hq := fun he => epipe_reconnect_quiet kx desc has_epiped (-EPIPE) he
  have htd := srb_cdmi_disconnect_teardown kx desc
  refine ⟨((appends_transfer_within ht).within_trans hw).within_mono (by omega), ?_, ?_, ?_⟩
  · intro he
    rw [hq he] at h
    simp only [Prod.mk.injEq] at h
    rw [← h.2.2]
    exact (appends_mono ht transfer_not_reconnecting).appends_trans
      (appends_mono htd.1 teardown_not_reconnecting)
  · intro r c hr
    rcases epipe_reconnect_exit kx desc has_epiped (-EPIPE) (by decide) with h1 | ⟨r2, h1, _⟩
    · rw [h, hr] at h1
      simp at h1
    · rw [h, hr] at h1
      simp at h1
  · intro he r _ _
    rw [hq he] at h
    simp only [Prod.mk.injEq] at h
    rw [← h.2.2, ← h.2.1]
    exact ⟨hc.before htd.1, htd.2 hs⟩

theorem send_header_block (k : Kernel) (desc : srb_cdmi_desc) (has_epiped send_size : Int)
    (e : Exit) (d : srb_cdmi_desc) (k1 : Kernel)
    (h : send_header k desc has_epiped send_size = some (e, d, k1)) :
    block_exit has_epiped k e d k1 ∧ ∀ r c, e = Exit.next r c → r ≠ -EPIPE := by
  unfold send_header at h
  rcases hx : sock_xmit k desc true ⟨Region.xmit_buff, 0⟩ desc.xmit_buff send_size false
    with _ | ⟨ret, m, kx⟩
  · simp [hx] at h
  · simp only [hx] at h
    have ht := sock_xmit_transfer _ _ _ _ _ _ _ _ _ _ hx
    split at h
    · rename_i hr
      simp only [Option.some.injEq] at h
      rw [hr] at h
      have hb := epipe_site k kx desc has_epiped e d k1 ht.1 (ht.2 hr).1 (ht.2 hr).2 h
      refine ⟨hb, ?_⟩
      intro r c he
      rcases epipe_reconnect_exit kx desc has_epiped (-EPIPE) (by decide) with h1 | ⟨r2, h1, _⟩
      · rw [h, he] at h1
        simp at h1
      · rw [h, he] at h1
        simp at h1
    · rename_i hr
      split at h
      · simp only [Option.some.injEq, Prod.mk.injEq] at h
        obtain ⟨h1, h2, h3⟩ := h
        subst h1 h2 h3
        refine ⟨⟨(appends_transfer_within ht.1).within_mono (by omega),
          fun _ => appends_mono ht.1 transfer_not_reconnecting, ?_, ?_⟩, ?_⟩
        · intro r c he
          simp at he
        · intro _ r he hp
          simp only [Exit.cleanup.injEq] at he
          rw [← he] at hp
          exact absurd hp (by decide)
        · intro r c he
          simp at he
      · simp only [Option.some.injEq, Prod.mk.injEq] at h
        obtain ⟨h1, h2, h3⟩ := h
        subst h1 h2 h3
        refine ⟨⟨(appends_transfer_within ht.1).within_mono (by omega),
          fun _ => appends_mono ht.1 transfer_not_reconnecting, fun _ _ _ => ht.1, ?_⟩, ?_⟩
        · intro _ r he
          simp at he
        · intro r c he
          simp only [Exit.next.injEq] at he
          rw [← he.1]
          exact hr

theorem send_sglist_block : ∀ (segs : List (List Char)) (k : Kernel) (desc : srb_cdmi_desc)
    (has_epiped : Int) (i : Nat) (ret0 : Int) (e : Exit) (d : srb_cdmi_desc) (k1 : Kernel),
    send_sglist k desc has_epiped i segs ret0 = some (e, d, k1) → ret0 ≠ -EPIPE →
    block_exit has_epiped k e d k1 ∧ ∀ r c, e = Exit.next r c → r ≠ -EPIPE := by
  intro segs
  induction segs with
  | nil =>
    intro k desc has_epiped i ret0 e d k1 h h0
    simp only [send_sglist, Option.some.injEq, Prod.mk.injEq] at h
    obtain ⟨h1, h2, h3⟩ := h
    subst h1 h2 h3
    refine ⟨⟨⟨[], by simp, by decide⟩, fun _ => appends.appends_refl _ _,
      fun _ _ _ => appends.appends_refl _ _, ?_⟩, ?_⟩
    · intro _ r he
      simp at he
    · intro r c he
      simp only [Exit.next.injEq] at he
      rw [← he.1]
      exact h0
  | cons seg rest ih =>
    intro k desc has_epiped i ret0 e d k1 h h0
    unfold send_sglist at h
    rcases hx : sock_xmit k desc true ⟨Region.sg i, 0⟩ seg seg.length false
      with _ | ⟨ret, m, kx⟩
    · simp [hx] at h
    · simp only [hx] at h
      have ht := sock_xmit_transfer _ _ _ _ _ _ _ _ _ _ hx
      split at h
      · rename_i hr
        simp only [Option.some.injEq] at h
        rw [hr] at h
        have hb := epipe_site k kx desc has_epiped e d k1 ht.1 (ht.2 hr).1 (ht.2 hr).2 h
        refine ⟨hb, ?_⟩
        intro r c he
        rcases epipe_reconnect_exit kx desc has_epiped (-EPIPE) (by decide) with h1 | ⟨r2, h1, _⟩
        · rw [h, he] at h1
          simp at h1
        · rw [h, he] at h1
          simp at h1
      · rename_i hr
        split at h
        · simp only [Option.some.injEq, Prod.mk.injEq] at h
          obtain ⟨h1, h2, h3⟩ := h
          subst h1 h2 h3
          refine ⟨⟨(appends_transfer_within ht.1).within_mono (by omega),
            fun _ => appends_mono ht.1 transfer_not_reconnecting, ?_, ?_⟩, ?_⟩
          · intro r c he
            simp at he
          · intro _ r he hp
            simp only [Exit.cleanup.injEq] at he
            rw [← he] at hp
            exact absurd hp (by decide)
          · intro r c he
            simp at he
        · have := ih kx desc has_epiped (i + 1) ret e d k1 h hr
          exact ⟨this.1.after_transfer ht.1, this.2⟩

theorem receive_response_block (H : Framer) : ∀ (fuel : Nat) (k : Kernel)
    (desc : srb_cdmi_desc) (rcvbuf : List Char) (rcv_size : Int) (strict_rcv : Bool)
    (has_epiped ret0 rcvd : Int) (e : Exit) (d : srb_cdmi_desc) (k1 : Kernel)
    (rb : List Char),
    receive_response H fuel k desc rcvbuf rcv_size strict_rcv has_epiped ret0 rcvd
      = some (e, d, k1, rb) → ret0 ≠ -EPIPE → 0 ≤ rcvd →
    block_exit has_epiped k e d k1 ∧ ∀ r c, e = Exit.next r c → r ≠ -EPIPE := by
  intro fuel
  induction fuel with
  | zero =>
    intro k desc rcvbuf rcv_size strict_rcv has_epiped ret0 rcvd e d k1 rb h
    simp [receive_response] at h
  | succ fuel ih =>
    intro k desc rcvbuf rcv_size strict_rcv has_epiped ret0 rcvd e d k1 rb h h0 hrc
    unfold receive_response at h
    split at h
    · simp only [Option.some.injEq, Prod.mk.injEq] at h
      obtain ⟨h1, h2, h3, _⟩ := h
      subst h1 h2 h3
      refine ⟨⟨⟨[], by simp, by decide⟩, fun _ => appends.appends_refl _ _,
        fun _ _ _ => appends.appends_refl _ _, ?_⟩, ?_⟩
      · intro _ r he
        simp at he
      · intro r c he
        simp only [Exit.next.injEq] at he
        rw [← he.1]
        exact h0
    · rcases hx : sock_xmit k desc false ⟨Region.rcvbuf, rcvd.toNat⟩ (rcvbuf.drop rcvd.toNat)
        (rcv_size - rcvd) strict_rcv with _ | ⟨ret, m, kx⟩
      · simp [hx] at h
      · simp only [hx] at h
        have ht := sock_xmit_transfer _ _ _ _ _ _ _ _ _ _ hx
        split at h
        · rename_i hneg
          split at h
          · rename_i hr
            rcases hep : epipe_reconnect kx desc has_epiped ret with ⟨e2, d2, k2⟩
            rw [hep] at h
            simp only [Option.some.injEq, Prod.mk.injEq] at h
            obtain ⟨h1, h2, h3, _⟩ := h
            subst h1 h2 h3
            rw [hr] at hep
            have hb := epipe_site k kx desc has_epiped e2 d2 k2 ht.1 (ht.2 hr).1 (ht.2 hr).2 hep
            refine ⟨hb, ?_⟩
            intro r c he
            rcases epipe_reconnect_exit kx desc has_epiped (-EPIPE) (by decide)
              with h1 | ⟨r2, h1, _⟩
            · rw [hep, he] at h1
              simp at h1
            · rw [hep, he] at h1
              simp at h1
          · rename_i hr
            simp only [Option.some.injEq, Prod.mk.injEq] at h
            obtain ⟨h1, h2, h3, _⟩ := h
            subst h1 h2 h3
            refine ⟨⟨(appends_transfer_within ht.1).within_mono (by omega),
              fun _ => appends_mono ht.1 transfer_not_reconnecting, ?_, ?_⟩, ?_⟩
            · intro r c he
              simp at he
            · intro _ r he hp
              simp only [Exit.cleanup.injEq] at he
              rw [← he] at hp
              exact absurd hp hr
            · intro r c he
              simp at he
        · rename_i hneg
          have hE : (EPIPE : Int) = 32 := rfl
          have := ih kx desc _ rcv_size strict_rcv has_epiped (rcvd + ret) (rcvd + ret) e d k1
            rb h (by omega) (by omega)
          exact ⟨this.1.after_transfer ht.1, this.2⟩

theorem vfree_teardown (k : Kernel) : appends Event.teardown k (vfree k) :=
  ⟨[Event.vfree], rfl, by simp [Event.teardown]⟩

/-- A pass that ends at `cleanup` from a block. -/
theorem pass_cleanup {has_epiped : Int} {k : Kernel} {r : Int} {d : srb_cdmi_desc}
    {k1 : Kernel} (hb : block_exit has_epiped k (Exit.cleanup r) d k1) :
    reconnects_within 1 k (vfree k1) ∧
    (has_epiped ≠ 0 → appends (fun e => !e.reconnecting) k (vfree k1) ∧
      (r = -EPIPE → closed_by_peer k (vfree k1) ∧ d.state = CDMI_DISCONNECTED)) := by
  obtain ⟨h1, h2, _, h4⟩ := hb
  refine ⟨(h1.within_trans (appends_teardown_within (vfree_teardown k1))).within_mono
    (by omega), ?_⟩
  intro he
  refine ⟨(h2 he).appends_trans (appends_mono (vfree_teardown k1) teardown_not_reconnecting), ?_⟩
  intro hr
  exact ⟨(h4 he r rfl hr).1.before (vfree_teardown k1), (h4 he r rfl hr).2⟩

/-- A pass that goes back to `retry_once` from a block and runs the pass after it. -/
theorem pass_retry {has_epiped : Int} {k : Kernel} {d1 : srb_cdmi_desc} {k1 k2 : Kernel}
    {ret : Int} {d : srb_cdmi_desc}
    (hb : block_exit has_epiped k Exit.retry_once d1 k1) (he0 : has_epiped = 0)
    (ih : appends (fun e => !e.reconnecting) k1 k2) :
    reconnects_within 1 k k2 ∧
    (has_epiped ≠ 0 → appends (fun e => !e.reconnecting) k k2 ∧
      (ret = -EPIPE → closed_by_peer k k2 ∧ d.state = CDMI_DISCONNECTED)) :=
  ⟨(hb.1.within_trans (reconnects_within_of_appends ih)).within_mono (by omega),
    fun he => absurd he0 he⟩

/-- A pass that ends with the copy of the response. -/
theorem pass_done (has_epiped : Int) {k k1 : Kernel} {r : Int} (d : srb_cdmi_desc)
    (hb : appends Event.transfer k k1) (hr : r ≠ -EPIPE) :
    reconnects_within 1 k (vfree k1) ∧
    (has_epiped ≠ 0 → appends (fun e => !e.reconnecting) k (vfree k1) ∧
      (r = -EPIPE → closed_by_peer k (vfree k1) ∧ d.state = CDMI_DISCONNECTED)) :=
  ⟨((appends_transfer_within hb).within_trans
      (appends_teardown_within (vfree_teardown k1))).within_mono (by omega),
    fun _ => ⟨(appends_mono hb transfer_not_reconnecting).appends_trans
      (appends_mono (vfree_teardown k1) teardown_not_reconnecting), fun e => absurd e hr⟩⟩

/-- The code of `sock_send_receive` from `retry_once` on starts at most one reconnection
after `-EPIPE`.  Run with `has_epiped` set it starts none and sets up no connection, and
when it returns `-EPIPE` it made sends and receives, the last of them closed by the peer,
then tore the connection down and freed the buffer, and nothing else. -/
theorem sock_send_receive_retry_once_reconnects (H : Framer) : ∀ (fuel : Nat) (k : Kernel)
    (desc : srb_cdmi_desc) (rcvbuf : List Char) (send_size rcv_size : Int) (strict_rcv : Bool)
    (has_epiped ret : Int) (d : srb_cdmi_desc) (k2 : Kernel),
    sock_send_receive_retry_once H fuel k desc rcvbuf send_size rcv_size strict_rcv has_epiped
      = some (ret, d, k2) →
    reconnects_within 1 k k2 ∧
    (has_epiped ≠ 0 → appends (fun e => !e.reconnecting) k k2 ∧
      (ret = -EPIPE → closed_by_peer k k2 ∧ d.state = CDMI_DISCONNECTED)) := by
  intro fuel
  induction fuel with
  | zero =>
    intro k desc rcvbuf send_size rcv_size strict_rcv has_epiped ret d k2 h
    simp [sock_send_receive_retry_once] at h
  | succ fuel ih =>
    intro k desc rcvbuf send_size rcv_size strict_rcv has_epiped ret d k2 h
    unfold sock_send_receive_retry_once at h
    rcases hh : send_header k desc has_epiped send_size with _ | ⟨e, d1, k1⟩
    · simp [hh] at h
    · have hb := send_header_block k desc has_epiped send_size e d1 k1 hh
      cases e with
      | cleanup r =>
        simp only [hh, cleanup, Option.some.injEq, Prod.mk.injEq] at h
        obtain ⟨h1, h2, h3⟩ := h
        subst h1 h2 h3
        exact pass_cleanup hb.1
      | retry_once =>
        simp only [hh] at h
        exact pass_retry hb.1 (send_header_retry _ _ _ _ _ _ hh)
          ((ih _ _ _ _ _ _ _ _ _ _ h).2 (by decide)).1
      | next r c =>
        simp only [hh] at h
        have hr0 := hb.2 r c rfl
        have ht1 := hb.1.2.2.1 r c rfl
        rcases hrr : receive_response H (rcv_size.toNat + 1) k1 d1 rcvbuf rcv_size strict_rcv
          has_epiped r 0 with _ | ⟨e2, d2, k3, rb⟩
        · simp [hrr] at h
        · have hb2 := receive_response_block H _ k1 d1 rcvbuf rcv_size strict_rcv has_epiped
            r 0 e2 d2 k3 rb hrr hr0 (le_refl 0)
          cases e2 with
          | cleanup r2 =>
            simp only [hrr, cleanup, Option.some.injEq, Prod.mk.injEq] at h
            obtain ⟨h1, h2, h3⟩ := h
            subst h1 h2 h3
            exact pass_cleanup (hb2.1.after_transfer ht1)
          | retry_once =>
            simp only [hrr] at h
            exact pass_retry (hb2.1.after_transfer ht1) (receive_response_retry H _ _ _ _ _ _ _ _ _ _ _ _ hrr)
              ((ih _ _ _ _ _ _ _ _ _ _ h).2 (by decide)).1
          | next r2 c2 =>
            simp only [hrr, copy_response, cleanup, Option.some.injEq, Prod.mk.injEq] at h
            obtain ⟨h1, h2, h3⟩ := h
            subst h1 h3
            exact pass_done has_epiped d (ht1.appends_trans (hb2.1.2.2.1 r2 c2 rfl))
              (hb2.2 r2 c2 rfl)

/-- The code of `sock_send_sglist_receive` from `retry_once` on: as for
`sock_send_receive`. -/
theorem sock_send_sglist_receive_retry_once_reconnects (H : Framer) : ∀ (fuel : Nat)
    (k : Kernel) (desc : srb_cdmi_desc) (rcvbuf : List Char) (send_size rcv_size : Int)
    (strict_rcv : Bool) (has_epiped ret : Int) (d : srb_cdmi_desc) (k2 : Kernel),
    sock_send_sglist_receive_retry_once H fuel k desc rcvbuf send_size rcv_size strict_rcv
      has_epiped = some (ret, d, k2) →
    reconnects_within 1 k k2 ∧
    (has_epiped ≠ 0 → appends (fun e => !e.reconnecting) k k2 ∧
      (ret = -EPIPE → closed_by_peer k k2 ∧ d.state = CDMI_DISCONNECTED)) := by
  intro fuel
  induction fuel with
  | zero =>
    intro k desc rcvbuf send_size rcv_size strict_rcv has_epiped ret d k2 h
    simp [sock_send_sglist_receive_retry_once] at h
  | succ fuel ih =>
    intro k desc rcvbuf send_size rcv_size strict_rcv has_epiped ret d k2 h
    unfold sock_send_sglist_receive_retry_once at h
    rcases hh : send_header k desc has_epiped send_size with _ | ⟨e, d1, k1⟩
    · simp [hh] at h
    · have hb := send_header_block k desc has_epiped send_size e d1 k1 hh
      cases e with
      | cleanup r =>
        simp only [hh, cleanup, Option.some.injEq, Prod.mk.injEq] at h
        obtain ⟨h1, h2, h3⟩ := h
        subst h1 h2 h3
        exact pass_cleanup hb.1
      | retry_once =>
        simp only [hh] at h
        exact pass_retry hb.1 (send_header_retry _ _ _ _ _ _ hh)
          ((ih _ _ _ _ _ _ _ _ _ _ h).2 (by decide)).1
      | next r c =>
        simp only [hh] at h
        have hr0 := hb.2 r c rfl
        have ht1 := hb.1.2.2.1 r c rfl
        rcases hsg : send_sglist k1 d1 has_epiped 0 d1.sgl r with _ | ⟨e1, d1b, k1b⟩
        · simp [hsg] at h
        · have hbs := send_sglist_block d1.sgl k1 d1 has_epiped 0 r e1 d1b k1b hsg hr0
          cases e1 with
          | cleanup r1 =>
            simp only [hsg, cleanup, Option.some.injEq, Prod.mk.injEq] at h
            obtain ⟨h1, h2, h3⟩ := h
            subst h1 h2 h3
            exact pass_cleanup (hbs.1.after_transfer ht1)
          | retry_once =>
            simp only [hsg] at h
            exact pass_retry (hbs.1.after_transfer ht1) (send_sglist_retry _ _ _ _ _ _ _ _ hsg)
              ((ih _ _ _ _ _ _ _ _ _ _ h).2 (by decide)).1
          | next r1 c1 =>
            simp only [hsg] at h
            have hr1 := hbs.2 r1 c1 rfl
            have ht2 := ht1.appends_trans (hbs.1.2.2.1 r1 c1 rfl)
            rcases hrr : receive_response H (rcv_size.toNat + 1) k1b d1b rcvbuf rcv_size
              strict_rcv has_epiped r1 0 with _ | ⟨e2, d2, k3, rb⟩
            · simp [hrr] at h
            · have hb2 := receive_response_block H _ k1b d1b rcvbuf rcv_size strict_rcv
                has_epiped r1 0 e2 d2 k3 rb hrr hr1 (le_refl 0)
              cases e2 with
              | cleanup r2 =>
                simp only [hrr, cleanup, Option.some.injEq, Prod.mk.injEq] at h
                obtain ⟨h1, h2, h3⟩ := h
                subst h1 h2 h3
                exact pass_cleanup (hb2.1.after_transfer ht2)
              | retry_once =>
                simp only [hrr] at h
                exact pass_retry (hb2.1.after_transfer ht2)
                  (receive_response_retry H _ _ _ _ _ _ _ _ _ _ _ _ hrr)
                  ((ih _ _ _ _ _ _ _ _ _ _ h).2 (by decide)).1
              | next r2 c2 =>
                simp only [hrr, copy_response, cleanup, Option.some.injEq, Prod.mk.injEq] at h
                obtain ⟨h1, h2, h3⟩ := h
                subst h1 h3
                exact pass_done has_epiped d (ht2.appends_trans (hb2.1.2.2.1 r2 c2 rfl))
                  (hb2.2 r2 c2 rfl)

/-- The steps of an exchange before the `retry_once` label start no reconnection after
`-EPIPE`. -/
theorem exchange_start_within (k : Kernel) (desc : srb_cdmi_desc) (size : Int) :
    reconnects_within 0 k
      (connect_if_disconnected (check_reuse_limit (vmalloc k size).2 desc).2
        (check_reuse_limit (vmalloc k size).2 desc).1).2.2 ∧
    reconnects_within 0 k (vmalloc k size).2 := by
  have h1 : reconnects_within 0 k (vmalloc k size).2 :=
    ⟨[Event.vmalloc size (k.vmallocs.headD true)], rfl, by simp [reconnects]⟩
  have h2 : reconnects_within 0 (vmalloc k size).2
      (check_reuse_limit (vmalloc k size).2 desc).2 := by
    unfold check_reuse_limit
    split
    · exact appends_teardown_within (srb_cdmi_disconnect_teardown _ _).1
    · exact ⟨[], by simp, by decide⟩
  have h3 : reconnects_within 0 (check_reuse_limit (vmalloc k size).2 desc).2
      (connect_if_disconnected (check_reuse_limit (vmalloc k size).2 desc).2
        (check_reuse_limit (vmalloc k size).2 desc).1).2.2 := by
    unfold connect_if_disconnected
    split
    · exact reconnects_within_of_mgmt (srb_cdmi_connect_step _ _)
    · exact ⟨[], by simp, by decide⟩
  exact ⟨(h1.within_trans h2).within_trans h3, h1⟩

theorem sock_send_receive_reconnects (H : Framer) (k : Kernel) (desc : srb_cdmi_desc)
    (send_size rcv_size ret : Int) (d : srb_cdmi_desc) (k2 : Kernel)
    (h : sock_send_receive H k desc send_size rcv_size = some (ret, d, k2)) :
    reconnects_within 1 k k2 := by
  unfold sock_send_receive at h
  simp only at h
  generalize (if rcv_size = 0 then H.SRB_CDMI_XMIT_BUFFER_SIZE else rcv_size) = size at h
  have hs := exchange_start_within k desc size
  split at h
  · simp only [Option.some.injEq, Prod.mk.injEq] at h
    rw [← h.2.2]
    exact hs.2.within_mono (by omega)
  · split at h
    · simp only [cleanup, Option.some.injEq, Prod.mk.injEq] at h
      rw [← h.2.2]
      exact (hs.1.within_trans (appends_teardown_within (vfree_teardown _))).within_mono
        (by omega)
    · exact (hs.1.within_trans
        (sock_send_receive_retry_once_reconnects H _ _ _ _ _ _ _ _ _ _ _ h).1).within_mono
        (by omega)

theorem sock_send_sglist_receive_reconnects (H : Framer) (k : Kernel) (desc : srb_cdmi_desc)
    (send_size rcv_size ret : Int) (d : srb_cdmi_desc) (k2 : Kernel)
    (h : sock_send_sglist_receive H k desc send_size rcv_size = some (ret, d, k2)) :
    reconnects_within 1 k k2 := by
  unfold sock_send_sglist_receive at h
  simp only at h
  generalize (if rcv_size = 0 then H.SRB_CDMI_XMIT_BUFFER_SIZE else rcv_size) = size at h
  have hs := exchange_start_within k desc size
  split at h
  · simp only [Option.some.injEq, Prod.mk.injEq] at h
    rw [← h.2.2]
    exact hs.2.within_mono (by omega)
  · split at h
    · simp only [cleanup, Option.some.injEq, Prod.mk.injEq] at h
      rw [← h.2.2]
      exact (hs.1.within_trans (appends_teardown_within (vfree_teardown _))).within_mono
        (by omega)
    · exact (hs.1.within_trans
        (sock_send_sglist_receive_retry_once_reconnects H _ _ _ _ _ _ _ _ _ _ _ h).1).within_mono
        (by omega)

theorem starts_with_header.then_within {s : Nat} {send_size : Int} {k k1 k2 : Kernel} {n : Nat}
    (h1 : starts_with_header s send_size k k1) (h2 : reconnects_within n k1 k2) :
    starts_with_header s send_size k k2 := by
  obtain ⟨data, ret, rest, t1⟩ := h1
  obtain ⟨ev, t2, _⟩ := h2
  exact ⟨data, ret, rest ++ ev, by rw [t2, t1]; simp⟩

/-- A send on a descriptor with a socket starts with a socket send. -/
theorem sock_xmit_first_send (k : Kernel) (desc : srb_cdmi_desc) (s : Nat) (buf : Ptr)
    (mem : List Char) (size : Int) (strict : Bool) (ret : Int) (m : List Char) (kx : Kernel)
    (hs : desc.socket = some s)
    (h : sock_xmit k desc true buf mem size strict = some (ret, m, kx)) :
    ∃ data r rest, kx.trace = k.trace ++ Event.sendmsg s buf data size r :: rest := by
  unfold sock_xmit at h
  rw [hs] at h
  simp only at h
  unfold sock_xmit_loop at h
  simp only [if_true] at h
  have hone : (kernel_sendmsg k s ⟨buf.region, buf.off⟩ mem size).2.2.trace
      = k.trace ++ [Event.sendmsg s buf (mem.take size.toNat) size
          (kernel_sendmsg k s ⟨buf.region, buf.off⟩ mem size).1] := rfl
  split at h
  · simp only [Option.some.injEq, Prod.mk.injEq] at h
    exact ⟨_, _, [], by rw [← h.2.2, hone]⟩
  · split at h
    · simp only [Option.some.injEq, Prod.mk.injEq] at h
      exact ⟨_, _, [], by rw [← h.2.2, hone]⟩
    · split at h
      · simp only [Option.some.injEq, Prod.mk.injEq] at h
        exact ⟨_, _, [], by rw [← h.2.2, hone]⟩
      · split at h
        · simp only [Option.some.injEq, Prod.mk.injEq] at h
          exact ⟨_, _, [], by rw [← h.2.2, hone]⟩
        · split at h
          · obtain ⟨ev, t, _⟩ := (sock_xmit_loop_transfer _ _ _ _ _ _ _ _ _ _ _ _ _ h).1
            exact ⟨mem.take size.toNat,
              (kernel_sendmsg k s ⟨buf.region, buf.off⟩ mem size).1, ev, by rw [t, hone]; simp⟩
          · simp only [Option.some.injEq, Prod.mk.injEq] at h
            exact ⟨_, _, [], by rw [← h.2.2, hone]⟩

theorem send_header_first (k : Kernel) (desc : srb_cdmi_desc) (s : Nat)
    (has_epiped send_size : Int) (e : Exit) (d : srb_cdmi_desc) (k1 : Kernel)
    (hs : desc.socket = some s)
    (h : send_header k desc has_epiped send_size = some (e, d, k1)) :
    starts_with_header s send_size k k1 := by
  unfold send_header at h
  rcases hx : sock_xmit k desc true ⟨Region.xmit_buff, 0⟩ desc.xmit_buff send_size false
    with _ | ⟨ret, m, kx⟩
  · simp [hx] at h
  · simp only [hx] at h
    have hf : starts_with_header s send_size k kx :=
      sock_xmit_first_send k desc s _ _ _ _ _ _ _ hs hx
    split at h
    · simp only [Option.some.injEq] at h
      have hw := epipe_reconnect_within kx desc has_epiped ret
      rw [h] at hw
      exact hf.then_within hw
    · split at h
      · simp only [Option.some.injEq, Prod.mk.injEq] at h
        rw [← h.2.2]; exact hf
      · simp only [Option.some.injEq, Prod.mk.injEq] at h
        rw [← h.2.2]; exact hf

/-- The code from `retry_once` on, run on a descriptor with a socket, starts with a socket
send of the header. -/
theorem sock_send_receive_retry_once_first (H : Framer) (fuel : Nat) (k : Kernel)
    (desc : srb_cdmi_desc) (s : Nat) (rcvbuf : List Char) (send_size rcv_size : Int)
    (strict_rcv : Bool) (has_epiped ret : Int) (d : srb_cdmi_desc) (k2 : Kernel)
    (hs : desc.socket = some s)
    (h : sock_send_receive_retry_once H fuel k desc rcvbuf send_size rcv_size strict_rcv
      has_epiped = some (ret, d, k2)) :
    starts_with_header s send_size k k2 := by
  cases fuel with
  | zero => simp [sock_send_receive_retry_once] at h
  | succ fuel =>
    unfold sock_send_receive_retry_once at h
    rcases hh : send_header k desc has_epiped send_size with _ | ⟨e, d1, k1⟩
    · simp [hh] at h
    · have hf := send_header_first k desc s has_epiped send_size e d1 k1 hs hh
      have hv : ∀ kk : Kernel, reconnects_within 0 kk (vfree kk) := fun kk =>
        appends_teardown_within (vfree_teardown kk)
      cases e with
      | cleanup r =>
        simp only [hh, cleanup, Option.some.injEq, Prod.mk.injEq] at h
        rw [← h.2.2]
        exact hf.then_within (hv k1)
      | retry_once =>
        simp only [hh] at h
        exact hf.then_within (sock_send_receive_retry_once_reconnects H _ _ _ _ _ _ _ _ _ _ _ h).1
      | next r c =>
        simp only [hh] at h
        rcases hrr : receive_response H (rcv_size.toNat + 1) k1 d1 rcvbuf rcv_size strict_rcv
          has_epiped r 0 with _ | ⟨e2, d2, k3, rb⟩
        · simp [hrr] at h
        · have hb2 := (receive_response_block H _ k1 d1 rcvbuf rcv_size strict_rcv has_epiped
            r 0 e2 d2 k3 rb hrr ((send_header_block _ _ _ _ _ _ _ hh).2 r c rfl)
            (le_refl 0)).1.1
          cases e2 with
          | cleanup r2 =>
            simp only [hrr, cleanup, Option.some.injEq, Prod.mk.injEq] at h
            rw [← h.2.2]
            exact (hf.then_within hb2).then_within (hv k3)
          | retry_once =>
            simp only [hrr] at h
            exact (hf.then_within hb2).then_within
              (sock_send_receive_retry_once_reconnects H _ _ _ _ _ _ _ _ _ _ _ h).1
          | next r2 c2 =>
            simp only [hrr, copy_response, cleanup, Option.some.injEq, Prod.mk.injEq] at h
            rw [← h.2.2]
            exact (hf.then_within hb2).then_within (hv k3)

theorem sock_send_sglist_receive_retry_once_first (H : Framer) (fuel : Nat) (k : Kernel)
    (desc : srb_cdmi_desc) (s : Nat) (rcvbuf : List Char) (send_size rcv_size : Int)
    (strict_rcv : Bool) (has_epiped ret : Int) (d : srb_cdmi_desc) (k2 : Kernel)
    (hs : desc.socket = some s)
    (h : sock_send_sglist_receive_retry_once H fuel k desc rcvbuf send_size rcv_size strict_rcv
      has_epiped = some (ret, d, k2)) :
    starts_with_header s send_size k k2 := by
  cases fuel with
  | zero => simp [sock_send_sglist_receive_retry_once] at h
  | succ fuel =>
    unfold sock_send_sglist_receive_retry_once at h
    rcases hh : send_header k desc has_epiped send_size with _ | ⟨e, d1, k1⟩
    · simp [hh] at h
    · have hf := send_header_first k desc s has_epiped send_size e d1 k1 hs hh
      have hv : ∀ kk : Kernel, reconnects_within 0 kk (vfree kk) := fun kk =>
        appends_teardown_within (vfree_teardown kk)
      cases e with
      | cleanup r =>
        simp only [hh, cleanup, Option.some.injEq, Prod.mk.injEq] at h
        rw [← h.2.2]
        exact hf.then_within (hv k1)
      | retry_once =>
        simp only [hh] at h
        exact hf.then_within
          (sock_send_sglist_receive_retry_once_reconnects H _ _ _ _ _ _ _ _ _ _ _ h).1
      | next r c =>
        simp only [hh] at h
        have hr0 := (send_header_block _ _ _ _ _ _ _ hh).2 r c rfl
        rcases hsg : send_sglist k1 d1 has_epiped 0 d1.sgl r with _ | ⟨e1, d1b, k1b⟩
        · simp [hsg] at h
        · have hbs := send_sglist_block d1.sgl k1 d1 has_epiped 0 r e1 d1b k1b hsg hr0
          have hf1 := hf.then_within hbs.1.1
          cases e1 with
          | cleanup r1 =>
            simp only [hsg, cleanup, Option.some.injEq, Prod.mk.injEq] at h
            rw [← h.2.2]
            exact hf1.then_within (hv k1b)
          | retry_once =>
            simp only [hsg] at h
            exact hf1.then_within
              (sock_send_sglist_receive_retry_once_reconnects H _ _ _ _ _ _ _ _ _ _ _ h).1
          | next r1 c1 =>
            simp only [hsg] at h
            rcases hrr : receive_response H (rcv_size.toNat + 1) k1b d1b rcvbuf rcv_size
              strict_rcv has_epiped r1 0 with _ | ⟨e2, d2, k3, rb⟩
            · simp [hrr] at h
            · have hb2 := (receive_response_block H _ k1b d1b rcvbuf rcv_size strict_rcv
                has_epiped r1 0 e2 d2 k3 rb hrr (hbs.2 r1 c1 rfl) (le_refl 0)).1.1
              cases e2 with
              | cleanup r2 =>
                simp only [hrr, cleanup, Option.some.injEq, Prod.mk.injEq] at h
                rw [← h.2.2]
                exact (hf1.then_within hb2).then_within (hv k3)
              | retry_once =>
                simp only [hrr] at h
                exact (hf1.then_within hb2).then_within
                  (sock_send_sglist_receive_retry_once_reconnects H _ _ _ _ _ _ _ _ _ _ _ h).1
              | next r2 c2 =>
                simp only [hrr, copy_response, cleanup, Option.some.injEq, Prod.mk.injEq] at h
                rw [← h.2.2]
                exact (hf1.then_within hb2).then_within (hv k3)

/-- C22: within one call of `sock_send_receive` or `sock_send_sglist_receive`, for every
behaviour of the socket layer, at most one reconnection is made in response to `-EPIPE`.
(1) The call returns, and the steps it made hold at most one reconnection mark.
(2) When `sock_xmit` reports `-EPIPE` on the header send, on the send of a segment or on a
receive, the block for `-EPIPE` runs.  (3) The first time (`has_epiped = 0`) the block
disconnects, reconnects, and goes back to `retry_once` when the reconnection succeeded,
to `cleanup` with its error otherwise; (4) the code from `retry_once` on, run on a
descriptor with a socket, starts with a socket send of the header.  (5) With `has_epiped`
set the block disconnects and goes to `cleanup` with `-EPIPE`; (6) the code from
`retry_once` on, run with `has_epiped = 1`, returns within one pass, sets up no
connection and starts no reconnection, and when it returns `-EPIPE` it made sends and
receives, the last of them closed by the peer, then only tore the connection down and
freed the buffer, leaving the state `Disconnected`. -/
theorem at_most_one_reconnect_per_exchange (H : Framer) (k : Kernel) (desc : srb_cdmi_desc)
    (send_size rcv_size : Int) :
    (∀ do_sglist, ∃ ret d k2 ev,
      exchange H k desc send_size rcv_size do_sglist = some (ret, d, k2) ∧
      k2.trace = k.trace ++ ev ∧ reconnects ev ≤ 1) ∧
    (∀ has_epiped m kx,
      sock_xmit k desc true ⟨Region.xmit_buff, 0⟩ desc.xmit_buff send_size false
        = some (-EPIPE, m, kx) →
      send_header k desc has_epiped send_size
        = some (epipe_reconnect kx desc has_epiped (-EPIPE))) ∧
    (∀ has_epiped i seg rest r m kx,
      sock_xmit k desc true ⟨Region.sg i, 0⟩ seg seg.length false = some (-EPIPE, m, kx) →
      send_sglist k desc has_epiped i (seg :: rest) r
        = some (epipe_reconnect kx desc has_epiped (-EPIPE))) ∧
    (∀ has_epiped fuel rcvbuf strict_rcv r rcvd m kx,
      H.check_response_complete (rcvbuf.take rcvd.toNat) = false →
      sock_xmit k desc false ⟨Region.rcvbuf, rcvd.toNat⟩ (rcvbuf.drop rcvd.toNat)
        (rcv_size - rcvd) strict_rcv = some (-EPIPE, m, kx) →
      (receive_response H (fuel + 1) k desc rcvbuf rcv_size strict_rcv has_epiped r rcvd).map
          (fun x => (x.1, x.2.1, x.2.2.1))
        = some (epipe_reconnect kx desc has_epiped (-EPIPE))) ∧
    (∀ ret, epipe_reconnect k desc 0 ret
      = (if (srb_cdmi_connect
              { (srb_cdmi_disconnect k desc).2.2 with
                trace := (srb_cdmi_disconnect k desc).2.2.trace ++ [Event.epipe_reconnect] }
              (srb_cdmi_disconnect k desc).2.1).1 ≠ 0
          then Exit.cleanup (srb_cdmi_connect
              { (srb_cdmi_disconnect k desc).2.2 with
                trace := (srb_cdmi_disconnect k desc).2.2.trace ++ [Event.epipe_reconnect] }
              (srb_cdmi_disconnect k desc).2.1).1
          else Exit.retry_once,
        (srb_cdmi_connect
          { (srb_cdmi_disconnect k desc).2.2 with
            trace := (srb_cdmi_disconnect k desc).2.2.trace ++ [Event.epipe_reconnect] }
          (srb_cdmi_disconnect k desc).2.1).2)) ∧
    (∀ s fuel rcvbuf strict_rcv has_epiped ret d k2, desc.socket = some s →
      sock_send_receive_retry_once H fuel k desc rcvbuf send_size rcv_size strict_rcv
        has_epiped = some (ret, d, k2) →
      starts_with_header s send_size k k2) ∧
    (∀ s fuel rcvbuf strict_rcv has_epiped ret d k2, desc.socket = some s →
      sock_send_sglist_receive_retry_once H fuel k desc rcvbuf send_size rcv_size strict_rcv
        has_epiped = some (ret, d, k2) →
      starts_with_header s send_size k k2) ∧
    (∀ has_epiped ret, has_epiped ≠ 0 →
      epipe_reconnect k desc has_epiped ret
        = (Exit.cleanup ret, (srb_cdmi_disconnect k desc).2.1,
            (srb_cdmi_disconnect k desc).2.2)) ∧
    (∀ rcvbuf strict_rcv, ∃ ret d k2,
      sock_send_receive_retry_once H 1 k desc rcvbuf send_size rcv_size strict_rcv 1
        = some (ret, d, k2) ∧
      appends (fun e => !e.reconnecting) k k2 ∧
      (ret = -EPIPE → closed_by_peer k k2 ∧ d.state = CDMI_DISCONNECTED)) ∧
    (∀ rcvbuf strict_rcv, ∃ ret d k2,
      sock_send_sglist_receive_retry_once H 1 k desc rcvbuf send_size rcv_size strict_rcv 1
        = some (ret, d, k2) ∧
      appends (fun e => !e.reconnecting) k k2 ∧
      (ret = -EPIPE → closed_by_peer k k2 ∧ d.state = CDMI_DISCONNECTED)) := by
  refine ⟨?_, ?_, ?_, ?_, ?_, ?_, ?_, ?_, ?_, ?_⟩
  · intro do_sglist
    obtain ⟨⟨ret, d, k2⟩, hr⟩ := exchange_total H k desc send_size rcv_size do_sglist
    have hw : reconnects_within 1 k k2 := by
      unfold exchange at hr
      split at hr
      · exact sock_send_sglist_receive_reconnects H k desc send_size rcv_size ret d k2 hr
      · exact sock_send_receive_reconnects H k desc send_size rcv_size ret d k2 hr
    obtain ⟨ev, t, c⟩ := hw
    exact ⟨ret, d, k2, ev, hr, t, c⟩
  · intro has_epiped m kx hx
    simp only [send_header, hx, if_true]
  · intro has_epiped i seg rest r m kx hx
    simp only [send_sglist, hx, if_true]
  · intro has_epiped fuel rcvbuf strict_rcv r rcvd m kx hc hx
    have hneg : (-EPIPE : Int) < 0 := by decide
    simp only [receive_response, hc, hx, hneg, if_true, Bool.false_eq_true, if_false,
      Option.map_some']
  · intro ret
    simp only [epipe_reconnect, if_true]
    split <;> rfl
  · intro s fuel rcvbuf strict_rcv has_epiped ret d k2 hs h
    exact sock_send_receive_retry_once_first H fuel k desc s rcvbuf send_size rcv_size
      strict_rcv has_epiped ret d k2 hs h
  · intro s fuel rcvbuf strict_rcv has_epiped ret d k2 hs h
    exact sock_send_sglist_receive_retry_once_first H fuel k desc s rcvbuf send_size rcv_size
      strict_rcv has_epiped ret d k2 hs h
  · intro has_epiped ret he
    exact epipe_reconnect_quiet k desc has_epiped ret he
  · intro rcvbuf strict_rcv
    obtain ⟨⟨ret, d, k2⟩, hr⟩ := sock_send_receive_retry_once_total H 1 k desc rcvbuf
      send_size rcv_size strict_rcv 1 (Or.inr ⟨le_refl 1, by decide⟩)
    exact ⟨ret, d, k2, hr,
      (sock_send_receive_retry_once_reconnects H _ _ _ _ _ _ _ _ _ _ _ hr).2 (by decide)⟩
  · intro rcvbuf strict_rcv
    obtain ⟨⟨ret, d, k2⟩, hr⟩ := sock_send_sglist_receive_retry_once_total H 1 k desc rcvbuf
      send_size rcv_size strict_rcv 1 (Or.inr ⟨le_refl 1, by decide⟩)
    exact ⟨ret, d, k2, hr,
      (sock_send_sglist_receive_retry_once_reconnects H _ _ _ _ _ _ _ _ _ _ _ hr).2 (by decide)⟩

theorem at_most_one_reconnect_per_exchange_witness :
    (∃ ret d k2 ev,
      exchange demo_framer closing_peer fresh_connection 61 0 true = some (ret, d, k2) ∧
      k2.trace = closing_peer.trace ++ ev ∧ reconnects ev ≤ 1) ∧
    (exchange demo_framer closing_peer fresh_connection 61 0 true).map
        (fun r => (r.1, r.2.1.state, reconnects r.2.2.trace))
      = some (-EPIPE, CDMI_DISCONNECTED, 1) ∧
    (sock_xmit closing_peer fresh_connection true ⟨Region.xmit_buff, 0⟩
        fresh_connection.xmit_buff 61 false
      = some (-EPIPE, fresh_connection.xmit_buff,
          { closing_peer with
            sends := [⟨0, false⟩],
            trace := [Event.sendmsg 0 ⟨Region.xmit_buff, 0⟩ get_header 61 0] }) ∧
      send_header closing_peer fresh_connection 1 61
        = some (epipe_reconnect
            { closing_peer with
              sends := [⟨0, false⟩],
              trace := [Event.sendmsg 0 ⟨Region.xmit_buff, 0⟩ get_header 61 0] }
            fresh_connection 1 (-EPIPE))) ∧
    epipe_reconnect closing_peer fresh_connection 1 (-EPIPE)
      = (Exit.cleanup (-EPIPE), dropped fresh_connection,
          { closing_peer with trace := [Event.shutdown 0, Event.release 0] }) ∧
    (∃ ret d k2,
      sock_send_receive_retry_once demo_framer 1 closing_peer fresh_connection [] 61 128
        false 1 = some (ret, d, k2) ∧
      starts_with_header 0 61 closing_peer k2 ∧
      appends (fun e => !e.reconnecting) closing_peer k2) :=
  ⟨(at_most_one_reconnect_per_exchange demo_framer closing_peer fresh_connection 61 0).1 true,
    by decide,
    ⟨by decide,
      (at_most_one_reconnect_per_exchange demo_framer closing_peer fresh_connection
        61 0).2.1 1 fresh_connection.xmit_buff _ (by decide)⟩,
    ((at_most_one_reconnect_per_exchange demo_framer closing_peer fresh_connection
      61 0).2.2.2.2.2.2.2.1 1 (-EPIPE) (by decide)).trans (by decide),
    match (at_most_one_reconnect_per_exchange demo_framer closing_peer fresh_connection
        61 128).2.2.2.2.2.2.2.2.1 [] false with
    | ⟨ret, d, k2, h, ha, _⟩ =>
      ⟨ret, d, k2, h,
        (at_most_one_reconnect_per_exchange demo_framer closing_peer fresh_connection
          61 128).2.2.2.2.2.1 0 1 [] false 1 ret d k2 rfl h, ha⟩⟩

/-! ## The restart after `-EPIPE` on a payload segment -/

/-- The reconnection made on the first `-EPIPE` opens a connection that has carried
nothing. -/
theorem epipe_reconnect_fresh (k : Kernel) (desc : srb_cdmi_desc) (ret : Int)
    (hd : connected desc) (hc : connects_succeed k) :
    written (epipe_reconnect k desc 0 ret).2.2.trace = [] := by
  have hk : (epipe_reconnect k desc 0 ret).2.2
      = (srb_cdmi_connect
          { (srb_cdmi_disconnect k desc).2.2 with
            trace := (srb_cdmi_disconnect k desc).2.2.trace ++ [Event.epipe_reconnect] }
          (srb_cdmi_disconnect k desc).2.1).2.2 := by
    simp only [epipe_reconnect, if_true]
    split <;> rfl
  rw [hk]
  have hdrop := srb_cdmi_disconnect_dropped k desc (Or.inl hd)
  have hst : (srb_cdmi_disconnect k desc).2.1.state = CDMI_DISCONNECTED := by
    rw [hdrop]; rfl
  have hc1 : connects_succeed (srb_cdmi_disconnect k desc).2.2 :=
    connects_succeed_of_step (srb_cdmi_disconnect_step k desc) hc
  refine (srb_cdmi_connect_fresh _ _ hst ?_).2
  exact hc1

/-- `-EPIPE` on the payload segment that follows the segments `pre`, the first of the
exchange: the descriptor is reconnected, control goes back to `retry_once`, and the new
connection has carried nothing. -/
theorem send_sglist_epipe_fresh : ∀ (pre : List (List Char)) (seg : List Char)
    (post : List (List Char)) (k : Kernel) (desc : srb_cdmi_desc) (i : Nat) (ret : Int)
    (e : SendReply) (rest : List SendReply),
    connected desc → connects_succeed k → (∀ x ∈ pre, x ≠ []) → SendReply.epipe e →
    k.sends = pre.map (fun seg => full seg.length) ++ e :: rest →
    ∃ s k2, send_sglist k desc 0 i (pre ++ seg :: post) ret
        = some (Exit.retry_once, reconnected desc s, k2) ∧
      progress k k2 rest k.recvs 0 1 ∧ written k2.trace = [] := by
  intro pre
  induction pre with
  | nil =>
    intro seg post k desc i ret e rest hd hc _ he hk
    obtain ⟨hst, s, hs⟩ := hd
    simp only [List.map_nil, List.nil_append] at hk
    obtain ⟨r, sig⟩ := e
    obtain ⟨hr1, hr2⟩ := he
    simp only at hr1 hr2
    subst hr2
    have hx := sock_xmit_send_epipe k desc s ⟨Region.sg i, 0⟩ seg seg.length r hs
      (by rw [hk]; rfl) hr1
    have p1 := progress_send k s ⟨Region.sg i, 0⟩ (seg.take (seg.length : Int).toNat)
      seg.length r k.sends.tail
    generalize ({ k with sends := k.sends.tail, trace := k.trace ++
      [Event.sendmsg s ⟨Region.sg i, 0⟩ (seg.take (seg.length : Int).toNat) seg.length r] }
        : Kernel) = k1 at hx p1
    have hc1 := connects_succeed_of_progress p1 hc
    obtain ⟨s2, k2, h2, p2⟩ := epipe_reconnect_first k1 desc (-EPIPE) (Or.inl ⟨hst, s, hs⟩) hc1
    have hf := epipe_reconnect_fresh k1 desc (-EPIPE) ⟨hst, s, hs⟩ hc1
    rw [h2] at hf
    refine ⟨s2, k2, ?_, ?_, hf⟩
    · simp only [List.nil_append, send_sglist, hx, if_true, h2]
    · have := p1.progress_trans p2
      rw [p1.sends, p1.recvs, hk] at this
      simpa using this
  | cons a pre ih =>
    intro seg post k desc i ret e rest hd hc hne he hk
    obtain ⟨hst, s, hs⟩ := hd
    have ha : a ≠ [] := hne a (by simp)
    have hpos : (0 : Int) < a.length := by
      have : 0 < a.length := List.length_pos.mpr ha
      exact_mod_cast this
    simp only [List.map_cons, List.cons_append] at hk
    have hx := sock_xmit_send_full k desc s ⟨Region.sg i, 0⟩ a a.length _ hs hk hpos
    have p1 := progress_send k s ⟨Region.sg i, 0⟩ (a.take (a.length : Int).toNat)
      a.length a.length (pre.map (fun seg => full seg.length) ++ e :: rest)
    generalize ({ k with sends := pre.map (fun seg => full seg.length) ++ e :: rest,
                         trace := k.trace ++ [Event.sendmsg s ⟨Region.sg i, 0⟩
                           (a.take (a.length : Int).toNat) a.length a.length] }
        : Kernel) = k1 at hx p1
    obtain ⟨s2, k2, h2, p2, hf⟩ := ih seg post k1 desc (i + 1) a.length e rest ⟨hst, s, hs⟩
      (connects_succeed_of_progress p1 hc) (fun x hx => hne x (by simp [hx])) he p1.sends
    refine ⟨s2, k2, ?_, ?_, hf⟩
    · have h1 : ¬ ((a.length : Int) = -EPIPE) := by
        intro h; rw [h] at hpos; exact absurd hpos (by decide)
      simp only [List.cons_append, send_sglist, hx, h1, if_false, ne_eq, not_true_eq_false]
      exact h2
    · have := p1.progress_trans p2
      rw [p1.recvs] at this
      simpa using this

/-- Segments that the socket takes whole are written to the connection in order. -/
theorem send_sglist_full_written : ∀ (segs : List (List Char)) (k : Kernel)
    (desc : srb_cdmi_desc) (has_epiped : Int) (i : Nat) (ret : Int) (rest : List SendReply),
    connected desc → (∀ seg ∈ segs, seg ≠ []) →
    k.sends = segs.map (fun seg => full seg.length) ++ rest →
    ∃ ret2 k2, send_sglist k desc has_epiped i segs ret = some (Exit.next ret2 0, desc, k2) ∧
      k2.sends = rest ∧ written k2.trace = written k.trace ++ segs.flatten := by
  intro segs
  induction segs with
  | nil =>
    intro k desc has_epiped i ret rest _ _ hk
    exact ⟨ret, k, by simp only [send_sglist], by simpa using hk, by simp⟩
  | cons seg segs ih =>
    intro k desc has_epiped i ret rest hd hne hk
    obtain ⟨hst, s, hs⟩ := hd
    have hseg : seg ≠ [] := hne seg (by simp)
    have hpos : (0 : Int) < seg.length := by
      have : 0 < seg.length := List.length_pos.mpr hseg
      exact_mod_cast this
    simp only [List.map_cons, List.cons_append] at hk
    have hx := sock_xmit_send_full k desc s ⟨Region.sg i, 0⟩ seg seg.length _ hs hk hpos
    have hw : written (k.trace ++ [Event.sendmsg s ⟨Region.sg i, 0⟩
        (seg.take (seg.length : Int).toNat) seg.length seg.length])
        = written k.trace ++ seg := by
      rw [written_snoc]
      simp [written_step]
    obtain ⟨k1, hk1⟩ : ∃ k1 : Kernel, k1 =
        { k with sends := segs.map (fun seg => full seg.length) ++ rest,
                 trace := k.trace ++ [Event.sendmsg s ⟨Region.sg i, 0⟩
                   (seg.take (seg.length : Int).toNat) seg.length seg.length] } := ⟨_, rfl⟩
    rw [← hk1] at hx
    have hs1 : k1.sends = segs.map (fun seg => full seg.length) ++ rest := by rw [hk1]
    have ht1 : written k1.trace = written k.trace ++ seg := by rw [hk1]; exact hw
    obtain ⟨ret2, k2, h2, hs2, hw2⟩ := ih k1 desc has_epiped (i + 1) seg.length rest
      ⟨hst, s, hs⟩ (fun x hx => hne x (by simp [hx])) hs1
    refine ⟨ret2, k2, ?_, hs2, ?_⟩
    · have h1 : ¬ ((seg.length : Int) = -EPIPE) := by
        intro h; rw [h] at hpos; exact absurd hpos (by decide)
      simp only [send_sglist, hx, h1, if_false, ne_eq, not_true_eq_false]
      exact h2
    · rw [hw2, ht1]
      simp

/-- After a reconnection the receive loop neither connects nor sends, however it ends. -/
theorem receive_response_quiet (H : Framer) : ∀ (fuel : Nat) (k : Kernel)
    (desc : srb_cdmi_desc) (rcvbuf : List Char) (rcv_size : Int) (strict_rcv : Bool)
    (has_epiped ret rcvd : Int) (e : Exit) (d : srb_cdmi_desc) (k2 : Kernel) (rb : List Char),
    has_epiped ≠ 0 →
    receive_response H fuel k desc rcvbuf rcv_size strict_rcv has_epiped ret rcvd
      = some (e, d, k2, rb) → appends (fun e => !e.writes) k k2 := by
  intro fuel
  induction fuel with
  | zero =>
    intro k desc rcvbuf rcv_size strict_rcv has_epiped ret rcvd e d k2 rb _ h
    simp [receive_response] at h
  | succ fuel ih =>
    intro k desc rcvbuf rcv_size strict_rcv has_epiped ret rcvd e d k2 rb he h
    unfold receive_response at h
    split at h
    · simp only [Option.some.injEq, Prod.mk.injEq] at h
      rw [← h.2.2.1]
      exact appends.appends_refl _ _
    · rcases hx : sock_xmit k desc false ⟨Region.rcvbuf, rcvd.toNat⟩ (rcvbuf.drop rcvd.toNat)
        (rcv_size - rcvd) strict_rcv with _ | ⟨r, m, kx⟩
      · simp [hx] at h
      · simp only [hx] at h
        have hq := sock_xmit_recv_quiet _ _ _ _ _ _ _ _ _ hx
        split at h
        · split at h
          · rw [epipe_reconnect_quiet kx desc has_epiped r he] at h
            simp only [Option.some.injEq, Prod.mk.injEq] at h
            rw [← h.2.2.1]
            exact hq.appends_trans (srb_cdmi_disconnect_quiet kx desc)
          · simp only [Option.some.injEq, Prod.mk.injEq] at h
            rw [← h.2.2.1]
            exact hq
        · exact hq.appends_trans (ih _ _ _ _ _ _ _ _ _ _ _ _ he h)

theorem written_vfree (k : Kernel) : written (vfree k).trace = written k.trace := by
  unfold vfree
  simp only
  rw [written_snoc]
  rfl

/-- The pass after the reconnection, with a peer that takes the header and every segment
whole: whatever the receives do, the bytes written to the connection by the end of the
pass are the header followed by every segment in order. -/
theorem restart_pass_written (H : Framer) (k : Kernel) (desc : srb_cdmi_desc)
    (rcvbuf : List Char) (send_size rcv_size : Int) (strict_rcv : Bool)
    (rest : List SendReply) (hd : connected desc) (hpos : 0 < send_size)
    (hseg : ∀ seg ∈ desc.sgl, seg ≠ [])
    (hks : k.sends = takes_all send_size desc.sgl ++ rest) :
    ∃ ret d2 k2,
      sock_send_sglist_receive_retry_once H 1 k desc rcvbuf send_size rcv_size strict_rcv 1
        = some (ret, d2, k2) ∧
      written k2.trace
        = written k.trace ++ desc.xmit_buff.take send_size.toNat ++ desc.sgl.flatten := by
  obtain ⟨hst, s, hs⟩ := hd
  have h0 := send_header_full_trace k desc s 1 send_size
    (desc.sgl.map (fun seg => full seg.length) ++ rest) hs (by rw [hks]; rfl) hpos
  obtain ⟨k0, hk0⟩ : ∃ k0 : Kernel, k0 =
      { k with sends := desc.sgl.map (fun seg => full seg.length) ++ rest,
               trace := k.trace ++ [Event.sendmsg s ⟨Region.xmit_buff, 0⟩
                 (desc.xmit_buff.take send_size.toNat) send_size send_size] } := ⟨_, rfl⟩
  rw [← hk0] at h0
  have hs0 : k0.sends = desc.sgl.map (fun seg => full seg.length) ++ rest := by rw [hk0]
  have hw0 : written k0.trace = written k.trace ++ desc.xmit_buff.take send_size.toNat := by
    rw [hk0]
    simp only
    rw [written_snoc]
    simp [written_step, List.take_take]
  obtain ⟨r1, k1, h1, _, hw1⟩ := send_sglist_full_written desc.sgl k0 desc 1 0 send_size rest
    ⟨hst, s, hs⟩ hseg hs0
  obtain ⟨⟨e, d2, k3, rb⟩, hr⟩ := receive_response_total H (rcv_size.toNat + 1) k1 desc rcvbuf
    rcv_size strict_rcv 1 r1 0 (by omega)
  have hq := (served_quiet (receive_response_quiet H _ _ _ _ _ _ _ _ _ _ _ _ _ (by decide) hr)).2
  have hw3 : written (vfree k3).trace
      = written k.trace ++ desc.xmit_buff.take send_size.toNat ++ desc.sgl.flatten := by
    rw [written_vfree, hq, hw1, hw0]
  cases e with
  | cleanup r =>
    refine ⟨r, d2, vfree k3, ?_, hw3⟩
    simp only [sock_send_sglist_receive_retry_once, h0, h1, hr, cleanup]
  | retry_once =>
    exact absurd (receive_response_retry H _ _ _ _ _ _ _ _ _ _ _ _ hr) (by decide)
  | next r c =>
    refine ⟨r, { d2 with xmit_buff := memcpy d2.xmit_buff rb c.toNat }, vfree k3, ?_, hw3⟩
    simp only [sock_send_sglist_receive_retry_once, h0, h1, hr, copy_response, cleanup]

/-- C23: in `sock_send_sglist_receive`, when the send of the segment that follows the
segments `pre` reports the first `-EPIPE` of the exchange and the reconnection succeeds,
the exchange restarts in full.  With a peer that then takes the header and every segment
whole, and whatever the receives do afterwards, the call returns after exactly one
reconnection and the bytes written to the new connection are the header (the first
`send_size` bytes of the transmit buffer) followed by every segment of the scatter list
from the first one, in order. -/
theorem restart_resends_header_and_all_segments (H : Framer) (k : Kernel)
    (desc : srb_cdmi_desc) (send_size rcv_size : Int) (pre : List (List Char))
    (seg : List Char) (post : List (List Char)) (e : SendReply) (rest : List SendReply)
    (hd : connected desc ∨ disconnected desc) (hv : k.vmallocs.headD true = true)
    (hc : connects_succeed k) (hpos : 0 < send_size)
    (hsgl : desc.sgl = pre ++ seg :: post) (hseg : ∀ x ∈ desc.sgl, x ≠ [])
    (he : SendReply.epipe e)
    (hks : k.sends = full send_size :: (pre.map (fun x => full x.length) ++
      e :: (takes_all send_size desc.sgl ++ rest))) :
    ∃ ret d2 k2 ev, sock_send_sglist_receive H k desc send_size rcv_size = some (ret, d2, k2) ∧
      k2.trace = k.trace ++ ev ∧ reconnects ev = 1 ∧
      written k2.trace = desc.xmit_buff.take send_size.toNat ++ desc.sgl.flatten := by
  obtain ⟨k0, dA, kA, dB, kB, hvm, hA, hB, hdB, hxB, hgB, hcB, hsB, hrB, ev0, ht0, _, hrc0, _⟩ :=
    exchange_start k desc (if rcv_size = 0 then H.SRB_CDMI_XMIT_BUFFER_SIZE else rcv_size)
      hd hv hc
  have hsglB : dB.sgl = pre ++ seg :: post := by rw [hgB, hsgl]
  have hsegB : ∀ x ∈ dB.sgl, x ≠ [] := by rw [hgB]; exact hseg
  obtain ⟨ka, ha, pa⟩ := send_header_full kB dB 0 send_size _ hdB (by rw [hsB, hks]) hpos
  obtain ⟨s1, k1, h1, p1, hf1⟩ := send_sglist_epipe_fresh pre seg post ka dB 0 send_size e
    (takes_all send_size dB.sgl ++ rest) hdB (connects_succeed_of_progress pa hcB)
    (fun x hx => hsegB x (by rw [hsglB]; simp [hx])) he (by rw [pa.sends, hgB])
  obtain ⟨ret, d2, k2, h2, hw2⟩ := restart_pass_written H k1 (reconnected dB s1)
    (List.replicate (if rcv_size = 0 then H.SRB_CDMI_XMIT_BUFFER_SIZE else rcv_size).toNat
      (Char.ofNat 0))
    send_size (if rcv_size = 0 then H.SRB_CDMI_XMIT_BUFFER_SIZE else rcv_size)
    (decide (rcv_size ≠ 0)) rest ⟨rfl, s1, rfl⟩ hpos hsegB p1.sends
  have hcall : sock_send_sglist_receive H k desc send_size rcv_size = some (ret, d2, k2) := by
    rw [← h2]
    unfold sock_send_sglist_receive
    simp only [hvm, hA, hB]
    simp only [sock_send_sglist_receive_retry_once, ha, hsglB, h1]
    simp
  obtain ⟨eva, hta, _, hrca, _⟩ := pa.trace
  obtain ⟨ev1, ht1, _, hrc1, _⟩ := p1.trace
  obtain ⟨ev2, ht2, hrc2⟩ := reconnects_within_of_appends
    ((sock_send_sglist_receive_retry_once_reconnects H _ _ _ _ _ _ _ _ _ _ _ h2).2
      (by decide)).1
  refine ⟨ret, d2, k2, ev0 ++ eva ++ ev1 ++ ev2, hcall, ?_, ?_, ?_⟩
  · rw [ht2, ht1, hta, ht0]
    simp only [List.append_assoc]
  · rw [reconnects_append, reconnects_append, reconnects_append, hrc0, hrca, hrc1]
    omega
  · rw [hw2, hf1]
    simp only [List.nil_append]
    rw [← hxB, ← hgB]
    rfl

theorem restart_resends_header_and_all_segments_witness :
    (put_request two_segments put_header).sgl = ["ab".toList] ++ "cd".toList :: [] ∧
    SendReply.epipe ⟨0, false⟩ ∧
    peer_closing_on_segment.sends
      = full 55 :: (["ab".toList].map (fun x => full x.length) ++
          ⟨0, false⟩ :: (takes_all 55 (put_request two_segments put_header).sgl ++ [])) ∧
    (∃ ret d2 k2 ev,
      sock_send_sglist_receive demo_framer peer_closing_on_segment
        (put_request two_segments put_header) 55 0 = some (ret, d2, k2) ∧
      k2.trace = peer_closing_on_segment.trace ++ ev ∧ reconnects ev = 1 ∧
      written k2.trace
        = (put_request two_segments put_header).xmit_buff.take (55 : Int).toNat
          ++ (put_request two_segments put_header).sgl.flatten) ∧
    (sock_send_sglist_receive demo_framer peer_closing_on_segment
        (put_request two_segments put_header) 55 0).map (fun r => written r.2.2.trace)
      = some (put_header ++ "abcd".toList) :=
  ⟨rfl, ⟨Or.inl rfl, rfl⟩, rfl,
    restart_resends_header_and_all_segments demo_framer peer_closing_on_segment
      (put_request two_segments put_header) 55 0 ["ab".toList] "cd".toList [] ⟨0, false⟩ []
      (Or.inr ⟨rfl, rfl⟩) rfl
      (by simp [connects_succeed, peer_closing_on_segment, peer]) (by decide) rfl
      (by decide) ⟨Or.inl rfl, rfl⟩ rfl,
    by decide⟩

/-! ## The value returned and the bytes received -/

/-- After a Transport send no byte of a response has been received, unless the
descriptor has no socket (and nothing was sent). -/
theorem sock_xmit_sent (k : Kernel) (desc : srb_cdmi_desc) (buf : Ptr) (mem : List Char)
    (size : Int) (strict : Bool) (ret : Int) (m : List Char) (k2 : Kernel)
    (h : sock_xmit k desc true buf mem size strict = some (ret, m, k2)) :
    last_response k2.trace = [] ∨ desc.socket = none := by
  unfold sock_xmit at h
  split at h
  · rename_i hs
    exact Or.inr hs
  · exact Or.inl (sock_xmit_loop_send_response _ _ _ _ _ _ _ _ _ _ _ _ h)

theorem send_header_sent (k : Kernel) (desc : srb_cdmi_desc) (has_epiped send_size : Int)
    (ret rcvd : Int) (d : srb_cdmi_desc) (k2 : Kernel)
    (h : send_header k desc has_epiped send_size = some (Exit.next ret rcvd, d, k2)) :
    d = desc ∧ (last_response k2.trace = [] ∨ desc.socket = none) := by
  unfold send_header at h
  split at h
  · exact absurd h (by simp)
  · rename_i r m k1 hx
    split at h
    · rename_i hr
      subst hr
      simp only [Option.some.injEq] at h
      rcases epipe_reconnect_exit k1 desc has_epiped (-EPIPE) (by decide) with h1 | ⟨r, h1, _⟩ <;>
        rw [h] at h1 <;> simp at h1
    · split at h
      · simp at h
      · simp only [Option.some.injEq, Prod.mk.injEq] at h
        refine ⟨h.2.1.symm, ?_⟩
        rw [← h.2.2]
        exact sock_xmit_sent _ _ _ _ _ _ _ _ _ hx

theorem send_sglist_sent : ∀ (segs : List (List Char)) (k : Kernel) (desc : srb_cdmi_desc)
    (has_epiped : Int) (i : Nat) (ret0 r c : Int) (d : srb_cdmi_desc) (k2 : Kernel),
    send_sglist k desc has_epiped i segs ret0 = some (Exit.next r c, d, k2) →
    (last_response k.trace = [] ∨ desc.socket = none) →
    d = desc ∧ (last_response k2.trace = [] ∨ desc.socket = none) := by
  intro segs
  induction segs with
  | nil =>
    intro k desc has_epiped i ret0 r c d k2 h hq
    simp only [send_sglist, Option.some.injEq, Prod.mk.injEq] at h
    rw [← h.2.1, ← h.2.2]
    exact ⟨rfl, hq⟩
  | cons seg rest ih =>
    intro k desc has_epiped i ret0 r c d k2 h _
    unfold send_sglist at h
    split at h
    · exact absurd h (by simp)
    · rename_i r1 m k1 hx
      split at h
      · rename_i hr
        subst hr
        simp only [Option.some.injEq] at h
        rcases epipe_reconnect_exit k1 desc has_epiped (-EPIPE) (by decide)
          with h1 | ⟨r2, h1, _⟩ <;> rw [h] at h1 <;> simp at h1
      · split at h
        · simp at h
        · exact ih _ _ _ _ _ _ _ _ _ h (sock_xmit_sent _ _ _ _ _ _ _ _ _ hx)

theorem send_sglist_cleanup : ∀ (segs : List (List Char)) (k : Kernel) (desc : srb_cdmi_desc)
    (has_epiped : Int) (i : Nat) (ret0 r : Int) (d : srb_cdmi_desc) (k2 : Kernel),
    send_sglist k desc has_epiped i segs ret0 = some (Exit.cleanup r, d, k2) → r < 0 := by
  intro segs
  induction segs with
  | nil =>
    intro k desc has_epiped i ret0 r d k2 h
    simp [send_sglist] at h
  | cons seg rest ih =>
    intro k desc has_epiped i ret0 r d k2 h
    unfold send_sglist at h
    split at h
    · exact absurd h (by simp)
    · rename_i r1 m k1 hx
      split at h
      · rename_i hr
        simp only [Option.some.injEq] at h
        rcases epipe_reconnect_exit k1 desc has_epiped r1 (by rw [hr]; decide)
          with h1 | ⟨r2, h1, hr2⟩
        · rw [h] at h1; simp at h1
        · rw [h] at h1
          simp only [Exit.cleanup.injEq] at h1
          omega
      · split at h
        · simp only [Option.some.injEq, Prod.mk.injEq, Exit.cleanup.injEq] at h
          have := h.1
          simp only [ EIO] at this
          omega
        · exact ih _ _ _ _ _ _ _ _ h

/-- Without a socket the receive loop fails on its first receive. -/
theorem receive_response_no_socket (H : Framer) (fuel : Nat) (k : Kernel)
    (desc : srb_cdmi_desc) (rcvbuf : List Char) (rcv_size : Int) (strict_rcv : Bool)
    (has_epiped ret rcvd : Int) (e : Exit) (d : srb_cdmi_desc) (k2 : Kernel) (rb : List Char)
    (hs : desc.socket = none)
    (hc : H.check_response_complete (rcvbuf.take rcvd.toNat) = false)
    (h : receive_response H fuel k desc rcvbuf rcv_size strict_rcv has_epiped ret rcvd
      = some (e, d, k2, rb)) : e = Exit.cleanup (-EINVAL) := by
  cases fuel with
  | zero => simp [receive_response] at h
  | succ fuel =>
    have hneg : (-EINVAL : Int) < 0 := by decide
    have hne : ¬ ((-EINVAL : Int) = -EPIPE) := by decide
    simp only [receive_response, hc, Bool.false_eq_true, if_false, sock_xmit, hs, hneg, if_true,
      hne, Option.some.injEq, Prod.mk.injEq] at h
    exact h.1.symm

/-- The receive loop leaves `rcvd` as it is when the response is complete at once, and
otherwise ends with more bytes than it started with and no more than `rcv_size`. -/
theorem receive_response_bound (H : Framer) : ∀ (fuel : Nat) (k : Kernel)
    (desc : srb_cdmi_desc) (rcvbuf : List Char) (rcv_size : Int) (strict_rcv : Bool)
    (has_epiped ret rcvd r c : Int) (d : srb_cdmi_desc) (k2 : Kernel) (rb : List Char),
    receive_response H fuel k desc rcvbuf rcv_size strict_rcv has_epiped ret rcvd
      = some (Exit.next r c, d, k2, rb) →
    (c = rcvd ∧ H.check_response_complete (rcvbuf.take rcvd.toNat) = true) ∨
    (rcvd < c ∧ c ≤ rcv_size) := by
  intro fuel
  induction fuel with
  | zero =>
    intro k desc rcvbuf rcv_size strict_rcv has_epiped ret rcvd r c d k2 rb h
    simp [receive_response] at h
  | succ fuel ih =>
    intro k desc rcvbuf rcv_size strict_rcv has_epiped ret rcvd r c d k2 rb h
    unfold receive_response at h
    split at h
    · rename_i hc
      simp only [Option.some.injEq, Prod.mk.injEq, Exit.next.injEq] at h
      exact Or.inl ⟨h.1.2.symm, hc⟩
    · rcases hx : sock_xmit k desc false ⟨Region.rcvbuf, rcvd.toNat⟩ (rcvbuf.drop rcvd.toNat)
        (rcv_size - rcvd) strict_rcv with _ | ⟨r1, m, kx⟩
      · simp [hx] at h
      · simp only [hx] at h
        split at h
        · rename_i hneg
          split at h
          · simp only [Option.some.injEq, Prod.mk.injEq] at h
            rcases epipe_reconnect_exit kx desc has_epiped r1 hneg with h1 | ⟨r2, h1, _⟩
            · rw [h.1] at h1; simp at h1
            · rw [h.1] at h1; simp at h1
          · simp at h
        · have hp := sock_xmit_recv_pos _ _ _ _ _ _ _ _ _ hx (by omega)
          rcases ih _ _ _ _ _ _ _ _ _ _ _ _ _ h with ⟨h1, _⟩ | ⟨h1, h2⟩
          · exact Or.inr ⟨by omega, by omega⟩
          · exact Or.inr ⟨by omega, h2⟩

/-- The receive loop started right after the sends of a request, for a response of
unknown size and a framer that finds nothing complete in zero bytes: when it ends normally
it has received `c > 0` bytes, at most `rcv_size`, the receive buffer starts with them, and
`ret = rcvd = c`; when it ends at `cleanup` the value is negative. -/
theorem receive_response_after_send (H : Framer)
    (hcomplete : H.check_response_complete [] = false) (fuel : Nat) (k : Kernel)
    (desc : srb_cdmi_desc) (rcvbuf : List Char) (rsz has_epiped ret : Int) (e : Exit)
    (d : srb_cdmi_desc) (k2 : Kernel) (rb : List Char)
    (hq : last_response k.trace = [] ∨ desc.socket = none)
    (h : receive_response H fuel k desc rcvbuf rsz false has_epiped ret 0
      = some (e, d, k2, rb)) :
    (∀ r c, e = Exit.next r c → holds_response k2 rb c ∧ r = c ∧ 0 < c ∧ c ≤ rsz) ∧
    (∀ r, e = Exit.cleanup r → r < 0) := by
  have hc0 : H.check_response_complete (rcvbuf.take (0 : Int).toNat) = false := by
    simpa using hcomplete
  rcases hq with hl | hs
  · have hh := receive_response_holds H _ _ _ _ _ _ _ _ _ _ _ _ h
      ⟨le_refl 0, by simp [hl], by simp [hl]⟩
    refine ⟨?_, hh.2⟩
    intro r c he
    obtain ⟨a1, a2⟩ := hh.1 r c he
    subst he
    have hb := receive_response_bound H _ _ _ _ _ _ _ _ _ _ _ _ _ _ h
    have hrc : r = c := by
      rcases a2 with a2 | ⟨-, -, a2⟩
      · exact a2
      · rw [hc0] at a2; exact absurd a2 (by decide)
    rcases hb with ⟨_, hb⟩ | ⟨hb1, hb2⟩
    · rw [hc0] at hb; exact absurd hb (by decide)
    · exact ⟨a1, hrc, hb1, hb2⟩
  · have he := receive_response_no_socket H _ _ _ _ _ _ _ _ _ _ _ _ _ hs hc0 h
    subst he
    refine ⟨fun r c hx => by simp at hx, fun r hx => ?_⟩
    simp only [Exit.cleanup.injEq] at hx
    rw [← hx]
    decide

/-- `sock_send_receive` from `retry_once`, response size unknown: a non-negative result is
positive, at most `rcv_size`, and is the number of bytes the socket delivered since the
last send, with which the transmit buffer starts. -/
theorem sock_send_receive_retry_once_received (H : Framer)
    (hcomplete : H.check_response_complete [] = false) : ∀ (fuel : Nat) (k : Kernel)
    (desc : srb_cdmi_desc) (rcvbuf : List Char) (send_size rsz has_epiped ret : Int)
    (d : srb_cdmi_desc) (k2 : Kernel),
    sock_send_receive_retry_once H fuel k desc rcvbuf send_size rsz false has_epiped
      = some (ret, d, k2) → 0 ≤ ret →
    holds_response k2 d.xmit_buff ret ∧ 0 < ret ∧ ret ≤ rsz := by
  intro fuel
  induction fuel with
  | zero =>
    intro k desc rcvbuf send_size rsz has_epiped ret d k2 h
    simp [sock_send_receive_retry_once] at h
  | succ fuel ih =>
    intro k desc rcvbuf send_size rsz has_epiped ret d k2 h hret
    unfold sock_send_receive_retry_once at h
    rcases hh : send_header k desc has_epiped send_size with _ | ⟨e, d1, k1⟩
    · simp [hh] at h
    · cases e with
      | cleanup r =>
        have := send_header_cleanup _ _ _ _ _ _ _ hh
        simp only [hh, cleanup, Option.some.injEq, Prod.mk.injEq] at h
        omega
      | retry_once =>
        simp only [hh] at h
        exact ih _ _ _ _ _ _ _ _ _ h hret
      | next r c =>
        simp only [hh] at h
        obtain ⟨hd1, hq⟩ := send_header_sent _ _ _ _ _ _ _ _ hh
        subst hd1
        rcases hr : receive_response H (rsz.toNat + 1) k1 d1 rcvbuf rsz false has_epiped r 0
          with _ | ⟨e2, d2, k3, rb⟩
        · simp [hr] at h
        · have hk := receive_response_after_send H hcomplete _ _ _ _ _ _ _ _ _ _ _ hq hr
          cases e2 with
          | cleanup r2 =>
            have := hk.2 r2 rfl
            simp only [hr, cleanup, Option.some.injEq, Prod.mk.injEq] at h
            omega
          | retry_once =>
            simp only [hr] at h
            exact ih _ _ _ _ _ _ _ _ _ h hret
          | next r2 c2 =>
            obtain ⟨a1, a2, a3, a4⟩ := hk.1 r2 c2 rfl
            simp only [hr, copy_response, cleanup, Option.some.injEq, Prod.mk.injEq] at h
            obtain ⟨rfl, rfl, rfl⟩ := h
            subst a2
            exact ⟨holds_response_copy k3 _ rb r2 a1, a3, a4⟩

/-- `sock_send_sglist_receive` from `retry_once`: as for `sock_send_receive`. -/
theorem sock_send_sglist_receive_retry_once_received (H : Framer)
    (hcomplete : H.check_response_complete [] = false) : ∀ (fuel : Nat) (k : Kernel)
    (desc : srb_cdmi_desc) (rcvbuf : List Char) (send_size rsz has_epiped ret : Int)
    (d : srb_cdmi_desc) (k2 : Kernel),
    sock_send_sglist_receive_retry_once H fuel k desc rcvbuf send_size rsz false has_epiped
      = some (ret, d, k2) → 0 ≤ ret →
    holds_response k2 d.xmit_buff ret ∧ 0 < ret ∧ ret ≤ rsz := by
  intro fuel
  induction fuel with
  | zero =>
    intro k desc rcvbuf send_size rsz has_epiped ret d k2 h
    simp [sock_send_sglist_receive_retry_once] at h
  | succ fuel ih =>
    intro k desc rcvbuf send_size rsz has_epiped ret d k2 h hret
    unfold sock_send_sglist_receive_retry_once at h
    rcases hh : send_header k desc has_epiped send_size with _ | ⟨e, d1, k1⟩
    · simp [hh] at h
    · cases e with
      | cleanup r =>
        have := send_header_cleanup _ _ _ _ _ _ _ hh
        simp only [hh, cleanup, Option.some.injEq, Prod.mk.injEq] at h
        omega
      | retry_once =>
        simp only [hh] at h
        exact ih _ _ _ _ _ _ _ _ _ h hret
      | next r c =>
        simp only [hh] at h
        obtain ⟨hd1, hq⟩ := send_header_sent _ _ _ _ _ _ _ _ hh
        subst hd1
        rcases hsg : send_sglist k1 d1 has_epiped 0 d1.sgl r with _ | ⟨e1, d1b, k1b⟩
        · simp [hsg] at h
        · cases e1 with
          | cleanup r1 =>
            have := send_sglist_cleanup _ _ _ _ _ _ _ _ _ hsg
            simp only [hsg, cleanup, Option.some.injEq, Prod.mk.injEq] at h
            omega
          | retry_once =>
            simp only [hsg] at h
            exact ih _ _ _ _ _ _ _ _ _ h hret
          | next r1 c1 =>
            simp only [hsg] at h
            obtain ⟨hd2, hq2⟩ := send_sglist_sent _ _ _ _ _ _ _ _ _ _ hsg hq
            subst hd2
            rcases hr : receive_response H (rsz.toNat + 1) k1b d1b rcvbuf rsz false has_epiped
              r1 0 with _ | ⟨e2, d2, k3, rb⟩
            · simp [hr] at h
            · have hk := receive_response_after_send H hcomplete _ _ _ _ _ _ _ _ _ _ _ hq2 hr
              cases e2 with
              | cleanup r2 =>
                have := hk.2 r2 rfl
                simp only [hr, cleanup, Option.some.injEq, Prod.mk.injEq] at h
                omega
              | retry_once =>
                simp only [hr] at h
                exact ih _ _ _ _ _ _ _ _ _ h hret
              | next r2 c2 =>
                obtain ⟨a1, a2, a3, a4⟩ := hk.1 r2 c2 rfl
                simp only [hr, copy_response, cleanup, Option.some.injEq, Prod.mk.injEq] at h
                obtain ⟨rfl, rfl, rfl⟩ := h
                subst a2
                exact ⟨holds_response_copy k3 _ rb r2 a1, a3, a4⟩

/-- An exchange for a response of unknown size (`rcv_size = 0`), with a framer that finds
nothing complete in zero bytes: a non-negative result is positive, at most the size of
the receive buffer, and is the number of bytes the socket delivered since the last send,
with which the transmit buffer starts. -/
theorem exchange_received (H : Framer) (hcomplete : H.check_response_complete [] = false)
    (k : Kernel) (desc : srb_cdmi_desc) (send_size : Int) (do_sglist : Bool) (ret : Int)
    (d : srb_cdmi_desc) (k2 : Kernel)
    (h : exchange H k desc send_size 0 do_sglist = some (ret, d, k2)) (hret : 0 ≤ ret) :
    holds_response k2 d.xmit_buff ret ∧ 0 < ret ∧ ret ≤ H.SRB_CDMI_XMIT_BUFFER_SIZE := by
  rcases hv : vmalloc k H.SRB_CDMI_XMIT_BUFFER_SIZE with ⟨ok, k0⟩
  rcases hA : check_reuse_limit k0 desc with ⟨dA, kA⟩
  have hB1 := connect_if_disconnected_nonpos kA dA
  rcases hB : connect_if_disconnected kA dA with ⟨r, dB, kB⟩
  rw [hB] at hB1
  simp only at hB1
  cases do_sglist with
  | false =>
    simp only [exchange, Bool.false_eq_true, if_false, sock_send_receive, if_true, hv, hA, hB]
      at h
    split at h
    · simp only [Option.some.injEq, Prod.mk.injEq, ENOMEM] at h
      omega
    · split at h
      · simp only [cleanup, Option.some.injEq, Prod.mk.injEq] at h
        omega
      · simp only [ne_eq, not_true_eq_false, decide_False] at h
        exact sock_send_receive_retry_once_received H hcomplete _ _ _ _ _ _ _ _ _ _ h hret
  | true =>
    simp only [exchange, if_true, sock_send_sglist_receive, hv, hA, hB] at h
    split at h
    · simp only [Option.some.injEq, Prod.mk.injEq, ENOMEM] at h
      omega
    · split at h
      · simp only [cleanup, Option.some.injEq, Prod.mk.injEq] at h
        omega
      · simp only [ne_eq, not_true_eq_false, decide_False] at h
        exact sock_send_sglist_receive_retry_once_received H hcomplete _ _ _ _ _ _ _ _ _ _ h
          hret

/-! ### Steps before any receive -/

theorem teardown_not_receive (e : Event) (h : e.teardown = true) : (!e.receive) = true := by
  cases e <;> simp_all [Event.teardown, Event.receive]

theorem mgmt_not_receive (e : Event) (h : e.mgmt = true) : (!e.receive) = true := by
  cases e <;> simp_all [Event.mgmt, Event.receive]

/-- A send appends send steps only. -/
theorem sock_xmit_loop_send_only : ∀ (fuel : Nat) (k : Kernel) (s : Nat) (region : Region)
    (off : Nat) (done mem : List Char) (size : Int) (strict : Bool) (ret : Int)
    (m : List Char) (k2 : Kernel),
    sock_xmit_loop fuel k s true region off done mem size strict = some (ret, m, k2) →
    appends (fun e => !e.receive) k k2 := by
  intro fuel
  induction fuel with
  | zero => intro k s region off done mem size strict ret m k2 h; simp [sock_xmit_loop] at h
  | succ fuel ih =>
    intro k s region off done mem size strict ret m k2 h
    have hstep : appends (fun e => !e.receive) k
        (kernel_sendmsg k s ⟨region, off⟩ mem size).2.2 := by
      unfold kernel_sendmsg
      exact appends_one _ _ _ _ rfl rfl
    unfold sock_xmit_loop at h
    rcases hk : kernel_sendmsg k s ⟨region, off⟩ mem size with ⟨result, signal, k1⟩
    rw [hk] at hstep
    simp only [hk, if_true] at h hstep
    split at h
    · simp only [Option.some.injEq, Prod.mk.injEq] at h
      rw [← h.2.2]; exact hstep
    · split at h
      · simp only [Option.some.injEq, Prod.mk.injEq] at h
        rw [← h.2.2]; exact hstep
      · split at h
        · simp only [Option.some.injEq, Prod.mk.injEq] at h
          rw [← h.2.2]; exact hstep
        · split at h
          · simp only [Option.some.injEq, Prod.mk.injEq] at h
            rw [← h.2.2]; exact hstep
          · split at h
            · exact hstep.appends_trans (ih _ _ _ _ _ _ _ _ _ _ _ h)
            · simp only [Option.some.injEq, Prod.mk.injEq] at h
              rw [← h.2.2]; exact hstep

theorem sock_xmit_send_only (k : Kernel) (desc : srb_cdmi_desc) (buf : Ptr) (mem : List Char)
    (size : Int) (strict : Bool) (ret : Int) (m : List Char) (k2 : Kernel)
    (h : sock_xmit k desc true buf mem size strict = some (ret, m, k2)) :
    appends (fun e => !e.receive) k k2 := by
  unfold sock_xmit at h
  split at h
  · simp only [Option.some.injEq, Prod.mk.injEq] at h
    rw [← h.2.2]; exact appends.appends_refl _ _
  · exact sock_xmit_loop_send_only _ _ _ _ _ _ _ _ _ _ _ _ h

theorem srb_cdmi_disconnect_no_receive (k : Kernel) (desc : srb_cdmi_desc) :
    appends (fun e => !e.receive) k (srb_cdmi_disconnect k desc).2.2 :=
  appends_mono (srb_cdmi_disconnect_teardown k desc).1 teardown_not_receive

theorem srb_cdmi_connect_no_receive (k : Kernel) (desc : srb_cdmi_desc) :
    appends (fun e => !e.receive) k (srb_cdmi_connect k desc).2.2 :=
  appends_mono (srb_cdmi_connect_step k desc).trace mgmt_not_receive

theorem epipe_reconnect_no_receive (k : Kernel) (desc : srb_cdmi_desc) (has_epiped ret : Int) :
    appends (fun e => !e.receive) k (epipe_reconnect k desc has_epiped ret).2.2 := by
  have hd := srb_cdmi_disconnect_no_receive k desc
  by_cases he : has_epiped = 0
  · have hm : appends (fun e => !e.receive) (srb_cdmi_disconnect k desc).2.2
        { (srb_cdmi_disconnect k desc).2.2 with
          trace := (srb_cdmi_disconnect k desc).2.2.trace ++ [Event.epipe_reconnect] } :=
      appends_one _ _ _ _ rfl rfl
    have hc := srb_cdmi_connect_no_receive
      { (srb_cdmi_disconnect k desc).2.2 with
        trace := (srb_cdmi_disconnect k desc).2.2.trace ++ [Event.epipe_reconnect] }
      (srb_cdmi_disconnect k desc).2.1
    have hk : (epipe_reconnect k desc has_epiped ret).2.2
        = (srb_cdmi_connect
            { (srb_cdmi_disconnect k desc).2.2 with
              trace := (srb_cdmi_disconnect k desc).2.2.trace ++ [Event.epipe_reconnect] }
            (srb_cdmi_disconnect k desc).2.1).2.2 := by
      simp only [epipe_reconnect, he, if_true]
      split <;> rfl
    rw [hk]
    exact (hd.appends_trans hm).appends_trans hc
  · rw [epipe_reconnect_quiet k desc has_epiped ret he]
    exact hd

theorem send_header_no_receive (k : Kernel) (desc : srb_cdmi_desc) (has_epiped send_size : Int)
    (e : Exit) (d : srb_cdmi_desc) (k2 : Kernel)
    (h : send_header k desc has_epiped send_size = some (e, d, k2)) :
    appends (fun e => !e.receive) k k2 := by
  unfold send_header at h
  rcases hx : sock_xmit k desc true ⟨Region.xmit_buff, 0⟩ desc.xmit_buff send_size false
    with _ | ⟨ret, m, kx⟩
  · simp [hx] at h
  · simp only [hx] at h
    have ht := sock_xmit_send_only _ _ _ _ _ _ _ _ _ hx
    split at h
    · simp only [Option.some.injEq] at h
      have := epipe_reconnect_no_receive kx desc has_epiped ret
      rw [h] at this
      exact ht.appends_trans this
    · split at h
      · simp only [Option.some.injEq, Prod.mk.injEq] at h
        rw [← h.2.2]; exact ht
      · simp only [Option.some.injEq, Prod.mk.injEq] at h
        rw [← h.2.2]; exact ht

theorem send_sglist_no_receive : ∀ (segs : List (List Char)) (k : Kernel)
    (desc : srb_cdmi_desc) (has_epiped : Int) (i : Nat) (ret0 : Int) (e : Exit)
    (d : srb_cdmi_desc) (k2 : Kernel),
    send_sglist k desc has_epiped i segs ret0 = some (e, d, k2) →
    appends (fun e => !e.receive) k k2 := by
  intro segs
  induction segs with
  | nil =>
    intro k desc has_epiped i ret0 e d k2 h
    simp only [send_sglist, Option.some.injEq, Prod.mk.injEq] at h
    rw [← h.2.2]
    exact appends.appends_refl _ _
  | cons seg rest ih =>
    intro k desc has_epiped i ret0 e d k2 h
    unfold send_sglist at h
    rcases hx : sock_xmit k desc true ⟨Region.sg i, 0⟩ seg seg.length false
      with _ | ⟨ret, m, kx⟩
    · simp [hx] at h
    · simp only [hx] at h
      have ht := sock_xmit_send_only _ _ _ _ _ _ _ _ _ hx
      split at h
      · simp only [Option.some.injEq] at h
        have := epipe_reconnect_no_receive kx desc has_epiped ret
        rw [h] at this
        exact ht.appends_trans this
      · split at h
        · simp only [Option.some.injEq, Prod.mk.injEq] at h
          rw [← h.2.2]; exact ht
        · exact ht.appends_trans (ih _ _ _ _ _ _ _ _ h)

/-- With a framer that takes zero bytes for a whole response the receive loop does not
run. -/
theorem receive_response_skipped (H : Framer) (hc : H.check_response_complete [] = true)
    (fuel : Nat) (k : Kernel) (desc : srb_cdmi_desc) (rcvbuf : List Char) (rsz : Int)
    (strict : Bool) (has_epiped ret : Int) :
    receive_response H (fuel + 1) k desc rcvbuf rsz strict has_epiped ret 0
      = some (Exit.next ret 0, desc, k, rcvbuf) := by
  unfold receive_response
  simp [hc]

theorem vfree_no_receive (k : Kernel) : appends (fun e => !e.receive) k (vfree k) :=
  appends_one _ _ _ _ rfl rfl

theorem sock_send_receive_retry_once_no_receive (H : Framer)
    (hc : H.check_response_complete [] = true) : ∀ (fuel : Nat) (k : Kernel)
    (desc : srb_cdmi_desc) (rcvbuf : List Char) (send_size rsz : Int) (strict : Bool)
    (has_epiped ret : Int) (d : srb_cdmi_desc) (k2 : Kernel),
    sock_send_receive_retry_once H fuel k desc rcvbuf send_size rsz strict has_epiped
      = some (ret, d, k2) → appends (fun e => !e.receive) k k2 := by
  intro fuel
  induction fuel with
  | zero =>
    intro k desc rcvbuf send_size rsz strict has_epiped ret d k2 h
    simp [sock_send_receive_retry_once] at h
  | succ fuel ih =>
    intro k desc rcvbuf send_size rsz strict has_epiped ret d k2 h
    unfold sock_send_receive_retry_once at h
    rcases hh : send_header k desc has_epiped send_size with _ | ⟨e, d1, k1⟩
    · simp [hh] at h
    · have h1 := send_header_no_receive _ _ _ _ _ _ _ hh
      cases e with
      | cleanup r =>
        simp only [hh, cleanup, Option.some.injEq, Prod.mk.injEq] at h
        rw [← h.2.2]
        exact h1.appends_trans (vfree_no_receive _)
      | retry_once =>
        simp only [hh] at h
        exact h1.appends_trans (ih _ _ _ _ _ _ _ _ _ _ h)
      | next r c =>
        simp only [hh, receive_response_skipped H hc, copy_response, cleanup,
          Option.some.injEq, Prod.mk.injEq] at h
        rw [← h.2.2]
        exact h1.appends_trans (vfree_no_receive _)

theorem sock_send_sglist_receive_retry_once_no_receive (H : Framer)
    (hc : H.check_response_complete [] = true) : ∀ (fuel : Nat) (k : Kernel)
    (desc : srb_cdmi_desc) (rcvbuf : List Char) (send_size rsz : Int) (strict : Bool)
    (has_epiped ret : Int) (d : srb_cdmi_desc) (k2 : Kernel),
    sock_send_sglist_receive_retry_once H fuel k desc rcvbuf send_size rsz strict has_epiped
      = some (ret, d, k2) → appends (fun e => !e.receive) k k2 := by
  intro fuel
  induction fuel with
  | zero =>
    intro k desc rcvbuf send_size rsz strict has_epiped ret d k2 h
    simp [sock_send_sglist_receive_retry_once] at h
  | succ fuel ih =>
    intro k desc rcvbuf send_size rsz strict has_epiped ret d k2 h
    unfold sock_send_sglist_receive_retry_once at h
    rcases hh : send_header k desc has_epiped send_size with _ | ⟨e, d1, k1⟩
    · simp [hh] at h
    · have h1 := send_header_no_receive _ _ _ _ _ _ _ hh
      cases e with
      | cleanup r =>
        simp only [hh, cleanup, Option.some.injEq, Prod.mk.injEq] at h
        rw [← h.2.2]
        exact h1.appends_trans (vfree_no_receive _)
      | retry_once =>
        simp only [hh] at h
        exact h1.appends_trans (ih _ _ _ _ _ _ _ _ _ _ h)
      | next r c =>
        simp only [hh] at h
        rcases hsg : send_sglist k1 d1 has_epiped 0 d1.sgl r with _ | ⟨e1, d1b, k1b⟩
        · simp [hsg] at h
        · have h2 := send_sglist_no_receive _ _ _ _ _ _ _ _ _ hsg
          cases e1 with
          | cleanup r1 =>
            simp only [hsg, cleanup, Option.some.injEq, Prod.mk.injEq] at h
            rw [← h.2.2]
            exact (h1.appends_trans h2).appends_trans (vfree_no_receive _)
          | retry_once =>
            simp only [hsg] at h
            exact (h1.appends_trans h2).appends_trans (ih _ _ _ _ _ _ _ _ _ _ h)
          | next r1 c1 =>
            simp only [hsg, receive_response_skipped H hc, copy_response, cleanup,
              Option.some.injEq, Prod.mk.injEq] at h
            rw [← h.2.2]
            exact (h1.appends_trans h2).appends_trans (vfree_no_receive _)

/-- With a framer that takes zero bytes for a whole response an exchange receives
nothing. -/
theorem exchange_no_receive (H : Framer) (hc : H.check_response_complete [] = true)
    (k : Kernel) (desc : srb_cdmi_desc) (send_size rcv_size : Int) (do_sglist : Bool)
    (ret : Int) (d : srb_cdmi_desc) (k2 : Kernel)
    (h : exchange H k desc send_size rcv_size do_sglist = some (ret, d, k2)) :
    appends (fun e => !e.receive) k k2 := by
  generalize hsz : (if rcv_size = 0 then H.SRB_CDMI_XMIT_BUFFER_SIZE else rcv_size) = size
    at h
  have hv0 : appends (fun e => !e.receive) k (vmalloc k size).2 :=
    appends_one _ _ _ _ rfl rfl
  rcases hv : vmalloc k size with ⟨ok, k0⟩
  rw [hv] at hv0
  have hA0 : appends (fun e => !e.receive) k0 (check_reuse_limit k0 desc).2 := by
    unfold check_reuse_limit
    split
    · exact srb_cdmi_disconnect_no_receive k0 desc
    · exact appends.appends_refl _ _
  rcases hA : check_reuse_limit k0 desc with ⟨dA, kA⟩
  rw [hA] at hA0
  have hB0 : appends (fun e => !e.receive) kA (connect_if_disconnected kA dA).2.2 := by
    unfold connect_if_disconnected
    split
    · exact srb_cdmi_connect_no_receive kA dA
    · exact appends.appends_refl _ _
  rcases hB : connect_if_disconnected kA dA with ⟨r, dB, kB⟩
  rw [hB] at hB0
  have h0 := (hv0.appends_trans hA0).appends_trans hB0
  cases do_sglist with
  | false =>
    simp only [exchange, Bool.false_eq_true, if_false, sock_send_receive, hsz, hv, hA, hB] at h
    split at h
    · simp only [Option.some.injEq, Prod.mk.injEq] at h
      rw [← h.2.2]
      exact hv0
    · split at h
      · simp only [cleanup, Option.some.injEq, Prod.mk.injEq] at h
        rw [← h.2.2]
        exact h0.appends_trans (vfree_no_receive _)
      · exact h0.appends_trans
          (sock_send_receive_retry_once_no_receive H hc _ _ _ _ _ _ _ _ _ _ _ h)
  | true =>
    simp only [exchange, if_true, sock_send_sglist_receive, hsz, hv, hA, hB] at h
    split at h
    · simp only [Option.some.injEq, Prod.mk.injEq] at h
      rw [← h.2.2]
      exact hv0
    · split at h
      · simp only [cleanup, Option.some.injEq, Prod.mk.injEq] at h
        rw [← h.2.2]
        exact h0.appends_trans (vfree_no_receive _)
      · exact h0.appends_trans
          (sock_send_sglist_receive_retry_once_no_receive H hc _ _ _ _ _ _ _ _ _ _ _ h)

/-- C24: whenever `sock_send_receive` or `sock_send_sglist_receive` (`exchange` with
`do_sglist` false or true), called for a response of unknown size (`rcv_size = 0`, the
value every call site of the driver passes), returns success (`0 ≤ ret`) after at least
one receive (one of the steps `ev` it made is a socket receive), the value returned is
the number of bytes the socket delivered since the last send, that is in the partial
receives of the final attempt (a restart after a reconnection sends the header again, so
what was received before it is not counted); that number is at most the size of the
receive buffer; and the first that-many bytes of the transmit buffer of the descriptor
are those bytes in arrival order.  No assumption is made on the framer or on the socket
layer. -/
theorem exchange_returns_bytes_received (H : Framer) (k : Kernel) (desc : srb_cdmi_desc)
    (send_size : Int) (do_sglist : Bool) (ret : Int) (d : srb_cdmi_desc) (k2 : Kernel)
    (ev : List Event)
    (h : exchange H k desc send_size 0 do_sglist = some (ret, d, k2)) (hret : 0 ≤ ret)
    (hev : k2.trace = k.trace ++ ev) (hrecv : ∃ e ∈ ev, e.receive = true) :
    ret = ((last_response k2.trace).length : Int) ∧
    ret ≤ H.SRB_CDMI_XMIT_BUFFER_SIZE ∧
    d.xmit_buff.take ret.toNat = last_response k2.trace := by
  cases hc : H.check_response_complete [] with
  | true =>
    obtain ⟨ev2, t2, q2⟩ := exchange_no_receive H hc _ _ _ _ _ _ _ _ h
    have : ev = ev2 := List.append_cancel_left (hev.symm.trans t2)
    subst this
    obtain ⟨e, he, hr⟩ := hrecv
    have hq : (!e.receive) = true := q2 e he
    rw [hr] at hq
    exact absurd hq (by decide)
  | false =>
    obtain ⟨⟨_, a1, a2⟩, _, a4⟩ := exchange_received H hc _ _ _ _ _ _ _ h hret
    exact ⟨a2.symm, a4, a1⟩

theorem exchange_returns_bytes_received_witness :
    ∃ d k2 ev, exchange demo_framer dropping_peer fresh_connection 61 0 false
        = some (42, d, k2) ∧ (0 : Int) ≤ 42 ∧
      k2.trace = dropping_peer.trace ++ ev ∧ (∃ e ∈ ev, e.receive = true) ∧
      (42 : Int) = ((last_response k2.trace).length : Int) ∧
      (42 : Int) ≤ demo_framer.SRB_CDMI_XMIT_BUFFER_SIZE ∧
      d.xmit_buff.take (42 : Int).toNat = last_response k2.trace := by
  rcases h : exchange demo_framer dropping_peer fresh_connection 61 0 false
    with _ | ⟨ret, d, k2⟩
  · exact absurd h (by decide)
  · have hl : (exchange demo_framer dropping_peer fresh_connection 61 0 false).map
        (fun r => (r.1, r.2.2.trace.any Event.receive)) = some (42, true) := by decide
    rw [h] at hl
    simp only [Option.map_some', Option.some.injEq, Prod.mk.injEq] at hl
    obtain ⟨hlen, hany⟩ := hl
    subst hlen
    have hev : k2.trace = dropping_peer.trace ++ k2.trace := by
      simp [dropping_peer, peer]
    have hrecv : ∃ e ∈ k2.trace, e.receive = true := by
      simpa [List.any_eq_true] using hany
    exact ⟨d, k2, k2.trace, rfl, by decide, hev, hrecv,
      exchange_returns_bytes_received demo_framer dropping_peer fresh_connection 61 false 42
        d k2 k2.trace h (by decide) hev hrecv⟩

end Srb
